import Mathlib

/-!
# King of St Lucia: the hub's turn coordinator

A shallow embedding of the hub side of the game (`src/hub.c`, `src/shared.c`, `src/shared.h`)
and of the participant process (`src/player.c` with the strategy files `src/eait.c`,
`src/habs.c`, `src/hass.c`, `src/mabs.c`), and theorems about them.

Modelling conventions.

* C strings are `List Char`; the terminating NUL is the end of the list.
* C `int` values that can become negative (dice counters, health, points, tokens, the territory
  holder with its sentinel `-1`) are `Int`; indices and sizes that the code only ever produces
  as non-negative numbers (roll-file cursor and size, participant indices) are `Nat`.
* A participant's `outbox` stream (participant to hub) is the list of bytes still to be read;
  `fgets` consumes a prefix of it.  The `inbox` stream (hub to participant) is either open
  (`true`) or `NULL` (`false`); what the hub writes is appended to the trace `Hub.sent` as a pair
  (recipient index, line).  A direct write `fprintf(players[i]->inbox, ...)` is recorded
  whatever the flag says (on a `NULL` stream the C call would fault); the broadcast
  `alert_remaining_players` tests the flag as the code does.  Diagnostics written to `stderr`
  are not part of the model.
* `exit_program` ends the run: functions that may reach it return an `Outcome`, either
  `ret value state` or `exit status state`.  An `exit` records the call of `exit_program` and
  its status; the wait for the children that precedes `exit(status)` in `hub.c`, during which
  a `SIGALRM` can end the hub, is described by `wait_for_children` and `process_ending`.
* The fixed-size buffers `commands[MAX_COMMANDS][MAX_MESSAGE_LENGTH]`, `rollString` and the
  buffers of the announcements are unbounded lists: the code performs no bounds test on
  them, and what a write past their end does to neighbouring memory is outside the model.
  The embedding describes the C code on the inputs that stay inside these buffers: lines
  that satisfy `fits_commands`, and dice strings of at most six characters, which is what
  dice with non-negative counters totalling at most six give.
* `points`, `tokens` and `health` are unbounded integers; the embedding describes the C code
  as long as the values fit a C `int` (`fits_int`); `wrap_int` is the value a 32-bit `int`
  holds after an addition that does not fit.
* The loop counter of `add_dice_to_dice_set` is declared without an initialiser
  (`for (int i; i < numberOfDice; i++)`).  Its value on entry is indeterminate, so it is an
  explicit argument `i0` of the embedding; `i0 = 0` is the behaviour the loop header suggests.
-/

namespace StLucia

/-! ## Constants (`shared.h`, `hub.c`) -/

def DICE_SET_SIZE : Nat := 6
def STARTING_HEALTH : Int := 10
def EMPTY_STLUCIA : Int := -1
def MAX_MESSAGE_LENGTH : Nat := 40
def MAX_COMMANDS : Nat := 5
def REROLLED_DICE_ROLL_INDEX : Nat := 1
def STARTING_IN_STLUCIA_POINTS : Int := 2
def TOKENS_POINTS_THRESHOLD : Int := 10
def DICE_POINTS_THRESHOLD : Int := 2
def ONES_DICE_POINT_PENALTY : Int := 2
def TWOS_DICE_POINT_PENALTY : Int := 1
def THREES_DICE_POINT_PENALTY : Int := 0

/-- The NUL character. -/
def NUL : Char := Char.ofNat 0

/-- The newline character. -/
def NL : Char := Char.ofNat 10

/-! ## Data model (`shared.h`) -/

/-- The struct `DiceSet`: six counters and the string buffer `rollString`. -/
structure DiceSet where
  numberOfOnes : Int
  numberOfTwos : Int
  numberOfThrees : Int
  numberOfHs : Int
  numberOfAs : Int
  numberOfPs : Int
  rollString : List Char
deriving DecidableEq, Repr

/-- The struct `RollFile`: the roll sequence, its cursor, and three dice sets. -/
structure RollFile where
  size : Nat
  index : Nat
  diceRolls : List Char
  latestDice : DiceSet
  rerollDice : DiceSet
  oppositionDice : DiceSet
deriving DecidableEq, Repr

/-- The enum `PlayerStatus`. -/
inductive PlayerStatus where
  | ELIMINATED
  | REMAINING
  | UNCONNECTED
deriving DecidableEq, Repr

/-- The struct `Player` (process id and program path are not modelled). -/
structure Player where
  inbox : Bool
  outbox : List Char
  health : Int
  points : Int
  tokens : Int
  status : PlayerStatus
deriving DecidableEq, Repr

/-- The struct `Game` (the allocation-progress tag is not modelled). -/
structure Game where
  scoreLimit : Int
  playerInStLucia : Int
  numberOfPlayers : Nat
  currentPlayerNumber : Int
  rollFile : RollFile
  numberOfRerolls : Int
deriving DecidableEq, Repr

/-- The enum `ExitCodes` of `hub.c`. -/
inductive ExitCodes where
  | SUCCESS
  | INVALID_ARGUMENTS
  | INVALID_SCORE
  | OPEN_ERROR
  | INVALID_FILE
  | PIPING_FAILURE
  | PLAYER_QUIT
  | INVALID_MESSAGE
  | INVALID_REQUEST
  | SIGINT_ACTION
deriving DecidableEq, Repr

/-- The numeric value of an exit status. -/
def ExitCodes.code : ExitCodes → Nat
  | .SUCCESS => 0
  | .INVALID_ARGUMENTS => 1
  | .INVALID_SCORE => 2
  | .OPEN_ERROR => 3
  | .INVALID_FILE => 4
  | .PIPING_FAILURE => 5
  | .PLAYER_QUIT => 6
  | .INVALID_MESSAGE => 7
  | .INVALID_REQUEST => 8
  | .SIGINT_ACTION => 9

/-- The hub's whole state: the two globals `game` and `players`, and the trace of lines written
to participants, oldest first, each with the index of its recipient. -/
structure Hub where
  game : Game
  players : List Player
  sent : List (Nat × List Char)
deriving DecidableEq, Repr

/-- Result of a hub function that may call `exit_program`. -/
inductive Outcome (α : Type) where
  | ret (value : α) (hub : Hub)
  | exit (status : ExitCodes) (hub : Hub)
deriving DecidableEq, Repr

/-- The state an outcome ends in. -/
def Outcome.hub {α : Type} : Outcome α → Hub
  | .ret _ h => h
  | .exit _ h => h

/-- A player record for reads outside the array (never reached on well-formed states). -/
def Player.absent : Player :=
  { inbox := false, outbox := [], health := 0, points := 0, tokens := 0,
    status := PlayerStatus.UNCONNECTED }

/-- The expression `players[i]`. -/
def getPlayer (players : List Player) (i : Nat) : Player :=
  (players.get? i).getD Player.absent

/-- An assignment through `players[i]->...`. -/
def setPlayer (players : List Player) (i : Nat) (f : Player → Player) : List Player :=
  players.set i (f (getPlayer players i))

/-- A C `for (int i = 0; i < n; i++)` loop over a state. -/
def forLoop {σ : Type} (n : Nat) (body : Nat → σ → σ) (s : σ) : σ :=
  (List.range n).foldl (fun acc i => body i acc) s

/-! ## Dice sets and the roll source (`shared.c`) -/

/-- Function `reset_dice_set`. -/
def reset_dice_set (diceSet : DiceSet) : DiceSet :=
  { diceSet with numberOfOnes := 0, numberOfTwos := 0, numberOfThrees := 0,
                 numberOfHs := 0, numberOfAs := 0, numberOfPs := 0 }

/-- Function `sum_dice_set`. -/
def sum_dice_set (diceSet : DiceSet) : Int :=
  diceSet.numberOfOnes + diceSet.numberOfTwos + diceSet.numberOfThrees + diceSet.numberOfHs +
    diceSet.numberOfAs + diceSet.numberOfPs

/-- Function `get_player_label`. -/
def get_player_label (playerNumber : Nat) : Char :=
  Char.ofNat (65 + playerNumber)

/-- Function `get_next_die`: the die under the cursor, and the roll file with the cursor
advanced cyclically. -/
def get_next_die (rollFile : RollFile) : Char × RollFile :=
  (rollFile.diceRolls.getD rollFile.index NUL,
   { rollFile with index := (rollFile.index + 1) % rollFile.size })

/-- Function `update_dice_set`: the `switch` over the six faces; any other character changes
nothing. -/
def update_dice_set (diceSet : DiceSet) (die : Char) (updateAmount : Int) : DiceSet :=
  if die = '1' then { diceSet with numberOfOnes := diceSet.numberOfOnes + updateAmount }
  else if die = '2' then { diceSet with numberOfTwos := diceSet.numberOfTwos + updateAmount }
  else if die = '3' then { diceSet with numberOfThrees := diceSet.numberOfThrees + updateAmount }
  else if die = 'H' then { diceSet with numberOfHs := diceSet.numberOfHs + updateAmount }
  else if die = 'A' then { diceSet with numberOfAs := diceSet.numberOfAs + updateAmount }
  else if die = 'P' then { diceSet with numberOfPs := diceSet.numberOfPs + updateAmount }
  else diceSet

/-- Function `add_die_to_dice_set`. -/
def add_die_to_dice_set (diceSet : DiceSet) (die : Char) : DiceSet :=
  update_dice_set diceSet die 1

/-- Function `remove_die_from_dice_set`. -/
def remove_die_from_dice_set (diceSet : DiceSet) (die : Char) : DiceSet :=
  update_dice_set diceSet die (-1)

/-- The body of the loop of `add_dice_to_dice_set`, run `count` times. -/
def add_dice_iterations : Nat → RollFile → DiceSet → RollFile × DiceSet
  | 0, rollFile, diceSet => (rollFile, diceSet)
  | count + 1, rollFile, diceSet =>
      add_dice_iterations count (get_next_die rollFile).2
        (add_die_to_dice_set diceSet (get_next_die rollFile).1)

/-- Function `add_dice_to_dice_set`.  The loop is `for (int i; i < numberOfDice; i++)`: with the
counter starting at the indeterminate value `i0` its body runs `numberOfDice - i0` times when
that is positive and not at all otherwise.  The dice set is passed and returned separately from
the roll file, since the loop body touches only the cursor of the roll file. -/
def add_dice_to_dice_set (i0 : Int) (rollFile : RollFile) (numberOfDice : Int)
    (diceSet : DiceSet) : RollFile × DiceSet :=
  add_dice_iterations (numberOfDice - i0).toNat rollFile diceSet

/-- Function `create_dice_set_string`: `add_die_type` writes each face `max 0 count` times, in
the order 1, 2, 3, H, A, P, and then a NUL.  In the source `rollString` has room for
`DICE_SET_SIZE` characters and the NUL; the list of the embedding is its content when the
counters total at most `DICE_SET_SIZE`. -/
def create_dice_set_string (diceSet : DiceSet) : DiceSet :=
  { diceSet with rollString :=
      List.replicate diceSet.numberOfOnes.toNat '1' ++
      List.replicate diceSet.numberOfTwos.toNat '2' ++
      List.replicate diceSet.numberOfThrees.toNat '3' ++
      List.replicate diceSet.numberOfHs.toNat 'H' ++
      List.replicate diceSet.numberOfAs.toNat 'A' ++
      List.replicate diceSet.numberOfPs.toNat 'P' }

/-- Function `invalid_roll`: true when some character is not one of the six faces. -/
def invalid_roll (message : List Char) : Bool :=
  message.any (fun c => c ≠ '1' && c ≠ '2' && c ≠ '3' && c ≠ 'H' && c ≠ 'A' && c ≠ 'P')

/-- The loop of `interpret_message`: `done` are the commands already terminated, `current` the
characters of the command being filled. -/
def interpret_message_loop : List Char → List (List Char) → List Char → Int × List (List Char)
  | [], done, current => ((done.length : Int) + 1, done ++ [current])
  | c :: rest, done, current =>
      if c = ' ' then interpret_message_loop rest (done ++ [current]) []
      else if c = NUL ∨ c = NL then ((done.length : Int) + 1, done ++ [current])
      else interpret_message_loop rest done (current ++ [c])

/-- Function `interpret_message`: the number of commands and the commands.  The source writes
the commands into `commands[MAX_COMMANDS][MAX_MESSAGE_LENGTH]` without a bounds test; the list
of the embedding is the content of that array for the lines that satisfy `fits_commands`. -/
def interpret_message (message : List Char) : Int × List (List Char) :=
  interpret_message_loop message [] []

/-- The library call `fgets(buffer, n, stream)` on a stream given by its pending bytes: `none`
at end of stream, otherwise the line read (at most `n - 1` characters, ending after the first
newline) and the bytes left. -/
def fgets_chars : Nat → List Char → List Char × List Char
  | 0, stream => ([], stream)
  | _ + 1, [] => ([], [])
  | k + 1, c :: stream =>
      if c = NL then ([c], stream)
      else ((fgets_chars k stream).1.cons c, (fgets_chars k stream).2)

/-- The call `fgets(buffer, n, stream)`. -/
def fgets (n : Nat) (stream : List Char) : Option (List Char × List Char) :=
  if stream = [] then none else some (fgets_chars (n - 1) stream)

/-- The conversion `%d` of `sprintf`. -/
def fmt_d (n : Int) : List Char :=
  if n < 0 then '-' :: Nat.toDigits 10 n.natAbs else Nat.toDigits 10 n.natAbs

/-! ## Words of the protocol -/

def kw_keepall : List Char := ['k', 'e', 'e', 'p', 'a', 'l', 'l']
def kw_reroll : List Char := ['r', 'e', 'r', 'o', 'l', 'l']
def kw_stay : List Char := ['s', 't', 'a', 'y']
def kw_go : List Char := ['g', 'o']

/-- The line `shutdown`. -/
def msg_shutdown : List Char := ['s', 'h', 'u', 't', 'd', 'o', 'w', 'n', NL]

/-- The line `stay?`. -/
def msg_stay_query : List Char := ['s', 't', 'a', 'y', '?', NL]

/-- The format `turn %s`. -/
def msg_turn (dice : List Char) : List Char := ['t', 'u', 'r', 'n', ' '] ++ dice ++ [NL]

/-- The format `rerolled %s`. -/
def msg_rerolled (dice : List Char) : List Char :=
  ['r', 'e', 'r', 'o', 'l', 'l', 'e', 'd', ' '] ++ dice ++ [NL]

/-- The format `rolled %c %s`. -/
def msg_rolled (label : Char) (dice : List Char) : List Char :=
  ['r', 'o', 'l', 'l', 'e', 'd', ' ', label, ' '] ++ dice ++ [NL]

/-- The format `claim %c`. -/
def msg_claim (label : Char) : List Char := ['c', 'l', 'a', 'i', 'm', ' ', label, NL]

/-- The format `attacks %c %d out`. -/
def msg_attacks_out (label : Char) (n : Int) : List Char :=
  ['a', 't', 't', 'a', 'c', 'k', 's', ' ', label, ' '] ++ fmt_d n ++ [' ', 'o', 'u', 't', NL]

/-- The format `attacks %c %d in`. -/
def msg_attacks_in (label : Char) (n : Int) : List Char :=
  ['a', 't', 't', 'a', 'c', 'k', 's', ' ', label, ' '] ++ fmt_d n ++ [' ', 'i', 'n', NL]

/-- The format `points %c %d`. -/
def msg_points (label : Char) (n : Int) : List Char :=
  ['p', 'o', 'i', 'n', 't', 's', ' ', label, ' '] ++ fmt_d n ++ [NL]

/-- The format `eliminated %c`. -/
def msg_eliminated (label : Char) : List Char :=
  ['e', 'l', 'i', 'm', 'i', 'n', 'a', 't', 'e', 'd', ' ', label, NL]

/-- The format `winner %c`. -/
def msg_winner (label : Char) : List Char := ['w', 'i', 'n', 'n', 'e', 'r', ' ', label, NL]

/-! ## The hub (`hub.c`) -/

/-- A write `fprintf(players[i]->inbox, line); fflush(...)` to one participant. -/
def send_to (hub : Hub) (i : Nat) (line : List Char) : Hub :=
  { hub with sent := hub.sent ++ [(i, line)] }

/-- Function `alert_remaining_players`. -/
def alert_remaining_players (hub : Hub) (activePlayer : Nat) (message : List Char)
    (skipActivePlayer : Bool) : Hub :=
  forLoop hub.game.numberOfPlayers (fun i acc =>
    if (getPlayer acc.players i).status ≠ PlayerStatus.REMAINING then acc
    else if activePlayer = i ∧ skipActivePlayer = true then acc
    else if (getPlayer acc.players i).inbox = false then acc
    else send_to acc i message) hub

/-- Function `close_remaining_players`, the broadcast: the line `shutdown` goes to the
remaining players when the status is `PLAYER_QUIT` or above, or `SUCCESS`.  The loop that
follows the broadcast and waits for the children is `wait_for_children`. -/
def close_remaining_players (hub : Hub) (exitStatus : ExitCodes) : Hub :=
  if exitStatus.code ≥ ExitCodes.PLAYER_QUIT.code ∨ exitStatus = ExitCodes.SUCCESS then
    alert_remaining_players hub 0 msg_shutdown false
  else hub

/-- Function `exit_program`, up to the end of the broadcast of `close_remaining_players`: the
outcome records the status of the call and the state after the broadcast.  Whether the
process then reaches `exit(exitStatus)` is given by `process_ending`. -/
def exit_program {α : Type} (hub : Hub) (exitStatus : ExitCodes) : Outcome α :=
  Outcome.exit exitStatus (close_remaining_players hub exitStatus)

/-- The hub state with what is left on `players[i]->outbox` after a read. -/
def set_outbox (hub : Hub) (i : Nat) (rest : List Char) : Hub :=
  { hub with players := setPlayer hub.players i (fun p => { p with outbox := rest }) }

/-- The hub state with `game->rollFile` replaced. -/
def set_rollFile (hub : Hub) (rollFile : RollFile) : Hub :=
  { hub with game := { hub.game with rollFile := rollFile } }

/-- The hub state with `game->rollFile->latestDice` replaced. -/
def set_latestDice (hub : Hub) (diceSet : DiceSet) : Hub :=
  set_rollFile hub { hub.game.rollFile with latestDice := diceSet }

/-- The reroll branch of `keep_dice_response`, entered with the dice string `subset` that passed
the length and alphabet tests. -/
def reroll_dice (i0 : Int) (hub : Hub) (activePlayer : Nat) (subset : List Char) :
    Outcome Bool :=
  let dicetoReroll : Int := (subset.length : Int)
  let removed := subset.foldl remove_die_from_dice_set hub.game.rollFile.latestDice
  let added := add_dice_to_dice_set i0 hub.game.rollFile dicetoReroll removed
  let hub1 := set_latestDice (set_rollFile hub added.1) added.2
  if sum_dice_set added.2 ≠ (DICE_SET_SIZE : Int) then
    exit_program hub1 ExitCodes.INVALID_REQUEST
  else
    let hub2 := set_latestDice hub1 (create_dice_set_string added.2)
    Outcome.ret false (send_to hub2 activePlayer
      (msg_rerolled hub2.game.rollFile.latestDice.rollString))

/-- Function `keep_dice_response`; `i0` is the indeterminate start of the loop counter of
`add_dice_to_dice_set` in this call. -/
def keep_dice_response (i0 : Int) (hub : Hub) (activePlayer : Nat) : Outcome Bool :=
  match fgets MAX_MESSAGE_LENGTH (getPlayer hub.players activePlayer).outbox with
  | none => exit_program hub ExitCodes.PLAYER_QUIT
  | some (turnReply, rest) =>
    let hub0 := set_outbox hub activePlayer rest
    let numberCommands := (interpret_message turnReply).1
    let commands := (interpret_message turnReply).2
    if commands.getD 0 [] = kw_keepall ∧ numberCommands = 1 then
      Outcome.ret true hub0
    else if commands.getD 0 [] = kw_reroll ∧ numberCommands = 2 then
      if (commands.getD REROLLED_DICE_ROLL_INDEX []).length > DICE_SET_SIZE ∨
          invalid_roll (commands.getD REROLLED_DICE_ROLL_INDEX []) = true then
        exit_program hub0 ExitCodes.INVALID_MESSAGE
      else
        reroll_dice i0 hub0 activePlayer (commands.getD REROLLED_DICE_ROLL_INDEX [])
    else if commands.getD 0 [] = kw_stay ∧ numberCommands = 1 then
      exit_program hub0 ExitCodes.INVALID_REQUEST
    else if commands.getD 0 [] = kw_go ∧ numberCommands = 1 then
      exit_program hub0 ExitCodes.INVALID_REQUEST
    else
      exit_program hub0 ExitCodes.INVALID_MESSAGE

/-- Function `is_player_last_remaining`: the loop returns false at the first index other than
`activePlayer` whose status is not `ELIMINATED`, and true when there is none. -/
def is_player_last_remaining (hub : Hub) (activePlayer : Nat) : Bool :=
  (List.range hub.game.numberOfPlayers).all (fun i =>
    decide (i = activePlayer) || decide ((getPlayer hub.players i).status = PlayerStatus.ELIMINATED))

/-- Function `has_player_exceeded_win_points`. -/
def has_player_exceeded_win_points (hub : Hub) (activePlayer : Nat) : Bool :=
  if (getPlayer hub.players activePlayer).points ≥ hub.game.scoreLimit then true else false

/-- Function `claim_stlucia`. -/
def claim_stlucia (hub : Hub) (activePlayer : Nat) : Hub :=
  let hub1 : Hub := { hub with game := { hub.game with playerInStLucia := (activePlayer : Int) } }
  let hub2 : Hub :=
    { hub1 with
      players := setPlayer hub1.players activePlayer (fun p => { p with points := p.points + 1 }) }
  alert_remaining_players hub2 activePlayer (msg_claim (get_player_label activePlayer)) false

/-- Function `receive_stay_reply`. -/
def receive_stay_reply (hub : Hub) (activePlayer : Nat) (playerInStLucia : Nat) :
    Outcome Unit :=
  match fgets MAX_MESSAGE_LENGTH (getPlayer hub.players playerInStLucia).outbox with
  | none => exit_program hub ExitCodes.PLAYER_QUIT
  | some (stayReply, rest) =>
    let hub0 := set_outbox hub playerInStLucia rest
    let numberCommands := (interpret_message stayReply).1
    let commands := (interpret_message stayReply).2
    if (getPlayer hub0.players hub0.game.playerInStLucia.toNat).health ≤ 0 then
      Outcome.ret () (claim_stlucia hub0 activePlayer)
    else if commands.getD 0 [] = kw_stay ∧ numberCommands = 1 then
      Outcome.ret () hub0
    else if commands.getD 0 [] = kw_go ∧ numberCommands = 1 then
      Outcome.ret () (claim_stlucia hub0 activePlayer)
    else if commands.getD 0 [] = kw_keepall ∧ numberCommands = 1 then
      exit_program hub0 ExitCodes.INVALID_REQUEST
    else if commands.getD 0 [] = kw_reroll ∧ numberCommands = 2 then
      if (commands.getD REROLLED_DICE_ROLL_INDEX []).length > DICE_SET_SIZE ∨
          invalid_roll (commands.getD REROLLED_DICE_ROLL_INDEX []) = true then
        exit_program hub0 ExitCodes.INVALID_REQUEST
      else
        exit_program hub0 ExitCodes.INVALID_MESSAGE
    else
      exit_program hub0 ExitCodes.INVALID_MESSAGE

/-- Function `heal` of `shared.c` (as called by the hub). -/
def heal (hub : Hub) (player : Nat) (healAmount : Int) : Hub :=
  if healAmount = 0 then hub
  else if (player : Int) ≠ hub.game.playerInStLucia then
    let recover : Int :=
      if (getPlayer hub.players player).health + healAmount > STARTING_HEALTH then
        STARTING_HEALTH - (getPlayer hub.players player).health
      else healAmount
    { hub with
      players := setPlayer hub.players player (fun p => { p with health := p.health + recover }) }
  else hub

/-- Function `damage_player` of `shared.c` (as called by the hub). -/
def damage_player (hub : Hub) (player : Nat) (damage : Int) : Hub :=
  let healthReduction : Int :=
    if (getPlayer hub.players player).health - damage < 0 then
      (getPlayer hub.players player).health
    else damage
  { hub with
    players := setPlayer hub.players player
      (fun p => { p with health := p.health - healthReduction }) }

/-- Function `attack`. -/
def attack (hub : Hub) (activePlayer : Nat) : Outcome Unit :=
  if hub.game.rollFile.latestDice.numberOfAs > 0 then
    if hub.game.playerInStLucia = EMPTY_STLUCIA then
      Outcome.ret () (claim_stlucia hub activePlayer)
    else if hub.game.playerInStLucia = (activePlayer : Int) then
      let attackAlert := msg_attacks_out (get_player_label activePlayer)
        hub.game.rollFile.latestDice.numberOfAs
      let hub1 := forLoop hub.game.numberOfPlayers (fun i acc =>
        if activePlayer = i ∨ (getPlayer acc.players i).status = PlayerStatus.ELIMINATED then acc
        else damage_player acc i acc.game.rollFile.latestDice.numberOfAs) hub
      Outcome.ret () (alert_remaining_players hub1 activePlayer attackAlert false)
    else
      let attackAlert := msg_attacks_in (get_player_label activePlayer)
        hub.game.rollFile.latestDice.numberOfAs
      let hub1 := damage_player hub hub.game.playerInStLucia.toNat
        hub.game.rollFile.latestDice.numberOfAs
      let hub2 := alert_remaining_players hub1 activePlayer attackAlert false
      let hub3 := send_to hub2 hub2.game.playerInStLucia.toNat msg_stay_query
      receive_stay_reply hub3 activePlayer hub3.game.playerInStLucia.toNat
  else Outcome.ret () hub

/-- The loop `while (tokens > TOKENS_POINTS_THRESHOLD - 1)` of `gain_points` on the pair
(tokens, points); `fuel` bounds the number of iterations. -/
def convert_tokens : Nat → Int → Int → Int × Int
  | 0, tokens, points => (tokens, points)
  | fuel + 1, tokens, points =>
      if tokens > TOKENS_POINTS_THRESHOLD - 1 then
        convert_tokens fuel (tokens - TOKENS_POINTS_THRESHOLD) (points + 1)
      else (tokens, points)

/-- Function `gain_points`.  The conversion loop runs with fuel `tokens.toNat`, more than the
number of iterations it can make.  `points` and `tokens` are `int` in the source; the sums
formed here are those of the source as long as they satisfy `fits_int`, and `wrap_int` of a
sum is what the `int` holds otherwise. -/
def gain_points (hub : Hub) (activePlayer : Nat) (startingPoints : Int) : Hub :=
  let dice := hub.game.rollFile.latestDice
  let p0 := getPlayer hub.players activePlayer
  let tokens0 := p0.tokens + dice.numberOfPs
  let converted := convert_tokens tokens0.toNat tokens0 p0.points
  let points1 := if dice.numberOfOnes > DICE_POINTS_THRESHOLD then
      converted.2 + (dice.numberOfOnes - ONES_DICE_POINT_PENALTY) else converted.2
  let points2 := if dice.numberOfTwos > DICE_POINTS_THRESHOLD then
      points1 + (dice.numberOfTwos - TWOS_DICE_POINT_PENALTY) else points1
  let points3 := if dice.numberOfThrees > DICE_POINTS_THRESHOLD then
      points2 + (dice.numberOfThrees - THREES_DICE_POINT_PENALTY) else points2
  let hub1 : Hub :=
    { hub with
      players := setPlayer hub.players activePlayer
        (fun p => { p with tokens := converted.1, points := points3 }) }
  let pointsGained := points3 - startingPoints
  if pointsGained > 0 then
    alert_remaining_players hub1 activePlayer
      (msg_points (get_player_label activePlayer) pointsGained) false
  else hub1

/-- Function `update_eliminated_players`. -/
def update_eliminated_players (hub : Hub) (activePlayer : Nat) : Hub :=
  forLoop hub.game.numberOfPlayers (fun i acc =>
    if (getPlayer acc.players i).status = PlayerStatus.ELIMINATED then acc
    else if (getPlayer acc.players i).health < 1 then
      let acc1 := alert_remaining_players acc activePlayer
        (msg_eliminated (get_player_label i)) false
      { acc1 with
        players := setPlayer acc1.players i
          (fun p => { p with status := PlayerStatus.ELIMINATED }) }
    else acc) hub

/-- Function `check_game_over`: the returned flag and the state. -/
def check_game_over (hub : Hub) (activePlayer : Nat) : Bool × Hub :=
  if is_player_last_remaining hub activePlayer = true ∨
      has_player_exceeded_win_points hub activePlayer = true then
    let hub1 := alert_remaining_players hub activePlayer
      (msg_winner (get_player_label activePlayer)) false
    (true, forLoop hub1.game.numberOfPlayers (fun i acc =>
      { acc with
        players := setPlayer acc.players i
          (fun p => { p with status := PlayerStatus.ELIMINATED }) }) hub1)
  else (false, hub)

/-- The loop `while (!keep_dice_response(...));` of `get_player_roll`, at most `fuel` rounds;
`junk k` is the indeterminate loop-counter start of `add_dice_to_dice_set` in round `k`.
`none` means the rounds were not enough. -/
def reroll_negotiation : Nat → (Nat → Int) → Hub → Nat → Option (Outcome Unit)
  | 0, _, _, _ => none
  | fuel + 1, junk, hub, activePlayer =>
      match keep_dice_response (junk 0) hub activePlayer with
      | Outcome.exit status hub1 => some (Outcome.exit status hub1)
      | Outcome.ret true hub1 => some (Outcome.ret () hub1)
      | Outcome.ret false hub1 =>
          reroll_negotiation fuel (fun k => junk (k + 1)) hub1 activePlayer

/-- Function `get_player_roll`.  Every round of the negotiation reads at least one byte of the
active participant's `outbox` or exits, so one round more than its length is enough.  The
source formats the `rolled` line into `rolledAlert[MAX_MESSAGE_LENGTH]`, which holds it when
the dice string has at most `DICE_SET_SIZE` characters. -/
def get_player_roll (junk : Nat → Int) (hub : Hub) (activePlayer : Nat) :
    Option (Outcome Unit) :=
  let hub1 := set_latestDice hub (create_dice_set_string hub.game.rollFile.latestDice)
  let hub2 := send_to hub1 activePlayer (msg_turn hub1.game.rollFile.latestDice.rollString)
  match reroll_negotiation ((getPlayer hub2.players activePlayer).outbox.length + 1) junk hub2
      activePlayer with
  | none => none
  | some (Outcome.exit status hub3) => some (Outcome.exit status hub3)
  | some (Outcome.ret _ hub3) =>
      some (Outcome.ret () (alert_remaining_players hub3 activePlayer
        (msg_rolled (get_player_label activePlayer) hub3.game.rollFile.latestDice.rollString)
        true))

/-- The statements of the body of the outer loop of `run_game` that precede the call of
`get_player_roll`: the territory bonus, `reset_dice_set` and the six-dice draw; `i0` is the
indeterminate loop-counter start of `add_dice_to_dice_set` in the draw. -/
def start_turn (i0 : Int) (hub : Hub) (activePlayer : Nat) : Hub :=
  let hub1 : Hub :=
    if (activePlayer : Int) = hub.game.playerInStLucia then
      { hub with
        players := setPlayer hub.players activePlayer
          (fun p => { p with points := p.points + STARTING_IN_STLUCIA_POINTS }) }
    else hub
  let hub2 := set_latestDice hub1 (reset_dice_set hub1.game.rollFile.latestDice)
  let drawn := add_dice_to_dice_set i0 hub2.game.rollFile (DICE_SET_SIZE : Int)
    hub2.game.rollFile.latestDice
  set_latestDice (set_rollFile hub2 drawn.1) drawn.2

/-- The statements of the body of the outer loop of `run_game` that follow the call of
`get_player_roll`: `heal`, `attack`, `gain_points`, `update_eliminated_players` and
`check_game_over`, whose result is `winner`. -/
def finish_turn (hub : Hub) (activePlayer : Nat) (startingPoints : Int) : Outcome Bool :=
  let hub5 := heal hub activePlayer hub.game.rollFile.latestDice.numberOfHs
  match attack hub5 activePlayer with
  | Outcome.exit status hub6 => Outcome.exit status hub6
  | Outcome.ret _ hub6 =>
      let hub7 := gain_points hub6 activePlayer startingPoints
      let hub8 := update_eliminated_players hub7 activePlayer
      Outcome.ret (check_game_over hub8 activePlayer).1 (check_game_over hub8 activePlayer).2

/-- One pass through the body of the outer loop of `run_game`, up to and including the call of
`check_game_over`; the value returned is `winner`.  `junk 0` belongs to the six-dice draw and
`junk (k + 1)` to round `k` of the negotiation. -/
def turn (junk : Nat → Int) (hub : Hub) (activePlayer : Nat) : Option (Outcome Bool) :=
  match get_player_roll (fun k => junk (k + 1)) (start_turn (junk 0) hub activePlayer)
      activePlayer with
  | none => none
  | some (Outcome.exit status hub4) => some (Outcome.exit status hub4)
  | some (Outcome.ret _ hub4) =>
      some (finish_turn hub4 activePlayer (getPlayer hub.players activePlayer).points)

/-- The inner loop of `run_game`, entered with `winner` false:
`activePlayer = (activePlayer + 1) % numberOfPlayers` until a participant that is not
`ELIMINATED` is found.  At most `fuel` increments; `none` means they were not enough. -/
def advance_player : Nat → Hub → Nat → Option Nat
  | 0, _, _ => none
  | fuel + 1, hub, activePlayer =>
      if (getPlayer hub.players ((activePlayer + 1) % hub.game.numberOfPlayers)).status ≠
          PlayerStatus.ELIMINATED then
        some ((activePlayer + 1) % hub.game.numberOfPlayers)
      else advance_player fuel hub ((activePlayer + 1) % hub.game.numberOfPlayers)

/-- The outer loop of `run_game` from the participant `activePlayer`, for at most `fuel` turns;
`junk t` supplies the indeterminate values of turn `t`.  `none` means that the turns, or the
increments of the inner loop, were not enough. -/
def run_game_from : Nat → (Nat → Nat → Int) → Hub → Nat → Option (Outcome Unit)
  | 0, _, _, _ => none
  | fuel + 1, junk, hub, activePlayer =>
      match turn (junk 0) hub activePlayer with
      | none => none
      | some (Outcome.exit status hub1) => some (Outcome.exit status hub1)
      | some (Outcome.ret true hub1) => some (Outcome.ret () hub1)
      | some (Outcome.ret false hub1) =>
          match advance_player hub1.game.numberOfPlayers hub1 activePlayer with
          | none => none
          | some next => run_game_from fuel (fun t => junk (t + 1)) hub1 next

/-- Function `run_game`: the game starts with participant 0. -/
def run_game (fuel : Nat) (junk : Nat → Nat → Int) (hub : Hub) : Option (Outcome Unit) :=
  run_game_from fuel junk hub 0

/-! ## Notions used in the statements, and concrete states -/

/-- The dice 111222 with their canonical string. -/
def dice_111222 : DiceSet :=
  { numberOfOnes := 3, numberOfTwos := 3, numberOfThrees := 0, numberOfHs := 0,
    numberOfAs := 0, numberOfPs := 0, rollString := ['1', '1', '1', '2', '2', '2'] }

/-- A roll file with the given sequence, cursor 0 and latest dice. -/
def roll_file_of (rolls : List Char) (latest : DiceSet) : RollFile :=
  { size := rolls.length, index := 0, diceRolls := rolls, latestDice := latest,
    rerollDice := reset_dice_set latest, oppositionDice := reset_dice_set latest }

/-- A connected participant with the given pending output, health and points. -/
def participant (outbox : List Char) (health points : Int) : Player :=
  { inbox := true, outbox := outbox, health := health, points := points, tokens := 0,
    status := PlayerStatus.REMAINING }

/-- A participant already marked `ELIMINATED`. -/
def eliminated_participant (health points : Int) : Player :=
  { inbox := true, outbox := [], health := health, points := points, tokens := 0,
    status := PlayerStatus.ELIMINATED }

/-- Two participants in mid-turn of participant 0: latest dice 111222, territory empty, score
limit 5, the given roll sequence, and the given bytes pending from participant 0. -/
def negotiating_hub (rolls : List Char) (reply : List Char) : Hub :=
  { game := { scoreLimit := 5, playerInStLucia := EMPTY_STLUCIA, numberOfPlayers := 2,
              currentPlayerNumber := 0, rollFile := roll_file_of rolls dice_111222,
              numberOfRerolls := 0 },
    players := [participant reply 10 0, participant [] 10 0],
    sent := [] }

/-- The value a function returned, if it returned. -/
def Outcome.value? {α : Type} : Outcome α → Option α
  | Outcome.ret v _ => some v
  | Outcome.exit _ _ => none

/-- The statuses of the participants, in index order. -/
def statuses (hub : Hub) : List PlayerStatus :=
  hub.players.map (fun p => p.status)

/-- The number of participants whose status is not `ELIMINATED`. -/
def non_eliminated (hub : Hub) : Nat :=
  ((List.range hub.game.numberOfPlayers).filter (fun i =>
    decide ((getPlayer hub.players i).status ≠ PlayerStatus.ELIMINATED))).length

/-- A state at a win check: two participants, the first `ELIMINATED` with 4 points, the second
`REMAINING`, score limit 5. -/
def last_standing_hub : Hub :=
  { game := { scoreLimit := 5, playerInStLucia := 1, numberOfPlayers := 2,
              currentPlayerNumber := 0, rollFile := roll_file_of ['P'] dice_111222,
              numberOfRerolls := 0 },
    players := [eliminated_participant 0 4, participant [] 10 1],
    sent := [] }

/-- A state at the start of a turn of participant 0: it has health 1 and will answer
`reroll H` and then `keepall`; participant 1 holds the territory; every roll is `P`. -/
def self_eliminating_hub : Hub :=
  { game := { scoreLimit := 5, playerInStLucia := 1, numberOfPlayers := 2,
              currentPlayerNumber := 0, rollFile := roll_file_of ['P'] dice_111222,
              numberOfRerolls := 0 },
    players := [participant (kw_reroll ++ [' ', 'H', NL] ++ kw_keepall ++ [NL]) 1 0,
                participant [] 10 1],
    sent := [] }

/-- The participants that the sweep of `update_eliminated_players` marks: not yet
`ELIMINATED`, health below 1. -/
def newly_eliminated (hub : Hub) (i : Nat) : Bool :=
  decide ((getPlayer hub.players i).status ≠ PlayerStatus.ELIMINATED) &&
    decide ((getPlayer hub.players i).health < 1)

/-- The participants that are sent `eliminated <label of i>` in the sweep started in state
`hub`: those `REMAINING` with an open inbox that the sweep has not marked before it reaches
`i`. -/
def sweep_recipients (hub : Hub) (i : Nat) : List Nat :=
  (List.range hub.game.numberOfPlayers).filter (fun r =>
    decide ((getPlayer hub.players r).status = PlayerStatus.REMAINING) &&
    !(decide (r < i) && decide ((getPlayer hub.players r).health < 1)) &&
    (getPlayer hub.players r).inbox)

/-- The lines written by the sweep started in state `hub` while it visits the first `k`
participants. -/
def sweep_lines (hub : Hub) (k : Nat) : List (Nat × List Char) :=
  (List.range k).flatMap (fun i =>
    if newly_eliminated hub i = true then
      (sweep_recipients hub i).map (fun r => (r, msg_eliminated (get_player_label i)))
    else [])

/-- Three participants, the middle one `ELIMINATED`. -/
def three_player_hub : Hub :=
  { game := { scoreLimit := 5, playerInStLucia := EMPTY_STLUCIA, numberOfPlayers := 3,
              currentPlayerNumber := 0, rollFile := roll_file_of ['A'] dice_111222,
              numberOfRerolls := 0 },
    players := [participant [] 10 0, eliminated_participant 0 0, participant [] 10 0],
    sent := [] }

/-- Three participants before a sweep: the first two have health 0, the second is already
`ELIMINATED`. -/
def sweep_hub : Hub :=
  { game := { scoreLimit := 5, playerInStLucia := EMPTY_STLUCIA, numberOfPlayers := 3,
              currentPlayerNumber := 0, rollFile := roll_file_of ['A'] dice_111222,
              numberOfRerolls := 0 },
    players := [participant [] 0 0, eliminated_participant 0 0, participant [] 10 0],
    sent := [] }

/-- The dice AAA111 with their canonical string. -/
def dice_111AAA : DiceSet :=
  { numberOfOnes := 3, numberOfTwos := 0, numberOfThrees := 0, numberOfHs := 0,
    numberOfAs := 3, numberOfPs := 0, rollString := ['1', '1', '1', 'A', 'A', 'A'] }

/-- A state after the roll of participant 0, with final dice 111AAA: participant 1 holds the
territory with the given health and has the given bytes pending. -/
def inward_attack_hub (holderHealth : Int) (reply : List Char) : Hub :=
  { game := { scoreLimit := 5, playerInStLucia := 1, numberOfPlayers := 2,
              currentPlayerNumber := 0, rollFile := roll_file_of ['A'] dice_111AAA,
              numberOfRerolls := 0 },
    players := [participant [] 10 0, participant reply holderHealth 1],
    sent := [] }

/-- The six die faces, in canonical order. -/
def faces : List Char := ['1', '2', '3', 'H', 'A', 'P']

/-- The counter of a dice set that belongs to a face character (0 for any other character). -/
def DiceSet.counter (diceSet : DiceSet) (face : Char) : Int :=
  if face = '1' then diceSet.numberOfOnes
  else if face = '2' then diceSet.numberOfTwos
  else if face = '3' then diceSet.numberOfThrees
  else if face = 'H' then diceSet.numberOfHs
  else if face = 'A' then diceSet.numberOfAs
  else if face = 'P' then diceSet.numberOfPs
  else 0

/-- The next `k` characters of the roll source, read cyclically from the cursor. -/
def next_rolls (rollFile : RollFile) (k : Nat) : List Char :=
  (List.range k).map (fun j => rollFile.diceRolls.getD ((rollFile.index + j) % rollFile.size) NUL)

/-- A roll file as `create_roll_file` leaves it and `get_next_die` keeps it: the size is the
length of the sequence and is at least 1, the cursor is inside, every character is a face. -/
def RollFile.valid (rollFile : RollFile) : Prop :=
  rollFile.size = rollFile.diceRolls.length ∧ 1 ≤ rollFile.size ∧
    rollFile.index < rollFile.size ∧ ∀ c ∈ rollFile.diceRolls, c ∈ faces

instance (rollFile : RollFile) : Decidable rollFile.valid := by
  unfold RollFile.valid
  infer_instance

/-- The indices that `alert_remaining_players` writes to, in the order of the loop. -/
def recipients (hub : Hub) (activePlayer : Nat) (skipActivePlayer : Bool) : List Nat :=
  (List.range hub.game.numberOfPlayers).filter (fun i =>
    decide ((getPlayer hub.players i).status = PlayerStatus.REMAINING) &&
    !(decide (activePlayer = i) && skipActivePlayer) &&
    (getPlayer hub.players i).inbox)

/-- A character that `interpret_message` copies into the current command. -/
def plain (c : Char) : Prop := c ≠ ' ' ∧ c ≠ NUL ∧ c ≠ NL

instance (c : Char) : Decidable (plain c) := by
  unfold plain
  infer_instance

/-- The state after an accepted reroll of `subset` in which `draws` replacement dice were
drawn. -/
def rerolled_hub (hub : Hub) (activePlayer : Nat) (subset : List Char) (draws : Nat) : Hub :=
  let dice := create_dice_set_string
    (add_dice_iterations draws hub.game.rollFile
      (subset.foldl remove_die_from_dice_set hub.game.rollFile.latestDice)).2
  send_to
    (set_rollFile hub
      { (add_dice_iterations draws hub.game.rollFile
          (subset.foldl remove_die_from_dice_set hub.game.rollFile.latestDice)).1 with
        latestDice := dice })
    activePlayer (msg_rerolled dice.rollString)

/-! ## Further source functions and notions for the statements on health and points -/

/-- Function `initialise_players` of `shared.c`: every participant starts with health
`STARTING_HEALTH`, no tokens, no points, status `UNCONNECTED` and a `NULL` inbox (the
`outbox` pointer, which the code leaves unset, is the empty stream). -/
def initialise_players (numberOfPlayers : Nat) : List Player :=
  List.replicate numberOfPlayers
    { inbox := false, outbox := [], health := STARTING_HEALTH, points := 0, tokens := 0,
      status := PlayerStatus.UNCONNECTED }

/-- A call that touches health or the territory: `heal`, `damage_player` or
`claim_stlucia`. -/
inductive HealthOp where
  | healCall (player : Nat) (healAmount : Int)
  | damageCall (player : Nat) (amount : Int)
  | claimCall (player : Nat)
deriving DecidableEq, Repr

/-- The amount of a `heal` or `damage_player` call is not negative. -/
def HealthOp.amount_ok : HealthOp → Prop
  | HealthOp.healCall _ healAmount => 0 ≤ healAmount
  | HealthOp.damageCall _ amount => 0 ≤ amount
  | HealthOp.claimCall _ => True

instance (op : HealthOp) : Decidable op.amount_ok := by
  cases op <;> unfold HealthOp.amount_ok <;> infer_instance

/-- The state after one call. -/
def HealthOp.run (hub : Hub) : HealthOp → Hub
  | HealthOp.healCall player healAmount => StLucia.heal hub player healAmount
  | HealthOp.damageCall player amount => damage_player hub player amount
  | HealthOp.claimCall player => claim_stlucia hub player

/-- The state after a sequence of calls, first call first. -/
def run_health_ops (ops : List HealthOp) (hub : Hub) : Hub :=
  ops.foldl HealthOp.run hub

/-- The points that the specification grants for the number faces of a dice set: the count of
`1`s less 2, the count of `2`s less 1 and the count of `3`s, each only when the count is
greater than 2. -/
def number_face_points (dice : DiceSet) : Int :=
  (if dice.numberOfOnes > 2 then dice.numberOfOnes - 2 else 0) +
  (if dice.numberOfTwos > 2 then dice.numberOfTwos - 1 else 0) +
  (if dice.numberOfThrees > 2 then dice.numberOfThrees else 0)

/-- The call of `gain_points` at the end of each of a sequence of turns of one participant,
the turns having the given final dice; each call gets the participant's current points as
`startingPoints`. -/
def score_turns (activePlayer : Nat) : List DiceSet → Hub → Hub
  | [], hub => hub
  | dice :: later, hub =>
      score_turns activePlayer later
        (gain_points (set_latestDice hub dice) activePlayer
          (getPlayer hub.players activePlayer).points)

/-- The dice 1123AA with their canonical string. -/
def dice_1123AA : DiceSet :=
  { numberOfOnes := 2, numberOfTwos := 1, numberOfThrees := 1, numberOfHs := 0,
    numberOfAs := 2, numberOfPs := 0, rollString := ['1', '1', '2', '3', 'A', 'A'] }

/-- A state after the roll of participant 0 with the given final dice, holder and health of
participant 1; participant 1 has the given bytes pending. -/
def attack_hub (dice : DiceSet) (holder : Int) (health1 : Int) (reply : List Char) : Hub :=
  { game := { scoreLimit := 5, playerInStLucia := holder, numberOfPlayers := 2,
              currentPlayerNumber := 0, rollFile := roll_file_of ['A'] dice,
              numberOfRerolls := 0 },
    players := [participant [] 10 0, participant reply health1 1],
    sent := [] }

/-- The start of a game of two participants with score limit 5 and the given roll sequence:
both connected with health 10 and no points, the territory empty; participant 0 will answer
`keepall`. -/
def opening_hub (rolls : List Char) : Hub :=
  { game := { scoreLimit := 5, playerInStLucia := EMPTY_STLUCIA, numberOfPlayers := 2,
              currentPlayerNumber := 0,
              rollFile := roll_file_of rolls (reset_dice_set dice_111222),
              numberOfRerolls := 0 },
    players := [participant (kw_keepall ++ [NL]) 10 0, participant [] 10 0],
    sent := [] }

/-- The state of an inward attack by `activePlayer` on `holder` at the moment the stay reply
has been read: the damage is done, `attacks <label> <n> in` has been broadcast, `stay?` has
been written to the holder, and `rest` is what is left of the holder's stream. -/
def stay_query_state (hub : Hub) (activePlayer holder : Nat) (rest : List Char) : Hub :=
  set_outbox
    (send_to
      (alert_remaining_players
        (damage_player hub holder hub.game.rollFile.latestDice.numberOfAs) activePlayer
        (msg_attacks_in (get_player_label activePlayer)
          hub.game.rollFile.latestDice.numberOfAs) false)
      holder msg_stay_query)
    holder rest

/-- The participants whose status is `REMAINING`, in index order. -/
def remaining_players (hub : Hub) : List Nat :=
  (List.range hub.game.numberOfPlayers).filter (fun i =>
    decide ((getPlayer hub.players i).status = PlayerStatus.REMAINING))

/-- Every `REMAINING` participant has an open inbox, as `setup_hub` leaves it. -/
def connected (hub : Hub) : Prop :=
  ∀ i, i < hub.game.numberOfPlayers →
    (getPlayer hub.players i).status = PlayerStatus.REMAINING →
    (getPlayer hub.players i).inbox = true

instance (hub : Hub) : Decidable (connected hub) := by
  unfold connected
  infer_instance

/-- The state of two participants without points after the roll of participant 0 with the
given final dice, the territory still empty, score limit 5. -/
def after_roll_hub (dice : DiceSet) : Hub :=
  { game := { scoreLimit := 5, playerInStLucia := EMPTY_STLUCIA, numberOfPlayers := 2,
              currentPlayerNumber := 0, rollFile := roll_file_of ['A'] dice,
              numberOfRerolls := 0 },
    players := [participant [] 10 0, participant [] 10 0],
    sent := [] }

/-- Three participants after the roll of participant 0, who holds the territory, with final
dice 111AAA: participant 1 has health 2, participant 2 is `ELIMINATED` with health 0. -/
def outward_attack_hub : Hub :=
  { game := { scoreLimit := 5, playerInStLucia := 0, numberOfPlayers := 3,
              currentPlayerNumber := 0, rollFile := roll_file_of ['A'] dice_111AAA,
              numberOfRerolls := 0 },
    players := [participant [] 10 1, participant [] 2 0, eliminated_participant 0 0],
    sent := [] }

/-- The dice 111223 with their canonical string. -/
def dice_111223 : DiceSet :=
  { numberOfOnes := 3, numberOfTwos := 2, numberOfThrees := 1, numberOfHs := 0,
    numberOfAs := 0, numberOfPs := 0, rollString := ['1', '1', '1', '2', '2', '3'] }

/-- The dice 3333PP with their canonical string. -/
def dice_3333PP : DiceSet :=
  { numberOfOnes := 0, numberOfTwos := 0, numberOfThrees := 4, numberOfHs := 0,
    numberOfAs := 0, numberOfPs := 2, rollString := ['3', '3', '3', '3', 'P', 'P'] }

/-- The dice PPPPPP with their canonical string. -/
def dice_PPPPPP : DiceSet :=
  { numberOfOnes := 0, numberOfTwos := 0, numberOfThrees := 0, numberOfHs := 0,
    numberOfAs := 0, numberOfPs := 6, rollString := ['P', 'P', 'P', 'P', 'P', 'P'] }

/-- A game of two participants with score limit 5 and the given roll sequence in which
participant 0, with 1 point, holds the territory and will answer `keepall`. -/
def holding_hub (rolls : List Char) : Hub :=
  { game := { scoreLimit := 5, playerInStLucia := 0, numberOfPlayers := 2,
              currentPlayerNumber := 0,
              rollFile := roll_file_of rolls (reset_dice_set dice_111222),
              numberOfRerolls := 0 },
    players := [participant (kw_keepall ++ [NL]) 10 1, participant [] 10 0],
    sent := [] }

/-- The state in which `get_player_roll` leaves the hub in the turn of `activePlayer` (the
starting state when it does not return). -/
def state_after_roll (junk : Nat → Int) (hub : Hub) (activePlayer : Nat) : Hub :=
  match get_player_roll (fun k => junk (k + 1)) (start_turn (junk 0) hub activePlayer)
      activePlayer with
  | some out => out.hub
  | none => hub

/-- The state in which `attack` leaves the hub in the turn of `activePlayer`. -/
def state_after_attack (junk : Nat → Int) (hub : Hub) (activePlayer : Nat) : Hub :=
  (attack (heal (state_after_roll junk hub activePlayer) activePlayer
    (state_after_roll junk hub activePlayer).game.rollFile.latestDice.numberOfHs)
    activePlayer).hub

/-! ## Further source functions and notions for the statements on the roll source, the dice
strings and the message splitter -/

/-- The first `count` calls of `get_next_die` on a roll file: the dice returned, first call
first, and the roll file after the last call. -/
def draw_dice : Nat → RollFile → List Char × RollFile
  | 0, rollFile => ([], rollFile)
  | count + 1, rollFile =>
      ((get_next_die rollFile).1 :: (draw_dice count (get_next_die rollFile).2).1,
       (draw_dice count (get_next_die rollFile).2).2)

/-- A roll file with the sequence `abc` of three distinct faces `1`, `H`, `P` and cursor 0. -/
def rolls_1HP : RollFile := roll_file_of ['1', 'H', 'P'] (reset_dice_set dice_111222)

/-- All six counters of a dice set are at least 0. -/
def DiceSet.nonneg (diceSet : DiceSet) : Prop :=
  0 ≤ diceSet.numberOfOnes ∧ 0 ≤ diceSet.numberOfTwos ∧ 0 ≤ diceSet.numberOfThrees ∧
    0 ≤ diceSet.numberOfHs ∧ 0 ≤ diceSet.numberOfAs ∧ 0 ≤ diceSet.numberOfPs

instance (diceSet : DiceSet) : Decidable diceSet.nonneg := by
  unfold DiceSet.nonneg
  infer_instance

/-- The start of a game of two participants with score limit 5 and the given roll sequence,
the territory empty; participant 0 has the given bytes pending. -/
def replying_hub (rolls : List Char) (reply : List Char) : Hub :=
  { game := { scoreLimit := 5, playerInStLucia := EMPTY_STLUCIA, numberOfPlayers := 2,
              currentPlayerNumber := 0,
              rollFile := roll_file_of rolls (reset_dice_set dice_111222),
              numberOfRerolls := 0 },
    players := [participant reply 10 0, participant [] 10 0],
    sent := [] }

/-- The part of a line before its terminator: the characters before the first NUL or
newline (the whole line when it has neither). -/
def line_body (message : List Char) : List Char :=
  message.takeWhile (fun c => decide (c ≠ NUL) && decide (c ≠ NL))

/-- The reading loop of `create_roll_file` on the characters of the file still to be read,
`rolls` being the dice stored so far (`index` is their number): `none` when the loop reaches
`exit_program(game, players, INVALID_FILE)`, otherwise the dice stored when the end of the
file is met. -/
def read_roll_file : List Char → List Char → Option (List Char)
  | [], rolls => if rolls.length = 0 then none else some rolls
  | c :: rest, rolls =>
      if c = NL then read_roll_file rest rolls
      else if c = '1' ∨ c = '2' ∨ c = '3' ∨ c = 'H' ∨ c = 'A' ∨ c = 'P' then
        read_roll_file rest (rolls ++ [c])
      else none

/-- Function `create_roll_file` of `hub.c`; `content` is what the file holds, `none` when
`fopen` fails. -/
def create_roll_file (hub : Hub) (content : Option (List Char)) : Outcome Unit :=
  match content with
  | none => exit_program hub ExitCodes.OPEN_ERROR
  | some chars =>
      match read_roll_file chars [] with
      | none => exit_program hub ExitCodes.INVALID_FILE
      | some rolls =>
          Outcome.ret () (set_rollFile hub
            { hub.game.rollFile with index := 0, size := rolls.length, diceRolls := rolls })

/-- A roll-file content that `create_roll_file` is to accept: every character other than a
newline is one of the six faces, and there is at least one such character. -/
def legal_roll_content (content : List Char) : Prop :=
  (∀ c ∈ content, c ≠ NL → c ∈ faces) ∧ ∃ c ∈ content, c ≠ NL

instance (content : List Char) : Decidable (legal_roll_content content) := by
  unfold legal_roll_content
  infer_instance

/-- The content without its newlines, in the original order. -/
def without_newlines (content : List Char) : List Char :=
  content.filter (fun c => decide (c ≠ NL))

/-! ## The participant's check of a `points` line (`player.c`) -/

def MAX_PLAYERS : Nat := 26
def LABEL_LENGTH : Nat := 1
def POINTS_MESSAGE_SIZE : Int := 3
def POINTS_PLAYER_LABEL_INDEX : Nat := 1
def POINTS_VALUE_INDEX : Nat := 2
def POINTS_VALUE_SIZE : Nat := 1

/-- The word `points`. -/
def kw_points : List Char := ['p', 'o', 'i', 'n', 't', 's']

/-- Function `invalid_label` of `player.c`: the label is below `A` or above the label of the
last participant (characters are compared by their codes).  `main` admits 2 to 26
participants, so `numberOfPlayers - 1` is taken on natural numbers. -/
def invalid_label (label : Char) (numberOfPlayers : Nat) : Bool :=
  decide (label.toNat < 'A'.toNat) ||
    decide (label.toNat > (get_player_label (numberOfPlayers - 1)).toNat)

/-- Function `validate_points` of `player.c`: `true` when the function returns, `false` when
it calls `exit_program(game, players, INVALID_MESSAGE)`. -/
def validate_points (numberOfPlayers : Nat) (commands : List (List Char))
    (numberCommands : Int) : Bool :=
  if (commands.getD POINTS_PLAYER_LABEL_INDEX []).length ≠ LABEL_LENGTH ∨
      invalid_label ((commands.getD POINTS_PLAYER_LABEL_INDEX []).getD 0 NUL)
        numberOfPlayers = true ∨
      (commands.getD POINTS_VALUE_INDEX []).length ≠ POINTS_VALUE_SIZE ∨
      numberCommands ≠ POINTS_MESSAGE_SIZE then false
  else true

/-! ## Further notions for the statements on broadcasts and on whole runs -/

/-- The participants that a broadcast which skips the active participant is meant for: those
whose status is `REMAINING`, other than `activePlayer`, in index order. -/
def other_remaining_players (hub : Hub) (activePlayer : Nat) : List Nat :=
  (List.range hub.game.numberOfPlayers).filter (fun i =>
    decide ((getPlayer hub.players i).status = PlayerStatus.REMAINING) &&
    decide (i ≠ activePlayer))

/-- A participant as `initialise_players` leaves it: not yet connected. -/
def unconnected_participant : Player :=
  { inbox := false, outbox := [], health := STARTING_HEALTH, points := 0, tokens := 0,
    status := PlayerStatus.UNCONNECTED }

/-- The state during `setup_pipes` of a game of two participants when participant 0 has been
connected and participant 1 has not. -/
def half_connected_hub : Hub :=
  { game := { scoreLimit := 5, playerInStLucia := EMPTY_STLUCIA, numberOfPlayers := 2,
              currentPlayerNumber := 0, rollFile := roll_file_of ['A'] dice_111222,
              numberOfRerolls := 0 },
    players := [participant [] 10 0, unconnected_participant],
    sent := [] }


/-! ## The participant process (`player.c`, `eait.c`, `habs.c`, `hass.c`, `mabs.c`)

A participant process keeps globals `game` and `players` of its own, of the same types as
the hub's; they are held in a `Hub` record whose trace is not used.  What the process
writes to its standard output, which is the hub's `outbox` stream of this participant, is
the list `written`, oldest line first.  Diagnostics on `stderr` are not modelled. -/

def ALLOWED_REROLLS : Int := 2
def TURN_MESSAGE_SIZE : Int := 2
def TURN_DICE_ROLL_INDEX : Nat := 1
def REROLLED_MESSAGE_SIZE : Int := 2
def ROLLED_MESSAGE_SIZE : Int := 3
def ROLLED_PLAYER_LABEL_INDEX : Nat := 1
def ROLLED_DICE_ROLL_INDEX : Nat := 2
def ATTACKS_MESSAGE_SIZE : Int := 4
def ATTACKS_PLAYER_LABEL_INDEX : Nat := 1
def ATTACKS_VALUE_INDEX : Nat := 2
def ATTACKS_VALUE_SIZE : Nat := 1
def ATTACKS_MIN : Char := '0'
def ATTACKS_MAX : Char := '6'
def ATTACKS_DIRECTION_INDEX : Nat := 3
def ELIMINATED_MESSAGE_SIZE : Int := 2
def ELIMINATED_PLAYER_LABEL_INDEX : Nat := 1
def CLAIM_MESSAGE_SIZE : Int := 2
def CLAIM_PLAYER_LABEL_INDEX : Nat := 1
def STAY_MESSAGE_SIZE : Int := 1
def WINNER_MESSAGE_SIZE : Int := 2
def WINNER_PLAYER_LABEL_INDEX : Nat := 1
def SHUTDOWN_MESSAGE_SIZE : Int := 1

/-- The constant `REROLL_NUMBER_DICE_THRESHOLD` of `eait.c`. -/
def REROLL_NUMBER_DICE_THRESHOLD : Int := 3

/-- The constant `REROLL_HEALTH_THRESHOLD`, 5 in `eait.c` and in `habs.c`. -/
def REROLL_HEALTH_THRESHOLD : Int := 5

/-- The constant `RETREAT_HEALTH_THRESHOLD` of `eait.c`. -/
def RETREAT_HEALTH_THRESHOLD_eait : Int := 5

/-- The constant `RETREAT_HEALTH_THRESHOLD` of `habs.c`. -/
def RETREAT_HEALTH_THRESHOLD_habs : Int := 4

/-- The constant `RETREAT_REMAINING_PLAYERS_THRESHOLD` of `habs.c`. -/
def RETREAT_REMAINING_PLAYERS_THRESHOLD : Int := 2

def kw_turn : List Char := ['t', 'u', 'r', 'n']
def kw_rerolled : List Char := ['r', 'e', 'r', 'o', 'l', 'l', 'e', 'd']
def kw_rolled : List Char := ['r', 'o', 'l', 'l', 'e', 'd']
def kw_attacks : List Char := ['a', 't', 't', 'a', 'c', 'k', 's']
def kw_eliminated : List Char := ['e', 'l', 'i', 'm', 'i', 'n', 'a', 't', 'e', 'd']
def kw_claim : List Char := ['c', 'l', 'a', 'i', 'm']
def kw_stay_query : List Char := ['s', 't', 'a', 'y', '?']
def kw_winner : List Char := ['w', 'i', 'n', 'n', 'e', 'r']
def kw_shutdown : List Char := ['s', 'h', 'u', 't', 'd', 'o', 'w', 'n']
def kw_in : List Char := ['i', 'n']
def kw_out : List Char := ['o', 'u', 't']

/-- The enum `ExitCodes` of `player.c`. -/
inductive PlayerExitCodes where
  | SUCCESS
  | INVALID_ARGUMENT_COUNT
  | INVALID_PLAYER_COUNT
  | INVALID_ID
  | PIPING_FAILURE
  | INVALID_MESSAGE
deriving DecidableEq, Repr

/-- The numeric value of an exit status of the participant process. -/
def PlayerExitCodes.code : PlayerExitCodes → Nat
  | .SUCCESS => 0
  | .INVALID_ARGUMENT_COUNT => 1
  | .INVALID_PLAYER_COUNT => 2
  | .INVALID_ID => 3
  | .PIPING_FAILURE => 4
  | .INVALID_MESSAGE => 5

/-- The four programs built from `player.c`; each supplies its own `reroll` and
`retreat`. -/
inductive Strategy where
  | eait
  | habs
  | hass
  | mabs
deriving DecidableEq, Repr

/-- The state of a participant process: its globals `game` and `players` (`shadow`) and the
lines written to its standard output. -/
structure Process where
  shadow : Hub
  written : List (List Char)
deriving DecidableEq, Repr

/-- Result of a function of `player.c` that may call `exit_program`. -/
inductive Handled where
  | ret (process : Process)
  | exit (status : PlayerExitCodes) (process : Process)
deriving DecidableEq, Repr

/-- The state a handling ends in. -/
def Handled.process : Handled → Process
  | .ret p => p
  | .exit _ p => p

/-- The status with which the process exits, if it does. -/
def Handled.status? : Handled → Option PlayerExitCodes
  | .ret _ => none
  | .exit status _ => some status

/-- Function `get_player_number` of `shared.c`. -/
def get_player_number (playerLabel : Char) : Int :=
  (playerLabel.toNat : Int) - ('A'.toNat : Int)

/-- Function `players_remaining` of `shared.c`. -/
def players_remaining (hub : Hub) : Int :=
  forLoop hub.game.numberOfPlayers (fun i tally =>
    if (getPlayer hub.players i).status ≠ PlayerStatus.ELIMINATED then tally + 1 else tally)
    (0 : Int)

/-- The digits loop of the library call `atoi`. -/
def atoi_digits : List Char → Int → Int
  | [], value => value
  | c :: rest, value =>
      if '0'.toNat ≤ c.toNat ∧ c.toNat ≤ '9'.toNat then
        atoi_digits rest (value * 10 + ((c.toNat : Int) - ('0'.toNat : Int)))
      else value

/-- The library call `atoi`: blanks are skipped, a sign is read, and the decimal digits that
follow give the value. -/
def atoi (text : List Char) : Int :=
  match text.dropWhile (fun c => c = ' ' || c = NL || (9 ≤ c.toNat && c.toNat ≤ 13)) with
  | '-' :: rest => - atoi_digits rest 0
  | '+' :: rest => atoi_digits rest 0
  | rest => atoi_digits rest 0

/-- The state with `game->rollFile->rerollDice` replaced. -/
def set_rerollDice (hub : Hub) (diceSet : DiceSet) : Hub :=
  set_rollFile hub { hub.game.rollFile with rerollDice := diceSet }

/-- A write `fprintf(stdout, line); fflush(stdout)`. -/
def write_line (process : Process) (line : List Char) : Process :=
  { process with written := process.written ++ [line] }

/-- The expression `players[game->currentPlayerNumber]->health`. -/
def own_health (hub : Hub) : Int :=
  (getPlayer hub.players hub.game.currentPlayerNumber.toNat).health

/-- Function `act_on_dice` of `player.c`. -/
def act_on_dice (process : Process) : Process :=
  { shadow := heal process.shadow process.shadow.game.currentPlayerNumber.toNat
      process.shadow.game.rollFile.latestDice.numberOfHs,
    written := process.written ++ [kw_keepall ++ [NL]] }

/-- The last statement of each of the four `reroll` functions: `keepall` through
`act_on_dice` when the reroll dice sum to 0, otherwise the line `reroll <string of the
reroll dice>`. -/
def send_reroll (process : Process) : Process :=
  if sum_dice_set process.shadow.game.rollFile.rerollDice = 0 then act_on_dice process
  else
    { shadow := set_rerollDice process.shadow
        (create_dice_set_string process.shadow.game.rollFile.rerollDice),
      written := process.written ++
        [kw_reroll ++ [' '] ++
          (create_dice_set_string process.shadow.game.rollFile.rerollDice).rollString ++
          [NL]] }

/-- Function `reroll` of `eait.c`. -/
def reroll_eait (process : Process) : Process :=
  let latest := process.shadow.game.rollFile.latestDice
  let dice0 := process.shadow.game.rollFile.rerollDice
  let dice1 := if latest.numberOfOnes < REROLL_NUMBER_DICE_THRESHOLD then
      { dice0 with numberOfOnes := latest.numberOfOnes } else dice0
  let dice2 := if latest.numberOfTwos < REROLL_NUMBER_DICE_THRESHOLD then
      { dice1 with numberOfTwos := latest.numberOfTwos } else dice1
  let dice3 := if latest.numberOfThrees < REROLL_NUMBER_DICE_THRESHOLD then
      { dice2 with numberOfThrees := latest.numberOfThrees } else dice2
  let dice4 := if own_health process.shadow > REROLL_HEALTH_THRESHOLD then
      { dice3 with numberOfHs := latest.numberOfHs } else dice3
  let dice5 := { dice4 with numberOfAs := latest.numberOfAs, numberOfPs := latest.numberOfPs }
  send_reroll { process with shadow := set_rerollDice process.shadow dice5 }

/-- Function `reroll` of `habs.c`. -/
def reroll_habs (process : Process) : Process :=
  let latest := process.shadow.game.rollFile.latestDice
  let dice0 := process.shadow.game.rollFile.rerollDice
  let dice1 := if own_health process.shadow < REROLL_HEALTH_THRESHOLD then
      { dice0 with numberOfAs := latest.numberOfAs } else dice0
  send_reroll { process with shadow := set_rerollDice process.shadow dice1 }

/-- Function `reroll` of `hass.c`. -/
def reroll_hass (process : Process) : Process :=
  let game := process.shadow.game
  let latest := game.rollFile.latestDice
  let dice0 := game.rollFile.rerollDice
  let dice1 :=
    if game.currentPlayerNumber = game.playerInStLucia then
      { dice0 with numberOfAs := latest.numberOfAs }
    else
      if game.playerInStLucia ≠ EMPTY_STLUCIA ∧
          latest.numberOfAs ≥
            (getPlayer process.shadow.players game.playerInStLucia.toNat).health then
        { dice0 with numberOfPs := latest.numberOfPs }
      else
        { dice0 with numberOfPs := latest.numberOfPs, numberOfAs := latest.numberOfAs }
  let dice2 := { dice1 with
    numberOfOnes := latest.numberOfOnes, numberOfTwos := latest.numberOfTwos,
    numberOfThrees := latest.numberOfThrees, numberOfHs := latest.numberOfHs }
  send_reroll { process with shadow := set_rerollDice process.shadow dice2 }

/-- Function `reroll` of `mabs.c`. -/
def reroll_mabs (process : Process) : Process :=
  let game := process.shadow.game
  let latest := game.rollFile.latestDice
  let dice0 := game.rollFile.rerollDice
  let dice1 :=
    if game.currentPlayerNumber = game.playerInStLucia then
      { dice0 with numberOfHs := latest.numberOfHs }
    else { dice0 with numberOfAs := latest.numberOfAs }
  let dice2 := { dice1 with
    numberOfOnes := latest.numberOfOnes, numberOfTwos := latest.numberOfTwos,
    numberOfPs := latest.numberOfPs }
  send_reroll { process with shadow := set_rerollDice process.shadow dice2 }

/-- The function `reroll` of the program built with the given strategy file. -/
def reroll (strategy : Strategy) (process : Process) : Process :=
  match strategy with
  | Strategy.eait => reroll_eait process
  | Strategy.habs => reroll_habs process
  | Strategy.hass => reroll_hass process
  | Strategy.mabs => reroll_mabs process

/-- The function `retreat` of the program built with the given strategy file. -/
def retreat (strategy : Strategy) (hub : Hub) : Bool :=
  match strategy with
  | Strategy.eait => decide (own_health hub < RETREAT_HEALTH_THRESHOLD_eait)
  | Strategy.habs =>
      if players_remaining hub = RETREAT_REMAINING_PLAYERS_THRESHOLD then false
      else decide (own_health hub < RETREAT_HEALTH_THRESHOLD_habs)
  | Strategy.hass => false
  | Strategy.mabs => true

/-- The first statements of `handle_turn`: both dice sets are reset and the loop adds the six
characters of `roll` to the latest dice. -/
def store_roll (roll : List Char) (hub : Hub) : Hub :=
  let hub1 := set_latestDice hub (reset_dice_set hub.game.rollFile.latestDice)
  let hub2 := set_rerollDice hub1 (reset_dice_set hub1.game.rollFile.rerollDice)
  set_latestDice hub2
    (forLoop DICE_SET_SIZE (fun i dice => add_die_to_dice_set dice (roll.getD i NUL))
      hub2.game.rollFile.latestDice)

/-- Function `handle_turn` of `player.c`. -/
def handle_turn (strategy : Strategy) (roll : List Char) (process : Process) : Process :=
  if (store_roll roll process.shadow).game.numberOfRerolls ≥ ALLOWED_REROLLS then
    act_on_dice { process with shadow := store_roll roll process.shadow }
  else reroll strategy { process with shadow := store_roll roll process.shadow }

/-- The state with `game->numberOfRerolls` replaced. -/
def set_numberOfRerolls (hub : Hub) (numberOfRerolls : Int) : Hub :=
  { hub with game := { hub.game with numberOfRerolls := numberOfRerolls } }

/-- Function `validate_turn` of `player.c`. -/
def validate_turn (strategy : Strategy) (commands : List (List Char)) (numberCommands : Int)
    (process : Process) : Handled :=
  if commands.getD 0 [] = kw_turn then
    let process1 := { process with shadow := set_numberOfRerolls process.shadow 0 }
    if (commands.getD TURN_DICE_ROLL_INDEX []).length ≠ DICE_SET_SIZE ∨
        numberCommands ≠ TURN_MESSAGE_SIZE ∨
        invalid_roll (commands.getD TURN_DICE_ROLL_INDEX []) = true then
      Handled.exit PlayerExitCodes.INVALID_MESSAGE process1
    else Handled.ret (handle_turn strategy (commands.getD TURN_DICE_ROLL_INDEX []) process1)
  else Handled.ret process

/-- Function `validate_rerolled` of `player.c`. -/
def validate_rerolled (strategy : Strategy) (commands : List (List Char))
    (numberCommands : Int) (process : Process) : Handled :=
  if (commands.getD REROLLED_DICE_ROLL_INDEX []).length ≠ DICE_SET_SIZE ∨
      numberCommands ≠ REROLLED_MESSAGE_SIZE ∨
      invalid_roll (commands.getD REROLLED_DICE_ROLL_INDEX []) = true then
    Handled.exit PlayerExitCodes.INVALID_MESSAGE process
  else
    Handled.ret (handle_turn strategy (commands.getD REROLLED_DICE_ROLL_INDEX [])
      { process with
        shadow := set_numberOfRerolls process.shadow
          (process.shadow.game.numberOfRerolls + 1) })

/-- Function `validate_rolled` of `player.c`. -/
def validate_rolled (commands : List (List Char)) (numberCommands : Int)
    (process : Process) : Handled :=
  if (commands.getD ROLLED_PLAYER_LABEL_INDEX []).length ≠ LABEL_LENGTH ∨
      invalid_label ((commands.getD ROLLED_PLAYER_LABEL_INDEX []).getD 0 NUL)
        process.shadow.game.numberOfPlayers = true ∨
      (commands.getD ROLLED_DICE_ROLL_INDEX []).length ≠ DICE_SET_SIZE ∨
      numberCommands ≠ ROLLED_MESSAGE_SIZE ∨
      invalid_roll (commands.getD ROLLED_DICE_ROLL_INDEX []) = true then
    Handled.exit PlayerExitCodes.INVALID_MESSAGE process
  else
    let healing := forLoop DICE_SET_SIZE (fun i healing =>
      if (commands.getD ROLLED_DICE_ROLL_INDEX []).getD i NUL = 'H' then healing + 1
      else healing) (0 : Int)
    Handled.ret { process with
      shadow := heal process.shadow
        (get_player_number ((commands.getD ROLLED_PLAYER_LABEL_INDEX []).getD 0 NUL)).toNat
        healing }

/-- Function `validate_attacks` of `player.c`. -/
def validate_attacks (commands : List (List Char)) (numberCommands : Int)
    (process : Process) : Handled :=
  if (commands.getD ATTACKS_PLAYER_LABEL_INDEX []).length ≠ LABEL_LENGTH ∨
      invalid_label ((commands.getD ATTACKS_PLAYER_LABEL_INDEX []).getD 0 NUL)
        process.shadow.game.numberOfPlayers = true ∨
      (commands.getD ATTACKS_VALUE_INDEX []).length ≠ ATTACKS_VALUE_SIZE ∨
      numberCommands ≠ ATTACKS_MESSAGE_SIZE ∨
      ((commands.getD ATTACKS_VALUE_INDEX []).getD 0 NUL).toNat < ATTACKS_MIN.toNat ∨
      ((commands.getD ATTACKS_VALUE_INDEX []).getD 0 NUL).toNat > ATTACKS_MAX.toNat then
    Handled.exit PlayerExitCodes.INVALID_MESSAGE process
  else if commands.getD ATTACKS_DIRECTION_INDEX [] = kw_in then
    if process.shadow.game.playerInStLucia = EMPTY_STLUCIA then Handled.ret process
    else
      Handled.ret { process with
        shadow := damage_player process.shadow process.shadow.game.playerInStLucia.toNat
          (atoi (commands.getD ATTACKS_VALUE_INDEX [])) }
  else if commands.getD ATTACKS_DIRECTION_INDEX [] = kw_out then
    Handled.ret { process with
      shadow := forLoop process.shadow.game.numberOfPlayers (fun i acc =>
        if acc.game.playerInStLucia = (i : Int) then acc
        else damage_player acc i (atoi (commands.getD ATTACKS_VALUE_INDEX [])))
        process.shadow }
  else Handled.exit PlayerExitCodes.INVALID_MESSAGE process

/-- Function `validate_eliminated` of `player.c`. -/
def validate_eliminated (commands : List (List Char)) (numberCommands : Int)
    (process : Process) : Handled :=
  if (commands.getD ELIMINATED_PLAYER_LABEL_INDEX []).length ≠ LABEL_LENGTH ∨
      invalid_label ((commands.getD ELIMINATED_PLAYER_LABEL_INDEX []).getD 0 NUL)
        process.shadow.game.numberOfPlayers = true ∨
      numberCommands ≠ ELIMINATED_MESSAGE_SIZE then
    Handled.exit PlayerExitCodes.INVALID_MESSAGE process
  else
    let player := get_player_number
      ((commands.getD ELIMINATED_PLAYER_LABEL_INDEX []).getD 0 NUL)
    let process1 : Process := { process with
      shadow := { process.shadow with
        players := setPlayer process.shadow.players player.toNat
          (fun p => { p with status := PlayerStatus.ELIMINATED }) } }
    if player = process1.shadow.game.currentPlayerNumber then
      Handled.exit PlayerExitCodes.SUCCESS process1
    else Handled.ret process1

/-- Function `validate_claim` of `player.c`. -/
def validate_claim (commands : List (List Char)) (numberCommands : Int)
    (process : Process) : Handled :=
  if (commands.getD CLAIM_PLAYER_LABEL_INDEX []).length ≠ LABEL_LENGTH ∨
      invalid_label ((commands.getD CLAIM_PLAYER_LABEL_INDEX []).getD 0 NUL)
        process.shadow.game.numberOfPlayers = true ∨
      numberCommands ≠ CLAIM_MESSAGE_SIZE then
    Handled.exit PlayerExitCodes.INVALID_MESSAGE process
  else
    Handled.ret { process with
      shadow := { process.shadow with
        game := { process.shadow.game with
          playerInStLucia := get_player_number
            ((commands.getD CLAIM_PLAYER_LABEL_INDEX []).getD 0 NUL) } } }

/-- Function `validate_stay` of `player.c`. -/
def validate_stay (strategy : Strategy) (numberCommands : Int) (process : Process) :
    Handled :=
  if numberCommands ≠ STAY_MESSAGE_SIZE then
    Handled.exit PlayerExitCodes.INVALID_MESSAGE process
  else if retreat strategy process.shadow = true then
    Handled.ret (write_line process (kw_go ++ [NL]))
  else Handled.ret (write_line process (kw_stay ++ [NL]))

/-- Function `validate_winner` of `player.c`. -/
def validate_winner (commands : List (List Char)) (numberCommands : Int)
    (process : Process) : Handled :=
  if (commands.getD WINNER_PLAYER_LABEL_INDEX []).length ≠ LABEL_LENGTH ∨
      invalid_label ((commands.getD WINNER_PLAYER_LABEL_INDEX []).getD 0 NUL)
        process.shadow.game.numberOfPlayers = true ∨
      numberCommands ≠ WINNER_MESSAGE_SIZE then
    Handled.exit PlayerExitCodes.INVALID_MESSAGE process
  else Handled.exit PlayerExitCodes.SUCCESS process

/-- Function `validate_shutdown` of `player.c`. -/
def validate_shutdown (numberCommands : Int) (process : Process) : Handled :=
  if numberCommands ≠ SHUTDOWN_MESSAGE_SIZE then
    Handled.exit PlayerExitCodes.INVALID_MESSAGE process
  else Handled.exit PlayerExitCodes.SUCCESS process

/-- Function `handle_message` of `player.c`. -/
def handle_message (strategy : Strategy) (message : List Char) (process : Process) :
    Handled :=
  let numberCommands := (interpret_message message).1
  let commands := (interpret_message message).2
  if commands.getD 0 [] = kw_turn then
    validate_turn strategy commands numberCommands process
  else if commands.getD 0 [] = kw_rerolled then
    validate_rerolled strategy commands numberCommands process
  else if commands.getD 0 [] = kw_rolled then
    validate_rolled commands numberCommands process
  else if commands.getD 0 [] = kw_points then
    if validate_points process.shadow.game.numberOfPlayers commands numberCommands = true then
      Handled.ret process
    else Handled.exit PlayerExitCodes.INVALID_MESSAGE process
  else if commands.getD 0 [] = kw_attacks then
    validate_attacks commands numberCommands process
  else if commands.getD 0 [] = kw_eliminated then
    validate_eliminated commands numberCommands process
  else if commands.getD 0 [] = kw_claim then
    validate_claim commands numberCommands process
  else if commands.getD 0 [] = kw_stay_query then
    validate_stay strategy numberCommands process
  else if commands.getD 0 [] = kw_winner then
    validate_winner commands numberCommands process
  else if commands.getD 0 [] = kw_shutdown then
    validate_shutdown numberCommands process
  else Handled.exit PlayerExitCodes.INVALID_MESSAGE process

/-- Successive calls of `handle_message` on the lines received, first line first, as the
loop of `initiate_response_loop` makes them; an exit ends the sequence. -/
def handle_messages (strategy : Strategy) : List (List Char) → Process → Handled
  | [], process => Handled.ret process
  | message :: later, process =>
      match handle_message strategy message process with
      | Handled.exit status process1 => Handled.exit status process1
      | Handled.ret process1 => handle_messages strategy later process1

/-- A participant process at the start: participant `own` of `numberOfPlayers`, every health
10, the territory empty, the dice sets reset, nothing written yet. -/
def fresh_process (numberOfPlayers : Nat) (own : Nat) : Process :=
  { shadow :=
      { game := { scoreLimit := 0, playerInStLucia := EMPTY_STLUCIA,
                  numberOfPlayers := numberOfPlayers, currentPlayerNumber := (own : Int),
                  rollFile := roll_file_of [] (reset_dice_set dice_111222),
                  numberOfRerolls := 0 },
        players := initialise_players numberOfPlayers,
        sent := [] },
    written := [] }

/-- The state with `game->rollFile->latestDice` of a participant process replaced. -/
def with_latest (process : Process) (diceSet : DiceSet) : Process :=
  { process with shadow := set_latestDice process.shadow diceSet }

/-- A dice string as the hub sends it after `turn`, `rerolled` and `rolled`: six characters,
each one of the six faces. -/
def valid_roll (dice : List Char) : Prop :=
  dice.length = DICE_SET_SIZE ∧ ∀ c ∈ dice, c ∈ faces

instance (dice : List Char) : Decidable (valid_roll dice) := by
  unfold valid_roll
  infer_instance

/-- The line starts with `reroll` and a space. -/
def is_reroll_request (line : List Char) : Bool :=
  decide (line.take 7 = kw_reroll ++ [' '])

/-- The ten first words that `handle_message` knows, in the order of its tests, each with
the constant `..._MESSAGE_SIZE` of its line. -/
def message_sizes : List (List Char × Int) :=
  [(kw_turn, TURN_MESSAGE_SIZE), (kw_rerolled, REROLLED_MESSAGE_SIZE),
   (kw_rolled, ROLLED_MESSAGE_SIZE), (kw_points, POINTS_MESSAGE_SIZE),
   (kw_attacks, ATTACKS_MESSAGE_SIZE), (kw_eliminated, ELIMINATED_MESSAGE_SIZE),
   (kw_claim, CLAIM_MESSAGE_SIZE), (kw_stay_query, STAY_MESSAGE_SIZE),
   (kw_winner, WINNER_MESSAGE_SIZE), (kw_shutdown, SHUTDOWN_MESSAGE_SIZE)]

/-- The words whose line carries a participant label as its second field. -/
def labelled_words : List (List Char) :=
  [kw_rolled, kw_points, kw_attacks, kw_eliminated, kw_claim, kw_winner]

/-! ## Further notions for the statements on the sweep, on the shadow copy and on the start
of a turn -/

/-- The state of the sweep of `update_eliminated_players` when its loop has visited the
participants below `k` (the loop of the function, stopped at `k`). -/
def sweep_upto (hub : Hub) (activePlayer : Nat) (k : Nat) : Hub :=
  forLoop k (fun i acc =>
    if (getPlayer acc.players i).status = PlayerStatus.ELIMINATED then acc
    else if (getPlayer acc.players i).health < 1 then
      let acc1 := alert_remaining_players acc activePlayer
        (msg_eliminated (get_player_label i)) false
      { acc1 with
        players := setPlayer acc1.players i
          (fun p => { p with status := PlayerStatus.ELIMINATED }) }
    else acc) hub

/-- The health of every participant, in index order. -/
def healths (hub : Hub) : List Int :=
  hub.players.map (fun p => p.health)

/-- A participant process whose shadow copy is the given state and which has written
nothing. -/
def process_with_shadow (hub : Hub) : Process :=
  { shadow := hub, written := [] }

/-- No face occurs in `subset` more often than the dice set has it. -/
def held (diceSet : DiceSet) (subset : List Char) : Bool :=
  faces.all (fun face => decide ((subset.count face : Int) ≤ diceSet.counter face))

/-- The line that `keep_dice_response` is about to read from the active participant, when it
is a reroll request, names dice that are among the latest dice. -/
def reply_held (hub : Hub) (activePlayer : Nat) : Bool :=
  match fgets MAX_MESSAGE_LENGTH (getPlayer hub.players activePlayer).outbox with
  | none => true
  | some (turnReply, _) =>
      if (interpret_message turnReply).2.getD 0 [] = kw_reroll ∧
          (interpret_message turnReply).1 = 2 then
        held hub.game.rollFile.latestDice
          ((interpret_message turnReply).2.getD REROLLED_DICE_ROLL_INDEX [])
      else true

/-- Every reroll request read in the rounds of `reroll_negotiation` names dice that are among
the latest dice at that moment. -/
def negotiation_held : Nat → (Nat → Int) → Hub → Nat → Bool
  | 0, _, _, _ => true
  | fuel + 1, junk, hub, activePlayer =>
      reply_held hub activePlayer &&
      (match keep_dice_response (junk 0) hub activePlayer with
       | Outcome.ret false hub1 =>
           negotiation_held fuel (fun k => junk (k + 1)) hub1 activePlayer
       | _ => true)

/-- Every reroll request read in `get_player_roll` names dice that are among the latest dice
at that moment. -/
def roll_held (junk : Nat → Int) (hub : Hub) (activePlayer : Nat) : Bool :=
  negotiation_held ((getPlayer hub.players activePlayer).outbox.length + 1) junk
    (send_to (set_latestDice hub (create_dice_set_string hub.game.rollFile.latestDice))
      activePlayer (msg_turn (create_dice_set_string hub.game.rollFile.latestDice).rollString))
    activePlayer

/-- Every reroll request read in the turn of `activePlayer` that starts in `hub` names dice
that are among the latest dice at that moment. -/
def turn_held (junk : Nat → Int) (hub : Hub) (activePlayer : Nat) : Bool :=
  roll_held (fun k => junk (k + 1)) (start_turn (junk 0) hub activePlayer) activePlayer

/-- The state and the active participant with which the outer loop of `run_game_from` starts
its pass number `t` (the first pass is number 0), if the run gets that far. -/
def turn_start : Nat → (Nat → Nat → Int) → Hub → Nat → Option (Hub × Nat)
  | 0, _, hub, activePlayer => some (hub, activePlayer)
  | t + 1, junk, hub, activePlayer =>
      match turn (junk 0) hub activePlayer with
      | some (Outcome.ret false hub1) =>
          match advance_player hub1.game.numberOfPlayers hub1 activePlayer with
          | none => none
          | some next => turn_start t (fun s => junk (s + 1)) hub1 next
      | _ => none

/-- In pass number `s` of the run of `run_game` from `hub`, if the run gets that far, every
reroll request names dice that are among the latest dice at that moment. -/
def turn_held_at (junk : Nat → Nat → Int) (hub : Hub) (s : Nat) : Bool :=
  match turn_start s junk hub 0 with
  | none => true
  | some (hubs, activePlayer) => turn_held (junk s) hubs activePlayer

/-- The state in which `run_game` is entered: at least one participant, as many as the array
has, each with health 10 and none `ELIMINATED`, and the territory empty. -/
def initial_state (hub : Hub) : Prop :=
  1 ≤ hub.game.numberOfPlayers ∧ hub.game.numberOfPlayers = hub.players.length ∧
    hub.game.playerInStLucia = EMPTY_STLUCIA ∧
    ∀ p ∈ hub.players, p.health = STARTING_HEALTH ∧ p.status ≠ PlayerStatus.ELIMINATED

instance (hub : Hub) : Decidable (initial_state hub) := by
  unfold initial_state
  infer_instance

/-- What holds at the start of every pass of the outer loop of `run_game`: the array has
`numberOfPlayers` entries, every participant that is not `ELIMINATED` has health 1 or more,
the territory is empty or held by a participant that is not `ELIMINATED`, and the active
participant is not `ELIMINATED`. -/
def turn_invariant (hub : Hub) (activePlayer : Nat) : Prop :=
  hub.game.numberOfPlayers = hub.players.length ∧
    (∀ i, i < hub.game.numberOfPlayers →
      (getPlayer hub.players i).status ≠ PlayerStatus.ELIMINATED →
      1 ≤ (getPlayer hub.players i).health) ∧
    (hub.game.playerInStLucia = EMPTY_STLUCIA ∨
      ∃ holder, holder < hub.game.numberOfPlayers ∧
        hub.game.playerInStLucia = (holder : Int) ∧
        (getPlayer hub.players holder).status ≠ PlayerStatus.ELIMINATED) ∧
    activePlayer < hub.game.numberOfPlayers ∧
    (getPlayer hub.players activePlayer).status ≠ PlayerStatus.ELIMINATED

/-- The start of a game of two participants with the roll sequence `1AAAHP`: participant 0
will answer `reroll 1` and `keepall` in its turn and `stay` to a stay query; participant 1
will answer `keepall`. -/
def two_turn_hub : Hub :=
  { game := { scoreLimit := 5, playerInStLucia := EMPTY_STLUCIA, numberOfPlayers := 2,
              currentPlayerNumber := 0,
              rollFile := roll_file_of ['1', 'A', 'A', 'A', 'H', 'P']
                (reset_dice_set dice_111222),
              numberOfRerolls := 0 },
    players :=
      [participant (kw_reroll ++ [' ', '1', NL] ++ kw_keepall ++ [NL] ++ kw_stay ++ [NL]) 10 0,
       participant (kw_keepall ++ [NL]) 10 0],
    sent := [] }

/-- The state in which pass number `t` of the run of `run_game` from `hub` starts (`hub`
itself when the run does not get that far). -/
def state_at_turn (junk : Nat → Nat → Int) (hub : Hub) (t : Nat) : Hub :=
  match turn_start t junk hub 0 with
  | some (hubt, _) => hubt
  | none => hub

/-! ## The end of the hub process, and the bounds of the buffers and integers of the C code

`exit_program` of `hub.c` calls `close_remaining_players` before `exit`: after the broadcast
of `shutdown` that function runs `alarm(2); waitpid(players[i]->pid, ...)` for every
participant in index order.  `main` installs handlers for `SIGINT` and `SIGPIPE` only, so a
`SIGALRM` that arrives while a `waitpid` is still blocked ends the hub.  An `Outcome.exit`
records the call of `exit_program` with its status and the state after the broadcast;
`process_ending` gives the way the process ends after that call. -/

/-- How the hub process ends: by `exit(status)`, or killed by a signal it does not handle. -/
inductive ProcessEnd where
  | exited (status : Nat)
  | killed (signal : Nat)
deriving DecidableEq, Repr

/-- The number of the signal `SIGALRM`. -/
def SIGALRM : Nat := 14

/-- The loop `for (i = 0; i < numberOfPlayers; i++) { alarm(2); waitpid(players[i]->pid, ...) }`
of `close_remaining_players`.  `reaped i` tells whether the `waitpid` on participant `i`
returns before the alarm armed for it goes off (the child has ended, or ends within the two
seconds).  The result is `true` when the loop runs to its end, `false` when a `SIGALRM`
arrives during one of the waits. -/
def wait_for_children (hub : Hub) (reaped : Nat → Bool) : Bool :=
  forLoop hub.game.numberOfPlayers (fun i alive => alive && reaped i) true

/-- The way the hub process ends in a call `exit_program(game, players, exitStatus)`: for
`PLAYER_QUIT` and above and for `SUCCESS` the children are waited for, and the hub reaches
`exit(exitStatus)` only when no `SIGALRM` arrives during a wait; for the other statuses
nothing is waited for. -/
def process_ending (hub : Hub) (exitStatus : ExitCodes) (reaped : Nat → Bool) : ProcessEnd :=
  if exitStatus.code ≥ ExitCodes.PLAYER_QUIT.code ∨ exitStatus = ExitCodes.SUCCESS then
    if wait_for_children hub reaped = true then ProcessEnd.exited exitStatus.code
    else ProcessEnd.killed SIGALRM
  else ProcessEnd.exited exitStatus.code

/-- The way the process ends when the outcome is a call of `exit_program`. -/
def Outcome.ending? {α : Type} (out : Outcome α) (reaped : Nat → Bool) : Option ProcessEnd :=
  match out with
  | Outcome.ret _ _ => none
  | Outcome.exit status hub => some (process_ending hub status reaped)

/-- The line fits the array `char commands[MAX_COMMANDS][MAX_MESSAGE_LENGTH]` into which
`interpret_message` splits it: at most `MAX_COMMANDS` fields, each with its terminating NUL
inside `MAX_MESSAGE_LENGTH` bytes.  For such lines the list of fields of the embedding is the
content of the array; for other lines the C function writes outside the array. -/
def fits_commands (line : List Char) : Prop :=
  (interpret_message line).1 ≤ (MAX_COMMANDS : Int) ∧
    ∀ field ∈ (interpret_message line).2, field.length < MAX_MESSAGE_LENGTH

instance (line : List Char) : Decidable (fits_commands line) := by
  unfold fits_commands
  infer_instance

/-- The next line that `fgets` would read from the stream, if there is one, fits the array
`commands`. -/
def next_line_fits (stream : List Char) : Bool :=
  match fgets MAX_MESSAGE_LENGTH stream with
  | none => true
  | some (line, _) => decide (fits_commands line)

/-- The largest value of a C `int`. -/
def INT_MAX : Int := 2147483647

/-- The smallest value of a C `int`. -/
def INT_MIN : Int := -2147483648

/-- The value is one that a C `int` can hold. -/
def fits_int (x : Int) : Prop := INT_MIN ≤ x ∧ x ≤ INT_MAX

instance (x : Int) : Decidable (fits_int x) := by
  unfold fits_int
  infer_instance

/-- The value that a C `int` holds after an addition whose exact result is `x`, on a machine
where `int` has 32 bits and additions wrap around (two's complement). -/
def wrap_int (x : Int) : Int :=
  (x - INT_MIN) % 4294967296 + INT_MIN

/-- Two participants, the first with `INT_MAX` points; the latest dice are 111223, which score
one point. -/
def max_points_hub : Hub :=
  { game := { scoreLimit := INT_MAX, playerInStLucia := EMPTY_STLUCIA, numberOfPlayers := 2,
              currentPlayerNumber := 0, rollFile := roll_file_of ['A'] dice_111223,
              numberOfRerolls := 0 },
    players := [participant [] 10 INT_MAX, participant [] 10 0],
    sent := [] }

/-! # Theorems -/

/-! ## Auxiliary notions used in the statements -/

/-! ## Lemmas on dice sets -/

theorem mem_faces_iff (c : Char) :
    c ∈ faces ↔ c = '1' ∨ c = '2' ∨ c = '3' ∨ c = 'H' ∨ c = 'A' ∨ c = 'P' := by
  simp [faces]

theorem invalid_roll_eq_false_iff (s : List Char) :
    invalid_roll s = false ↔ ∀ c ∈ s, c ∈ faces := by
  simp only [invalid_roll, List.any_eq_false, mem_faces_iff]
  constructor
  · intro h c hc
    have := h c hc
    simp only [Bool.and_eq_true, decide_eq_true_eq, ne_eq, not_and, Decidable.not_not] at this
    tauto
  · intro h c hc
    have := h c hc
    simp only [Bool.and_eq_true, decide_eq_true_eq, ne_eq, not_and, Decidable.not_not]
    tauto

theorem counter_update_dice_set (diceSet : DiceSet) (die : Char) (amount : Int) (face : Char)
    (hface : face ∈ faces) :
    (update_dice_set diceSet die amount).counter face =
      diceSet.counter face + (if die = face then amount else 0) := by
  rw [mem_faces_iff] at hface
  unfold update_dice_set
  rcases hface with h | h | h | h | h | h <;> subst h <;>
    split_ifs <;> simp_all [DiceSet.counter]

theorem sum_update_dice_set (diceSet : DiceSet) (die : Char) (amount : Int) :
    sum_dice_set (update_dice_set diceSet die amount) =
      sum_dice_set diceSet + (if die ∈ faces then amount else 0) := by
  unfold update_dice_set
  split_ifs with h1 h2 h3 h4 h5 h6 h7 <;> simp_all [sum_dice_set, faces] <;> omega

theorem rollString_update_dice_set (diceSet : DiceSet) (die : Char) (amount : Int) :
    (update_dice_set diceSet die amount).rollString = diceSet.rollString := by
  unfold update_dice_set
  split_ifs <;> rfl

theorem counter_foldl_remove (s : List Char) (diceSet : DiceSet) (face : Char)
    (hface : face ∈ faces) :
    (s.foldl remove_die_from_dice_set diceSet).counter face =
      diceSet.counter face - (s.count face : Int) := by
  induction s generalizing diceSet with
  | nil => simp
  | cons c s ih =>
    rw [List.foldl_cons, ih, remove_die_from_dice_set, counter_update_dice_set _ _ _ _ hface]
    by_cases h : c = face
    · subst h; simp; omega
    · have h2 : (c == face) = false := by simpa using h
      simp [h, List.count_cons, h2]

theorem sum_foldl_remove (s : List Char) (diceSet : DiceSet) (hs : ∀ c ∈ s, c ∈ faces) :
    sum_dice_set (s.foldl remove_die_from_dice_set diceSet) =
      sum_dice_set diceSet - (s.length : Int) := by
  induction s generalizing diceSet with
  | nil => simp
  | cons c s ih =>
    have hc : c ∈ faces := hs c (List.mem_cons_self _ _)
    rw [List.foldl_cons, ih _ (fun d hd => hs d (List.mem_cons_of_mem _ hd)),
      remove_die_from_dice_set, sum_update_dice_set]
    simp [hc]; omega

theorem rollString_foldl_remove (s : List Char) (diceSet : DiceSet) :
    (s.foldl remove_die_from_dice_set diceSet).rollString = diceSet.rollString := by
  induction s generalizing diceSet with
  | nil => rfl
  | cons c s ih => rw [List.foldl_cons, ih, remove_die_from_dice_set, rollString_update_dice_set]

theorem valid_get_next_die (rollFile : RollFile) (h : rollFile.valid) :
    (get_next_die rollFile).2.valid ∧ (get_next_die rollFile).1 ∈ faces := by
  obtain ⟨h1, h2, h3, h4⟩ := h
  refine ⟨⟨h1, h2, Nat.mod_lt _ (by simpa [get_next_die] using h2), h4⟩, ?_⟩
  apply h4
  simp only [get_next_die]
  rw [List.getD_eq_getElem _ _ (by omega)]
  exact List.getElem_mem _

theorem next_rolls_succ (rollFile : RollFile) (k : Nat)
    (h : rollFile.index < rollFile.size) :
    next_rolls rollFile (k + 1) =
      (get_next_die rollFile).1 :: next_rolls (get_next_die rollFile).2 k := by
  simp only [next_rolls, get_next_die, List.range_succ_eq_map, List.map_cons, List.map_map,
    Nat.add_zero]
  congr 1
  · rw [Nat.mod_eq_of_lt h]
  · apply List.map_congr_left
    intro j _
    simp only [Function.comp]
    congr 1
    rw [Nat.add_mod ((rollFile.index + 1) % rollFile.size), Nat.mod_mod, ← Nat.add_mod]
    congr 1; omega

theorem add_dice_iterations_fst (k : Nat) (rollFile : RollFile) (diceSet : DiceSet) :
    (add_dice_iterations k rollFile diceSet).1 =
      { rollFile with index := if k = 0 then rollFile.index
                               else (rollFile.index + k) % rollFile.size } := by
  induction k generalizing rollFile diceSet with
  | zero => simp [add_dice_iterations]
  | succ k ih =>
    rw [add_dice_iterations, ih]
    simp only [get_next_die, Nat.succ_ne_zero, if_false]
    by_cases hk : k = 0
    · subst hk; simp
    · simp only [hk, if_false]
      congr 1
      rw [Nat.add_mod ((rollFile.index + 1) % rollFile.size), Nat.mod_mod, ← Nat.add_mod]
      congr 1; omega

theorem add_dice_iterations_index (k : Nat) (rollFile : RollFile) (diceSet : DiceSet)
    (h : rollFile.index < rollFile.size) :
    (add_dice_iterations k rollFile diceSet).1 =
      { rollFile with index := (rollFile.index + k) % rollFile.size } := by
  rw [add_dice_iterations_fst]
  by_cases hk : k = 0
  · subst hk; simp [Nat.mod_eq_of_lt h]
  · simp [hk]

theorem add_dice_iterations_counter (k : Nat) (rollFile : RollFile) (diceSet : DiceSet)
    (h : rollFile.valid) (face : Char) (hface : face ∈ faces) :
    (add_dice_iterations k rollFile diceSet).2.counter face =
      diceSet.counter face + ((next_rolls rollFile k).count face : Int) := by
  induction k generalizing rollFile diceSet with
  | zero => simp [add_dice_iterations, next_rolls]
  | succ k ih =>
    rw [add_dice_iterations, ih _ _ (valid_get_next_die rollFile h).1,
      next_rolls_succ _ _ h.2.2.1, add_die_to_dice_set, counter_update_dice_set _ _ _ _ hface]
    by_cases hc : (get_next_die rollFile).1 = face
    · simp [hc]; omega
    · have h2 : ((get_next_die rollFile).1 == face) = false := by simpa using hc
      simp [hc, List.count_cons, h2]

theorem add_dice_iterations_sum (k : Nat) (rollFile : RollFile) (diceSet : DiceSet)
    (h : rollFile.valid) :
    sum_dice_set (add_dice_iterations k rollFile diceSet).2 = sum_dice_set diceSet + (k : Int) := by
  induction k generalizing rollFile diceSet with
  | zero => simp [add_dice_iterations]
  | succ k ih =>
    rw [add_dice_iterations, ih _ _ (valid_get_next_die rollFile h).1, add_die_to_dice_set,
      sum_update_dice_set]
    simp [(valid_get_next_die rollFile h).2]; omega

theorem add_dice_iterations_rollString (k : Nat) (rollFile : RollFile) (diceSet : DiceSet) :
    (add_dice_iterations k rollFile diceSet).2.rollString = diceSet.rollString := by
  induction k generalizing rollFile diceSet with
  | zero => simp [add_dice_iterations]
  | succ k ih => rw [add_dice_iterations, ih, add_die_to_dice_set, rollString_update_dice_set]

/-! ## Lemmas on the participant array and on broadcasts -/

theorem length_setPlayer (players : List Player) (i : Nat) (f : Player → Player) :
    (setPlayer players i f).length = players.length := by
  simp [setPlayer]

theorem getPlayer_setPlayer (players : List Player) (i j : Nat) (f : Player → Player) :
    getPlayer (setPlayer players i f) j =
      if i = j ∧ i < players.length then f (getPlayer players i) else getPlayer players j := by
  simp only [getPlayer, setPlayer, List.get?_eq_getElem?, List.getElem?_set]
  by_cases hij : i = j
  · subst hij
    by_cases hlt : i < players.length
    · simp [hlt]
    · simp [hlt, List.getElem?_eq_none (Nat.le_of_not_lt hlt)]
  · simp [hij]

theorem getPlayer_setPlayer_self (players : List Player) (i : Nat) (f : Player → Player)
    (h : i < players.length) : getPlayer (setPlayer players i f) i = f (getPlayer players i) := by
  rw [getPlayer_setPlayer]; simp [h]

theorem getPlayer_setPlayer_ne (players : List Player) (i j : Nat) (f : Player → Player)
    (h : i ≠ j) : getPlayer (setPlayer players i f) j = getPlayer players j := by
  rw [getPlayer_setPlayer]; simp [h]

theorem getPlayer_absent (players : List Player) (i : Nat) (h : players.length ≤ i) :
    getPlayer players i = Player.absent := by
  simp [getPlayer, List.getElem?_eq_none h]

theorem alert_foldl (l : List Nat) (hub : Hub) (activePlayer : Nat) (message : List Char)
    (skip : Bool) :
    l.foldl (fun acc i =>
      if (getPlayer acc.players i).status ≠ PlayerStatus.REMAINING then acc
      else if activePlayer = i ∧ skip = true then acc
      else if (getPlayer acc.players i).inbox = false then acc
      else send_to acc i message) hub =
    { hub with sent := hub.sent ++ (l.filter (fun i =>
        decide ((getPlayer hub.players i).status = PlayerStatus.REMAINING) &&
        !(decide (activePlayer = i) && skip) &&
        (getPlayer hub.players i).inbox)).map (fun i => (i, message)) } := by
  induction l generalizing hub with
  | nil => simp
  | cons i l ih =>
    rw [List.foldl_cons, ih]
    by_cases h1 : (getPlayer hub.players i).status = PlayerStatus.REMAINING
    · by_cases h2 : activePlayer = i ∧ skip = true
      · have h2b : (decide (activePlayer = i) && skip) = true := by simpa using h2
        simp [h1, h2, List.filter_cons, h2b]
      · have h2b : (decide (activePlayer = i) && skip) = false := by
          simpa using h2
        by_cases h3 : (getPlayer hub.players i).inbox = false
        · simp [h1, h2, h3, List.filter_cons, h2b]
        · have h3b : (getPlayer hub.players i).inbox = true := by simpa using h3
          have h2c : ¬activePlayer = i ∨ skip = false := by
            by_cases h4 : activePlayer = i
            · right
              cases skip
              · rfl
              · exact absurd ⟨h4, rfl⟩ h2
            · left; exact h4
          simp [h1, h2, h3b, List.filter_cons, h2c, send_to]
    · simp [h1, List.filter_cons]

theorem alert_remaining_players_eq (hub : Hub) (activePlayer : Nat) (message : List Char)
    (skip : Bool) :
    alert_remaining_players hub activePlayer message skip =
      { hub with sent := hub.sent ++
          (recipients hub activePlayer skip).map (fun i => (i, message)) } := by
  unfold alert_remaining_players forLoop recipients
  exact alert_foldl _ hub activePlayer message skip

/-! ## Lemmas on reading and splitting a line -/

theorem fgets_chars_line (k : Nat) (s rest : List Char) (hs : NL ∉ s) (hk : s.length < k) :
    fgets_chars k (s ++ NL :: rest) = (s ++ [NL], rest) := by
  induction s generalizing k with
  | nil =>
    obtain ⟨k, rfl⟩ : ∃ m, k = m + 1 := ⟨k - 1, by simp at hk; omega⟩
    simp [fgets_chars]
  | cons c s ih =>
    obtain ⟨k, rfl⟩ : ∃ m, k = m + 1 := ⟨k - 1, by simp at hk; omega⟩
    have hc : c ≠ NL := fun h => hs (by simp [h])
    have hs2 : NL ∉ s := fun h => hs (List.mem_cons_of_mem _ h)
    rw [List.cons_append, fgets_chars, if_neg hc, ih k hs2 (by simpa using hk)]
    rfl

theorem fgets_line (n : Nat) (s rest : List Char) (hs : NL ∉ s) (hk : s.length + 1 < n) :
    fgets n (s ++ NL :: rest) = some (s ++ [NL], rest) := by
  unfold fgets
  rw [if_neg (by simp), fgets_chars_line _ _ _ hs (by omega)]

theorem plain_of_mem_faces (c : Char) (h : c ∈ faces) : plain c := by
  rw [mem_faces_iff] at h
  rcases h with h | h | h | h | h | h <;> subst h <;> exact ⟨by decide, by decide, by decide⟩

theorem interpret_message_loop_word (w t : List Char) (done : List (List Char))
    (current : List Char) (hw : ∀ c ∈ w, plain c) :
    interpret_message_loop (w ++ t) done current =
      interpret_message_loop t done (current ++ w) := by
  induction w generalizing current with
  | nil => simp
  | cons c w ih =>
    obtain ⟨h1, h2, h3⟩ := hw c (List.mem_cons_self _ _)
    rw [List.cons_append, interpret_message_loop, if_neg h1, if_neg (by simp [h2, h3]),
      ih _ (fun d hd => hw d (List.mem_cons_of_mem _ hd))]
    simp

theorem interpret_message_reroll (s : List Char) (hs : ∀ c ∈ s, plain c) :
    interpret_message (kw_reroll ++ ' ' :: s ++ [NL]) = (2, [kw_reroll, s]) := by
  unfold interpret_message
  rw [List.append_assoc, interpret_message_loop_word kw_reroll _ _ _ (by decide),
    List.cons_append, interpret_message_loop, if_pos rfl,
    interpret_message_loop_word s _ _ _ hs, interpret_message_loop, if_neg (by decide),
    if_pos (by simp)]
  simp

/-! ## Lemmas on `keep_dice_response` -/

theorem keep_dice_response_of_read (i0 : Int) (hub : Hub) (activePlayer : Nat)
    (line rest : List Char)
    (hread : fgets MAX_MESSAGE_LENGTH (getPlayer hub.players activePlayer).outbox =
      some (line, rest)) :
    keep_dice_response i0 hub activePlayer =
      if (interpret_message line).2.getD 0 [] = kw_keepall ∧ (interpret_message line).1 = 1 then
        Outcome.ret true (set_outbox hub activePlayer rest)
      else if (interpret_message line).2.getD 0 [] = kw_reroll ∧
          (interpret_message line).1 = 2 then
        if ((interpret_message line).2.getD REROLLED_DICE_ROLL_INDEX []).length > DICE_SET_SIZE ∨
            invalid_roll ((interpret_message line).2.getD REROLLED_DICE_ROLL_INDEX []) = true then
          exit_program (set_outbox hub activePlayer rest) ExitCodes.INVALID_MESSAGE
        else
          reroll_dice i0 (set_outbox hub activePlayer rest) activePlayer
            ((interpret_message line).2.getD REROLLED_DICE_ROLL_INDEX [])
      else if (interpret_message line).2.getD 0 [] = kw_stay ∧ (interpret_message line).1 = 1 then
        exit_program (set_outbox hub activePlayer rest) ExitCodes.INVALID_REQUEST
      else if (interpret_message line).2.getD 0 [] = kw_go ∧ (interpret_message line).1 = 1 then
        exit_program (set_outbox hub activePlayer rest) ExitCodes.INVALID_REQUEST
      else
        exit_program (set_outbox hub activePlayer rest) ExitCodes.INVALID_MESSAGE := by
  unfold keep_dice_response
  rw [hread]

theorem reroll_dice_eq (i0 : Int) (hub : Hub) (activePlayer : Nat) (subset : List Char)
    (hvalid : hub.game.rollFile.valid) (hs : ∀ c ∈ subset, c ∈ faces)
    (hsum : sum_dice_set hub.game.rollFile.latestDice = 6) :
    reroll_dice i0 hub activePlayer subset =
      if ((subset.length : Int) - i0).toNat = subset.length then
        Outcome.ret false (rerolled_hub hub activePlayer subset subset.length)
      else
        exit_program
          (set_latestDice (set_rollFile hub
            (add_dice_iterations ((subset.length : Int) - i0).toNat hub.game.rollFile
              (subset.foldl remove_die_from_dice_set hub.game.rollFile.latestDice)).1)
            (add_dice_iterations ((subset.length : Int) - i0).toNat hub.game.rollFile
              (subset.foldl remove_die_from_dice_set hub.game.rollFile.latestDice)).2)
          ExitCodes.INVALID_REQUEST := by
  have hs2 := add_dice_iterations_sum ((subset.length : Int) - i0).toNat hub.game.rollFile
    (subset.foldl remove_die_from_dice_set hub.game.rollFile.latestDice) hvalid
  rw [sum_foldl_remove _ _ hs, hsum] at hs2
  unfold reroll_dice
  simp only [add_dice_to_dice_set, DICE_SET_SIZE]
  by_cases hm : ((subset.length : Int) - i0).toNat = subset.length
  · rw [if_pos hm, if_neg]
    · simp only [rerolled_hub, set_latestDice, set_rollFile, hm]
    · rw [hs2, hm]; simp
  · rw [if_neg hm, if_pos]
    rw [hs2]
    intro h
    apply hm
    have : (((subset.length : Int) - i0).toNat : Int) = (subset.length : Int) := by
      have h6 : ((6 : Nat) : Int) = 6 := rfl
      rw [h6] at h
      omega
    exact_mod_cast this

theorem counter_create_dice_set_string (diceSet : DiceSet) (face : Char) :
    (create_dice_set_string diceSet).counter face = diceSet.counter face := rfl

theorem sum_create_dice_set_string (diceSet : DiceSet) :
    sum_dice_set (create_dice_set_string diceSet) = sum_dice_set diceSet := rfl

theorem keep_dice_response_reroll_line (i0 : Int) (hub : Hub) (activePlayer : Nat)
    (s rest : List Char) (hs6 : s.length ≤ 6) (hsf : ∀ c ∈ s, c ∈ faces)
    (hout : (getPlayer hub.players activePlayer).outbox = kw_reroll ++ ' ' :: s ++ NL :: rest) :
    keep_dice_response i0 hub activePlayer =
      reroll_dice i0 (set_outbox hub activePlayer rest) activePlayer s := by
  have hplain : ∀ c ∈ s, plain c := fun c hc => plain_of_mem_faces c (hsf c hc)
  have hread : fgets MAX_MESSAGE_LENGTH (getPlayer hub.players activePlayer).outbox =
      some (kw_reroll ++ ' ' :: s ++ [NL], rest) := by
    have h1 : kw_reroll ++ ' ' :: s ++ NL :: rest = (kw_reroll ++ ' ' :: s) ++ NL :: rest := by
      simp
    have h2 : kw_reroll ++ ' ' :: s ++ [NL] = (kw_reroll ++ ' ' :: s) ++ [NL] := by simp
    rw [hout, h1, h2]
    apply fgets_line
    · intro hmem
      rcases List.mem_append.1 hmem with h | h
      · revert h; decide
      · rcases List.mem_cons.1 h with h | h
        · revert h; decide
        · exact (hplain _ h).2.2 rfl
    · simp [kw_reroll, MAX_MESSAGE_LENGTH]; omega
  rw [keep_dice_response_of_read i0 hub activePlayer _ _ hread, interpret_message_reroll s hplain]
  have hinv : invalid_roll s = false := (invalid_roll_eq_false_iff s).2 hsf
  have hk : ¬ (kw_reroll = kw_keepall) := by decide
  simp [hk, REROLLED_DICE_ROLL_INDEX, DICE_SET_SIZE, hinv, hs6]

theorem getPlayer_set_outbox (hub : Hub) (i j : Nat) (rest : List Char) :
    (getPlayer (set_outbox hub i rest).players j).health = (getPlayer hub.players j).health ∧
    (getPlayer (set_outbox hub i rest).players j).points = (getPlayer hub.players j).points ∧
    (getPlayer (set_outbox hub i rest).players j).tokens = (getPlayer hub.players j).tokens ∧
    (getPlayer (set_outbox hub i rest).players j).status = (getPlayer hub.players j).status ∧
    (getPlayer (set_outbox hub i rest).players j).inbox = (getPlayer hub.players j).inbox := by
  simp only [set_outbox, getPlayer_setPlayer]
  split_ifs with h
  · obtain ⟨rfl, _⟩ := h
    simp
  · simp

/-- The accepted reroll when the loop counter of `add_dice_to_dice_set` starts at 0: for
latest dice totalling six, a valid roll file and a reply `reroll <s>` with `s` of at most 6
face characters, `keep_dice_response` returns false; each counter is the old one minus the
occurrences in `s` plus the occurrences among the next `k` roll characters; the cursor moves
to `(c + k) mod size`; the total is six; and exactly one line, `rerolled` with the canonical
string of the new dice, is written, to the active participant. -/
theorem keep_dice_response_reroll_counter_zero (hub : Hub) (activePlayer : Nat)
    (s rest : List Char)
    (hsum : sum_dice_set hub.game.rollFile.latestDice = 6)
    (hvalid : hub.game.rollFile.valid)
    (hs6 : s.length ≤ 6) (hsf : ∀ c ∈ s, c ∈ faces)
    (hout : (getPlayer hub.players activePlayer).outbox = kw_reroll ++ ' ' :: s ++ NL :: rest) :
    ∃ hub1, keep_dice_response 0 hub activePlayer = Outcome.ret false hub1 ∧
      (∀ face ∈ faces, hub1.game.rollFile.latestDice.counter face =
        hub.game.rollFile.latestDice.counter face - (s.count face : Int) +
          ((next_rolls hub.game.rollFile s.length).count face : Int)) ∧
      hub1.game.rollFile.index = (hub.game.rollFile.index + s.length) % hub.game.rollFile.size ∧
      hub1.game.rollFile.diceRolls = hub.game.rollFile.diceRolls ∧
      hub1.game.rollFile.size = hub.game.rollFile.size ∧
      sum_dice_set hub1.game.rollFile.latestDice = 6 ∧
      hub1.game.rollFile.latestDice.rollString =
        (create_dice_set_string hub1.game.rollFile.latestDice).rollString ∧
      hub1.sent = hub.sent ++
        [(activePlayer, msg_rerolled hub1.game.rollFile.latestDice.rollString)] := by
  have hvalid2 : (set_outbox hub activePlayer rest).game.rollFile.valid := hvalid
  have hk := keep_dice_response_reroll_line 0 hub activePlayer s rest hs6 hsf hout
  rw [reroll_dice_eq 0 _ _ _ hvalid2 hsf hsum, if_pos (by simp)] at hk
  refine ⟨_, hk, ?_, ?_, ?_, ?_, ?_, rfl, rfl⟩
  · intro face hface
    simp only [rerolled_hub, send_to, set_rollFile, set_outbox]
    rw [counter_create_dice_set_string, add_dice_iterations_counter _ _ _ hvalid _ hface,
      counter_foldl_remove _ _ _ hface]
  · simp only [rerolled_hub, send_to, set_rollFile, set_outbox]
    rw [add_dice_iterations_index _ _ _ hvalid.2.2.1]
  · simp only [rerolled_hub, send_to, set_rollFile, set_outbox]
    rw [add_dice_iterations_fst]
  · simp only [rerolled_hub, send_to, set_rollFile, set_outbox]
    rw [add_dice_iterations_fst]
  · simp only [rerolled_hub, send_to, set_rollFile, set_outbox]
    rw [sum_create_dice_set_string, add_dice_iterations_sum _ _ _ hvalid,
      sum_foldl_remove _ _ hsf, hsum]
    omega

/-- Claim C1, failing input: latest dice 111222, roll sequence `A`, reply `reroll 1`, and the
uninitialised loop counter of `add_dice_to_dice_set` holding 1 on entry.  One die is removed
and none is drawn, so the total is five and the hub takes the `INVALID_REQUEST` exit without
writing `rerolled`; with the counter at 0 the same reply is answered with `rerolled 11222A`. -/
theorem keep_dice_response_reroll_counter_one :
    keep_dice_response 1 (negotiating_hub ['A'] (kw_reroll ++ [' ', '1', NL])) 0 =
        Outcome.exit ExitCodes.INVALID_REQUEST
          (keep_dice_response 1 (negotiating_hub ['A'] (kw_reroll ++ [' ', '1', NL])) 0).hub ∧
      sum_dice_set (keep_dice_response 1
        (negotiating_hub ['A'] (kw_reroll ++ [' ', '1', NL])) 0).hub.game.rollFile.latestDice = 5 ∧
      (keep_dice_response 1 (negotiating_hub ['A'] (kw_reroll ++ [' ', '1', NL])) 0).hub.sent =
        [(0, msg_shutdown), (1, msg_shutdown)] ∧
      (keep_dice_response 0 (negotiating_hub ['A'] (kw_reroll ++ [' ', '1', NL])) 0).hub.sent =
        [(0, msg_rerolled ['1', '1', '2', '2', '2', 'A'])] := by
  decide

/-- Claim C2, failing input: latest dice 111222, roll sequence `1`, reply `reroll A` (no `A` is
among the dice).  The hub does not exit: the `A` counter becomes -1, one die is drawn, the total
is still six, the reply `rerolled 1111222` is written and negotiation continues. -/
theorem keep_dice_response_reroll_absent_face :
    keep_dice_response 0 (negotiating_hub ['1'] (kw_reroll ++ [' ', 'A', NL])) 0 =
        Outcome.ret false
          (keep_dice_response 0 (negotiating_hub ['1'] (kw_reroll ++ [' ', 'A', NL])) 0).hub ∧
      (keep_dice_response 0 (negotiating_hub ['1']
        (kw_reroll ++ [' ', 'A', NL])) 0).hub.game.rollFile.latestDice.numberOfAs = -1 ∧
      sum_dice_set (keep_dice_response 0 (negotiating_hub ['1']
        (kw_reroll ++ [' ', 'A', NL])) 0).hub.game.rollFile.latestDice = 6 ∧
      (keep_dice_response 0 (negotiating_hub ['1'] (kw_reroll ++ [' ', 'A', NL])) 0).hub.sent =
        [(0, msg_rerolled ['1', '1', '1', '1', '2', '2', '2'])] := by
  decide

/-- Whatever the loop counter of `add_dice_to_dice_set` starts at, a reply `reroll <s>` with `s`
of at most six face characters never leads to the `INVALID_MESSAGE` exit, whether or not the
faces of `s` are among the latest dice: the hub either answers or exits with
`INVALID_REQUEST`. -/
theorem keep_dice_response_reroll_not_invalid_message (i0 : Int) (hub : Hub)
    (activePlayer : Nat) (s rest : List Char)
    (hsum : sum_dice_set hub.game.rollFile.latestDice = 6)
    (hvalid : hub.game.rollFile.valid)
    (hs6 : s.length ≤ 6) (hsf : ∀ c ∈ s, c ∈ faces)
    (hout : (getPlayer hub.players activePlayer).outbox = kw_reroll ++ ' ' :: s ++ NL :: rest) :
    (∃ hub1, keep_dice_response i0 hub activePlayer = Outcome.ret false hub1) ∨
    (∃ hub1, keep_dice_response i0 hub activePlayer =
      Outcome.exit ExitCodes.INVALID_REQUEST hub1) := by
  have hvalid2 : (set_outbox hub activePlayer rest).game.rollFile.valid := hvalid
  rw [keep_dice_response_reroll_line i0 hub activePlayer s rest hs6 hsf hout,
    reroll_dice_eq i0 _ _ _ hvalid2 hsf hsum]
  split_ifs
  · exact Or.inl ⟨_, rfl⟩
  · exact Or.inr ⟨_, rfl⟩

/-- Claim C4, counterexample: on the reply `reroll ` with an empty subset the hub does not
exit; it returns false and answers `rerolled 111222`. -/
theorem empty_reroll_is_answered :
    keep_dice_response 0 (negotiating_hub ['A'] (kw_reroll ++ [' ', NL])) 0 =
        Outcome.ret false
          (keep_dice_response 0 (negotiating_hub ['A'] (kw_reroll ++ [' ', NL])) 0).hub ∧
      (keep_dice_response 0 (negotiating_hub ['A'] (kw_reroll ++ [' ', NL])) 0).hub.sent =
        [(0, msg_rerolled ['1', '1', '1', '2', '2', '2'])] := by
  decide

/-- Claim C4, amended: a reroll reply with an empty subset is accepted.  When the latest dice
total six and the loop counter of `add_dice_to_dice_set` does not start below 0, the hub
removes and draws nothing, leaves the counters, the cursor, and every participant's health,
points, tokens and status as they were, writes `rerolled` with the canonical string of the
dice to the active participant only, and returns false. -/
theorem keep_dice_response_empty_reroll (i0 : Int) (hub : Hub) (activePlayer : Nat)
    (rest : List Char) (hi0 : 0 ≤ i0)
    (hsum : sum_dice_set hub.game.rollFile.latestDice = 6)
    (hout : (getPlayer hub.players activePlayer).outbox = kw_reroll ++ ' ' :: NL :: rest) :
    keep_dice_response i0 hub activePlayer =
      Outcome.ret false
        (send_to
          (set_latestDice (set_outbox hub activePlayer rest)
            (create_dice_set_string hub.game.rollFile.latestDice))
          activePlayer
          (msg_rerolled (create_dice_set_string hub.game.rollFile.latestDice).rollString)) := by
  have hk := keep_dice_response_reroll_line i0 hub activePlayer [] rest (by simp) (by simp)
    (by simpa using hout)
  rw [hk]
  have h0 : ((([] : List Char).length : Int) - i0).toNat = 0 := by
    simp only [List.length_nil, Nat.cast_zero, zero_sub]
    omega
  unfold reroll_dice
  simp only [add_dice_to_dice_set, h0, add_dice_iterations, List.foldl_nil]
  rw [if_neg]
  · rfl
  · simpa [set_outbox, set_latestDice, set_rollFile, DICE_SET_SIZE] using hsum

/-- Witness for `keep_dice_response_empty_reroll`. -/
theorem keep_dice_response_empty_reroll_witness :
    keep_dice_response 0 (negotiating_hub ['A'] (kw_reroll ++ [' ', NL])) 0 =
      Outcome.ret false
        (send_to
          (set_latestDice (set_outbox (negotiating_hub ['A'] (kw_reroll ++ [' ', NL])) 0 [])
            (create_dice_set_string dice_111222))
          0 (msg_rerolled ['1', '1', '1', '2', '2', '2'])) :=
  keep_dice_response_empty_reroll 0 (negotiating_hub ['A'] (kw_reroll ++ [' ', NL])) 0 []
    (by decide) (by decide) (by decide)

/-- The replies of reroll negotiation other than an accepted reroll.  For every hub state,
active participant and start value of the uninitialised counter: at end of stream
`keep_dice_response` calls `exit_program` with `PLAYER_QUIT` (6); for a line read by `fgets`
that fits the array `commands` and is split by `interpret_message` into its fields, the
single field `keepall` returns true and changes nothing but the bytes consumed from the
participant's stream; the single field `stay` or `go` leads to the call of `exit_program`
with `INVALID_REQUEST` (8); two fields `reroll <s>` with `s` longer than six characters or
holding a character that is not a face lead to the call with `INVALID_MESSAGE` (7); and so
does every line that is none of `keepall` (one field), `reroll` (two fields), `stay`, `go`
(one field).  How the process ends after such a call is the subject of
`ending_keep_dice_response`. -/
theorem keep_dice_response_classifies (i0 : Int) (hub : Hub) (activePlayer : Nat) :
    ((getPlayer hub.players activePlayer).outbox = [] →
      keep_dice_response i0 hub activePlayer =
        Outcome.exit ExitCodes.PLAYER_QUIT
          (close_remaining_players hub ExitCodes.PLAYER_QUIT)) ∧
    (∀ line rest fields n,
      fgets MAX_MESSAGE_LENGTH (getPlayer hub.players activePlayer).outbox = some (line, rest) →
      fits_commands line →
      interpret_message line = (n, fields) →
      ((fields = [kw_keepall] ∧ n = 1 →
          keep_dice_response i0 hub activePlayer =
            Outcome.ret true (set_outbox hub activePlayer rest) ∧
          (set_outbox hub activePlayer rest).game = hub.game ∧
          (set_outbox hub activePlayer rest).sent = hub.sent ∧
          ∀ j, (getPlayer (set_outbox hub activePlayer rest).players j).health =
                (getPlayer hub.players j).health ∧
              (getPlayer (set_outbox hub activePlayer rest).players j).points =
                (getPlayer hub.players j).points ∧
              (getPlayer (set_outbox hub activePlayer rest).players j).tokens =
                (getPlayer hub.players j).tokens ∧
              (getPlayer (set_outbox hub activePlayer rest).players j).status =
                (getPlayer hub.players j).status ∧
              (getPlayer (set_outbox hub activePlayer rest).players j).inbox =
                (getPlayer hub.players j).inbox) ∧
       ((fields = [kw_stay] ∨ fields = [kw_go]) ∧ n = 1 →
          keep_dice_response i0 hub activePlayer =
            Outcome.exit ExitCodes.INVALID_REQUEST
              (close_remaining_players (set_outbox hub activePlayer rest)
                ExitCodes.INVALID_REQUEST)) ∧
       (∀ s, fields = [kw_reroll, s] ∧ n = 2 → (6 < s.length ∨ ∃ c ∈ s, c ∉ faces) →
          keep_dice_response i0 hub activePlayer =
            Outcome.exit ExitCodes.INVALID_MESSAGE
              (close_remaining_players (set_outbox hub activePlayer rest)
                ExitCodes.INVALID_MESSAGE)) ∧
       (¬ (fields.getD 0 [] = kw_keepall ∧ n = 1) → ¬ (fields.getD 0 [] = kw_reroll ∧ n = 2) →
        ¬ (fields.getD 0 [] = kw_stay ∧ n = 1) → ¬ (fields.getD 0 [] = kw_go ∧ n = 1) →
          keep_dice_response i0 hub activePlayer =
            Outcome.exit ExitCodes.INVALID_MESSAGE
              (close_remaining_players (set_outbox hub activePlayer rest)
                ExitCodes.INVALID_MESSAGE)))) ∧
    ExitCodes.PLAYER_QUIT.code = 6 ∧ ExitCodes.INVALID_MESSAGE.code = 7 ∧
    ExitCodes.INVALID_REQUEST.code = 8 := by
  refine ⟨?_, ?_, rfl, rfl, rfl⟩
  · intro hout
    unfold keep_dice_response
    rw [hout]
    rfl
  · intro line rest fields n hread _ hfields
    have hk := keep_dice_response_of_read i0 hub activePlayer line rest hread
    rw [hfields] at hk
    refine ⟨?_, ?_, ?_, ?_⟩
    · rintro ⟨rfl, rfl⟩
      refine ⟨?_, rfl, rfl, fun j => getPlayer_set_outbox hub activePlayer j rest⟩
      rw [hk]
      simp
    · rintro ⟨hf, rfl⟩
      rw [hk]
      rcases hf with rfl | rfl
      · have h1 : ¬ (kw_stay = kw_keepall) := by decide
        simp [h1, exit_program]
      · have h1 : ¬ (kw_go = kw_keepall) := by decide
        have h2 : ¬ (kw_go = kw_stay) := by decide
        simp [h1, h2, exit_program]
    · rintro s ⟨rfl, rfl⟩ hbad
      rw [hk]
      have h1 : ¬ (kw_reroll = kw_keepall) := by decide
      have h2 : (6 < s.length ∨ invalid_roll s = true) := by
        rcases hbad with h | h
        · exact Or.inl h
        · right
          by_contra hc
          have hc2 : invalid_roll s = false := by simpa using hc
          obtain ⟨c, hc3, hc4⟩ := h
          exact hc4 ((invalid_roll_eq_false_iff s).1 hc2 c hc3)
      simp only [List.getD_cons_zero, h1, false_and, if_false, true_and, and_self, if_true,
        REROLLED_DICE_ROLL_INDEX, DICE_SET_SIZE]
      rw [if_pos (by simpa using h2)]
      rfl
    · intro h1 h2 h3 h4
      rw [hk]
      simp only [h1, h2, h3, h4, if_false]
      rfl

/-! ## Lemmas on loops over the participants -/

theorem forLoop_zero {σ : Type} (body : Nat → σ → σ) (s : σ) : forLoop 0 body s = s := rfl

theorem forLoop_succ {σ : Type} (n : Nat) (body : Nat → σ → σ) (s : σ) :
    forLoop (n + 1) body s = body n (forLoop n body s) := by
  simp [forLoop, List.range_succ, List.foldl_append]

theorem forLoop_induction {σ : Type} (P : σ → Prop) (n : Nat) (body : Nat → σ → σ) (s : σ)
    (h0 : P s) (hstep : ∀ i acc, i < n → P acc → P (body i acc)) : P (forLoop n body s) := by
  induction n with
  | zero => exact h0
  | succ n ih =>
    rw [forLoop_succ]
    exact hstep n _ (Nat.lt_succ_self n)
      (ih (fun i acc hi hacc => hstep i acc (Nat.lt_succ_of_lt hi) hacc))

theorem eliminate_all_loop (k : Nat) (hub : Hub) :
    (forLoop k (fun i acc =>
      { acc with
        players := setPlayer acc.players i
          (fun p => { p with status := PlayerStatus.ELIMINATED }) }) hub).game = hub.game ∧
    (forLoop k (fun i acc =>
      { acc with
        players := setPlayer acc.players i
          (fun p => { p with status := PlayerStatus.ELIMINATED }) }) hub).sent = hub.sent ∧
    (forLoop k (fun i acc =>
      { acc with
        players := setPlayer acc.players i
          (fun p => { p with status := PlayerStatus.ELIMINATED }) }) hub).players.length =
      hub.players.length ∧
    ∀ j, getPlayer (forLoop k (fun i acc =>
      { acc with
        players := setPlayer acc.players i
          (fun p => { p with status := PlayerStatus.ELIMINATED }) }) hub).players j =
      if j < k ∧ j < hub.players.length then
        { getPlayer hub.players j with status := PlayerStatus.ELIMINATED }
      else getPlayer hub.players j := by
  induction k with
  | zero => simp [forLoop_zero]
  | succ k ih =>
    obtain ⟨ih1, ih2, ih3, ih4⟩ := ih
    rw [forLoop_succ]
    refine ⟨ih1, ih2, by simp [length_setPlayer, ih3], ?_⟩
    intro j
    simp only [getPlayer_setPlayer, ih3, ih4]
    by_cases hkj : k = j
    · subst hkj
      by_cases hlt : k < hub.players.length
      · simp [hlt]
      · simp [hlt]
    · by_cases hjk : j < k
      · simp [hkj, hjk, Nat.lt_succ_of_lt hjk]
      · have : ¬ j < k + 1 := by omega
        simp [hkj, hjk, this]

theorem is_player_last_remaining_iff (hub : Hub) (activePlayer : Nat) :
    is_player_last_remaining hub activePlayer = true ↔
      ∀ i, i < hub.game.numberOfPlayers → i ≠ activePlayer →
        (getPlayer hub.players i).status = PlayerStatus.ELIMINATED := by
  simp only [is_player_last_remaining, List.all_eq_true, List.mem_range, Bool.or_eq_true,
    decide_eq_true_eq]
  constructor
  · intro h i hi hne
    rcases h i hi with h1 | h1
    · exact absurd h1 hne
    · exact h1
  · intro h i hi
    by_cases hne : i = activePlayer
    · exact Or.inl hne
    · exact Or.inr (h i hi hne)

theorem has_player_exceeded_win_points_iff (hub : Hub) (activePlayer : Nat) :
    has_player_exceeded_win_points hub activePlayer = true ↔
      (getPlayer hub.players activePlayer).points ≥ hub.game.scoreLimit := by
  unfold has_player_exceeded_win_points
  split_ifs with h <;> simp [h]

theorem recipients_of_connected (hub : Hub) (activePlayer : Nat)
    (hinbox : ∀ i, i < hub.game.numberOfPlayers →
      (getPlayer hub.players i).status = PlayerStatus.REMAINING →
      (getPlayer hub.players i).inbox = true) :
    recipients hub activePlayer false =
      (List.range hub.game.numberOfPlayers).filter (fun i =>
        decide ((getPlayer hub.players i).status = PlayerStatus.REMAINING)) := by
  unfold recipients
  apply List.filter_congr
  intro i hi
  rw [List.mem_range] at hi
  by_cases h : (getPlayer hub.players i).status = PlayerStatus.REMAINING
  · simp [h, hinbox i hi h]
  · simp [h]

/-- Claim C5: `check_game_over` returns true exactly when every participant other than the
active one is `ELIMINATED` or the active participant's points have reached the score limit.
When it returns true, the line `winner <label>` has been written to every participant whose
status was `REMAINING`, and then every participant's status is `ELIMINATED` (health, points
and tokens are untouched); when it returns false the state is unchanged.  The state is assumed
well formed: `numberOfPlayers` is the length of the array and every `REMAINING` participant
has an open `inbox`, as `setup_hub` leaves them. -/
theorem check_game_over_spec (hub : Hub) (activePlayer : Nat)
    (hn : hub.game.numberOfPlayers = hub.players.length)
    (hinbox : ∀ i, i < hub.game.numberOfPlayers →
      (getPlayer hub.players i).status = PlayerStatus.REMAINING →
      (getPlayer hub.players i).inbox = true) :
    ((check_game_over hub activePlayer).1 = true ↔
      (∀ i, i < hub.game.numberOfPlayers → i ≠ activePlayer →
        (getPlayer hub.players i).status = PlayerStatus.ELIMINATED) ∨
      (getPlayer hub.players activePlayer).points ≥ hub.game.scoreLimit) ∧
    ((check_game_over hub activePlayer).1 = true →
      (check_game_over hub activePlayer).2.sent = hub.sent ++
        ((List.range hub.game.numberOfPlayers).filter (fun i =>
          decide ((getPlayer hub.players i).status = PlayerStatus.REMAINING))).map
          (fun i => (i, msg_winner (get_player_label activePlayer))) ∧
      (check_game_over hub activePlayer).2.game = hub.game ∧
      ∀ i, i < hub.game.numberOfPlayers →
        getPlayer (check_game_over hub activePlayer).2.players i =
          { getPlayer hub.players i with status := PlayerStatus.ELIMINATED }) ∧
    ((check_game_over hub activePlayer).1 = false →
      (check_game_over hub activePlayer).2 = hub) := by
  have hcond : (is_player_last_remaining hub activePlayer = true ∨
      has_player_exceeded_win_points hub activePlayer = true) ↔
      ((∀ i, i < hub.game.numberOfPlayers → i ≠ activePlayer →
        (getPlayer hub.players i).status = PlayerStatus.ELIMINATED) ∨
      (getPlayer hub.players activePlayer).points ≥ hub.game.scoreLimit) := by
    rw [is_player_last_remaining_iff, has_player_exceeded_win_points_iff]
  unfold check_game_over
  by_cases hc : is_player_last_remaining hub activePlayer = true ∨
      has_player_exceeded_win_points hub activePlayer = true
  · rw [if_pos hc]
    refine ⟨⟨fun _ => hcond.1 hc, fun _ => rfl⟩, fun _ => ?_, fun h => by simp at h⟩
    obtain ⟨e1, e2, _, e4⟩ := eliminate_all_loop
      (alert_remaining_players hub activePlayer
        (msg_winner (get_player_label activePlayer)) false).game.numberOfPlayers
      (alert_remaining_players hub activePlayer
        (msg_winner (get_player_label activePlayer)) false)
    refine ⟨?_, ?_, ?_⟩
    · simp only [e2]
      rw [alert_remaining_players_eq, recipients_of_connected hub activePlayer hinbox]
    · simp only [e1]
      rw [alert_remaining_players_eq]
    · intro i hi
      simp only [e4]
      rw [alert_remaining_players_eq]
      simp [hi, ← hn]
  · rw [if_neg hc]
    exact ⟨⟨fun h => by simp at h, fun h => absurd (hcond.2 h) hc⟩, fun h => by simp at h,
      fun _ => rfl⟩

/-- Witness for `check_game_over_spec`: two participants, the first `ELIMINATED`, the second
active; the check returns true and `winner B` goes to the second participant only. -/
theorem check_game_over_spec_witness :
    last_standing_hub.game.numberOfPlayers = last_standing_hub.players.length ∧
    (check_game_over last_standing_hub 1).1 = true ∧
    (check_game_over last_standing_hub 1).2.sent = [(1, msg_winner 'B')] ∧
    (check_game_over last_standing_hub 0).2 = last_standing_hub :=
  ⟨by decide,
   (check_game_over_spec last_standing_hub 1 (by decide) (by decide)).1.2
     (Or.inl (by decide)),
   ((check_game_over_spec last_standing_hub 1 (by decide) (by decide)).2.1
     ((check_game_over_spec last_standing_hub 1 (by decide) (by decide)).1.2
       (Or.inl (by decide)))).1,
   (check_game_over_spec last_standing_hub 0 (by decide) (by decide)).2.2 (by decide)⟩

theorem advance_player_steps (hub : Hub) (k : Nat) :
    ∀ (fuel start : Nat), 1 ≤ k → k ≤ fuel →
      (∀ j, 1 ≤ j → j < k →
        (getPlayer hub.players ((start + j) % hub.game.numberOfPlayers)).status =
          PlayerStatus.ELIMINATED) →
      (getPlayer hub.players ((start + k) % hub.game.numberOfPlayers)).status ≠
        PlayerStatus.ELIMINATED →
      advance_player fuel hub start = some ((start + k) % hub.game.numberOfPlayers) := by
  induction k with
  | zero => intro fuel start h1; omega
  | succ k ih =>
    intro fuel start _ hfuel hskip hstop
    obtain ⟨fuel, rfl⟩ : ∃ m, fuel = m + 1 := ⟨fuel - 1, by omega⟩
    unfold advance_player
    by_cases hk : k = 0
    · subst hk
      rw [if_pos hstop]
    · have h1 := hskip 1 (le_refl 1) (by omega)
      rw [if_neg (by simpa using h1)]
      have hshift : ∀ j, ((start + 1) % hub.game.numberOfPlayers + j) %
          hub.game.numberOfPlayers = (start + (j + 1)) % hub.game.numberOfPlayers := by
        intro j
        rw [Nat.add_mod ((start + 1) % hub.game.numberOfPlayers), Nat.mod_mod, ← Nat.add_mod]
        congr 1; omega
      rw [ih fuel ((start + 1) % hub.game.numberOfPlayers) (by omega) (by omega)
        (fun j hj1 hj2 => by rw [hshift]; exact hskip (j + 1) (by omega) (by omega))
        (by rw [hshift]; exact hstop), hshift]

theorem exists_first_non_eliminated (hub : Hub) (start d : Nat) (hd : 1 ≤ d)
    (hstatus : (getPlayer hub.players ((start + d) % hub.game.numberOfPlayers)).status ≠
      PlayerStatus.ELIMINATED) :
    ∃ k, 1 ≤ k ∧ k ≤ d ∧
      (getPlayer hub.players ((start + k) % hub.game.numberOfPlayers)).status ≠
        PlayerStatus.ELIMINATED ∧
      ∀ j, 1 ≤ j → j < k →
        (getPlayer hub.players ((start + j) % hub.game.numberOfPlayers)).status =
          PlayerStatus.ELIMINATED := by
  induction d using Nat.strong_induction_on with
  | _ d ih =>
    by_cases hall : ∀ j, 1 ≤ j → j < d →
        (getPlayer hub.players ((start + j) % hub.game.numberOfPlayers)).status =
          PlayerStatus.ELIMINATED
    · exact ⟨d, hd, le_refl d, hstatus, hall⟩
    · push_neg at hall
      obtain ⟨j, hj1, hj2, hj3⟩ := hall
      obtain ⟨k, hk1, hk2, hk3, hk4⟩ := ih j hj2 hj1 hj3
      exact ⟨k, hk1, by omega, hk3, hk4⟩

/-- Claim C7: when the win check for the active participant `a` returns false, the inner loop
of `run_game` stops after `k` increments for some `1 ≤ k ≤ numberOfPlayers - 1` (any larger
bound on the increments gives the same result); the participant it stops at is `(a + k) mod
numberOfPlayers`, it is not `ELIMINATED` and is not `a`, and every participant passed on the
way, `(a + j) mod numberOfPlayers` for `1 ≤ j < k`, is `ELIMINATED`. -/
theorem advance_player_spec (hub : Hub) (activePlayer : Nat)
    (ha : activePlayer < hub.game.numberOfPlayers)
    (hfalse : (check_game_over hub activePlayer).1 = false) :
    ∃ k, 1 ≤ k ∧ k ≤ hub.game.numberOfPlayers - 1 ∧
      (∀ fuel, k ≤ fuel →
        advance_player fuel (check_game_over hub activePlayer).2 activePlayer =
          some ((activePlayer + k) % hub.game.numberOfPlayers)) ∧
      (getPlayer (check_game_over hub activePlayer).2.players
        ((activePlayer + k) % hub.game.numberOfPlayers)).status ≠ PlayerStatus.ELIMINATED ∧
      (activePlayer + k) % hub.game.numberOfPlayers ≠ activePlayer ∧
      ∀ j, 1 ≤ j → j < k →
        (getPlayer (check_game_over hub activePlayer).2.players
          ((activePlayer + j) % hub.game.numberOfPlayers)).status = PlayerStatus.ELIMINATED := by
  have hsame : (check_game_over hub activePlayer).2 = hub := by
    unfold check_game_over at hfalse ⊢
    by_cases hc : is_player_last_remaining hub activePlayer = true ∨
        has_player_exceeded_win_points hub activePlayer = true
    · rw [if_pos hc] at hfalse
      simp at hfalse
    · rw [if_neg hc]
  have hnot : ¬ (is_player_last_remaining hub activePlayer = true) := by
    intro hc
    unfold check_game_over at hfalse
    rw [if_pos (Or.inl hc)] at hfalse
    simp at hfalse
  rw [is_player_last_remaining_iff] at hnot
  push_neg at hnot
  obtain ⟨i, hi, hne, hstat⟩ := hnot
  rw [hsame]
  -- the distance from the active participant to `i` in circular order
  have hdist : ∃ d, 1 ≤ d ∧ d ≤ hub.game.numberOfPlayers - 1 ∧
      (activePlayer + d) % hub.game.numberOfPlayers = i := by
    by_cases hlt : activePlayer < i
    · exact ⟨i - activePlayer, by omega, by omega, by
        rw [show activePlayer + (i - activePlayer) = i by omega, Nat.mod_eq_of_lt hi]⟩
    · refine ⟨hub.game.numberOfPlayers - activePlayer + i, by omega, by omega, ?_⟩
      rw [show activePlayer + (hub.game.numberOfPlayers - activePlayer + i) =
        i + hub.game.numberOfPlayers by omega, Nat.add_mod_right, Nat.mod_eq_of_lt hi]
  obtain ⟨d, hd1, hd2, hd3⟩ := hdist
  obtain ⟨k, hk1, hk2, hk3, hk4⟩ := exists_first_non_eliminated hub activePlayer d hd1
    (by rw [hd3]; exact hstat)
  refine ⟨k, hk1, by omega, ?_, hk3, ?_, hk4⟩
  · intro fuel hfuel
    exact advance_player_steps hub k fuel activePlayer hk1 hfuel hk4 hk3
  · intro heq
    by_cases hwrap : activePlayer + k < hub.game.numberOfPlayers
    · rw [Nat.mod_eq_of_lt hwrap] at heq
      omega
    · have h2 : (activePlayer + k) % hub.game.numberOfPlayers =
          activePlayer + k - hub.game.numberOfPlayers := by
        rw [Nat.mod_eq_sub_mod (by omega), Nat.mod_eq_of_lt (by omega)]
      omega

/-- Witness for `advance_player_spec`: three participants, the middle one `ELIMINATED`, the
first active; the loop stops at the third after two increments. -/
theorem advance_player_spec_witness :
    (check_game_over three_player_hub 0).1 = false ∧
    advance_player 2 three_player_hub 0 = some 2 ∧
    ∃ k, 1 ≤ k ∧ k ≤ three_player_hub.game.numberOfPlayers - 1 ∧
      ∀ fuel, k ≤ fuel →
        advance_player fuel (check_game_over three_player_hub 0).2 0 =
          some ((0 + k) % three_player_hub.game.numberOfPlayers) :=
  ⟨by decide, by decide,
   (advance_player_spec three_player_hub 0 (by decide) (by decide)).imp
     (fun _ h => ⟨h.1, h.2.1, h.2.2.1⟩)⟩

/-! ## The elimination sweep -/

theorem sweep_lines_succ (hub : Hub) (k : Nat) :
    sweep_lines hub (k + 1) = sweep_lines hub k ++
      (if newly_eliminated hub k = true then
        (sweep_recipients hub k).map (fun r => (r, msg_eliminated (get_player_label k)))
      else []) := by
  simp [sweep_lines, List.range_succ, List.flatMap_append]

theorem sweep_loop (hub : Hub) (activePlayer : Nat) (k : Nat) :
    (forLoop k (fun i acc =>
      if (getPlayer acc.players i).status = PlayerStatus.ELIMINATED then acc
      else if (getPlayer acc.players i).health < 1 then
        { alert_remaining_players acc activePlayer (msg_eliminated (get_player_label i)) false with
          players := setPlayer
            (alert_remaining_players acc activePlayer
              (msg_eliminated (get_player_label i)) false).players i
            (fun p => { p with status := PlayerStatus.ELIMINATED }) }
      else acc) hub).game = hub.game ∧
    (forLoop k (fun i acc =>
      if (getPlayer acc.players i).status = PlayerStatus.ELIMINATED then acc
      else if (getPlayer acc.players i).health < 1 then
        { alert_remaining_players acc activePlayer (msg_eliminated (get_player_label i)) false with
          players := setPlayer
            (alert_remaining_players acc activePlayer
              (msg_eliminated (get_player_label i)) false).players i
            (fun p => { p with status := PlayerStatus.ELIMINATED }) }
      else acc) hub).players.length = hub.players.length ∧
    (∀ j, getPlayer (forLoop k (fun i acc =>
      if (getPlayer acc.players i).status = PlayerStatus.ELIMINATED then acc
      else if (getPlayer acc.players i).health < 1 then
        { alert_remaining_players acc activePlayer (msg_eliminated (get_player_label i)) false with
          players := setPlayer
            (alert_remaining_players acc activePlayer
              (msg_eliminated (get_player_label i)) false).players i
            (fun p => { p with status := PlayerStatus.ELIMINATED }) }
      else acc) hub).players j =
        if j < k ∧ j < hub.players.length ∧ newly_eliminated hub j = true then
          { getPlayer hub.players j with status := PlayerStatus.ELIMINATED }
        else getPlayer hub.players j) ∧
    (forLoop k (fun i acc =>
      if (getPlayer acc.players i).status = PlayerStatus.ELIMINATED then acc
      else if (getPlayer acc.players i).health < 1 then
        { alert_remaining_players acc activePlayer (msg_eliminated (get_player_label i)) false with
          players := setPlayer
            (alert_remaining_players acc activePlayer
              (msg_eliminated (get_player_label i)) false).players i
            (fun p => { p with status := PlayerStatus.ELIMINATED }) }
      else acc) hub).sent = hub.sent ++ sweep_lines hub k := by
  induction k with
  | zero => simp [forLoop_zero, sweep_lines]
  | succ k ih =>
    obtain ⟨ih1, ih2, ih3, ih4⟩ := ih
    rw [forLoop_succ]
    generalize forLoop k _ hub = acc at ih1 ih2 ih3 ih4 ⊢
    have hk : getPlayer acc.players k = getPlayer hub.players k := by
      rw [ih3]; simp
    rw [hk, sweep_lines_succ]
    by_cases h1 : (getPlayer hub.players k).status = PlayerStatus.ELIMINATED
    · have hnew : newly_eliminated hub k = false := by simp [newly_eliminated, h1]
      rw [if_pos h1]
      refine ⟨ih1, ih2, ?_, by simp [ih4, hnew]⟩
      intro j
      rw [ih3]
      by_cases hjk : j = k
      · subst hjk; simp [hnew]
      · have : j < k + 1 ↔ j < k := by omega
        simp [this]
    · rw [if_neg h1]
      by_cases h2 : (getPlayer hub.players k).health < 1
      · have hnew : newly_eliminated hub k = true := by simp [newly_eliminated, h1, h2]
        rw [if_pos h2]
        simp only [alert_remaining_players_eq]
        refine ⟨ih1, by simp [length_setPlayer, ih2], ?_, ?_⟩
        · intro j
          rw [getPlayer_setPlayer, ih2, hk, ih3]
          by_cases hjk : k = j
          · subst hjk
            by_cases hlt : k < hub.players.length
            · simp [hlt, hnew]
            · simp [hlt]
          · by_cases hjk2 : j < k
            · simp [hjk, hjk2, Nat.lt_succ_of_lt hjk2]
            · have : ¬ j < k + 1 := by omega
              simp [hjk, hjk2, this]
        · simp only [ih4, hnew, if_true, List.append_assoc]
          congr 2
          unfold recipients sweep_recipients
          rw [ih1]
          congr 1
          apply List.filter_congr
          intro r _
          rw [ih3]
          by_cases hr : r < k ∧ r < hub.players.length ∧ newly_eliminated hub r = true
          · rw [if_pos hr]
            obtain ⟨hr1, _, hr3⟩ := hr
            simp only [newly_eliminated, Bool.and_eq_true, decide_eq_true_eq] at hr3
            simp [hr1, hr3.2]
          · rw [if_neg hr]
            by_cases hrem : (getPlayer hub.players r).status = PlayerStatus.REMAINING
            · by_cases hlen : r < hub.players.length
              · have : ¬ (r < k ∧ (getPlayer hub.players r).health < 1) := by
                  rintro ⟨hrk, hh⟩
                  exact hr ⟨hrk, hlen, by simp [newly_eliminated, hrem, hh]⟩
                have h3 : (decide (r < k) && decide ((getPlayer hub.players r).health < 1)) =
                    false := by
                  simpa using this
                simp [hrem, h3]
              · rw [getPlayer_absent _ _ (Nat.le_of_not_lt hlen)] at hrem
                simp [Player.absent] at hrem
            · simp [hrem]
      · have hnew : newly_eliminated hub k = false := by simp [newly_eliminated, h2]
        rw [if_neg h2]
        refine ⟨ih1, ih2, ?_, by simp [ih4, hnew]⟩
        intro j
        rw [ih3]
        by_cases hjk : j = k
        · subst hjk; simp [hnew]
        · have : j < k + 1 ↔ j < k := by omega
          simp [this]

/-! ## What each operation does to the statuses -/

theorem players_alert (hub : Hub) (activePlayer : Nat) (message : List Char) (skip : Bool) :
    (alert_remaining_players hub activePlayer message skip).players = hub.players := by
  rw [alert_remaining_players_eq]

theorem game_alert (hub : Hub) (activePlayer : Nat) (message : List Char) (skip : Bool) :
    (alert_remaining_players hub activePlayer message skip).game = hub.game := by
  rw [alert_remaining_players_eq]

theorem players_close (hub : Hub) (exitStatus : ExitCodes) :
    (close_remaining_players hub exitStatus).players = hub.players := by
  unfold close_remaining_players
  split_ifs
  · exact players_alert _ _ _ _
  · rfl

theorem game_close (hub : Hub) (exitStatus : ExitCodes) :
    (close_remaining_players hub exitStatus).game = hub.game := by
  unfold close_remaining_players
  split_ifs
  · exact game_alert _ _ _ _
  · rfl

theorem status_setPlayer (players : List Player) (i j : Nat) (f : Player → Player)
    (hf : ∀ p, (f p).status = p.status) :
    (getPlayer (setPlayer players i f) j).status = (getPlayer players j).status := by
  rw [getPlayer_setPlayer]
  split_ifs with h
  · obtain ⟨rfl, _⟩ := h
    exact hf _
  · rfl

theorem status_reroll_dice (i0 : Int) (hub : Hub) (activePlayer : Nat) (subset : List Char) :
    (reroll_dice i0 hub activePlayer subset).hub.players = hub.players := by
  unfold reroll_dice
  simp only
  split_ifs
  · simp [exit_program, Outcome.hub, players_close, set_latestDice, set_rollFile]
  · simp [Outcome.hub, send_to, set_latestDice, set_rollFile]

theorem status_keep_dice_response (i0 : Int) (hub : Hub) (activePlayer : Nat) (j : Nat) :
    (getPlayer (keep_dice_response i0 hub activePlayer).hub.players j).status =
      (getPlayer hub.players j).status := by
  have hset : ∀ rest, (getPlayer (set_outbox hub activePlayer rest).players j).status =
      (getPlayer hub.players j).status := by
    intro rest
    unfold set_outbox
    try dsimp only
    refine status_setPlayer _ _ _ _ ?_
    intro p
    rfl
  unfold keep_dice_response
  cases hread : fgets MAX_MESSAGE_LENGTH (getPlayer hub.players activePlayer).outbox with
  | none => simp [exit_program, Outcome.hub, players_close]
  | some p =>
    obtain ⟨line, rest⟩ := p
    simp only
    split_ifs <;>
      first
        | (rw [status_reroll_dice]; exact hset rest)
        | simp [exit_program, Outcome.hub, players_close, hset]

theorem status_reroll_negotiation (fuel : Nat) :
    ∀ (junk : Nat → Int) (hub : Hub) (activePlayer : Nat) (out : Outcome Unit),
      reroll_negotiation fuel junk hub activePlayer = some out →
      ∀ j, (getPlayer out.hub.players j).status = (getPlayer hub.players j).status := by
  induction fuel with
  | zero => intro junk hub a out h; simp [reroll_negotiation] at h
  | succ fuel ih =>
    intro junk hub a out h j
    have hk := status_keep_dice_response (junk 0) hub a j
    unfold reroll_negotiation at h
    cases hres : keep_dice_response (junk 0) hub a with
    | exit status hub1 =>
      rw [hres] at h hk
      simp only [Option.some.injEq] at h
      subst h
      exact hk
    | ret value hub1 =>
      rw [hres] at h hk
      cases value with
      | true =>
        simp only [Option.some.injEq] at h
        subst h
        exact hk
      | false =>
        simp only at h
        rw [ih _ _ _ _ h j]
        exact hk

theorem status_get_player_roll (junk : Nat → Int) (hub : Hub) (activePlayer : Nat)
    (out : Outcome Unit) (h : get_player_roll junk hub activePlayer = some out) (j : Nat) :
    (getPlayer out.hub.players j).status = (getPlayer hub.players j).status := by
  unfold get_player_roll at h
  simp only at h
  cases hres : reroll_negotiation
      ((getPlayer (send_to (set_latestDice hub
        (create_dice_set_string hub.game.rollFile.latestDice)) activePlayer
        (msg_turn (set_latestDice hub
          (create_dice_set_string hub.game.rollFile.latestDice)).game.rollFile.latestDice.rollString)).players
        activePlayer).outbox.length + 1) junk
      (send_to (set_latestDice hub (create_dice_set_string hub.game.rollFile.latestDice))
        activePlayer
        (msg_turn (set_latestDice hub
          (create_dice_set_string hub.game.rollFile.latestDice)).game.rollFile.latestDice.rollString))
      activePlayer with
  | none => rw [hres] at h; simp at h
  | some res =>
    rw [hres] at h
    have hs := status_reroll_negotiation _ _ _ _ _ hres j
    cases res with
    | exit status hub3 =>
      simp only [Option.some.injEq] at h
      subst h
      exact hs
    | ret value hub3 =>
      simp only [Option.some.injEq] at h
      subst h
      simp only [Outcome.hub, players_alert]
      exact hs

theorem status_heal (hub : Hub) (player : Nat) (healAmount : Int) (j : Nat) :
    (getPlayer (heal hub player healAmount).players j).status =
      (getPlayer hub.players j).status := by
  unfold heal
  split_ifs
  · rfl
  · try dsimp only
    refine status_setPlayer _ _ _ _ ?_
    intro p
    rfl
  · try dsimp only
    refine status_setPlayer _ _ _ _ ?_
    intro p
    rfl
  · rfl

theorem status_damage_player (hub : Hub) (player : Nat) (damage : Int) (j : Nat) :
    (getPlayer (damage_player hub player damage).players j).status =
      (getPlayer hub.players j).status := by
  unfold damage_player
  try dsimp only
  refine status_setPlayer _ _ _ _ ?_
  intro p
  rfl

theorem status_claim_stlucia (hub : Hub) (activePlayer : Nat) (j : Nat) :
    (getPlayer (claim_stlucia hub activePlayer).players j).status =
      (getPlayer hub.players j).status := by
  unfold claim_stlucia
  simp only [players_alert]
  try dsimp only
  refine status_setPlayer _ _ _ _ ?_
  intro p
  rfl

theorem status_receive_stay_reply (hub : Hub) (activePlayer holder : Nat) (j : Nat) :
    (getPlayer (receive_stay_reply hub activePlayer holder).hub.players j).status =
      (getPlayer hub.players j).status := by
  have hset : ∀ rest, (getPlayer (set_outbox hub holder rest).players j).status =
      (getPlayer hub.players j).status := by
    intro rest
    unfold set_outbox
    try dsimp only
    refine status_setPlayer _ _ _ _ ?_
    intro p
    rfl
  unfold receive_stay_reply
  cases hread : fgets MAX_MESSAGE_LENGTH (getPlayer hub.players holder).outbox with
  | none => simp [exit_program, Outcome.hub, players_close]
  | some p =>
    obtain ⟨line, rest⟩ := p
    simp only
    split_ifs <;>
      simp [exit_program, Outcome.hub, players_close, status_claim_stlucia, hset]

theorem status_attack (hub : Hub) (activePlayer : Nat) (j : Nat) :
    (getPlayer (attack hub activePlayer).hub.players j).status =
      (getPlayer hub.players j).status := by
  unfold attack
  split_ifs
  · simp [Outcome.hub, status_claim_stlucia]
  · simp only [Outcome.hub, players_alert]
    apply forLoop_induction
      (fun acc : Hub => (getPlayer acc.players j).status = (getPlayer hub.players j).status)
    · rfl
    · intro i acc _ hacc
      split_ifs
      · exact hacc
      · rw [status_damage_player]; exact hacc
  · dsimp only
    rw [status_receive_stay_reply]
    simp [send_to, players_alert, status_damage_player]
  · rfl

theorem status_gain_points (hub : Hub) (activePlayer : Nat) (startingPoints : Int) (j : Nat) :
    (getPlayer (gain_points hub activePlayer startingPoints).players j).status =
      (getPlayer hub.players j).status := by
  unfold gain_points
  simp only
  split_ifs <;>
    (try simp only [players_alert]) <;>
    (refine status_setPlayer _ _ _ _ ?_) <;>
    (intro p) <;>
    rfl

theorem status_update_eliminated_players (hub : Hub) (activePlayer : Nat) (j : Nat) :
    (getPlayer (update_eliminated_players hub activePlayer).players j).status =
      if j < hub.game.numberOfPlayers ∧ j < hub.players.length ∧
          newly_eliminated hub j = true then PlayerStatus.ELIMINATED
      else (getPlayer hub.players j).status := by
  unfold update_eliminated_players
  rw [(sweep_loop hub activePlayer hub.game.numberOfPlayers).2.2.1 j]
  split_ifs <;> rfl

theorem status_check_game_over (hub : Hub) (activePlayer : Nat) (j : Nat)
    (h : (getPlayer hub.players j).status = PlayerStatus.ELIMINATED) :
    (getPlayer (check_game_over hub activePlayer).2.players j).status =
      PlayerStatus.ELIMINATED := by
  unfold check_game_over
  split_ifs
  · simp only [(eliminate_all_loop _ _).2.2.2 j, players_alert]
    split_ifs
    · rfl
    · exact h
  · exact h

theorem status_start_turn (i0 : Int) (hub : Hub) (activePlayer : Nat) (j : Nat) :
    (getPlayer (start_turn i0 hub activePlayer).players j).status =
      (getPlayer hub.players j).status := by
  unfold start_turn
  simp only [set_latestDice, set_rollFile]
  split_ifs
  · dsimp only
    refine status_setPlayer _ _ _ _ ?_
    intro p
    rfl
  · rfl

theorem finish_turn_keeps_eliminated (hub : Hub) (activePlayer : Nat) (startingPoints : Int)
    (j : Nat) (h : (getPlayer hub.players j).status = PlayerStatus.ELIMINATED) :
    (getPlayer (finish_turn hub activePlayer startingPoints).hub.players j).status =
      PlayerStatus.ELIMINATED := by
  unfold finish_turn
  have h6 := status_attack (heal hub activePlayer hub.game.rollFile.latestDice.numberOfHs)
    activePlayer j
  rw [status_heal, h] at h6
  dsimp only
  cases hatt : attack (heal hub activePlayer hub.game.rollFile.latestDice.numberOfHs)
      activePlayer with
  | exit status hub6 =>
    rw [hatt] at h6
    exact h6
  | ret value6 hub6 =>
    rw [hatt] at h6
    simp only [Outcome.hub] at h6 ⊢
    apply status_check_game_over
    rw [status_update_eliminated_players, status_gain_points, h6]
    split_ifs <;> rfl

theorem turn_keeps_eliminated (junk : Nat → Int) (hub : Hub) (activePlayer : Nat)
    (out : Outcome Bool) (hturn : turn junk hub activePlayer = some out) (j : Nat)
    (h : (getPlayer hub.players j).status = PlayerStatus.ELIMINATED) :
    (getPlayer out.hub.players j).status = PlayerStatus.ELIMINATED := by
  unfold turn at hturn
  have h3 := status_start_turn (junk 0) hub activePlayer j
  rw [h] at h3
  cases hroll : get_player_roll (fun k => junk (k + 1)) (start_turn (junk 0) hub activePlayer)
      activePlayer with
  | none => rw [hroll] at hturn; simp at hturn
  | some res =>
    rw [hroll] at hturn
    have hs := status_get_player_roll _ _ _ _ hroll j
    cases res with
    | exit status hub4 =>
      simp only [Option.some.injEq] at hturn
      subst hturn
      exact hs.trans h3
    | ret value hub4 =>
      simp only [Option.some.injEq] at hturn
      subst hturn
      exact finish_turn_keeps_eliminated _ _ _ _ (hs.trans h3)

theorem run_game_from_keeps_eliminated (fuel : Nat) :
    ∀ (junk : Nat → Nat → Int) (hub : Hub) (activePlayer : Nat) (out : Outcome Unit),
      run_game_from fuel junk hub activePlayer = some out →
      ∀ j, (getPlayer hub.players j).status = PlayerStatus.ELIMINATED →
        (getPlayer out.hub.players j).status = PlayerStatus.ELIMINATED := by
  induction fuel with
  | zero => intro junk hub a out h; simp [run_game_from] at h
  | succ fuel ih =>
    intro junk hub a out h j hj
    unfold run_game_from at h
    cases hturn : turn (junk 0) hub a with
    | none => rw [hturn] at h; simp at h
    | some res =>
      rw [hturn] at h
      have hs := turn_keeps_eliminated _ _ _ _ hturn j hj
      cases res with
      | exit status hub1 =>
        simp only [Option.some.injEq] at h
        subst h
        exact hs
      | ret value hub1 =>
        cases value with
        | true =>
          simp only [Option.some.injEq] at h
          subst h
          exact hs
        | false =>
          simp only at h
          cases hadv : advance_player hub1.game.numberOfPlayers hub1 a with
          | none => rw [hadv] at h; simp at h
          | some next =>
            rw [hadv] at h
            exact ih _ _ _ _ h j hs

theorem recipients_congr (hub1 hub2 : Hub) (activePlayer : Nat) (skip : Bool)
    (hn : hub1.game.numberOfPlayers = hub2.game.numberOfPlayers)
    (hs : ∀ i, (getPlayer hub1.players i).status = (getPlayer hub2.players i).status)
    (hi : ∀ i, (getPlayer hub1.players i).inbox = (getPlayer hub2.players i).inbox) :
    recipients hub1 activePlayer skip = recipients hub2 activePlayer skip := by
  unfold recipients
  rw [hn]
  apply List.filter_congr
  intro i _
  rw [hs i, hi i]

theorem inbox_setPlayer (players : List Player) (i j : Nat) (f : Player → Player)
    (hf : ∀ p, (f p).inbox = p.inbox) :
    (getPlayer (setPlayer players i f) j).inbox = (getPlayer players j).inbox := by
  rw [getPlayer_setPlayer]
  split_ifs with h
  · obtain ⟨rfl, _⟩ := h
    exact hf _
  · rfl

theorem attack_inward_eq (hub : Hub) (activePlayer holder : Nat)
    (hA : hub.game.rollFile.latestDice.numberOfAs > 0)
    (hholder : hub.game.playerInStLucia = (holder : Int)) (hne : holder ≠ activePlayer) :
    attack hub activePlayer =
      receive_stay_reply
        (send_to
          (alert_remaining_players
            (damage_player hub holder hub.game.rollFile.latestDice.numberOfAs) activePlayer
            (msg_attacks_in (get_player_label activePlayer)
              hub.game.rollFile.latestDice.numberOfAs) false)
          holder msg_stay_query)
        activePlayer holder := by
  unfold attack
  have h1 : ¬ hub.game.playerInStLucia = EMPTY_STLUCIA := by
    rw [hholder, EMPTY_STLUCIA]; omega
  have h2 : ¬ hub.game.playerInStLucia = (activePlayer : Int) := by
    rw [hholder]; omega
  rw [if_pos hA, if_neg h1, if_neg h2]
  simp only [send_to, game_alert, damage_player, hholder, Int.toNat_ofNat]

theorem receive_stay_reply_of_dead_holder (hub : Hub) (activePlayer holder : Nat)
    (line rest : List Char)
    (hholder : hub.game.playerInStLucia = (holder : Int))
    (hread : fgets MAX_MESSAGE_LENGTH (getPlayer hub.players holder).outbox = some (line, rest))
    (hdead : (getPlayer hub.players holder).health ≤ 0) :
    receive_stay_reply hub activePlayer holder =
      Outcome.ret () (claim_stlucia (set_outbox hub holder rest) activePlayer) := by
  unfold receive_stay_reply
  rw [hread]
  have h : (getPlayer (set_outbox hub holder rest).players
      (set_outbox hub holder rest).game.playerInStLucia.toNat).health ≤ 0 := by
    have hg : (set_outbox hub holder rest).game = hub.game := rfl
    rw [hg, hholder, Int.toNat_ofNat, (getPlayer_set_outbox hub holder holder rest).1]
    exact hdead
  simp only [if_pos h]

theorem health_damage_player_of_le (hub : Hub) (player : Nat) (damage : Int)
    (hlt : player < hub.players.length)
    (hle : (getPlayer hub.players player).health ≤ damage) :
    (getPlayer (damage_player hub player damage).players player).health = 0 := by
  unfold damage_player
  dsimp only
  rw [getPlayer_setPlayer_self _ _ _ hlt]
  dsimp only
  split_ifs with h
  · omega
  · omega

/-- The state in which an inward attack ends when the holder's health is 0 after the damage and
the holder's stream yields a line: the damage, the broadcast of `attacks ... in`, the query
`stay?`, the bytes of the reply consumed, and the claim. -/
theorem attack_inward_of_dead_holder (hub : Hub) (activePlayer holder : Nat)
    (line rest : List Char)
    (hA : hub.game.rollFile.latestDice.numberOfAs > 0)
    (hholder : hub.game.playerInStLucia = (holder : Int)) (hne : holder ≠ activePlayer)
    (hlt : holder < hub.players.length)
    (hle : (getPlayer hub.players holder).health ≤ hub.game.rollFile.latestDice.numberOfAs)
    (hread : fgets MAX_MESSAGE_LENGTH (getPlayer hub.players holder).outbox =
      some (line, rest)) :
    attack hub activePlayer =
      Outcome.ret ()
        (claim_stlucia
          (set_outbox
            (send_to
              (alert_remaining_players
                (damage_player hub holder hub.game.rollFile.latestDice.numberOfAs) activePlayer
                (msg_attacks_in (get_player_label activePlayer)
                  hub.game.rollFile.latestDice.numberOfAs) false)
              holder msg_stay_query)
            holder rest)
          activePlayer) := by
  rw [attack_inward_eq hub activePlayer holder hA hholder hne]
  apply receive_stay_reply_of_dead_holder _ _ _ line
  · simp only [send_to, game_alert, damage_player, hholder]
  · simp only [send_to, players_alert]
    rw [← hread]
    congr 1
    unfold damage_player
    dsimp only
    rw [getPlayer_setPlayer_self _ _ _ hlt]
  · simp only [send_to, players_alert]
    rw [health_damage_player_of_le hub holder _ hlt hle]

theorem points_setPlayer (players : List Player) (i j : Nat) (f : Player → Player)
    (hf : ∀ p, (f p).points = p.points) :
    (getPlayer (setPlayer players i f) j).points = (getPlayer players j).points := by
  rw [getPlayer_setPlayer]
  split_ifs with h
  · obtain ⟨rfl, _⟩ := h
    exact hf _
  · rfl

theorem claim_stlucia_eq (hub : Hub) (activePlayer : Nat) :
    claim_stlucia hub activePlayer =
      { game := { hub.game with playerInStLucia := (activePlayer : Int) },
        players := setPlayer hub.players activePlayer
          (fun p => { p with points := p.points + 1 }),
        sent := hub.sent ++ (recipients hub activePlayer false).map
          (fun i => (i, msg_claim (get_player_label activePlayer))) } := by
  unfold claim_stlucia
  rw [alert_remaining_players_eq]
  dsimp only
  congr 3
  apply recipients_congr
  · rfl
  · intro i
    dsimp only
    refine status_setPlayer _ _ _ _ ?_
    intro p
    rfl
  · intro i
    dsimp only
    refine inbox_setPlayer _ _ _ _ ?_
    intro p
    rfl

theorem recipients_damage_player (hub : Hub) (player : Nat) (damage : Int) (activePlayer : Nat)
    (skip : Bool) :
    recipients (damage_player hub player damage) activePlayer skip =
      recipients hub activePlayer skip := by
  apply recipients_congr
  · rfl
  · intro i
    exact status_damage_player hub player damage i
  · intro i
    unfold damage_player
    dsimp only
    refine inbox_setPlayer _ _ _ _ ?_
    intro p
    rfl

theorem recipients_set_outbox (hub : Hub) (player : Nat) (rest : List Char) (activePlayer : Nat)
    (skip : Bool) :
    recipients (set_outbox hub player rest) activePlayer skip =
      recipients hub activePlayer skip := by
  apply recipients_congr
  · rfl
  · intro i
    exact (getPlayer_set_outbox hub player i rest).2.2.2.1
  · intro i
    exact (getPlayer_set_outbox hub player i rest).2.2.2.2

theorem attack_inward_dead_facts (hub : Hub) (activePlayer holder : Nat)
    (line rest : List Char)
    (hA : hub.game.rollFile.latestDice.numberOfAs ≥ 1)
    (hholder : hub.game.playerInStLucia = (holder : Int)) (hne : holder ≠ activePlayer)
    (hlt : holder < hub.players.length) (hact : activePlayer < hub.players.length)
    (hle : (getPlayer hub.players holder).health ≤ hub.game.rollFile.latestDice.numberOfAs)
    (hread : fgets MAX_MESSAGE_LENGTH (getPlayer hub.players holder).outbox =
      some (line, rest)) :
    ∃ hub1, attack hub activePlayer = Outcome.ret () hub1 ∧
      hub1.game.playerInStLucia = (activePlayer : Int) ∧
      (getPlayer hub1.players activePlayer).points =
        (getPlayer hub.players activePlayer).points + 1 ∧
      (∀ j, j ≠ activePlayer →
        (getPlayer hub1.players j).points = (getPlayer hub.players j).points) ∧
      (getPlayer hub1.players holder).health = 0 ∧
      (getPlayer hub1.players holder).outbox = rest ∧
      hub1.sent = hub.sent ++
        (recipients hub activePlayer false).map (fun i =>
          (i, msg_attacks_in (get_player_label activePlayer)
            hub.game.rollFile.latestDice.numberOfAs)) ++
        [(holder, msg_stay_query)] ++
        (recipients hub activePlayer false).map (fun i =>
          (i, msg_claim (get_player_label activePlayer))) := by
  refine ⟨_, attack_inward_of_dead_holder hub activePlayer holder line rest (by omega) hholder
    hne hlt hle hread, ?_⟩
  rw [claim_stlucia_eq]
  have hdam : ∀ j, (getPlayer (damage_player hub holder
      hub.game.rollFile.latestDice.numberOfAs).players j).points =
      (getPlayer hub.players j).points := by
    intro j
    unfold damage_player
    dsimp only
    refine points_setPlayer _ _ _ _ ?_
    intro p
    rfl
  refine ⟨rfl, ?_, ?_, ?_, ?_, ?_⟩
  · dsimp only
    rw [getPlayer_setPlayer_self _ _ _ (by
      simpa [set_outbox, send_to, players_alert, damage_player, length_setPlayer] using hact)]
    dsimp only
    rw [(getPlayer_set_outbox _ holder activePlayer rest).2.1]
    simp only [send_to, players_alert, hdam]
  · intro j hj
    dsimp only
    rw [getPlayer_setPlayer_ne _ _ _ _ (Ne.symm hj),
      (getPlayer_set_outbox _ holder j rest).2.1]
    simp only [send_to, players_alert, hdam]
  · dsimp only
    rw [getPlayer_setPlayer_ne _ _ _ _ (Ne.symm hne),
      (getPlayer_set_outbox _ holder holder rest).1]
    simp only [send_to, players_alert]
    exact health_damage_player_of_le hub holder _ hlt hle
  · dsimp only
    rw [getPlayer_setPlayer_ne _ _ _ _ (Ne.symm hne)]
    unfold set_outbox
    dsimp only
    rw [getPlayer_setPlayer_self _ _ _ (by
      simpa [send_to, players_alert, damage_player, length_setPlayer] using hlt)]
  · dsimp only
    rw [recipients_set_outbox]
    simp only [set_outbox, send_to]
    rw [alert_remaining_players_eq]
    dsimp only
    rw [recipients_damage_player]
    have hrec : recipients
        { game := (damage_player hub holder hub.game.rollFile.latestDice.numberOfAs).game,
          players := (damage_player hub holder hub.game.rollFile.latestDice.numberOfAs).players,
          sent := (damage_player hub holder hub.game.rollFile.latestDice.numberOfAs).sent ++
            (recipients hub activePlayer false).map (fun i =>
              (i, msg_attacks_in (get_player_label activePlayer)
                hub.game.rollFile.latestDice.numberOfAs)) ++
            [(holder, msg_stay_query)] } activePlayer false =
        recipients hub activePlayer false := by
      rw [← recipients_damage_player hub holder hub.game.rollFile.latestDice.numberOfAs]
      rfl
    rw [hrec]
    rfl

/-- Claim C10, counterexample: the holder (health 3) is attacked inward for damage 3.  The hub
writes `stay?` to the holder and consumes the holder's reply `stay` before the claim; and when
the holder's stream has ended the hub, waiting for that reply, calls `exit_program` with
`PLAYER_QUIT` and the territory is not transferred. -/
theorem attack_inward_sends_stay_query :
    (attack (inward_attack_hub 3 (kw_stay ++ [NL])) 0).hub.sent =
      [(0, msg_attacks_in 'A' 3), (1, msg_attacks_in 'A' 3), (1, msg_stay_query),
        (0, msg_claim 'A'), (1, msg_claim 'A')] ∧
    (getPlayer (inward_attack_hub 3 (kw_stay ++ [NL])).players 1).outbox = kw_stay ++ [NL] ∧
    (getPlayer (attack (inward_attack_hub 3 (kw_stay ++ [NL])) 0).hub.players 1).outbox = [] ∧
    attack (inward_attack_hub 3 []) 0 =
      Outcome.exit ExitCodes.PLAYER_QUIT (attack (inward_attack_hub 3 []) 0).hub ∧
    (attack (inward_attack_hub 3 []) 0).hub.game.playerInStLucia = 1 ∧
    (attack (inward_attack_hub 3 []) 0).hub.sent =
      [(0, msg_attacks_in 'A' 3), (1, msg_attacks_in 'A' 3), (1, msg_stay_query),
        (0, msg_shutdown), (1, msg_shutdown)] := by
  decide

/-- An inward attack whose damage `n ≥ 1` is at least the holder's health, in the embedding:
after the broadcast of `attacks <label> <n> in` the hub writes `stay?` to the holder and
reads from the holder's stream; at end of stream it calls `exit_program` with `PLAYER_QUIT`,
the territory still with the old holder; when the stream yields a line, the line is consumed,
the territory goes to the attacker and `claim <label>` is broadcast after the query. -/
theorem attack_inward_dead_holder_outcomes (hub : Hub) (activePlayer holder : Nat)
    (hA : hub.game.rollFile.latestDice.numberOfAs ≥ 1)
    (hholder : hub.game.playerInStLucia = (holder : Int)) (hne : holder ≠ activePlayer)
    (hlt : holder < hub.players.length) (hact : activePlayer < hub.players.length)
    (hle : (getPlayer hub.players holder).health ≤ hub.game.rollFile.latestDice.numberOfAs) :
    ((getPlayer hub.players holder).outbox = [] →
      ∃ hub1, attack hub activePlayer = Outcome.exit ExitCodes.PLAYER_QUIT hub1 ∧
        hub1.game.playerInStLucia = (holder : Int) ∧
        hub1.sent = hub.sent ++
          (recipients hub activePlayer false).map (fun i =>
            (i, msg_attacks_in (get_player_label activePlayer)
              hub.game.rollFile.latestDice.numberOfAs)) ++
          [(holder, msg_stay_query)] ++
          (recipients hub 0 false).map (fun i => (i, msg_shutdown))) ∧
    (∀ line rest,
      fgets MAX_MESSAGE_LENGTH (getPlayer hub.players holder).outbox = some (line, rest) →
      ∃ hub1, attack hub activePlayer = Outcome.ret () hub1 ∧
        hub1.game.playerInStLucia = (activePlayer : Int) ∧
        (getPlayer hub1.players holder).outbox = rest ∧
        hub1.sent = hub.sent ++
          (recipients hub activePlayer false).map (fun i =>
            (i, msg_attacks_in (get_player_label activePlayer)
              hub.game.rollFile.latestDice.numberOfAs)) ++
          [(holder, msg_stay_query)] ++
          (recipients hub activePlayer false).map (fun i =>
            (i, msg_claim (get_player_label activePlayer)))) := by
  constructor
  · intro hempty
    rw [attack_inward_eq hub activePlayer holder (by omega) hholder hne]
    unfold receive_stay_reply
    have hout : (getPlayer (send_to (alert_remaining_players
        (damage_player hub holder hub.game.rollFile.latestDice.numberOfAs) activePlayer
        (msg_attacks_in (get_player_label activePlayer)
          hub.game.rollFile.latestDice.numberOfAs) false)
        holder msg_stay_query).players holder).outbox = [] := by
      simp only [send_to, players_alert]
      unfold damage_player
      dsimp only
      rw [getPlayer_setPlayer_self _ _ _ hlt]
      exact hempty
    rw [hout]
    refine ⟨_, rfl, ?_, ?_⟩
    · simp only [fgets, if_true, exit_program, game_close, send_to, game_alert, damage_player,
        hholder]
    · simp only [close_remaining_players]
      rw [if_pos (Or.inl (le_refl _)), alert_remaining_players_eq]
      simp only [send_to]
      rw [alert_remaining_players_eq]
      dsimp only
      have hrec : ∀ sent, recipients
          { game := (damage_player hub holder hub.game.rollFile.latestDice.numberOfAs).game,
            players := (damage_player hub holder hub.game.rollFile.latestDice.numberOfAs).players,
            sent := sent } 0 false =
          recipients hub 0 false :=
        fun _ => recipients_damage_player hub holder _ 0 false
      rw [hrec, recipients_damage_player]
      rfl
  · intro line rest hread
    obtain ⟨hub1, h1, h2, _, _, _, h6, h7⟩ := attack_inward_dead_facts hub activePlayer holder
      line rest hA hholder hne hlt hact hle hread
    exact ⟨hub1, h1, h2, h6, h7⟩

/-! ## The negotiation loop returns -/

theorem fgets_chars_length (k : Nat) (s : List Char) :
    ((fgets_chars k s).2.length ≤ s.length) ∧
    (0 < k → s ≠ [] → (fgets_chars k s).2.length < s.length) := by
  induction k generalizing s with
  | zero => simp [fgets_chars]
  | succ k ih =>
    cases s with
    | nil => simp [fgets_chars]
    | cons c s =>
      unfold fgets_chars
      split_ifs
      · simp
      · have := (ih s).1
        simp only [List.length_cons]
        exact ⟨by omega, fun _ _ => by omega⟩

theorem fgets_consumes (s line rest : List Char)
    (h : fgets MAX_MESSAGE_LENGTH s = some (line, rest)) : rest.length < s.length := by
  unfold fgets at h
  split_ifs at h with hs
  simp only [Option.some.injEq] at h
  have := (fgets_chars_length (MAX_MESSAGE_LENGTH - 1) s).2 (by decide) hs
  rw [h] at this
  exact this

theorem keep_dice_response_consumes (i0 : Int) (hub : Hub) (activePlayer : Nat) (value : Bool)
    (hub1 : Hub) (h : keep_dice_response i0 hub activePlayer = Outcome.ret value hub1) :
    (getPlayer hub1.players activePlayer).outbox.length <
      (getPlayer hub.players activePlayer).outbox.length := by
  cases hread : fgets MAX_MESSAGE_LENGTH (getPlayer hub.players activePlayer).outbox with
  | none =>
    unfold keep_dice_response at h
    rw [hread] at h
    simp [exit_program] at h
  | some p =>
    obtain ⟨line, rest⟩ := p
    have hlen := fgets_consumes _ _ _ hread
    have hin : activePlayer < hub.players.length := by
      by_contra hc
      rw [getPlayer_absent _ _ (Nat.le_of_not_lt hc)] at hread
      simp [fgets, Player.absent] at hread
    have hout : (getPlayer (set_outbox hub activePlayer rest).players activePlayer).outbox =
        rest := by
      unfold set_outbox
      dsimp only
      rw [getPlayer_setPlayer_self _ _ _ hin]
    have hplayers : hub1.players = (set_outbox hub activePlayer rest).players := by
      rw [keep_dice_response_of_read i0 hub activePlayer line rest hread] at h
      split_ifs at h
      · simp only [Outcome.ret.injEq] at h
        rw [← h.2]
      · simp [exit_program] at h
      · have := status_reroll_dice i0 (set_outbox hub activePlayer rest) activePlayer
          ((interpret_message line).2.getD REROLLED_DICE_ROLL_INDEX [])
        rw [h] at this
        exact this
      · simp [exit_program] at h
      · simp [exit_program] at h
      · simp [exit_program] at h
    rw [hplayers, hout]
    exact hlen

theorem reroll_negotiation_returns (fuel : Nat) :
    ∀ (junk : Nat → Int) (hub : Hub) (activePlayer : Nat),
      (getPlayer hub.players activePlayer).outbox.length < fuel →
      ∃ out, reroll_negotiation fuel junk hub activePlayer = some out := by
  induction fuel with
  | zero => intro junk hub a h; omega
  | succ fuel ih =>
    intro junk hub a h
    unfold reroll_negotiation
    cases hres : keep_dice_response (junk 0) hub a with
    | exit status hub1 => exact ⟨_, rfl⟩
    | ret value hub1 =>
      cases value with
      | true => exact ⟨_, rfl⟩
      | false =>
        have := keep_dice_response_consumes _ _ _ _ _ hres
        exact ih _ hub1 a (by omega)

/-- The functions `get_player_roll` and `turn` always produce an outcome: the number of
rounds allowed for the negotiation is never exhausted. -/
theorem turn_returns (junk : Nat → Int) (hub : Hub) (activePlayer : Nat) :
    (∃ out, get_player_roll junk hub activePlayer = some out) ∧
    (∃ out, turn junk hub activePlayer = some out) := by
  have hroll : ∀ (junk : Nat → Int) (hub : Hub),
      ∃ out, get_player_roll junk hub activePlayer = some out := by
    intro junk hub
    unfold get_player_roll
    dsimp only
    obtain ⟨out, hout⟩ := reroll_negotiation_returns
      ((getPlayer (send_to (set_latestDice hub
        (create_dice_set_string hub.game.rollFile.latestDice)) activePlayer
        (msg_turn (set_latestDice hub (create_dice_set_string
          hub.game.rollFile.latestDice)).game.rollFile.latestDice.rollString)).players
        activePlayer).outbox.length + 1) junk
      (send_to (set_latestDice hub (create_dice_set_string hub.game.rollFile.latestDice))
        activePlayer
        (msg_turn (set_latestDice hub (create_dice_set_string
          hub.game.rollFile.latestDice)).game.rollFile.latestDice.rollString))
      activePlayer (Nat.lt_succ_self _)
    rw [hout]
    cases out with
    | exit status hub3 => exact ⟨_, rfl⟩
    | ret value hub3 => exact ⟨_, rfl⟩
  refine ⟨hroll junk hub, ?_⟩
  unfold turn
  obtain ⟨out, hout⟩ := hroll (fun k => junk (k + 1)) (start_turn (junk 0) hub activePlayer)
  rw [hout]
  cases out with
  | exit status hub4 => exact ⟨_, rfl⟩
  | ret value hub4 => exact ⟨_, rfl⟩

/-! ## Health: `heal` and `damage_player` -/

theorem health_setPlayer (players : List Player) (i j : Nat) (f : Player → Player)
    (hf : ∀ p, (f p).health = p.health) :
    (getPlayer (setPlayer players i f) j).health = (getPlayer players j).health := by
  rw [getPlayer_setPlayer]
  split_ifs with h
  · obtain ⟨rfl, _⟩ := h
    exact hf _
  · rfl

theorem tokens_setPlayer (players : List Player) (i j : Nat) (f : Player → Player)
    (hf : ∀ p, (f p).tokens = p.tokens) :
    (getPlayer (setPlayer players i f) j).tokens = (getPlayer players j).tokens := by
  rw [getPlayer_setPlayer]
  split_ifs with h
  · obtain ⟨rfl, _⟩ := h
    exact hf _
  · rfl

theorem damage_player_eq (hub : Hub) (player : Nat) (damage : Int) :
    damage_player hub player damage =
      { hub with
        players := setPlayer hub.players player (fun p =>
          { p with health := max 0 ((getPlayer hub.players player).health - damage) }) } := by
  unfold damage_player
  dsimp only
  congr 1
  unfold setPlayer
  congr 1
  by_cases h : (getPlayer hub.players player).health - damage < 0
  · rw [if_pos h, max_eq_left (le_of_lt h)]
    simp
  · rw [if_neg h, max_eq_right (not_lt.1 h)]

theorem getPlayer_damage_player (hub : Hub) (player : Nat) (damage : Int) (j : Nat) :
    getPlayer (damage_player hub player damage).players j =
      if player = j ∧ player < hub.players.length then
        { getPlayer hub.players j with
          health := max 0 ((getPlayer hub.players j).health - damage) }
      else getPlayer hub.players j := by
  rw [damage_player_eq]
  dsimp only
  rw [getPlayer_setPlayer]
  split_ifs with h
  · obtain ⟨rfl, _⟩ := h
    rfl
  · rfl

theorem heal_eq (hub : Hub) (player : Nat) (healAmount : Int) :
    heal hub player healAmount =
      if healAmount = 0 ∨ (player : Int) = hub.game.playerInStLucia then hub
      else
        { hub with
          players := setPlayer hub.players player (fun p =>
            { p with
              health :=
                min STARTING_HEALTH ((getPlayer hub.players player).health + healAmount) }) } := by
  unfold heal
  by_cases h0 : healAmount = 0
  · rw [if_pos h0, if_pos (Or.inl h0)]
  · rw [if_neg h0]
    by_cases hh : (player : Int) = hub.game.playerInStLucia
    · rw [if_neg (not_not.2 hh), if_pos (Or.inr hh)]
    · rw [if_pos hh, if_neg (not_or.2 ⟨h0, hh⟩)]
      dsimp only
      congr 1
      unfold setPlayer
      congr 1
      by_cases h : (getPlayer hub.players player).health + healAmount > STARTING_HEALTH
      · rw [if_pos h, min_eq_left (le_of_lt h)]
        simp
      · rw [if_neg h, min_eq_right (not_lt.1 h)]

theorem getPlayer_heal (hub : Hub) (player : Nat) (healAmount : Int) (j : Nat) :
    getPlayer (heal hub player healAmount).players j =
      if player = j ∧ player < hub.players.length ∧ healAmount ≠ 0 ∧
          (player : Int) ≠ hub.game.playerInStLucia then
        { getPlayer hub.players j with
          health := min STARTING_HEALTH ((getPlayer hub.players j).health + healAmount) }
      else getPlayer hub.players j := by
  rw [heal_eq]
  by_cases hc : healAmount = 0 ∨ (player : Int) = hub.game.playerInStLucia
  · rw [if_pos hc, if_neg]
    rintro ⟨_, _, h1, h2⟩
    rcases hc with hc | hc
    · exact h1 hc
    · exact h2 hc
  · rw [if_neg hc]
    push_neg at hc
    dsimp only
    rw [getPlayer_setPlayer]
    by_cases hj : player = j ∧ player < hub.players.length
    · obtain ⟨rfl, hlt⟩ := hj
      rw [if_pos ⟨rfl, hlt⟩, if_pos ⟨rfl, hlt, hc.1, hc.2⟩]
    · rw [if_neg hj, if_neg (fun h => hj ⟨h.1, h.2.1⟩)]

/-- Claim C14: when the final dice set has no `A` face, `attack` returns at once and leaves the
whole state as it was: health, points, tokens and status of every participant, the territory
holder, the pending bytes of every participant (no reply is read) and the lines sent (no
message is written). -/
theorem attack_without_A (hub : Hub) (activePlayer : Nat)
    (hA : hub.game.rollFile.latestDice.numberOfAs = 0) :
    attack hub activePlayer = Outcome.ret () hub := by
  unfold attack
  rw [if_neg (by omega)]

/-- Witness for `attack_without_A`. -/
theorem attack_without_A_witness :
    (negotiating_hub ['A'] (kw_stay ++ [NL])).game.rollFile.latestDice.numberOfAs = 0 ∧
    attack (negotiating_hub ['A'] (kw_stay ++ [NL])) 0 =
      Outcome.ret () (negotiating_hub ['A'] (kw_stay ++ [NL])) :=
  ⟨by decide, attack_without_A (negotiating_hub ['A'] (kw_stay ++ [NL])) 0 (by decide)⟩

/-- Claim C16: `heal`.  For a participant `player` of the array that is not the territory
holder, with health `h` between 0 and 10 and an amount `n ≥ 0`, the health after `heal` is
`min 10 (h + n)`; for the participant that holds the territory the health is unchanged
whatever the amount; and in every case the health of every other participant, all points,
tokens and statuses, the game record with the holder, and the lines sent are unchanged. -/
theorem heal_spec (hub : Hub) (player : Nat) (healAmount : Int)
    (hlt : player < hub.players.length) :
    ((player : Int) ≠ hub.game.playerInStLucia →
      0 ≤ (getPlayer hub.players player).health → (getPlayer hub.players player).health ≤ 10 →
      0 ≤ healAmount →
      (getPlayer (heal hub player healAmount).players player).health =
        min 10 ((getPlayer hub.players player).health + healAmount)) ∧
    ((player : Int) = hub.game.playerInStLucia →
      (getPlayer (heal hub player healAmount).players player).health =
        (getPlayer hub.players player).health) ∧
    (∀ j, j ≠ player →
      (getPlayer (heal hub player healAmount).players j).health =
        (getPlayer hub.players j).health) ∧
    (∀ j, (getPlayer (heal hub player healAmount).players j).points =
        (getPlayer hub.players j).points ∧
      (getPlayer (heal hub player healAmount).players j).tokens =
        (getPlayer hub.players j).tokens ∧
      (getPlayer (heal hub player healAmount).players j).status =
        (getPlayer hub.players j).status) ∧
    (heal hub player healAmount).game = hub.game ∧
    (heal hub player healAmount).sent = hub.sent := by
  refine ⟨?_, ?_, ?_, ?_, ?_, ?_⟩
  · intro hne h0 h10 hn
    rw [getPlayer_heal]
    by_cases hz : healAmount = 0
    · rw [if_neg (fun h => h.2.2.1 hz), hz, add_zero, min_eq_right h10]
    · rw [if_pos ⟨rfl, hlt, hz, hne⟩]
      rfl
  · intro hh
    rw [getPlayer_heal, if_neg (fun h => h.2.2.2 hh)]
  · intro j hj
    rw [getPlayer_heal, if_neg (fun h => hj h.1.symm)]
  · intro j
    rw [getPlayer_heal]
    split_ifs <;> exact ⟨rfl, rfl, rfl⟩
  · rw [heal_eq]
    split_ifs <;> rfl
  · rw [heal_eq]
    split_ifs <;> rfl

/-- Witness for `heal_spec`: participant 1, not the holder, with health 7 heals 5 and reaches
10; as holder, with health 10, it keeps its health. -/
theorem heal_spec_witness :
    (getPlayer (heal (attack_hub dice_111222 1 10 []) 1 5).players 1).health = 10 ∧
    (getPlayer (heal (attack_hub dice_111222 EMPTY_STLUCIA 7 []) 1 5).players 1).health =
      min 10 (7 + 5) ∧
    (heal (attack_hub dice_111222 EMPTY_STLUCIA 7 []) 1 5).game =
      (attack_hub dice_111222 EMPTY_STLUCIA 7 []).game :=
  ⟨(heal_spec (attack_hub dice_111222 1 10 []) 1 5 (by decide)).2.1 (by decide),
   (heal_spec (attack_hub dice_111222 EMPTY_STLUCIA 7 []) 1 5 (by decide)).1
     (by decide) (by decide) (by decide) (by decide),
   (heal_spec (attack_hub dice_111222 EMPTY_STLUCIA 7 []) 1 5 (by decide)).2.2.2.2.1⟩

theorem health_claim_stlucia (hub : Hub) (activePlayer : Nat) (j : Nat) :
    (getPlayer (claim_stlucia hub activePlayer).players j).health =
      (getPlayer hub.players j).health := by
  rw [claim_stlucia_eq]
  dsimp only
  refine health_setPlayer _ _ _ _ ?_
  intro p
  rfl

theorem health_in_range_step (hub : Hub) (op : HealthOp) (hop : op.amount_ok)
    (h : ∀ j, 0 ≤ (getPlayer hub.players j).health ∧ (getPlayer hub.players j).health ≤ 10) :
    ∀ j, 0 ≤ (getPlayer (op.run hub).players j).health ∧
      (getPlayer (op.run hub).players j).health ≤ 10 := by
  intro j
  obtain ⟨h0, h10⟩ := h j
  cases op with
  | healCall player healAmount =>
    have hn : 0 ≤ healAmount := hop
    show 0 ≤ (getPlayer (heal hub player healAmount).players j).health ∧
      (getPlayer (heal hub player healAmount).players j).health ≤ 10
    rw [getPlayer_heal]
    split_ifs
    · dsimp only [STARTING_HEALTH]
      exact ⟨le_min (by norm_num) (by omega), min_le_left _ _⟩
    · exact ⟨h0, h10⟩
  | damageCall player amount =>
    have hn : 0 ≤ amount := hop
    show 0 ≤ (getPlayer (damage_player hub player amount).players j).health ∧
      (getPlayer (damage_player hub player amount).players j).health ≤ 10
    rw [getPlayer_damage_player]
    split_ifs
    · dsimp only
      exact ⟨le_max_left _ _, max_le (by norm_num) (by omega)⟩
    · exact ⟨h0, h10⟩
  | claimCall player =>
    show 0 ≤ (getPlayer (claim_stlucia hub player).players j).health ∧
      (getPlayer (claim_stlucia hub player).players j).health ≤ 10
    rw [health_claim_stlucia]
    exact ⟨h0, h10⟩

theorem getPlayer_initialise_players (n j : Nat) (hj : j < n) :
    getPlayer (initialise_players n) j =
      { inbox := false, outbox := [], health := STARTING_HEALTH, points := 0, tokens := 0,
        status := PlayerStatus.UNCONNECTED } := by
  simp [getPlayer, initialise_players, List.getElem?_replicate, hj]

/-- Claim C17: health stays between 0 and 10.  `initialise_players` gives every participant
health 10; from any state in which every health is between 0 and 10, and so from the initial
one, every sequence of calls of `heal` with an amount `≥ 0` and of `damage_player` with a
damage `≥ 0` (and of `claim_stlucia`, which moves the territory between them) leaves every
health between 0 and 10; `damage_player` sets the health of its target to
`max 0 (health - damage)`, and no call of it, whatever the damage, makes a health negative
that was not. -/
theorem health_stays_in_range :
    (∀ n j, j < n → (getPlayer (initialise_players n) j).health = 10) ∧
    (∀ (hub : Hub) (ops : List HealthOp),
      (∀ j, 0 ≤ (getPlayer hub.players j).health ∧ (getPlayer hub.players j).health ≤ 10) →
      (∀ op ∈ ops, op.amount_ok) →
      ∀ j, 0 ≤ (getPlayer (run_health_ops ops hub).players j).health ∧
        (getPlayer (run_health_ops ops hub).players j).health ≤ 10) ∧
    (∀ (hub : Hub) (player : Nat) (damage : Int), player < hub.players.length →
      (getPlayer (damage_player hub player damage).players player).health =
        max 0 ((getPlayer hub.players player).health - damage)) ∧
    (∀ (hub : Hub) (player : Nat) (damage : Int) (j : Nat),
      0 ≤ (getPlayer hub.players j).health →
      0 ≤ (getPlayer (damage_player hub player damage).players j).health) := by
  refine ⟨?_, ?_, ?_, ?_⟩
  · intro n j hj
    rw [getPlayer_initialise_players n j hj]
    rfl
  · intro hub ops
    induction ops generalizing hub with
    | nil => intro h _ j; exact h j
    | cons op ops ih =>
      intro h hops j
      unfold run_health_ops
      rw [List.foldl_cons]
      exact ih (op.run hub)
        (health_in_range_step hub op (hops op (List.mem_cons_self _ _)) h)
        (fun o ho => hops o (List.mem_cons_of_mem _ ho)) j
  · intro hub player damage hlt
    rw [getPlayer_damage_player, if_pos ⟨rfl, hlt⟩]
  · intro hub player damage j h0
    rw [getPlayer_damage_player]
    split_ifs
    · exact le_max_left _ _
    · exact h0

/-- Witness for `health_stays_in_range`: from the initial array of two participants,
participant 1 takes damage 12, heals 3, takes damage 1 and heals 20. -/
theorem health_stays_in_range_witness :
    (getPlayer (initialise_players 2) 1).health = 10 ∧
    (∀ j, 0 ≤ (getPlayer (run_health_ops
        [HealthOp.damageCall 1 12, HealthOp.healCall 1 3, HealthOp.damageCall 1 1,
          HealthOp.healCall 1 20]
        { negotiating_hub ['A'] [] with players := initialise_players 2 }).players j).health ∧
      (getPlayer (run_health_ops
        [HealthOp.damageCall 1 12, HealthOp.healCall 1 3, HealthOp.damageCall 1 1,
          HealthOp.healCall 1 20]
        { negotiating_hub ['A'] [] with players := initialise_players 2 }).players j).health
        ≤ 10) ∧
    (getPlayer (run_health_ops
        [HealthOp.damageCall 1 12, HealthOp.healCall 1 3, HealthOp.damageCall 1 1]
        { negotiating_hub ['A'] [] with players := initialise_players 2 }).players 1).health
      = 2 ∧
    (getPlayer (damage_player (negotiating_hub ['A'] []) 1 12).players 1).health =
      max 0 (10 - 12) :=
  ⟨health_stays_in_range.1 2 1 (by decide),
   health_stays_in_range.2.1 { negotiating_hub ['A'] [] with players := initialise_players 2 }
     [HealthOp.damageCall 1 12, HealthOp.healCall 1 3, HealthOp.damageCall 1 1,
       HealthOp.healCall 1 20]
     (fun j => by
       by_cases hj : j < 2
       · rw [getPlayer_initialise_players 2 j hj]
         decide
       · rw [getPlayer_absent _ _ (by simpa [initialise_players] using hj)]
         decide)
     (by decide),
   by decide,
   health_stays_in_range.2.2.1 (negotiating_hub ['A'] []) 1 12 (by decide)⟩

/-! ## The stay reply of a holder that is still alive -/

theorem receive_stay_reply_of_read (hub : Hub) (activePlayer holder : Nat)
    (line rest : List Char)
    (hread : fgets MAX_MESSAGE_LENGTH (getPlayer hub.players holder).outbox =
      some (line, rest)) :
    receive_stay_reply hub activePlayer holder =
      if (getPlayer (set_outbox hub holder rest).players
          (set_outbox hub holder rest).game.playerInStLucia.toNat).health ≤ 0 then
        Outcome.ret () (claim_stlucia (set_outbox hub holder rest) activePlayer)
      else if (interpret_message line).2.getD 0 [] = kw_stay ∧
          (interpret_message line).1 = 1 then
        Outcome.ret () (set_outbox hub holder rest)
      else if (interpret_message line).2.getD 0 [] = kw_go ∧ (interpret_message line).1 = 1 then
        Outcome.ret () (claim_stlucia (set_outbox hub holder rest) activePlayer)
      else if (interpret_message line).2.getD 0 [] = kw_keepall ∧
          (interpret_message line).1 = 1 then
        exit_program (set_outbox hub holder rest) ExitCodes.INVALID_REQUEST
      else if (interpret_message line).2.getD 0 [] = kw_reroll ∧
          (interpret_message line).1 = 2 then
        if ((interpret_message line).2.getD REROLLED_DICE_ROLL_INDEX []).length > DICE_SET_SIZE ∨
            invalid_roll ((interpret_message line).2.getD REROLLED_DICE_ROLL_INDEX []) = true then
          exit_program (set_outbox hub holder rest) ExitCodes.INVALID_REQUEST
        else
          exit_program (set_outbox hub holder rest) ExitCodes.INVALID_MESSAGE
      else
        exit_program (set_outbox hub holder rest) ExitCodes.INVALID_MESSAGE := by
  unfold receive_stay_reply
  rw [hread]

theorem connected_recipients (hub : Hub) (activePlayer : Nat) (h : connected hub) :
    recipients hub activePlayer false = remaining_players hub :=
  recipients_of_connected hub activePlayer h

theorem stay_query_state_facts (hub : Hub) (activePlayer holder : Nat) (rest : List Char)
    (hlt : holder < hub.players.length) :
    (stay_query_state hub activePlayer holder rest).game = hub.game ∧
    (stay_query_state hub activePlayer holder rest).players.length = hub.players.length ∧
    (∀ j, (getPlayer (stay_query_state hub activePlayer holder rest).players j).points =
        (getPlayer hub.players j).points ∧
      (getPlayer (stay_query_state hub activePlayer holder rest).players j).tokens =
        (getPlayer hub.players j).tokens ∧
      (getPlayer (stay_query_state hub activePlayer holder rest).players j).status =
        (getPlayer hub.players j).status ∧
      (getPlayer (stay_query_state hub activePlayer holder rest).players j).inbox =
        (getPlayer hub.players j).inbox) ∧
    (getPlayer (stay_query_state hub activePlayer holder rest).players holder).health =
      max 0 ((getPlayer hub.players holder).health -
        hub.game.rollFile.latestDice.numberOfAs) ∧
    (∀ j, j ≠ holder →
      (getPlayer (stay_query_state hub activePlayer holder rest).players j).health =
        (getPlayer hub.players j).health) ∧
    (getPlayer (stay_query_state hub activePlayer holder rest).players holder).outbox = rest ∧
    (stay_query_state hub activePlayer holder rest).sent = hub.sent ++
      (recipients hub activePlayer false).map (fun i =>
        (i, msg_attacks_in (get_player_label activePlayer)
          hub.game.rollFile.latestDice.numberOfAs)) ++
      [(holder, msg_stay_query)] ∧
    ∀ other skip, recipients (stay_query_state hub activePlayer holder rest) other skip =
      recipients hub other skip := by
  have hpl : ∀ j, getPlayer (send_to (alert_remaining_players
      (damage_player hub holder hub.game.rollFile.latestDice.numberOfAs) activePlayer
      (msg_attacks_in (get_player_label activePlayer)
        hub.game.rollFile.latestDice.numberOfAs) false) holder msg_stay_query).players j =
      getPlayer (damage_player hub holder hub.game.rollFile.latestDice.numberOfAs).players j := by
    intro j
    simp only [send_to, players_alert]
  have hfield := fun j => getPlayer_set_outbox (send_to (alert_remaining_players
      (damage_player hub holder hub.game.rollFile.latestDice.numberOfAs) activePlayer
      (msg_attacks_in (get_player_label activePlayer)
        hub.game.rollFile.latestDice.numberOfAs) false) holder msg_stay_query) holder j rest
  refine ⟨?_, ?_, ?_, ?_, ?_, ?_, ?_, ?_⟩
  · simp only [stay_query_state, set_outbox, send_to, game_alert, damage_player]
  · simp only [stay_query_state, set_outbox, send_to, players_alert, damage_player,
      length_setPlayer]
  · intro j
    unfold stay_query_state
    obtain ⟨_, h2, h3, h4, h5⟩ := hfield j
    rw [h2, h3, h4, h5, hpl, getPlayer_damage_player]
    split_ifs <;> exact ⟨rfl, rfl, rfl, rfl⟩
  · unfold stay_query_state
    rw [(hfield holder).1, hpl, getPlayer_damage_player, if_pos ⟨rfl, hlt⟩]
  · intro j hj
    unfold stay_query_state
    rw [(hfield j).1, hpl, getPlayer_damage_player, if_neg (fun h => hj h.1.symm)]
  · unfold stay_query_state set_outbox
    dsimp only
    rw [getPlayer_setPlayer_self _ _ _ (by
      simpa [send_to, players_alert, damage_player, length_setPlayer] using hlt)]
  · simp only [stay_query_state, set_outbox, send_to]
    rw [alert_remaining_players_eq, recipients_damage_player]
    rfl
  · intro other skip
    unfold stay_query_state
    rw [recipients_set_outbox]
    have hrec : ∀ sent, recipients
        { game := (damage_player hub holder hub.game.rollFile.latestDice.numberOfAs).game,
          players := (damage_player hub holder hub.game.rollFile.latestDice.numberOfAs).players,
          sent := sent } other skip =
        recipients hub other skip :=
      fun _ => recipients_damage_player hub holder _ other skip
    simp only [send_to]
    rw [alert_remaining_players_eq]
    exact hrec _

theorem attack_inward_of_read (hub : Hub) (activePlayer holder : Nat) (line rest : List Char)
    (hA : hub.game.rollFile.latestDice.numberOfAs > 0)
    (hholder : hub.game.playerInStLucia = (holder : Int)) (hne : holder ≠ activePlayer)
    (hlt : holder < hub.players.length)
    (hgt : (getPlayer hub.players holder).health > hub.game.rollFile.latestDice.numberOfAs)
    (hread : fgets MAX_MESSAGE_LENGTH (getPlayer hub.players holder).outbox =
      some (line, rest)) :
    attack hub activePlayer =
      if (interpret_message line).2.getD 0 [] = kw_stay ∧ (interpret_message line).1 = 1 then
        Outcome.ret () (stay_query_state hub activePlayer holder rest)
      else if (interpret_message line).2.getD 0 [] = kw_go ∧ (interpret_message line).1 = 1 then
        Outcome.ret () (claim_stlucia (stay_query_state hub activePlayer holder rest)
          activePlayer)
      else if (interpret_message line).2.getD 0 [] = kw_keepall ∧
          (interpret_message line).1 = 1 then
        exit_program (stay_query_state hub activePlayer holder rest) ExitCodes.INVALID_REQUEST
      else if (interpret_message line).2.getD 0 [] = kw_reroll ∧
          (interpret_message line).1 = 2 then
        if ((interpret_message line).2.getD REROLLED_DICE_ROLL_INDEX []).length > DICE_SET_SIZE ∨
            invalid_roll ((interpret_message line).2.getD REROLLED_DICE_ROLL_INDEX []) = true then
          exit_program (stay_query_state hub activePlayer holder rest) ExitCodes.INVALID_REQUEST
        else
          exit_program (stay_query_state hub activePlayer holder rest) ExitCodes.INVALID_MESSAGE
      else
        exit_program (stay_query_state hub activePlayer holder rest)
          ExitCodes.INVALID_MESSAGE := by
  obtain ⟨hg, _, _, hh, _, _, _, _⟩ := stay_query_state_facts hub activePlayer holder rest hlt
  rw [attack_inward_eq hub activePlayer holder hA hholder hne]
  have hread2 : fgets MAX_MESSAGE_LENGTH (getPlayer (send_to (alert_remaining_players
      (damage_player hub holder hub.game.rollFile.latestDice.numberOfAs) activePlayer
      (msg_attacks_in (get_player_label activePlayer)
        hub.game.rollFile.latestDice.numberOfAs) false) holder msg_stay_query).players
      holder).outbox = some (line, rest) := by
    rw [← hread]
    congr 1
    simp only [send_to, players_alert]
    rw [getPlayer_damage_player, if_pos ⟨rfl, hlt⟩]
  rw [receive_stay_reply_of_read _ _ _ line rest hread2]
  have hlive : ¬ (getPlayer (stay_query_state hub activePlayer holder rest).players
      (stay_query_state hub activePlayer holder rest).game.playerInStLucia.toNat).health ≤ 0 := by
    rw [hg, hholder, Int.toNat_ofNat, hh]
    intro hle
    have := le_max_right 0 ((getPlayer hub.players holder).health -
      hub.game.rollFile.latestDice.numberOfAs)
    omega
  unfold stay_query_state at hlive ⊢
  rw [if_neg hlive]

/-- Claim C11: the inward attack on a holder that survives it.  Participant `holder`, not the
active one, holds the territory, the active participant's final dice have `n ≥ 1` faces `A`
and the holder's health is greater than `n`.  Then the holder's health goes down by exactly
`n` and no other health changes, `attacks <label> <n> in` is written to every `REMAINING`
participant and after it `stay?` to the holder alone.  On the reply `stay` the game record
(with the holder) and all points are unchanged and nothing more is written; on the reply `go`
the active participant is the holder, has exactly 1 point more, nobody else's points change,
and `claim <label>` is written to every `REMAINING` participant. -/
theorem attack_inward_live_holder (hub : Hub) (activePlayer holder : Nat) (rest : List Char)
    (hA : hub.game.rollFile.latestDice.numberOfAs ≥ 1)
    (hholder : hub.game.playerInStLucia = (holder : Int)) (hne : holder ≠ activePlayer)
    (hlt : holder < hub.players.length) (hact : activePlayer < hub.players.length)
    (hgt : (getPlayer hub.players holder).health > hub.game.rollFile.latestDice.numberOfAs)
    (hconn : connected hub) :
    ((getPlayer hub.players holder).outbox = kw_stay ++ NL :: rest →
      ∃ hub1, attack hub activePlayer = Outcome.ret () hub1 ∧
        hub1.game = hub.game ∧
        (∀ j, (getPlayer hub1.players j).points = (getPlayer hub.players j).points) ∧
        (getPlayer hub1.players holder).health =
          (getPlayer hub.players holder).health - hub.game.rollFile.latestDice.numberOfAs ∧
        (∀ j, j ≠ holder →
          (getPlayer hub1.players j).health = (getPlayer hub.players j).health) ∧
        hub1.sent = hub.sent ++
          (remaining_players hub).map (fun i =>
            (i, msg_attacks_in (get_player_label activePlayer)
              hub.game.rollFile.latestDice.numberOfAs)) ++
          [(holder, msg_stay_query)]) ∧
    ((getPlayer hub.players holder).outbox = kw_go ++ NL :: rest →
      ∃ hub1, attack hub activePlayer = Outcome.ret () hub1 ∧
        hub1.game.playerInStLucia = (activePlayer : Int) ∧
        (getPlayer hub1.players activePlayer).points =
          (getPlayer hub.players activePlayer).points + 1 ∧
        (∀ j, j ≠ activePlayer →
          (getPlayer hub1.players j).points = (getPlayer hub.players j).points) ∧
        (getPlayer hub1.players holder).health =
          (getPlayer hub.players holder).health - hub.game.rollFile.latestDice.numberOfAs ∧
        (∀ j, j ≠ holder →
          (getPlayer hub1.players j).health = (getPlayer hub.players j).health) ∧
        hub1.sent = hub.sent ++
          (remaining_players hub).map (fun i =>
            (i, msg_attacks_in (get_player_label activePlayer)
              hub.game.rollFile.latestDice.numberOfAs)) ++
          [(holder, msg_stay_query)] ++
          (remaining_players hub).map (fun i =>
            (i, msg_claim (get_player_label activePlayer)))) := by
  obtain ⟨hg, hlen, hfields, hh, hothers, _, hsent, hrec⟩ :=
    stay_query_state_facts hub activePlayer holder rest hlt
  have hmax : max 0 ((getPlayer hub.players holder).health -
      hub.game.rollFile.latestDice.numberOfAs) =
      (getPlayer hub.players holder).health - hub.game.rollFile.latestDice.numberOfAs :=
    max_eq_right (by omega)
  rw [hmax] at hh
  rw [connected_recipients hub activePlayer hconn] at hsent
  constructor
  · intro hout
    have hread : fgets MAX_MESSAGE_LENGTH (getPlayer hub.players holder).outbox =
        some (kw_stay ++ [NL], rest) := by
      rw [hout]
      exact fgets_line _ _ _ (by decide) (by decide)
    refine ⟨stay_query_state hub activePlayer holder rest, ?_, hg,
      fun j => (hfields j).1, hh, hothers, hsent⟩
    rw [attack_inward_of_read hub activePlayer holder _ rest (by omega) hholder hne hlt hgt
      hread, if_pos (by decide)]
  · intro hout
    have hread : fgets MAX_MESSAGE_LENGTH (getPlayer hub.players holder).outbox =
        some (kw_go ++ [NL], rest) := by
      rw [hout]
      exact fgets_line _ _ _ (by decide) (by decide)
    refine ⟨claim_stlucia (stay_query_state hub activePlayer holder rest) activePlayer,
      ?_, ?_, ?_, ?_, ?_, ?_, ?_⟩
    · rw [attack_inward_of_read hub activePlayer holder _ rest (by omega) hholder hne hlt hgt
        hread, if_neg (by decide), if_pos (by decide)]
    · rw [claim_stlucia_eq]
    · rw [claim_stlucia_eq]
      dsimp only
      rw [getPlayer_setPlayer_self _ _ _ (by rw [hlen]; exact hact)]
      dsimp only
      rw [(hfields activePlayer).1]
    · intro j hj
      rw [claim_stlucia_eq]
      dsimp only
      rw [getPlayer_setPlayer_ne _ _ _ _ (Ne.symm hj), (hfields j).1]
    · rw [health_claim_stlucia, hh]
    · intro j hj
      rw [health_claim_stlucia, hothers j hj]
    · rw [claim_stlucia_eq]
      dsimp only
      rw [hsent, hrec, connected_recipients hub activePlayer hconn]

/-- Witness for `attack_inward_live_holder`: the holder has health 10, the attacker rolled
three `A`; the holder answers `stay`, or `go`. -/
theorem attack_inward_live_holder_witness :
    connected (attack_hub dice_111AAA 1 10 (kw_stay ++ [NL])) ∧
    (∃ hub1, attack (attack_hub dice_111AAA 1 10 (kw_stay ++ [NL])) 0 = Outcome.ret () hub1 ∧
      hub1.game = (attack_hub dice_111AAA 1 10 (kw_stay ++ [NL])).game ∧
      (getPlayer hub1.players 1).health = 10 - 3 ∧
      hub1.sent = [(0, msg_attacks_in 'A' 3), (1, msg_attacks_in 'A' 3),
        (1, msg_stay_query)]) ∧
    (∃ hub1, attack (attack_hub dice_111AAA 1 10 (kw_go ++ [NL])) 0 = Outcome.ret () hub1 ∧
      hub1.game.playerInStLucia = 0 ∧
      (getPlayer hub1.players 0).points = 0 + 1 ∧
      hub1.sent = [(0, msg_attacks_in 'A' 3), (1, msg_attacks_in 'A' 3),
        (1, msg_stay_query), (0, msg_claim 'A'), (1, msg_claim 'A')]) :=
  ⟨by decide,
   ((attack_inward_live_holder (attack_hub dice_111AAA 1 10 (kw_stay ++ [NL])) 0 1 []
      (by decide) (by decide) (by decide) (by decide) (by decide) (by decide)
      (by decide)).1 (by decide)).imp
     (fun _ h => ⟨h.1, h.2.1, h.2.2.2.1, h.2.2.2.2.2.trans (by decide)⟩),
   ((attack_inward_live_holder (attack_hub dice_111AAA 1 10 (kw_go ++ [NL])) 0 1 []
      (by decide) (by decide) (by decide) (by decide) (by decide) (by decide)
      (by decide)).2 (by decide)).imp
     (fun _ h => ⟨h.1, h.2.1, h.2.2.1, h.2.2.2.2.2.2.trans (by decide)⟩)⟩

/-- The stay reply of a holder whose health is above 0, for every state and every line read:
`keepall` exits with `INVALID_REQUEST`; `reroll <s>` exits with `INVALID_MESSAGE` when `s`
has at most six characters, all of them faces, and with `INVALID_REQUEST` when `s` is longer
or holds another character; every line that is none of `stay`, `go`, `keepall` (one field)
and `reroll` (two fields) exits with `INVALID_MESSAGE`. -/
theorem receive_stay_reply_live_holder (hub : Hub) (activePlayer holder : Nat)
    (fields : List (List Char)) (n : Int) (text remainder : List Char)
    (hholder : hub.game.playerInStLucia = (holder : Int))
    (hlive : (getPlayer hub.players holder).health > 0)
    (hread : fgets MAX_MESSAGE_LENGTH (getPlayer hub.players holder).outbox =
      some (text, remainder))
    (hfields : interpret_message text = (n, fields)) :
    (fields = [kw_keepall] ∧ n = 1 →
      receive_stay_reply hub activePlayer holder =
        Outcome.exit ExitCodes.INVALID_REQUEST
          (close_remaining_players (set_outbox hub holder remainder)
            ExitCodes.INVALID_REQUEST)) ∧
    (∀ s, fields = [kw_reroll, s] ∧ n = 2 → s.length ≤ 6 → (∀ c ∈ s, c ∈ faces) →
      receive_stay_reply hub activePlayer holder =
        Outcome.exit ExitCodes.INVALID_MESSAGE
          (close_remaining_players (set_outbox hub holder remainder)
            ExitCodes.INVALID_MESSAGE)) ∧
    (∀ s, fields = [kw_reroll, s] ∧ n = 2 → (6 < s.length ∨ ∃ c ∈ s, c ∉ faces) →
      receive_stay_reply hub activePlayer holder =
        Outcome.exit ExitCodes.INVALID_REQUEST
          (close_remaining_players (set_outbox hub holder remainder)
            ExitCodes.INVALID_REQUEST)) ∧
    (¬ (fields.getD 0 [] = kw_stay ∧ n = 1) → ¬ (fields.getD 0 [] = kw_go ∧ n = 1) →
      ¬ (fields.getD 0 [] = kw_keepall ∧ n = 1) → ¬ (fields.getD 0 [] = kw_reroll ∧ n = 2) →
      receive_stay_reply hub activePlayer holder =
        Outcome.exit ExitCodes.INVALID_MESSAGE
          (close_remaining_players (set_outbox hub holder remainder)
            ExitCodes.INVALID_MESSAGE)) := by
  have hk := receive_stay_reply_of_read hub activePlayer holder text remainder hread
  have hl : ¬ (getPlayer (set_outbox hub holder remainder).players
      (set_outbox hub holder remainder).game.playerInStLucia.toNat).health ≤ 0 := by
    have hg : (set_outbox hub holder remainder).game = hub.game := rfl
    rw [hg, hholder, Int.toNat_ofNat, (getPlayer_set_outbox hub holder holder remainder).1]
    omega
  rw [if_neg hl, hfields] at hk
  refine ⟨?_, ?_, ?_, ?_⟩
  · rintro ⟨rfl, rfl⟩
    rw [hk, if_neg (by decide), if_neg (by decide), if_pos (by decide)]
    rfl
  · rintro s ⟨rfl, rfl⟩ hlen hfaces
    have hinv : invalid_roll s = false := (invalid_roll_eq_false_iff s).2 hfaces
    have h21 : ¬ ((2 : Int) = 1) := by decide
    rw [hk, if_neg (fun h => h21 h.2), if_neg (fun h => h21 h.2), if_neg (fun h => h21 h.2),
      if_pos ⟨rfl, rfl⟩, if_neg]
    · rfl
    · simp [REROLLED_DICE_ROLL_INDEX, DICE_SET_SIZE, hinv, hlen]
  · rintro s ⟨rfl, rfl⟩ hbad
    have h2 : (6 < s.length ∨ invalid_roll s = true) := by
      rcases hbad with h | h
      · exact Or.inl h
      · right
        by_contra hc
        have hc2 : invalid_roll s = false := by simpa using hc
        obtain ⟨c, hc3, hc4⟩ := h
        exact hc4 ((invalid_roll_eq_false_iff s).1 hc2 c hc3)
    have h21 : ¬ ((2 : Int) = 1) := by decide
    rw [hk, if_neg (fun h => h21 h.2), if_neg (fun h => h21 h.2), if_neg (fun h => h21 h.2),
      if_pos ⟨rfl, rfl⟩, if_pos]
    · rfl
    · simpa [REROLLED_DICE_ROLL_INDEX, DICE_SET_SIZE] using h2
  · intro h1 h2 h3 h4
    rw [hk, if_neg h1, if_neg h2, if_neg h3, if_neg h4]
    rfl

/-- Claim C15, failing inputs: the holder (participant 1, health 10) answers the stay query
with `reroll 1`, a reroll of one legal face, and the hub exits with `INVALID_MESSAGE` (7), not
with `INVALID_REQUEST`; it answers with `reroll X`, a reroll with an illegal character, and the
hub exits with `INVALID_REQUEST` (8), not with `INVALID_MESSAGE`.  The reply `keepall` exits
with `INVALID_REQUEST` and an unknown word with `INVALID_MESSAGE`, as the claim says. -/
theorem receive_stay_reply_reroll_codes_swapped :
    receive_stay_reply (attack_hub dice_111AAA 1 10 (kw_reroll ++ [' ', '1', NL])) 0 1 =
      Outcome.exit ExitCodes.INVALID_MESSAGE
        (receive_stay_reply (attack_hub dice_111AAA 1 10
          (kw_reroll ++ [' ', '1', NL])) 0 1).hub ∧
    receive_stay_reply (attack_hub dice_111AAA 1 10 (kw_reroll ++ [' ', 'X', NL])) 0 1 =
      Outcome.exit ExitCodes.INVALID_REQUEST
        (receive_stay_reply (attack_hub dice_111AAA 1 10
          (kw_reroll ++ [' ', 'X', NL])) 0 1).hub ∧
    receive_stay_reply (attack_hub dice_111AAA 1 10 (kw_keepall ++ [NL])) 0 1 =
      Outcome.exit ExitCodes.INVALID_REQUEST
        (receive_stay_reply (attack_hub dice_111AAA 1 10 (kw_keepall ++ [NL])) 0 1).hub ∧
    receive_stay_reply (attack_hub dice_111AAA 1 10 ['h', 'i', NL]) 0 1 =
      Outcome.exit ExitCodes.INVALID_MESSAGE
        (receive_stay_reply (attack_hub dice_111AAA 1 10 ['h', 'i', NL]) 0 1).hub ∧
    ExitCodes.INVALID_MESSAGE.code = 7 ∧ ExitCodes.INVALID_REQUEST.code = 8 := by
  decide

/-! ## The claim of the empty territory and the outward attack -/

/-- Claim C13: the territory is unclaimed and the final dice have at least one `A`.  Then
`attack` returns with the active participant as holder and with exactly 1 point more for it;
nobody's health and nobody else's points change; and the only lines written are
`claim <label>`, one to every `REMAINING` participant, the active one included. -/
theorem attack_claims_empty_territory (hub : Hub) (activePlayer : Nat)
    (hA : hub.game.rollFile.latestDice.numberOfAs ≥ 1)
    (hempty : hub.game.playerInStLucia = EMPTY_STLUCIA)
    (hact : activePlayer < hub.players.length) (hconn : connected hub) :
    ∃ hub1, attack hub activePlayer = Outcome.ret () hub1 ∧
      hub1.game = { hub.game with playerInStLucia := (activePlayer : Int) } ∧
      (getPlayer hub1.players activePlayer).points =
        (getPlayer hub.players activePlayer).points + 1 ∧
      (∀ j, j ≠ activePlayer →
        (getPlayer hub1.players j).points = (getPlayer hub.players j).points) ∧
      (∀ j, (getPlayer hub1.players j).health = (getPlayer hub.players j).health) ∧
      hub1.sent = hub.sent ++
        (remaining_players hub).map (fun i => (i, msg_claim (get_player_label activePlayer))) ∧
      (activePlayer < hub.game.numberOfPlayers →
        (getPlayer hub.players activePlayer).status = PlayerStatus.REMAINING →
        (activePlayer, msg_claim (get_player_label activePlayer)) ∈ hub1.sent) := by
  have hatt : attack hub activePlayer = Outcome.ret () (claim_stlucia hub activePlayer) := by
    unfold attack
    rw [if_pos (by omega), if_pos hempty]
  have hsent : (claim_stlucia hub activePlayer).sent = hub.sent ++
      (remaining_players hub).map (fun i => (i, msg_claim (get_player_label activePlayer))) := by
    rw [claim_stlucia_eq, connected_recipients hub activePlayer hconn]
  refine ⟨_, hatt, ?_, ?_, ?_, fun j => health_claim_stlucia hub activePlayer j, hsent, ?_⟩
  · rw [claim_stlucia_eq]
  · rw [claim_stlucia_eq]
    dsimp only
    rw [getPlayer_setPlayer_self _ _ _ hact]
  · intro j hj
    rw [claim_stlucia_eq]
    dsimp only
    rw [getPlayer_setPlayer_ne _ _ _ _ (Ne.symm hj)]
  · intro hlt hrem
    rw [hsent]
    apply List.mem_append_right
    apply List.mem_map.2
    refine ⟨activePlayer, ?_, rfl⟩
    simp [remaining_players, List.mem_filter, hlt, hrem]

/-- Witness for `attack_claims_empty_territory`: two participants, score limit 5, the first
roll 1123AA with two `A`; participant A claims, has 1 point, and `claim A` goes to both.  The
same is seen in the whole first turn of a game whose roll sequence is AA1123, when the
six-dice draw starts its counter at 0 and participant A keeps all dice. -/
theorem attack_claims_empty_territory_witness :
    (after_roll_hub dice_1123AA).game.rollFile.latestDice.numberOfAs = 2 ∧
    connected (after_roll_hub dice_1123AA) ∧
    (∃ hub1, attack (after_roll_hub dice_1123AA) 0 = Outcome.ret () hub1 ∧
      hub1.game.playerInStLucia = 0 ∧
      (getPlayer hub1.players 0).points = 0 + 1 ∧
      hub1.sent = [(0, msg_claim 'A'), (1, msg_claim 'A')]) ∧
    (turn (fun _ => 0) (opening_hub ['A', 'A', '1', '1', '2', '3']) 0).map
      (fun o => (o.hub.game.playerInStLucia, (getPlayer o.hub.players 0).points, o.hub.sent)) =
      some (0, 1, [(0, msg_turn ['1', '1', '2', '3', 'A', 'A']),
        (1, msg_rolled 'A' ['1', '1', '2', '3', 'A', 'A']),
        (0, msg_claim 'A'), (1, msg_claim 'A'),
        (0, msg_points 'A' 1), (1, msg_points 'A' 1)]) :=
  ⟨by decide, by decide,
   (attack_claims_empty_territory (after_roll_hub dice_1123AA) 0 (by decide) (by decide)
      (by decide) (by decide)).imp
     (fun _ h => ⟨h.1, by rw [h.2.1]; rfl, h.2.2.1, h.2.2.2.2.2.1.trans (by decide)⟩),
   by decide⟩

theorem outward_loop (hub : Hub) (activePlayer : Nat) (k : Nat) :
    (forLoop k (fun i acc =>
      if activePlayer = i ∨ (getPlayer acc.players i).status = PlayerStatus.ELIMINATED then acc
      else damage_player acc i acc.game.rollFile.latestDice.numberOfAs) hub).game = hub.game ∧
    (forLoop k (fun i acc =>
      if activePlayer = i ∨ (getPlayer acc.players i).status = PlayerStatus.ELIMINATED then acc
      else damage_player acc i acc.game.rollFile.latestDice.numberOfAs) hub).sent = hub.sent ∧
    (forLoop k (fun i acc =>
      if activePlayer = i ∨ (getPlayer acc.players i).status = PlayerStatus.ELIMINATED then acc
      else damage_player acc i acc.game.rollFile.latestDice.numberOfAs) hub).players.length =
      hub.players.length ∧
    ∀ j, getPlayer (forLoop k (fun i acc =>
      if activePlayer = i ∨ (getPlayer acc.players i).status = PlayerStatus.ELIMINATED then acc
      else damage_player acc i acc.game.rollFile.latestDice.numberOfAs) hub).players j =
      if j < k ∧ j < hub.players.length ∧ j ≠ activePlayer ∧
          (getPlayer hub.players j).status ≠ PlayerStatus.ELIMINATED then
        { getPlayer hub.players j with
          health := max 0 ((getPlayer hub.players j).health -
            hub.game.rollFile.latestDice.numberOfAs) }
      else getPlayer hub.players j := by
  induction k with
  | zero => simp [forLoop_zero]
  | succ k ih =>
    obtain ⟨ih1, ih2, ih3, ih4⟩ := ih
    rw [forLoop_succ]
    generalize forLoop k _ hub = acc at ih1 ih2 ih3 ih4 ⊢
    have hk : getPlayer acc.players k = getPlayer hub.players k := by
      rw [ih4]; simp
    rw [hk, ih1]
    by_cases hskip : activePlayer = k ∨
        (getPlayer hub.players k).status = PlayerStatus.ELIMINATED
    · rw [if_pos hskip]
      refine ⟨ih1, ih2, ih3, ?_⟩
      intro j
      rw [ih4]
      by_cases hjk : j = k
      · subst hjk
        have : ¬ (j < j + 1 ∧ j < hub.players.length ∧ j ≠ activePlayer ∧
            (getPlayer hub.players j).status ≠ PlayerStatus.ELIMINATED) := by
          rintro ⟨_, _, h1, h2⟩
          rcases hskip with h | h
          · exact h1 h.symm
          · exact h2 h
        rw [if_neg this, if_neg (by omega)]
      · have : j < k + 1 ↔ j < k := by omega
        simp only [this]
    · rw [if_neg hskip]
      push_neg at hskip
      refine ⟨?_, ?_, ?_, ?_⟩
      · rw [damage_player_eq, ih1]
      · rw [damage_player_eq, ih2]
      · rw [damage_player_eq]
        simp [length_setPlayer, ih3]
      · intro j
        rw [getPlayer_damage_player, ih3, ih4]
        by_cases hjk : k = j
        · subst hjk
          by_cases hlt : k < hub.players.length
          · rw [if_pos ⟨rfl, hlt⟩, if_neg (by omega),
              if_pos ⟨Nat.lt_succ_self k, hlt, Ne.symm hskip.1, hskip.2⟩]
          · rw [if_neg (fun h => hlt h.2), if_neg (by omega), if_neg (fun h => hlt h.2.1)]
        · rw [if_neg (fun h => hjk h.1)]
          have : j < k + 1 ↔ j < k := by omega
          simp only [this]

/-- Claim C12: the outward attack.  The active participant holds the territory and its final
dice have `n ≥ 1` faces `A` (the state has as many participants as `numberOfPlayers` says and
its `REMAINING` participants are connected).  Then `attack` returns; the health of every
other participant that is not `ELIMINATED` is `max 0 (health - n)`; the health of the active
participant and of every `ELIMINATED` participant, all points, tokens and statuses and the
game record with the holder are unchanged; the lines written are one `attacks <label> <n>
out` to every `REMAINING` participant and nothing else, so no `stay?` is written, and no
participant's stream is read. -/
theorem attack_outward (hub : Hub) (activePlayer : Nat)
    (hA : hub.game.rollFile.latestDice.numberOfAs ≥ 1)
    (hholder : hub.game.playerInStLucia = (activePlayer : Int))
    (hn : hub.game.numberOfPlayers = hub.players.length) (hconn : connected hub) :
    ∃ hub1, attack hub activePlayer = Outcome.ret () hub1 ∧
      hub1.game = hub.game ∧
      (∀ j, j < hub.game.numberOfPlayers → j ≠ activePlayer →
        (getPlayer hub.players j).status ≠ PlayerStatus.ELIMINATED →
        (getPlayer hub1.players j).health =
          max 0 ((getPlayer hub.players j).health - hub.game.rollFile.latestDice.numberOfAs)) ∧
      (getPlayer hub1.players activePlayer).health =
        (getPlayer hub.players activePlayer).health ∧
      (∀ j, (getPlayer hub.players j).status = PlayerStatus.ELIMINATED →
        (getPlayer hub1.players j).health = (getPlayer hub.players j).health) ∧
      (∀ j, (getPlayer hub1.players j).points = (getPlayer hub.players j).points ∧
        (getPlayer hub1.players j).tokens = (getPlayer hub.players j).tokens ∧
        (getPlayer hub1.players j).status = (getPlayer hub.players j).status ∧
        (getPlayer hub1.players j).outbox = (getPlayer hub.players j).outbox) ∧
      hub1.sent = hub.sent ++
        (remaining_players hub).map (fun i =>
          (i, msg_attacks_out (get_player_label activePlayer)
            hub.game.rollFile.latestDice.numberOfAs)) ∧
      ∀ r, (r, msg_stay_query) ∈ hub1.sent → (r, msg_stay_query) ∈ hub.sent := by
  obtain ⟨l1, l2, l3, l4⟩ := outward_loop hub activePlayer hub.game.numberOfPlayers
  have hne : ¬ hub.game.playerInStLucia = EMPTY_STLUCIA := by
    rw [hholder, EMPTY_STLUCIA]; omega
  have hatt : attack hub activePlayer = Outcome.ret ()
      (alert_remaining_players
        (forLoop hub.game.numberOfPlayers (fun i acc =>
          if activePlayer = i ∨ (getPlayer acc.players i).status = PlayerStatus.ELIMINATED
          then acc
          else damage_player acc i acc.game.rollFile.latestDice.numberOfAs) hub)
        activePlayer
        (msg_attacks_out (get_player_label activePlayer)
          hub.game.rollFile.latestDice.numberOfAs) false) := by
    unfold attack
    rw [if_pos (by omega), if_neg hne, if_pos hholder]
  generalize forLoop hub.game.numberOfPlayers _ hub = looped at l1 l2 l3 l4 hatt
  have hrec : recipients looped activePlayer false = remaining_players hub := by
    rw [← connected_recipients hub activePlayer hconn]
    apply recipients_congr
    · rw [l1]
    · intro i
      rw [l4]
      split_ifs <;> rfl
    · intro i
      rw [l4]
      split_ifs <;> rfl
  have hsent : (alert_remaining_players looped activePlayer
      (msg_attacks_out (get_player_label activePlayer)
        hub.game.rollFile.latestDice.numberOfAs) false).sent = hub.sent ++
      (remaining_players hub).map (fun i =>
        (i, msg_attacks_out (get_player_label activePlayer)
          hub.game.rollFile.latestDice.numberOfAs)) := by
    rw [alert_remaining_players_eq, hrec, l2]
  refine ⟨_, hatt, ?_, ?_, ?_, ?_, ?_, hsent, ?_⟩
  · rw [game_alert, l1]
  · intro j hj hja hjs
    rw [players_alert, l4, if_pos ⟨hj, by omega, hja, hjs⟩]
  · rw [players_alert, l4, if_neg (fun h => h.2.2.1 rfl)]
  · intro j hj
    rw [players_alert, l4, if_neg (fun h => h.2.2.2 hj)]
  · intro j
    rw [players_alert, l4]
    split_ifs <;> exact ⟨rfl, rfl, rfl, rfl⟩
  · intro r hr
    rw [hsent] at hr
    rcases List.mem_append.1 hr with h | h
    · exact h
    · obtain ⟨i, _, hi⟩ := List.mem_map.1 h
      simp [msg_attacks_out, msg_stay_query] at hi

/-- Witness for `attack_outward`: the holder rolled three `A`; participant 1 (health 2) drops
to 0, the `ELIMINATED` participant 2 is untouched, and `attacks A 3 out` goes to the two
`REMAINING` participants. -/
theorem attack_outward_witness :
    connected outward_attack_hub ∧
    ∃ hub1, attack outward_attack_hub 0 = Outcome.ret () hub1 ∧
      hub1.game = outward_attack_hub.game ∧
      (getPlayer hub1.players 1).health = max 0 (2 - 3) ∧
      (getPlayer hub1.players 0).health = 10 ∧
      hub1.sent = [(0, msg_attacks_out 'A' 3), (1, msg_attacks_out 'A' 3)] :=
  ⟨by decide,
   (attack_outward outward_attack_hub 0 (by decide) (by decide) (by decide) (by decide)).imp
     (fun _ h => ⟨h.1, h.2.1, h.2.2.1 1 (by decide) (by decide) (by decide), h.2.2.2.1,
       h.2.2.2.2.2.2.1.trans (by decide)⟩)⟩

/-! ## Scoring -/

theorem convert_tokens_of_nonneg (fuel : Nat) :
    ∀ (tokens points : Int), 0 ≤ tokens → tokens.toNat ≤ fuel →
      convert_tokens fuel tokens points = (tokens % 10, points + tokens / 10) := by
  induction fuel with
  | zero =>
    intro tokens points h0 hf
    have : tokens = 0 := by omega
    subst this
    simp [convert_tokens]
  | succ fuel ih =>
    intro tokens points h0 hf
    unfold convert_tokens
    simp only [TOKENS_POINTS_THRESHOLD]
    by_cases h : tokens > 10 - 1
    · rw [if_pos h, ih (tokens - 10) (points + 1) (by omega) (by omega)]
      refine Prod.ext ?_ ?_
      · show (tokens - 10) % 10 = tokens % 10
        omega
      · show points + 1 + (tokens - 10) / 10 = points + tokens / 10
        omega
    · rw [if_neg h]
      refine Prod.ext ?_ ?_
      · show tokens = tokens % 10
        omega
      · show points = points + tokens / 10
        omega

theorem convert_tokens_of_small (fuel : Nat) (tokens points : Int) (h : tokens ≤ 9) :
    convert_tokens fuel tokens points = (tokens, points) := by
  cases fuel with
  | zero => rfl
  | succ fuel =>
    unfold convert_tokens
    simp only [TOKENS_POINTS_THRESHOLD]
    rw [if_neg (by omega)]

theorem gain_points_eq (hub : Hub) (activePlayer : Nat) (startingPoints : Int) :
    gain_points hub activePlayer startingPoints =
      if (convert_tokens
            ((getPlayer hub.players activePlayer).tokens +
              hub.game.rollFile.latestDice.numberOfPs).toNat
            ((getPlayer hub.players activePlayer).tokens +
              hub.game.rollFile.latestDice.numberOfPs)
            (getPlayer hub.players activePlayer).points).2 +
          number_face_points hub.game.rollFile.latestDice - startingPoints > 0 then
        { game := hub.game,
          players := setPlayer hub.players activePlayer (fun p =>
            { p with
              tokens := (convert_tokens
                ((getPlayer hub.players activePlayer).tokens +
                  hub.game.rollFile.latestDice.numberOfPs).toNat
                ((getPlayer hub.players activePlayer).tokens +
                  hub.game.rollFile.latestDice.numberOfPs)
                (getPlayer hub.players activePlayer).points).1,
              points := (convert_tokens
                ((getPlayer hub.players activePlayer).tokens +
                  hub.game.rollFile.latestDice.numberOfPs).toNat
                ((getPlayer hub.players activePlayer).tokens +
                  hub.game.rollFile.latestDice.numberOfPs)
                (getPlayer hub.players activePlayer).points).2 +
                number_face_points hub.game.rollFile.latestDice }),
          sent := hub.sent ++ (recipients hub activePlayer false).map (fun i =>
            (i, msg_points (get_player_label activePlayer)
              ((convert_tokens
                ((getPlayer hub.players activePlayer).tokens +
                  hub.game.rollFile.latestDice.numberOfPs).toNat
                ((getPlayer hub.players activePlayer).tokens +
                  hub.game.rollFile.latestDice.numberOfPs)
                (getPlayer hub.players activePlayer).points).2 +
                number_face_points hub.game.rollFile.latestDice - startingPoints))) }
      else
        { game := hub.game,
          players := setPlayer hub.players activePlayer (fun p =>
            { p with
              tokens := (convert_tokens
                ((getPlayer hub.players activePlayer).tokens +
                  hub.game.rollFile.latestDice.numberOfPs).toNat
                ((getPlayer hub.players activePlayer).tokens +
                  hub.game.rollFile.latestDice.numberOfPs)
                (getPlayer hub.players activePlayer).points).1,
              points := (convert_tokens
                ((getPlayer hub.players activePlayer).tokens +
                  hub.game.rollFile.latestDice.numberOfPs).toNat
                ((getPlayer hub.players activePlayer).tokens +
                  hub.game.rollFile.latestDice.numberOfPs)
                (getPlayer hub.players activePlayer).points).2 +
                number_face_points hub.game.rollFile.latestDice }),
          sent := hub.sent } := by
  unfold gain_points
  dsimp only
  generalize convert_tokens _ _ _ = conv
  have hpts : (if hub.game.rollFile.latestDice.numberOfThrees > DICE_POINTS_THRESHOLD then
      (if hub.game.rollFile.latestDice.numberOfTwos > DICE_POINTS_THRESHOLD then
        (if hub.game.rollFile.latestDice.numberOfOnes > DICE_POINTS_THRESHOLD then
          conv.2 + (hub.game.rollFile.latestDice.numberOfOnes - ONES_DICE_POINT_PENALTY)
        else conv.2) + (hub.game.rollFile.latestDice.numberOfTwos - TWOS_DICE_POINT_PENALTY)
      else
        (if hub.game.rollFile.latestDice.numberOfOnes > DICE_POINTS_THRESHOLD then
          conv.2 + (hub.game.rollFile.latestDice.numberOfOnes - ONES_DICE_POINT_PENALTY)
        else conv.2)) +
        (hub.game.rollFile.latestDice.numberOfThrees - THREES_DICE_POINT_PENALTY)
    else
      (if hub.game.rollFile.latestDice.numberOfTwos > DICE_POINTS_THRESHOLD then
        (if hub.game.rollFile.latestDice.numberOfOnes > DICE_POINTS_THRESHOLD then
          conv.2 + (hub.game.rollFile.latestDice.numberOfOnes - ONES_DICE_POINT_PENALTY)
        else conv.2) + (hub.game.rollFile.latestDice.numberOfTwos - TWOS_DICE_POINT_PENALTY)
      else
        (if hub.game.rollFile.latestDice.numberOfOnes > DICE_POINTS_THRESHOLD then
          conv.2 + (hub.game.rollFile.latestDice.numberOfOnes - ONES_DICE_POINT_PENALTY)
        else conv.2))) =
      conv.2 + number_face_points hub.game.rollFile.latestDice := by
    simp only [number_face_points, DICE_POINTS_THRESHOLD, ONES_DICE_POINT_PENALTY,
      TWOS_DICE_POINT_PENALTY, THREES_DICE_POINT_PENALTY]
    split_ifs <;> omega
  rw [hpts]
  split_ifs
  · rw [alert_remaining_players_eq]
    dsimp only
    congr 3
    apply recipients_congr
    · rfl
    · intro i
      dsimp only
      refine status_setPlayer _ _ _ _ ?_
      intro p
      rfl
    · intro i
      dsimp only
      refine inbox_setPlayer _ _ _ _ ?_
      intro p
      rfl
  · rfl

theorem convert_tokens_eq (tokens points : Int) :
    convert_tokens tokens.toNat tokens points =
      (if 0 ≤ tokens then tokens % 10 else tokens,
       points + (if 0 ≤ tokens then tokens / 10 else 0)) := by
  by_cases h : 0 ≤ tokens
  · rw [if_pos h, if_pos h]
    exact convert_tokens_of_nonneg _ _ _ h (le_refl _)
  · rw [if_neg h, if_neg h, add_zero]
    exact convert_tokens_of_small _ _ _ (by omega)

theorem gain_points_facts (hub : Hub) (activePlayer : Nat) (startingPoints : Int)
    (ha : activePlayer < hub.players.length) :
    (getPlayer (gain_points hub activePlayer startingPoints).players activePlayer).tokens =
      (if 0 ≤ (getPlayer hub.players activePlayer).tokens +
          hub.game.rollFile.latestDice.numberOfPs then
        ((getPlayer hub.players activePlayer).tokens +
          hub.game.rollFile.latestDice.numberOfPs) % 10
      else (getPlayer hub.players activePlayer).tokens +
        hub.game.rollFile.latestDice.numberOfPs) ∧
    (getPlayer (gain_points hub activePlayer startingPoints).players activePlayer).points =
      (getPlayer hub.players activePlayer).points +
        (if 0 ≤ (getPlayer hub.players activePlayer).tokens +
            hub.game.rollFile.latestDice.numberOfPs then
          ((getPlayer hub.players activePlayer).tokens +
            hub.game.rollFile.latestDice.numberOfPs) / 10
        else 0) + number_face_points hub.game.rollFile.latestDice ∧
    (∀ j, j ≠ activePlayer →
      getPlayer (gain_points hub activePlayer startingPoints).players j =
        getPlayer hub.players j) ∧
    (∀ j, (getPlayer (gain_points hub activePlayer startingPoints).players j).health =
        (getPlayer hub.players j).health ∧
      (getPlayer (gain_points hub activePlayer startingPoints).players j).status =
        (getPlayer hub.players j).status) ∧
    (gain_points hub activePlayer startingPoints).game = hub.game ∧
    (gain_points hub activePlayer startingPoints).players.length = hub.players.length ∧
    (gain_points hub activePlayer startingPoints).sent = hub.sent ++
      (if (getPlayer (gain_points hub activePlayer startingPoints).players activePlayer).points
          - startingPoints > 0 then
        (recipients hub activePlayer false).map (fun i =>
          (i, msg_points (get_player_label activePlayer)
            ((getPlayer (gain_points hub activePlayer startingPoints).players
              activePlayer).points - startingPoints)))
      else []) := by
  have hpoints : (getPlayer (gain_points hub activePlayer startingPoints).players
      activePlayer).points =
      (convert_tokens
        ((getPlayer hub.players activePlayer).tokens +
          hub.game.rollFile.latestDice.numberOfPs).toNat
        ((getPlayer hub.players activePlayer).tokens +
          hub.game.rollFile.latestDice.numberOfPs)
        (getPlayer hub.players activePlayer).points).2 +
        number_face_points hub.game.rollFile.latestDice := by
    rw [gain_points_eq]
    split_ifs <;> dsimp only <;> rw [getPlayer_setPlayer_self _ _ _ ha]
  refine ⟨?_, ?_, ?_, ?_, ?_, ?_, ?_⟩
  · rw [gain_points_eq]
    split_ifs <;> dsimp only <;> rw [getPlayer_setPlayer_self _ _ _ ha] <;> dsimp only <;>
      rw [convert_tokens_eq] <;> simp [*]
  · rw [hpoints, convert_tokens_eq]
  · intro j hj
    rw [gain_points_eq]
    split_ifs <;> dsimp only <;> rw [getPlayer_setPlayer_ne _ _ _ _ (Ne.symm hj)]
  · intro j
    rw [gain_points_eq]
    split_ifs <;> dsimp only <;>
      exact ⟨health_setPlayer _ _ _ _ (fun _ => rfl), status_setPlayer _ _ _ _ (fun _ => rfl)⟩
  · rw [gain_points_eq]
    split_ifs <;> rfl
  · rw [gain_points_eq]
    split_ifs <;> simp [length_setPlayer]
  · rw [hpoints]
    rw [gain_points_eq]
    split_ifs <;> simp

/-- Claim C19: the points for number faces.  For every state and every final dice set, the
points of the active participant after `gain_points` are its points before, plus the points
from the conversion of tokens (a tenth, rounded down, of its tokens plus the `P` count when
that is not negative), plus the count of `1`s less 2 if that count is greater than 2, plus
the count of `2`s less 1 if that count is greater than 2, plus the count of `3`s if that count
is greater than 2; a number face whose count is 2 or less adds nothing. -/
theorem gain_points_number_faces (hub : Hub) (activePlayer : Nat) (startingPoints : Int)
    (ha : activePlayer < hub.players.length) :
    (getPlayer (gain_points hub activePlayer startingPoints).players activePlayer).points =
      (getPlayer hub.players activePlayer).points +
        (if 0 ≤ (getPlayer hub.players activePlayer).tokens +
            hub.game.rollFile.latestDice.numberOfPs then
          ((getPlayer hub.players activePlayer).tokens +
            hub.game.rollFile.latestDice.numberOfPs) / 10
        else 0) +
        ((if hub.game.rollFile.latestDice.numberOfOnes > 2 then
            hub.game.rollFile.latestDice.numberOfOnes - 2 else 0) +
          (if hub.game.rollFile.latestDice.numberOfTwos > 2 then
            hub.game.rollFile.latestDice.numberOfTwos - 1 else 0) +
          (if hub.game.rollFile.latestDice.numberOfThrees > 2 then
            hub.game.rollFile.latestDice.numberOfThrees else 0)) :=
  (gain_points_facts hub activePlayer startingPoints ha).2.1

/-- Witness for `gain_points_number_faces`: with dice 111223 a participant without tokens
gains 1 point (three `1`s, less 2); with dice 3333PP it gains 4 (four `3`s). -/
theorem gain_points_number_faces_witness :
    (getPlayer (gain_points (after_roll_hub dice_111223) 0 0).players 0).points =
      0 + (if (0 : Int) ≤ 0 + 0 then (0 + 0) / 10 else 0) +
        ((if (3 : Int) > 2 then 3 - 2 else 0) + (if (2 : Int) > 2 then 2 - 1 else 0) +
          (if (1 : Int) > 2 then 1 else 0)) ∧
    (getPlayer (gain_points (after_roll_hub dice_111223) 0 0).players 0).points = 1 ∧
    (getPlayer (gain_points (after_roll_hub dice_3333PP) 0 0).players 0).points = 4 :=
  ⟨gain_points_number_faces (after_roll_hub dice_111223) 0 0 (by decide),
   (gain_points_number_faces (after_roll_hub dice_111223) 0 0 (by decide)).trans (by decide),
   (gain_points_number_faces (after_roll_hub dice_3333PP) 0 0 (by decide)).trans (by decide)⟩

theorem score_turns_from (activePlayer : Nat) (turns : List DiceSet) :
    ∀ (hub : Hub), activePlayer < hub.players.length →
      0 ≤ (getPlayer hub.players activePlayer).tokens →
      (∀ dice ∈ turns, 0 ≤ dice.numberOfPs) →
      (getPlayer (score_turns activePlayer turns hub).players activePlayer).tokens =
        ((getPlayer hub.players activePlayer).tokens +
          (turns.map (fun dice => dice.numberOfPs)).sum) % 10 + 
          (if turns = [] then (getPlayer hub.players activePlayer).tokens -
            (getPlayer hub.players activePlayer).tokens % 10 else 0) ∧
      (getPlayer (score_turns activePlayer turns hub).players activePlayer).points =
        (getPlayer hub.players activePlayer).points +
          (((getPlayer hub.players activePlayer).tokens +
            (turns.map (fun dice => dice.numberOfPs)).sum) / 10 -
            (if turns = [] then (getPlayer hub.players activePlayer).tokens / 10 else 0)) +
          (turns.map number_face_points).sum := by
  induction turns with
  | nil =>
    intro hub _ _ _
    simp only [score_turns, List.map_nil, List.sum_nil, add_zero, if_true]
    constructor <;> omega
  | cons dice later ih =>
    intro hub ha ht hP
    have hp : 0 ≤ dice.numberOfPs := hP dice (List.mem_cons_self _ _)
    obtain ⟨f1, f2, _, _, _, f6, _⟩ := gain_points_facts (set_latestDice hub dice) activePlayer
      (getPlayer hub.players activePlayer).points ha
    have hpl : (set_latestDice hub dice).players = hub.players := rfl
    have hdice : (set_latestDice hub dice).game.rollFile.latestDice = dice := rfl
    rw [hpl, hdice] at f1 f2
    rw [if_pos (by omega)] at f1 f2
    have ih2 := ih (gain_points (set_latestDice hub dice) activePlayer
      (getPlayer hub.players activePlayer).points) (by rw [f6]; exact ha)
      (by rw [f1]; omega) (fun d hd => hP d (List.mem_cons_of_mem _ hd))
    rw [f1, f2] at ih2
    simp only [score_turns, List.map_cons, List.sum_cons, if_neg (List.cons_ne_nil _ _)]
    obtain ⟨i1, i2⟩ := ih2
    rw [i1, i2]
    by_cases hl : later = []
    · subst hl
      simp only [List.map_nil, List.sum_nil, if_true, add_zero]
      constructor <;> omega
    · simp only [if_neg hl]
      constructor <;> omega

/-- Claim C18: tokens convert to points ten to one.  A participant of the array starts with
no tokens; `gain_points` runs at the end of each of its turns, whose final dice have `P`
counts `p1 .. pk`, none negative (in particular each in 0..6).  Then after the last of these
calls its tokens are `(p1 + ... + pk) mod 10`, a number from 0 to 9, and its points are the
points it started with, plus `(p1 + ... + pk) / 10` rounded down, plus the points that the
number faces of these turns gave. -/
theorem tokens_convert_ten_to_one (hub : Hub) (activePlayer : Nat) (turns : List DiceSet)
    (ha : activePlayer < hub.players.length)
    (htokens : (getPlayer hub.players activePlayer).tokens = 0)
    (hP : ∀ dice ∈ turns, 0 ≤ dice.numberOfPs ∧ dice.numberOfPs ≤ 6) :
    (getPlayer (score_turns activePlayer turns hub).players activePlayer).tokens =
      (turns.map (fun dice => dice.numberOfPs)).sum % 10 ∧
    0 ≤ (getPlayer (score_turns activePlayer turns hub).players activePlayer).tokens ∧
    (getPlayer (score_turns activePlayer turns hub).players activePlayer).tokens ≤ 9 ∧
    (getPlayer (score_turns activePlayer turns hub).players activePlayer).points =
      (getPlayer hub.players activePlayer).points +
        (turns.map (fun dice => dice.numberOfPs)).sum / 10 +
        (turns.map number_face_points).sum := by
  obtain ⟨h1, h2⟩ := score_turns_from activePlayer turns hub ha (by omega)
    (fun d hd => (hP d hd).1)
  rw [htokens] at h1 h2
  have hsum : 0 ≤ (turns.map (fun dice => dice.numberOfPs)).sum := by
    apply List.sum_nonneg
    intro x hx
    obtain ⟨d, hd, rfl⟩ := List.mem_map.1 hx
    exact (hP d hd).1
  have h1b : (getPlayer (score_turns activePlayer turns hub).players activePlayer).tokens =
      (turns.map (fun dice => dice.numberOfPs)).sum % 10 := by
    rw [h1]
    split_ifs <;> omega
  refine ⟨h1b, by omega, by omega, ?_⟩
  rw [h2]
  split_ifs <;> omega

/-- Witness for `tokens_convert_ten_to_one`: three turns with six, two and six `P` faces leave
4 tokens and give 1 point from tokens; the four `3`s of the second turn give 4 more. -/
theorem tokens_convert_ten_to_one_witness :
    (getPlayer (after_roll_hub dice_111222).players 0).tokens = 0 ∧
    (getPlayer (score_turns 0 [dice_PPPPPP, dice_3333PP, dice_PPPPPP]
      (after_roll_hub dice_111222)).players 0).tokens = (6 + (2 + (6 + 0))) % 10 ∧
    (getPlayer (score_turns 0 [dice_PPPPPP, dice_3333PP, dice_PPPPPP]
      (after_roll_hub dice_111222)).players 0).points = 0 + (6 + (2 + (6 + 0))) / 10 +
        (0 + (4 + (0 + 0))) :=
  ⟨by decide,
   (tokens_convert_ten_to_one (after_roll_hub dice_111222) 0
      [dice_PPPPPP, dice_3333PP, dice_PPPPPP] (by decide) (by decide) (by decide)).1,
   (tokens_convert_ten_to_one (after_roll_hub dice_111222) 0
      [dice_PPPPPP, dice_3333PP, dice_PPPPPP] (by decide) (by decide) (by decide)).2.2.2⟩

/-! ## What the steps of a turn leave alone

The lemmas below are stated for any view `proj` of a player record and any view `gproj` of the
game record that the assignments of the step do not change. -/

theorem map_setPlayer {β : Type} (proj : Player → β) (players : List Player) (i : Nat)
    (f : Player → Player) (hf : ∀ p, proj (f p) = proj p) :
    (setPlayer players i f).map proj = players.map proj := by
  unfold setPlayer getPlayer
  rw [List.map_set, hf]
  apply List.ext_getElem?
  intro n
  rw [List.getElem?_set]
  split_ifs with h1 h2
  · subst h1
    rw [List.length_map] at h2
    rw [List.getElem?_map, List.get?_eq_getElem?, List.getElem?_eq_getElem h2]
    rfl
  · subst h1
    rw [List.length_map] at h2
    rw [List.getElem?_map, List.getElem?_eq_none (by omega)]
    rfl
  · rfl

theorem getPlayer_of_map {β : Type} (proj : Player → β) (players1 players2 : List Player)
    (h : players1.map proj = players2.map proj) (j : Nat) :
    proj (getPlayer players1 j) = proj (getPlayer players2 j) := by
  have h2 := congrArg (fun l => l[j]?) h
  simp only [List.getElem?_map] at h2
  unfold getPlayer
  rw [List.get?_eq_getElem?, List.get?_eq_getElem?]
  cases h1 : players1[j]? <;> cases h3 : players2[j]? <;> rw [h1, h3] at h2 <;>
    simp at h2 ⊢
  exact h2

theorem length_of_map {β : Type} (proj : Player → β) (players1 players2 : List Player)
    (h : players1.map proj = players2.map proj) : players1.length = players2.length := by
  have h2 := congrArg List.length h
  simpa using h2

theorem frame_exit_program {α : Type} (hub : Hub) (exitStatus : ExitCodes) :
    (exit_program hub exitStatus : Outcome α).hub.game = hub.game ∧
    (exit_program hub exitStatus : Outcome α).hub.players = hub.players := by
  unfold exit_program
  exact ⟨game_close _ _, players_close _ _⟩

theorem frame_set_outbox {β : Type} (proj : Player → β)
    (hout : ∀ p rest, proj { p with outbox := rest } = proj p)
    (hub : Hub) (i : Nat) (rest : List Char) :
    (set_outbox hub i rest).game = hub.game ∧
    (set_outbox hub i rest).players.map proj = hub.players.map proj := by
  unfold set_outbox
  refine ⟨rfl, ?_⟩
  dsimp only
  refine map_setPlayer proj _ _ _ ?_
  intro p
  exact hout p rest

theorem frame_reroll_dice {γ : Type} (gproj : Game → γ)
    (hroll : ∀ g rollFile, gproj { g with rollFile := rollFile } = gproj g)
    (i0 : Int) (hub : Hub) (activePlayer : Nat) (subset : List Char) :
    gproj (reroll_dice i0 hub activePlayer subset).hub.game = gproj hub.game := by
  unfold reroll_dice
  simp only
  split_ifs
  · rw [(frame_exit_program _ _).1]
    simp only [set_latestDice, set_rollFile, hroll]
  · simp only [Outcome.hub, send_to, set_latestDice, set_rollFile, hroll]

theorem frame_keep_dice_response {β γ : Type} (proj : Player → β) (gproj : Game → γ)
    (hout : ∀ p rest, proj { p with outbox := rest } = proj p)
    (hroll : ∀ g rollFile, gproj { g with rollFile := rollFile } = gproj g)
    (i0 : Int) (hub : Hub) (activePlayer : Nat) :
    gproj (keep_dice_response i0 hub activePlayer).hub.game = gproj hub.game ∧
    (keep_dice_response i0 hub activePlayer).hub.players.map proj = hub.players.map proj := by
  unfold keep_dice_response
  cases hread : fgets MAX_MESSAGE_LENGTH (getPlayer hub.players activePlayer).outbox with
  | none =>
    simp only
    rw [(frame_exit_program _ _).1, (frame_exit_program _ _).2]
    exact ⟨rfl, rfl⟩
  | some p =>
    obtain ⟨line, rest⟩ := p
    obtain ⟨hg, hp⟩ := frame_set_outbox proj hout hub activePlayer rest
    simp only
    split_ifs <;>
      first
        | (rw [(frame_exit_program _ _).1, (frame_exit_program _ _).2, hg]
           exact ⟨rfl, hp⟩)
        | (rw [status_reroll_dice, frame_reroll_dice gproj hroll, hg]
           exact ⟨rfl, hp⟩)
        | (simp only [Outcome.hub]
           rw [hg]
           exact ⟨rfl, hp⟩)

theorem frame_reroll_negotiation {β γ : Type} (proj : Player → β) (gproj : Game → γ)
    (hout : ∀ p rest, proj { p with outbox := rest } = proj p)
    (hroll : ∀ g rollFile, gproj { g with rollFile := rollFile } = gproj g) (fuel : Nat) :
    ∀ (junk : Nat → Int) (hub : Hub) (activePlayer : Nat) (out : Outcome Unit),
      reroll_negotiation fuel junk hub activePlayer = some out →
      gproj out.hub.game = gproj hub.game ∧
      out.hub.players.map proj = hub.players.map proj := by
  induction fuel with
  | zero => intro junk hub a out h; simp [reroll_negotiation] at h
  | succ fuel ih =>
    intro junk hub a out h
    have hk := frame_keep_dice_response proj gproj hout hroll (junk 0) hub a
    unfold reroll_negotiation at h
    cases hres : keep_dice_response (junk 0) hub a with
    | exit status hub1 =>
      rw [hres] at h hk
      simp only [Option.some.injEq] at h
      subst h
      exact hk
    | ret value hub1 =>
      rw [hres] at h hk
      cases value with
      | true =>
        simp only [Option.some.injEq] at h
        subst h
        exact hk
      | false =>
        simp only at h
        obtain ⟨i1, i2⟩ := ih _ _ _ _ h
        exact ⟨i1.trans hk.1, i2.trans hk.2⟩

theorem frame_get_player_roll {β γ : Type} (proj : Player → β) (gproj : Game → γ)
    (hout : ∀ p rest, proj { p with outbox := rest } = proj p)
    (hroll : ∀ g rollFile, gproj { g with rollFile := rollFile } = gproj g)
    (junk : Nat → Int) (hub : Hub) (activePlayer : Nat)
    (out : Outcome Unit) (h : get_player_roll junk hub activePlayer = some out) :
    gproj out.hub.game = gproj hub.game ∧
    out.hub.players.map proj = hub.players.map proj := by
  unfold get_player_roll at h
  simp only at h
  cases hres : reroll_negotiation
      ((getPlayer (send_to (set_latestDice hub
        (create_dice_set_string hub.game.rollFile.latestDice)) activePlayer
        (msg_turn (set_latestDice hub
          (create_dice_set_string hub.game.rollFile.latestDice)).game.rollFile.latestDice.rollString)).players
        activePlayer).outbox.length + 1) junk
      (send_to (set_latestDice hub (create_dice_set_string hub.game.rollFile.latestDice))
        activePlayer
        (msg_turn (set_latestDice hub
          (create_dice_set_string hub.game.rollFile.latestDice)).game.rollFile.latestDice.rollString))
      activePlayer with
  | none => rw [hres] at h; simp at h
  | some res =>
    rw [hres] at h
    obtain ⟨hs1, hs2⟩ := frame_reroll_negotiation proj gproj hout hroll _ _ _ _ _ hres
    have hg0 : gproj (send_to (set_latestDice hub
        (create_dice_set_string hub.game.rollFile.latestDice)) activePlayer
        (msg_turn (set_latestDice hub
          (create_dice_set_string
            hub.game.rollFile.latestDice)).game.rollFile.latestDice.rollString)).game =
        gproj hub.game := by
      simp only [send_to, set_latestDice, set_rollFile, hroll]
    cases res with
    | exit status hub3 =>
      simp only [Option.some.injEq] at h
      subst h
      exact ⟨hs1.trans hg0, hs2⟩
    | ret value hub3 =>
      simp only [Option.some.injEq] at h
      subst h
      simp only [Outcome.hub, players_alert, game_alert]
      exact ⟨hs1.trans hg0, hs2⟩

theorem frame_heal {β : Type} (proj : Player → β)
    (hhealth : ∀ p health, proj { p with health := health } = proj p)
    (hub : Hub) (player : Nat) (healAmount : Int) :
    (heal hub player healAmount).game = hub.game ∧
    (heal hub player healAmount).players.map proj = hub.players.map proj := by
  unfold heal
  split_ifs
  · exact ⟨rfl, rfl⟩
  · refine ⟨rfl, ?_⟩
    dsimp only
    refine map_setPlayer proj _ _ _ ?_
    intro p
    exact hhealth p _
  · refine ⟨rfl, ?_⟩
    dsimp only
    refine map_setPlayer proj _ _ _ ?_
    intro p
    exact hhealth p _
  · exact ⟨rfl, rfl⟩

theorem frame_damage_player {β : Type} (proj : Player → β)
    (hhealth : ∀ p health, proj { p with health := health } = proj p)
    (hub : Hub) (player : Nat) (damage : Int) :
    (damage_player hub player damage).game = hub.game ∧
    (damage_player hub player damage).players.map proj = hub.players.map proj := by
  unfold damage_player
  refine ⟨rfl, ?_⟩
  dsimp only
  refine map_setPlayer proj _ _ _ ?_
  intro p
  exact hhealth p _

theorem frame_claim_stlucia {β γ : Type} (proj : Player → β) (gproj : Game → γ)
    (hpoints : ∀ p points, proj { p with points := points } = proj p)
    (hholder : ∀ g holder, gproj { g with playerInStLucia := holder } = gproj g)
    (hub : Hub) (activePlayer : Nat) :
    gproj (claim_stlucia hub activePlayer).game = gproj hub.game ∧
    (claim_stlucia hub activePlayer).players.map proj = hub.players.map proj := by
  rw [claim_stlucia_eq]
  refine ⟨hholder _ _, ?_⟩
  dsimp only
  refine map_setPlayer proj _ _ _ ?_
  intro p
  exact hpoints p _

theorem frame_receive_stay_reply {β γ : Type} (proj : Player → β) (gproj : Game → γ)
    (hout : ∀ p rest, proj { p with outbox := rest } = proj p)
    (hpoints : ∀ p points, proj { p with points := points } = proj p)
    (hholder : ∀ g holder, gproj { g with playerInStLucia := holder } = gproj g)
    (hub : Hub) (activePlayer holder : Nat) :
    gproj (receive_stay_reply hub activePlayer holder).hub.game = gproj hub.game ∧
    (receive_stay_reply hub activePlayer holder).hub.players.map proj =
      hub.players.map proj := by
  unfold receive_stay_reply
  cases hread : fgets MAX_MESSAGE_LENGTH (getPlayer hub.players holder).outbox with
  | none =>
    simp only
    rw [(frame_exit_program _ _).1, (frame_exit_program _ _).2]
    exact ⟨rfl, rfl⟩
  | some p =>
    obtain ⟨line, rest⟩ := p
    obtain ⟨hg, hp⟩ := frame_set_outbox proj hout hub holder rest
    obtain ⟨cg, cp⟩ := frame_claim_stlucia proj gproj hpoints hholder
      (set_outbox hub holder rest) activePlayer
    simp only
    split_ifs <;>
      first
        | (rw [(frame_exit_program _ _).1, (frame_exit_program _ _).2, hg]
           exact ⟨rfl, hp⟩)
        | (simp only [Outcome.hub]
           rw [cg, cp, hg]
           exact ⟨rfl, hp⟩)
        | (simp only [Outcome.hub]
           rw [hg]
           exact ⟨rfl, hp⟩)

theorem frame_outward_loop {β : Type} (proj : Player → β)
    (hhealth : ∀ p health, proj { p with health := health } = proj p)
    (hub : Hub) (activePlayer : Nat) (k : Nat) :
    (forLoop k (fun i acc =>
      if activePlayer = i ∨ (getPlayer acc.players i).status = PlayerStatus.ELIMINATED then acc
      else damage_player acc i acc.game.rollFile.latestDice.numberOfAs) hub).game = hub.game ∧
    (forLoop k (fun i acc =>
      if activePlayer = i ∨ (getPlayer acc.players i).status = PlayerStatus.ELIMINATED then acc
      else damage_player acc i acc.game.rollFile.latestDice.numberOfAs) hub).players.map proj =
      hub.players.map proj := by
  apply forLoop_induction
    (fun acc : Hub => acc.game = hub.game ∧ acc.players.map proj = hub.players.map proj)
  · exact ⟨rfl, rfl⟩
  · intro i acc _ hacc
    split_ifs
    · exact hacc
    · obtain ⟨dg, dp⟩ := frame_damage_player proj hhealth acc i
        acc.game.rollFile.latestDice.numberOfAs
      exact ⟨dg.trans hacc.1, dp.trans hacc.2⟩

theorem frame_attack {β γ : Type} (proj : Player → β) (gproj : Game → γ)
    (hout : ∀ p rest, proj { p with outbox := rest } = proj p)
    (hhealth : ∀ p health, proj { p with health := health } = proj p)
    (hpoints : ∀ p points, proj { p with points := points } = proj p)
    (hholder : ∀ g holder, gproj { g with playerInStLucia := holder } = gproj g)
    (hub : Hub) (activePlayer : Nat) :
    gproj (attack hub activePlayer).hub.game = gproj hub.game ∧
    (attack hub activePlayer).hub.players.map proj = hub.players.map proj := by
  unfold attack
  split_ifs
  · exact frame_claim_stlucia proj gproj hpoints hholder hub activePlayer
  · simp only [Outcome.hub, players_alert, game_alert]
    obtain ⟨lg, lp⟩ := frame_outward_loop proj hhealth hub activePlayer hub.game.numberOfPlayers
    rw [lg]
    exact ⟨rfl, lp⟩
  · dsimp only
    obtain ⟨rg, rp⟩ := frame_receive_stay_reply proj gproj hout hpoints hholder
      (send_to (alert_remaining_players
        (damage_player hub hub.game.playerInStLucia.toNat
          hub.game.rollFile.latestDice.numberOfAs) activePlayer
        (msg_attacks_in (get_player_label activePlayer)
          hub.game.rollFile.latestDice.numberOfAs) false)
        (alert_remaining_players
          (damage_player hub hub.game.playerInStLucia.toNat
            hub.game.rollFile.latestDice.numberOfAs) activePlayer
          (msg_attacks_in (get_player_label activePlayer)
            hub.game.rollFile.latestDice.numberOfAs)
          false).game.playerInStLucia.toNat msg_stay_query)
      activePlayer
      (send_to (alert_remaining_players
        (damage_player hub hub.game.playerInStLucia.toNat
          hub.game.rollFile.latestDice.numberOfAs) activePlayer
        (msg_attacks_in (get_player_label activePlayer)
          hub.game.rollFile.latestDice.numberOfAs) false)
        (alert_remaining_players
          (damage_player hub hub.game.playerInStLucia.toNat
            hub.game.rollFile.latestDice.numberOfAs) activePlayer
          (msg_attacks_in (get_player_label activePlayer)
            hub.game.rollFile.latestDice.numberOfAs)
          false).game.playerInStLucia.toNat msg_stay_query).game.playerInStLucia.toNat
    obtain ⟨dg, dp⟩ := frame_damage_player proj hhealth hub hub.game.playerInStLucia.toNat
      hub.game.rollFile.latestDice.numberOfAs
    rw [rg, rp]
    simp only [send_to, players_alert, game_alert]
    rw [dg]
    exact ⟨rfl, dp⟩
  · exact ⟨rfl, rfl⟩

theorem frame_start_turn {β γ : Type} (proj : Player → β) (gproj : Game → γ)
    (hpoints : ∀ p points, proj { p with points := points } = proj p)
    (hroll : ∀ g rollFile, gproj { g with rollFile := rollFile } = gproj g)
    (i0 : Int) (hub : Hub) (activePlayer : Nat) :
    gproj (start_turn i0 hub activePlayer).game = gproj hub.game ∧
    (start_turn i0 hub activePlayer).players.map proj = hub.players.map proj := by
  unfold start_turn
  simp only [set_latestDice, set_rollFile]
  split_ifs
  · refine ⟨hroll _ _, ?_⟩
    dsimp only
    refine map_setPlayer proj _ _ _ ?_
    intro p
    exact hpoints p _
  · exact ⟨hroll _ _, rfl⟩

theorem receive_stay_reply_ret (hub : Hub) (activePlayer holder : Nat) (hub1 : Hub)
    (h : receive_stay_reply hub activePlayer holder = Outcome.ret () hub1) :
    ∃ rest, hub1 = set_outbox hub holder rest ∨
      hub1 = claim_stlucia (set_outbox hub holder rest) activePlayer := by
  unfold receive_stay_reply at h
  cases hread : fgets MAX_MESSAGE_LENGTH (getPlayer hub.players holder).outbox with
  | none =>
    rw [hread] at h
    simp [exit_program] at h
  | some p =>
    obtain ⟨line, rest⟩ := p
    rw [hread] at h
    simp only at h
    refine ⟨rest, ?_⟩
    split_ifs at h <;>
      first
        | (simp [exit_program] at h; done)
        | (simp only [Outcome.ret.injEq, true_and] at h
           first
             | exact Or.inl h.symm
             | exact Or.inr h.symm)

theorem claim_stlucia_points (hub : Hub) (activePlayer : Nat)
    (ha : activePlayer < hub.players.length) :
    (getPlayer (claim_stlucia hub activePlayer).players activePlayer).points =
      (getPlayer hub.players activePlayer).points + 1 ∧
    (claim_stlucia hub activePlayer).game.playerInStLucia = (activePlayer : Int) := by
  rw [claim_stlucia_eq]
  dsimp only
  rw [getPlayer_setPlayer_self _ _ _ ha]
  exact ⟨rfl, rfl⟩

theorem receive_stay_reply_points (hub : Hub) (activePlayer holder : Nat) (hub1 : Hub)
    (ha : activePlayer < hub.players.length)
    (hne : hub.game.playerInStLucia ≠ (activePlayer : Int))
    (h : receive_stay_reply hub activePlayer holder = Outcome.ret () hub1) :
    (getPlayer hub1.players activePlayer).points =
      (getPlayer hub.players activePlayer).points +
        (if hub1.game.playerInStLucia = hub.game.playerInStLucia then 0 else 1) := by
  obtain ⟨rest, hcase⟩ := receive_stay_reply_ret hub activePlayer holder hub1 h
  obtain ⟨og, op⟩ := frame_set_outbox (fun p => p.points) (fun _ _ => rfl) hub holder rest
  have hpts := getPlayer_of_map (fun p => p.points) _ _ op activePlayer
  rcases hcase with rfl | rfl
  · rw [og, if_pos rfl, hpts, add_zero]
  · have ha2 : activePlayer < (set_outbox hub holder rest).players.length := by
      rw [length_of_map _ _ _ op]
      exact ha
    obtain ⟨c1, c2⟩ := claim_stlucia_points (set_outbox hub holder rest) activePlayer ha2
    rw [c1, c2, hpts, if_neg (fun h2 => hne h2.symm)]

theorem attack_points (hub : Hub) (activePlayer : Nat) (hub1 : Hub)
    (ha : activePlayer < hub.players.length)
    (h : attack hub activePlayer = Outcome.ret () hub1) :
    (getPlayer hub1.players activePlayer).points =
      (getPlayer hub.players activePlayer).points +
        (if hub1.game.playerInStLucia = hub.game.playerInStLucia then 0 else 1) := by
  unfold attack at h
  split_ifs at h with hA hE hH
  · simp only [Outcome.ret.injEq, true_and] at h
    subst h
    obtain ⟨c1, c2⟩ := claim_stlucia_points hub activePlayer ha
    have hne : ¬ ((activePlayer : Int) = hub.game.playerInStLucia) := by
      rw [hE]
      unfold EMPTY_STLUCIA
      omega
    rw [c1, c2, if_neg hne]
  · simp only [Outcome.ret.injEq, true_and] at h
    subst h
    simp only [players_alert, game_alert]
    obtain ⟨lg, lp⟩ := frame_outward_loop (fun p => p.points) (fun _ _ => rfl) hub activePlayer
      hub.game.numberOfPlayers
    have hpts := getPlayer_of_map (fun p => p.points) _ _ lp activePlayer
    rw [lg, if_pos rfl, hpts, add_zero]
  · dsimp only at h
    obtain ⟨dg, dp⟩ := frame_damage_player (fun p => p.points) (fun _ _ => rfl) hub
      hub.game.playerInStLucia.toNat hub.game.rollFile.latestDice.numberOfAs
    have key : ∀ (hub3 : Hub) (holder : Nat), hub3.game = hub.game →
        hub3.players.map (fun p => p.points) = hub.players.map (fun p => p.points) →
        receive_stay_reply hub3 activePlayer holder = Outcome.ret () hub1 →
        (getPlayer hub1.players activePlayer).points =
          (getPlayer hub.players activePlayer).points +
            (if hub1.game.playerInStLucia = hub.game.playerInStLucia then 0 else 1) := by
      intro hub3 holder hg hp hr
      have hpts := getPlayer_of_map (fun p => p.points) _ _ hp activePlayer
      have h3 := receive_stay_reply_points hub3 activePlayer holder hub1
        (by rw [length_of_map _ _ _ hp]; exact ha) (by rw [hg]; exact hH) hr
      rw [h3, hg, hpts]
    refine key _ _ ?_ ?_ h
    · simp only [send_to, game_alert]
      exact dg
    · simp only [send_to, players_alert]
      exact dp
  · simp only [Outcome.ret.injEq, true_and] at h
    subst h
    rw [if_pos rfl, add_zero]

theorem start_turn_points (i0 : Int) (hub : Hub) (activePlayer : Nat)
    (ha : activePlayer < hub.players.length) :
    (getPlayer (start_turn i0 hub activePlayer).players activePlayer).points =
      (getPlayer hub.players activePlayer).points +
        (if (activePlayer : Int) = hub.game.playerInStLucia then 2 else 0) ∧
    ∀ j, j ≠ activePlayer →
      getPlayer (start_turn i0 hub activePlayer).players j = getPlayer hub.players j := by
  unfold start_turn
  simp only [set_latestDice, set_rollFile]
  split_ifs with h
  · dsimp only
    refine ⟨?_, ?_⟩
    · rw [getPlayer_setPlayer_self _ _ _ ha]
      rfl
    · intro j hj
      exact getPlayer_setPlayer_ne _ _ _ _ (fun h2 => hj h2.symm)
  · exact ⟨(add_zero _).symm, fun _ _ => rfl⟩

theorem turn_frame (junk : Nat → Int) (hub : Hub) (activePlayer : Nat) (hub4 hub6 : Hub)
    (hroll : get_player_roll (fun k => junk (k + 1)) (start_turn (junk 0) hub activePlayer)
      activePlayer = some (Outcome.ret () hub4))
    (hattack : attack (heal hub4 activePlayer hub4.game.rollFile.latestDice.numberOfHs)
      activePlayer = Outcome.ret () hub6) :
    hub4.game.playerInStLucia = hub.game.playerInStLucia ∧
    hub4.players.length = hub.players.length ∧
    (∀ j, (getPlayer hub4.players j).points =
      (getPlayer (start_turn (junk 0) hub activePlayer).players j).points) ∧
    (∀ j, (getPlayer (heal hub4 activePlayer
        hub4.game.rollFile.latestDice.numberOfHs).players j).points =
      (getPlayer hub4.players j).points) ∧
    hub6.game.numberOfPlayers = hub.game.numberOfPlayers ∧
    hub6.game.rollFile = hub4.game.rollFile ∧
    hub6.players.length = hub.players.length ∧
    (∀ j, (getPlayer hub6.players j).status = (getPlayer hub.players j).status ∧
      (getPlayer hub6.players j).inbox = (getPlayer hub.players j).inbox ∧
      (getPlayer hub6.players j).tokens = (getPlayer hub.players j).tokens) := by
  obtain ⟨sg, sp⟩ := frame_start_turn (fun p => (p.status, p.inbox, p.tokens))
    (fun g => (g.numberOfPlayers, g.playerInStLucia)) (fun _ _ => rfl) (fun _ _ => rfl)
    (junk 0) hub activePlayer
  obtain ⟨rg, rp⟩ := frame_get_player_roll (fun p => (p.status, p.inbox, p.tokens))
    (fun g => (g.numberOfPlayers, g.playerInStLucia)) (fun _ _ => rfl) (fun _ _ => rfl)
    _ _ _ _ hroll
  obtain ⟨_, rpp⟩ := frame_get_player_roll (fun p => p.points)
    (fun g => g.numberOfPlayers) (fun _ _ => rfl) (fun _ _ => rfl) _ _ _ _ hroll
  obtain ⟨hg, hp⟩ := frame_heal (fun p => (p.status, p.inbox, p.tokens)) (fun _ _ => rfl)
    hub4 activePlayer hub4.game.rollFile.latestDice.numberOfHs
  obtain ⟨_, hpp⟩ := frame_heal (fun p => p.points) (fun _ _ => rfl)
    hub4 activePlayer hub4.game.rollFile.latestDice.numberOfHs
  obtain ⟨ag, ap⟩ := frame_attack (fun p => (p.status, p.inbox, p.tokens))
    (fun g => (g.numberOfPlayers, g.rollFile)) (fun _ _ => rfl) (fun _ _ => rfl)
    (fun _ _ => rfl) (fun _ _ => rfl)
    (heal hub4 activePlayer hub4.game.rollFile.latestDice.numberOfHs) activePlayer
  rw [hattack] at ag ap
  simp only [Outcome.hub] at rg rp rpp ag ap
  rw [hg] at ag
  simp only [Prod.mk.injEq] at sg rg ag
  have h6 : hub6.players.map (fun p => (p.status, p.inbox, p.tokens)) =
      hub.players.map (fun p => (p.status, p.inbox, p.tokens)) :=
    ap.trans (hp.trans (rp.trans sp))
  refine ⟨rg.2.trans sg.2, (length_of_map _ _ _ rp).trans (length_of_map _ _ _ sp), ?_, ?_,
    ag.1.trans (rg.1.trans sg.1), ag.2, length_of_map _ _ _ h6, ?_⟩
  · intro j
    exact getPlayer_of_map (fun p => p.points) _ _ rpp j
  · intro j
    exact getPlayer_of_map (fun p => p.points) _ _ hpp j
  · intro j
    have h := getPlayer_of_map (fun p => (p.status, p.inbox, p.tokens)) _ _ h6 j
    simp only [Prod.mk.injEq] at h
    exact h

/-- The territory bonus and the points announcement of a turn, in the embedding.  In the turn
of a participant `activePlayer` of the array, with every `REMAINING` participant connected:
the statements before the dice are drawn and rolled raise its points by 2 when it holds the
territory at the start of the turn and by 0 otherwise.  When `get_player_roll` returns in
`hub4` and `attack` returns in `hub6`, the turn goes on to `gain_points` with the points at
the very start of the turn as `startingPoints`; the roll leaves the bonus in place; `attack`
adds 1 point exactly when the holder of the territory changed (a claim); the number `n` =
points after `gain_points` minus points at the very start of the turn is the bonus plus the
claim point plus the points from tokens plus the points from number faces; and `gain_points`
writes `points <label> <n>` to every `REMAINING` participant when `n > 0` and nothing
otherwise. -/
theorem turn_points_facts (junk : Nat → Int) (hub : Hub) (activePlayer : Nat)
    (ha : activePlayer < hub.players.length) (hconn : connected hub) :
    (getPlayer (start_turn (junk 0) hub activePlayer).players activePlayer).points =
      (getPlayer hub.players activePlayer).points +
        (if (activePlayer : Int) = hub.game.playerInStLucia then 2 else 0) ∧
    ∀ hub4 hub6,
      get_player_roll (fun k => junk (k + 1)) (start_turn (junk 0) hub activePlayer)
        activePlayer = some (Outcome.ret () hub4) →
      attack (heal hub4 activePlayer hub4.game.rollFile.latestDice.numberOfHs)
        activePlayer = Outcome.ret () hub6 →
      turn junk hub activePlayer = some (Outcome.ret
        (check_game_over (update_eliminated_players
          (gain_points hub6 activePlayer (getPlayer hub.players activePlayer).points)
          activePlayer) activePlayer).1
        (check_game_over (update_eliminated_players
          (gain_points hub6 activePlayer (getPlayer hub.players activePlayer).points)
          activePlayer) activePlayer).2) ∧
      (getPlayer hub4.players activePlayer).points =
        (getPlayer hub.players activePlayer).points +
          (if (activePlayer : Int) = hub.game.playerInStLucia then 2 else 0) ∧
      (getPlayer hub6.players activePlayer).points =
        (getPlayer hub.players activePlayer).points +
          (if (activePlayer : Int) = hub.game.playerInStLucia then 2 else 0) +
          (if hub6.game.playerInStLucia = hub.game.playerInStLucia then 0 else 1) ∧
      (getPlayer (gain_points hub6 activePlayer
          (getPlayer hub.players activePlayer).points).players activePlayer).points -
          (getPlayer hub.players activePlayer).points =
        (if (activePlayer : Int) = hub.game.playerInStLucia then 2 else 0) +
          (if hub6.game.playerInStLucia = hub.game.playerInStLucia then 0 else 1) +
          (if 0 ≤ (getPlayer hub.players activePlayer).tokens +
              hub4.game.rollFile.latestDice.numberOfPs then
            ((getPlayer hub.players activePlayer).tokens +
              hub4.game.rollFile.latestDice.numberOfPs) / 10
          else 0) +
          number_face_points hub4.game.rollFile.latestDice ∧
      (gain_points hub6 activePlayer (getPlayer hub.players activePlayer).points).sent =
        hub6.sent ++
          (if (getPlayer (gain_points hub6 activePlayer
              (getPlayer hub.players activePlayer).points).players activePlayer).points -
              (getPlayer hub.players activePlayer).points > 0 then
            (remaining_players hub).map (fun i =>
              (i, msg_points (get_player_label activePlayer)
                ((getPlayer (gain_points hub6 activePlayer
                  (getPlayer hub.players activePlayer).points).players activePlayer).points -
                  (getPlayer hub.players activePlayer).points)))
          else []) := by
  obtain ⟨sp1, _⟩ := start_turn_points (junk 0) hub activePlayer ha
  refine ⟨sp1, ?_⟩
  intro hub4 hub6 hroll hattack
  obtain ⟨f1, f2, f3, f4, f5, f6, f7, f8⟩ := turn_frame junk hub activePlayer hub4 hub6 hroll
    hattack
  have ha5 : activePlayer <
      (heal hub4 activePlayer hub4.game.rollFile.latestDice.numberOfHs).players.length := by
    rw [length_of_map _ _ _ (frame_heal (fun p => p.points) (fun _ _ => rfl) hub4 activePlayer
      hub4.game.rollFile.latestDice.numberOfHs).2, f2]
    exact ha
  have hp4 : (getPlayer hub4.players activePlayer).points =
      (getPlayer hub.players activePlayer).points +
        (if (activePlayer : Int) = hub.game.playerInStLucia then 2 else 0) := by
    rw [f3, sp1]
  have hp6 := attack_points _ activePlayer hub6 ha5 hattack
  rw [f4, hp4, (frame_heal (fun p => p.points) (fun _ _ => rfl) hub4 activePlayer
    hub4.game.rollFile.latestDice.numberOfHs).1, f1] at hp6
  obtain ⟨_, g2, _, _, _, _, g7⟩ := gain_points_facts hub6 activePlayer
    (getPlayer hub.players activePlayer).points (by rw [f7]; exact ha)
  have hrec : recipients hub6 activePlayer false = remaining_players hub := by
    rw [← connected_recipients hub activePlayer hconn]
    exact recipients_congr hub6 hub activePlayer false f5 (fun i => (f8 i).1)
      (fun i => (f8 i).2.1)
  refine ⟨?_, hp4, hp6, ?_, ?_⟩
  · unfold turn
    rw [hroll]
    dsimp only
    unfold finish_turn
    dsimp only
    rw [hattack]
  · rw [g2, hp6, (f8 activePlayer).2.2, f6]
    ring
  · rw [g7, hrec]

/-! ## The roll source -/

theorem draw_dice_eq_next_rolls (k : Nat) (rollFile : RollFile)
    (h : rollFile.index < rollFile.size) :
    (draw_dice k rollFile).1 = next_rolls rollFile k ∧
    (draw_dice k rollFile).2 =
      { rollFile with index := (rollFile.index + k) % rollFile.size } := by
  induction k generalizing rollFile with
  | zero =>
    refine ⟨by simp [draw_dice, next_rolls], ?_⟩
    simp [draw_dice, Nat.mod_eq_of_lt h]
  | succ k ih =>
    have h2 : (get_next_die rollFile).2.index < (get_next_die rollFile).2.size := by
      simp only [get_next_die]
      exact Nat.mod_lt _ (by omega)
    obtain ⟨ih1, ih2⟩ := ih (get_next_die rollFile).2 h2
    refine ⟨?_, ?_⟩
    · rw [draw_dice, next_rolls_succ _ _ h, ih1]
    · rw [draw_dice, ih2]
      simp only [get_next_die]
      congr 1
      rw [Nat.add_mod ((rollFile.index + 1) % rollFile.size), Nat.mod_mod, ← Nat.add_mod]
      congr 1
      omega

/-- Claim C24: one call of `get_next_die` on a roll source whose size is the length of its
sequence and at least 1, with the cursor inside.  The die returned is the element of the
sequence under the cursor; the new cursor is `(cursor + 1) mod size`, is inside again, and is
0 exactly when the element read was the last one; the sequence, its size and the three dice
sets of the roll file are unchanged. -/
theorem get_next_die_cursor (rollFile : RollFile)
    (hsize : rollFile.size = rollFile.diceRolls.length) (h1 : 1 ≤ rollFile.size)
    (hc : rollFile.index < rollFile.size) :
    rollFile.diceRolls[rollFile.index]? = some (get_next_die rollFile).1 ∧
    (get_next_die rollFile).2.index = (rollFile.index + 1) % rollFile.size ∧
    (get_next_die rollFile).2.index < (get_next_die rollFile).2.size ∧
    ((get_next_die rollFile).2.index = 0 ↔ rollFile.index + 1 = rollFile.size) ∧
    (get_next_die rollFile).2.diceRolls = rollFile.diceRolls ∧
    (get_next_die rollFile).2.size = rollFile.size ∧
    (get_next_die rollFile).2.latestDice = rollFile.latestDice ∧
    (get_next_die rollFile).2.rerollDice = rollFile.rerollDice ∧
    (get_next_die rollFile).2.oppositionDice = rollFile.oppositionDice := by
  have hlt : rollFile.index < rollFile.diceRolls.length := by omega
  refine ⟨?_, rfl, ?_, ?_, rfl, rfl, rfl, rfl, rfl⟩
  · simp only [get_next_die]
    rw [List.getD_eq_getElem _ _ hlt, List.getElem?_eq_getElem hlt]
  · simp only [get_next_die]
    exact Nat.mod_lt _ (by omega)
  · simp only [get_next_die]
    constructor
    · intro h0
      by_contra hne
      rw [Nat.mod_eq_of_lt (by omega)] at h0
      omega
    · intro he
      rw [he, Nat.mod_self]

/-- Witness for `get_next_die_cursor`: on the sequence `1HP` with the cursor at 2 the call
returns `P` and the cursor wraps to 0; with the cursor at 0 it returns `1` and moves to 1. -/
theorem get_next_die_cursor_witness :
    (get_next_die { rolls_1HP with index := 2 }).1 = 'P' ∧
    (get_next_die { rolls_1HP with index := 2 }).2.index = 0 ∧
    (get_next_die rolls_1HP).1 = '1' ∧
    (get_next_die rolls_1HP).2.index = 1 ∧
    ((get_next_die rolls_1HP).2.index = 0 ↔ 0 + 1 = 3) :=
  ⟨by decide,
   ((get_next_die_cursor { rolls_1HP with index := 2 } (by decide) (by decide)
      (by decide)).2.2.2.1).2 (by decide),
   by decide, (get_next_die_cursor rolls_1HP (by decide) (by decide) (by decide)).2.1,
   (get_next_die_cursor rolls_1HP (by decide) (by decide) (by decide)).2.2.2.1⟩

/-- Claim C23: a roll source whose size `n` is the length of its sequence and at least 1, with
the cursor at 0.  Call number `i` of `get_next_die` (counted from 0) returns element
`i mod n` of the sequence; the first `k` calls return the elements `0 mod n, .., (k-1) mod n`;
of the first `n + k` dice drawn, those numbered `n .. n+k-1` are the first `k` dice again;
and a second roll file with the same sequence, size and cursor yields the same dice whatever
its dice sets are. -/
theorem get_next_die_cyclic (rollFile : RollFile)
    (hsize : rollFile.size = rollFile.diceRolls.length) (h1 : 1 ≤ rollFile.size)
    (h0 : rollFile.index = 0) :
    (∀ i, rollFile.diceRolls[i % rollFile.size]? =
      some (get_next_die (draw_dice i rollFile).2).1) ∧
    (∀ k, (draw_dice k rollFile).1 =
      (List.range k).map (fun i => rollFile.diceRolls.getD (i % rollFile.size) NUL)) ∧
    (∀ k, ((draw_dice (rollFile.size + k) rollFile).1).drop rollFile.size =
      (draw_dice k rollFile).1) ∧
    (∀ k, ((draw_dice (rollFile.size + k) rollFile).1).length = rollFile.size + k) ∧
    (∀ other : RollFile, other.diceRolls = rollFile.diceRolls → other.size = rollFile.size →
      other.index = rollFile.index →
      ∀ k, (draw_dice k other).1 = (draw_dice k rollFile).1) := by
  have hidx : rollFile.index < rollFile.size := by omega
  have hdraw : ∀ k, (draw_dice k rollFile).1 =
      (List.range k).map (fun i => rollFile.diceRolls.getD (i % rollFile.size) NUL) := by
    intro k
    rw [(draw_dice_eq_next_rolls k rollFile hidx).1]
    unfold next_rolls
    rw [h0]
    simp only [Nat.zero_add]
  refine ⟨?_, hdraw, ?_, ?_, ?_⟩
  · intro i
    rw [(draw_dice_eq_next_rolls i rollFile hidx).2]
    have hlt : i % rollFile.size < rollFile.diceRolls.length := by
      rw [← hsize]
      exact Nat.mod_lt _ (by omega)
    simp only [get_next_die, h0, Nat.zero_add]
    rw [List.getD_eq_getElem _ _ hlt, List.getElem?_eq_getElem hlt]
  · intro k
    rw [hdraw, hdraw, ← List.map_drop]
    apply List.ext_getElem?
    intro j
    simp only [List.getElem?_map, List.getElem?_drop]
    by_cases hj : j < k
    · rw [List.getElem?_range (by omega), List.getElem?_range hj]
      simp only [Option.map_some', Nat.add_mod_left]
    · rw [List.getElem?_eq_none (by simp; omega), List.getElem?_eq_none (by simp; omega)]
  · intro k
    rw [hdraw]
    simp
  · intro other hd hs hi k
    rw [(draw_dice_eq_next_rolls k rollFile hidx).1,
      (draw_dice_eq_next_rolls k other (by omega)).1]
    unfold next_rolls
    rw [hd, hs, hi]

/-- Witness for `get_next_die_cyclic`: on the sequence `1HP`, call number 4 returns element
`4 mod 3 = 1`, the face `H`; the first five dice are `1HP1H`, and the dice numbered 3 and 4
are the first two again. -/
theorem get_next_die_cyclic_witness :
    rolls_1HP.diceRolls[4 % rolls_1HP.size]? = some 'H' ∧
    (get_next_die (draw_dice 4 rolls_1HP).2).1 = 'H' ∧
    (draw_dice 5 rolls_1HP).1 = ['1', 'H', 'P', '1', 'H'] ∧
    ((draw_dice (rolls_1HP.size + 2) rolls_1HP).1).drop rolls_1HP.size =
      (draw_dice 2 rolls_1HP).1 :=
  ⟨by decide,
   Option.some.inj (((get_next_die_cyclic rolls_1HP (by decide) (by decide) (by decide)).1
     4).symm.trans (by decide)),
   ((get_next_die_cyclic rolls_1HP (by decide) (by decide) (by decide)).2.1 5).trans
     (by decide),
   (get_next_die_cyclic rolls_1HP (by decide) (by decide) (by decide)).2.2.1 2⟩

/-! ## Drawing dice into a dice set -/

theorem counter_eq_fields (diceSet : DiceSet) :
    diceSet.counter '1' = diceSet.numberOfOnes ∧ diceSet.counter '2' = diceSet.numberOfTwos ∧
    diceSet.counter '3' = diceSet.numberOfThrees ∧ diceSet.counter 'H' = diceSet.numberOfHs ∧
    diceSet.counter 'A' = diceSet.numberOfAs ∧ diceSet.counter 'P' = diceSet.numberOfPs := by
  refine ⟨?_, ?_, ?_, ?_, ?_, ?_⟩ <;> simp [DiceSet.counter]

theorem nonneg_iff_counter (diceSet : DiceSet) :
    diceSet.nonneg ↔ ∀ face ∈ faces, 0 ≤ diceSet.counter face := by
  obtain ⟨h1, h2, h3, h4, h5, h6⟩ := counter_eq_fields diceSet
  unfold DiceSet.nonneg
  simp only [faces, List.mem_cons, List.mem_singleton, forall_eq_or_imp, forall_eq,
    List.not_mem_nil, false_imp_iff, implies_true, and_true, h1, h2, h3, h4, h5, h6]

theorem counter_reset_dice_set (diceSet : DiceSet) (face : Char) :
    (reset_dice_set diceSet).counter face = 0 := by
  unfold DiceSet.counter reset_dice_set
  split_ifs <;> rfl

/-- The loop of `add_dice_to_dice_set` when its counter starts at 0: `numberOfDice` dice are
drawn; each counter grows by the number of occurrences of its face among the next
`numberOfDice` characters of the roll source, the sum of the counters grows by `numberOfDice`,
and the cursor moves on by `numberOfDice` modulo the size. -/
theorem add_dice_to_dice_set_counter_zero (rollFile : RollFile) (numberOfDice : Nat)
    (diceSet : DiceSet) (hvalid : rollFile.valid) :
    (∀ face ∈ faces, (add_dice_to_dice_set 0 rollFile numberOfDice diceSet).2.counter face =
      diceSet.counter face + ((next_rolls rollFile numberOfDice).count face : Int)) ∧
    sum_dice_set (add_dice_to_dice_set 0 rollFile numberOfDice diceSet).2 =
      sum_dice_set diceSet + (numberOfDice : Int) ∧
    (add_dice_to_dice_set 0 rollFile numberOfDice diceSet).1 =
      { rollFile with index := (rollFile.index + numberOfDice) % rollFile.size } := by
  unfold add_dice_to_dice_set
  simp only [sub_zero, Int.toNat_ofNat]
  exact ⟨fun face hface => add_dice_iterations_counter _ _ _ hvalid face hface,
    add_dice_iterations_sum _ _ _ hvalid, add_dice_iterations_index _ _ _ hvalid.2.2.1⟩

/-- The draw at the start of a turn when the loop counter of `add_dice_to_dice_set` starts at
0: each counter of the latest dice is the number of occurrences of its face among the next six
characters of the roll source, so no counter is negative and the total is 6, and the cursor
has moved on by 6 modulo the size. -/
theorem start_turn_draw_counter_zero (hub : Hub) (activePlayer : Nat)
    (hvalid : hub.game.rollFile.valid) :
    (∀ face ∈ faces, (start_turn 0 hub activePlayer).game.rollFile.latestDice.counter face =
      ((next_rolls hub.game.rollFile 6).count face : Int)) ∧
    (start_turn 0 hub activePlayer).game.rollFile.latestDice.nonneg ∧
    sum_dice_set (start_turn 0 hub activePlayer).game.rollFile.latestDice = 6 ∧
    (start_turn 0 hub activePlayer).game.rollFile.index =
      (hub.game.rollFile.index + 6) % hub.game.rollFile.size ∧
    (start_turn 0 hub activePlayer).game.rollFile.diceRolls = hub.game.rollFile.diceRolls ∧
    (start_turn 0 hub activePlayer).game.rollFile.size = hub.game.rollFile.size := by
  have hgame : (start_turn 0 hub activePlayer).game.rollFile =
      { (add_dice_to_dice_set 0
          { hub.game.rollFile with latestDice := reset_dice_set hub.game.rollFile.latestDice }
          (DICE_SET_SIZE : Int) (reset_dice_set hub.game.rollFile.latestDice)).1 with
        latestDice := (add_dice_to_dice_set 0
          { hub.game.rollFile with latestDice := reset_dice_set hub.game.rollFile.latestDice }
          (DICE_SET_SIZE : Int) (reset_dice_set hub.game.rollFile.latestDice)).2 } := by
    unfold start_turn
    simp only [set_latestDice, set_rollFile]
    split_ifs <;> rfl
  have hvalid2 : RollFile.valid
      { hub.game.rollFile with latestDice := reset_dice_set hub.game.rollFile.latestDice } :=
    hvalid
  obtain ⟨a1, a2, a3⟩ := add_dice_to_dice_set_counter_zero
    { hub.game.rollFile with latestDice := reset_dice_set hub.game.rollFile.latestDice }
    DICE_SET_SIZE (reset_dice_set hub.game.rollFile.latestDice) hvalid2
  have hcount : ∀ face ∈ faces,
      (start_turn 0 hub activePlayer).game.rollFile.latestDice.counter face =
        ((next_rolls hub.game.rollFile 6).count face : Int) := by
    intro face hface
    rw [hgame]
    dsimp only
    rw [a1 face hface, counter_reset_dice_set, zero_add]
    rfl
  refine ⟨hcount, ?_, ?_, ?_, ?_, ?_⟩
  · rw [nonneg_iff_counter]
    intro face hface
    rw [hcount face hface]
    exact Int.natCast_nonneg _
  · rw [hgame]
    dsimp only
    rw [a2]
    simp [sum_dice_set, reset_dice_set, DICE_SET_SIZE]
  · rw [hgame]
    dsimp only
    rw [a3]
    rfl
  · rw [hgame]
    dsimp only
    rw [a3]
  · rw [hgame]
    dsimp only
    rw [a3]

/-- Claim C25, failing input: the roll sequence `AA1123` with the cursor at 0, and the loop
counter of `add_dice_to_dice_set`, which is declared without an initial value, holding 1 on
entry.  The draw at the start of the turn adds five dice, not six: the latest dice are
`A`, `A`, `1`, `1`, `2` with total 5 and the cursor stands at 5; a call for 3 dice with the
counter at 1 adds 2.  With the counter at 0 the same calls add six dice, total 6 and cursor
0, and 3 dice. -/
theorem add_dice_to_dice_set_counter_one :
    sum_dice_set (start_turn 1 (opening_hub ['A', 'A', '1', '1', '2', '3'])
      0).game.rollFile.latestDice = 5 ∧
    (start_turn 1 (opening_hub ['A', 'A', '1', '1', '2', '3'])
      0).game.rollFile.latestDice.numberOfThrees = 0 ∧
    (start_turn 1 (opening_hub ['A', 'A', '1', '1', '2', '3']) 0).game.rollFile.index = 5 ∧
    sum_dice_set (add_dice_to_dice_set 1 rolls_1HP 3 (reset_dice_set dice_111222)).2 = 2 ∧
    sum_dice_set (start_turn 0 (opening_hub ['A', 'A', '1', '1', '2', '3'])
      0).game.rollFile.latestDice = 6 ∧
    (start_turn 0 (opening_hub ['A', 'A', '1', '1', '2', '3'])
      0).game.rollFile.latestDice.numberOfThrees = 1 ∧
    (start_turn 0 (opening_hub ['A', 'A', '1', '1', '2', '3']) 0).game.rollFile.index = 0 ∧
    sum_dice_set (add_dice_to_dice_set 0 rolls_1HP 3 (reset_dice_set dice_111222)).2 = 3 := by
  decide

/-! ## The counters of the latest dice over a roll -/

/-- An accepted reroll of dice that are held, when the loop counter of `add_dice_to_dice_set`
starts at 0: if the latest dice total six and the subset `s` of the reply `reroll <s>` has no
face more often than the latest dice have it, then `keep_dice_response` returns false with
latest dice whose counters are not negative and total six. -/
theorem reroll_of_held_dice_keeps_counters (hub : Hub) (activePlayer : Nat)
    (s rest : List Char)
    (hsum : sum_dice_set hub.game.rollFile.latestDice = 6)
    (hvalid : hub.game.rollFile.valid)
    (hsf : ∀ c ∈ s, c ∈ faces)
    (hheld : ∀ face ∈ faces, (s.count face : Int) ≤ hub.game.rollFile.latestDice.counter face)
    (hout : (getPlayer hub.players activePlayer).outbox = kw_reroll ++ ' ' :: s ++ NL :: rest) :
    ∃ hub1, keep_dice_response 0 hub activePlayer = Outcome.ret false hub1 ∧
      hub1.game.rollFile.latestDice.nonneg ∧
      sum_dice_set hub1.game.rollFile.latestDice = 6 := by
  have hlen : s.length ≤ 6 := by
    have hc := counter_eq_fields hub.game.rollFile.latestDice
    have h1 := hheld '1' (by decide)
    have h2 := hheld '2' (by decide)
    have h3 := hheld '3' (by decide)
    have h4 := hheld 'H' (by decide)
    have h5 := hheld 'A' (by decide)
    have h6 := hheld 'P' (by decide)
    have hsplit : s.length = s.count '1' + s.count '2' + s.count '3' + s.count 'H' +
        s.count 'A' + s.count 'P' := by
      clear hout hheld h1 h2 h3 h4 h5 h6
      induction s with
      | nil => rfl
      | cons c s ih =>
        have hcf := hsf c (List.mem_cons_self _ _)
        have ih2 := ih (fun d hd => hsf d (List.mem_cons_of_mem _ hd))
        rw [mem_faces_iff] at hcf
        rcases hcf with h | h | h | h | h | h <;> subst h <;>
          simp [List.count_cons] <;> omega
    unfold sum_dice_set at hsum
    omega
  obtain ⟨hub1, hk, hcount, _, _, _, hsum1, _, _⟩ :=
    keep_dice_response_reroll_counter_zero hub activePlayer s rest hsum hvalid hlen hsf hout
  refine ⟨hub1, hk, ?_, hsum1⟩
  rw [nonneg_iff_counter]
  intro face hface
  rw [hcount face hface]
  have := hheld face hface
  have h2 : (0 : Int) ≤ ((next_rolls hub.game.rollFile s.length).count face : Int) :=
    Int.natCast_nonneg _
  omega

/-- Claim C27, failing inputs.  The roll sequence is `1112223`, participant 0 sends
`reroll A` and then `keepall`, and the loop counter of `add_dice_to_dice_set` starts at 0:
the draw gives 111222, the hub accepts the reroll of an `A` that is not among the dice, and
`get_player_roll` returns with the `A` counter at -1 (the counters still total 6, and the
string written is `1112223`, seven characters).  With the loop counter of the six-dice draw
at 2 and the reply `keepall` the roll ends with four dice, total 4.  After `reset_dice_set`
the total is 0. -/
theorem accepted_reroll_leaves_negative_counter :
    (get_player_roll (fun _ => 0)
      (start_turn 0 (replying_hub ['1', '1', '1', '2', '2', '2', '3']
        (kw_reroll ++ [' ', 'A', NL] ++ kw_keepall ++ [NL])) 0) 0).map
      (fun out => (out.value?, out.hub.game.rollFile.latestDice.numberOfAs,
        sum_dice_set out.hub.game.rollFile.latestDice,
        out.hub.game.rollFile.latestDice.rollString)) =
      some (some (), -1, 6, ['1', '1', '1', '2', '2', '2', '3']) ∧
    ¬ (state_after_roll (fun _ => 0) (replying_hub ['1', '1', '1', '2', '2', '2', '3']
        (kw_reroll ++ [' ', 'A', NL] ++ kw_keepall ++ [NL])) 0).game.rollFile.latestDice.nonneg ∧
    (get_player_roll (fun _ => 0)
      (start_turn 2 (replying_hub ['1', '1', '1', '2', '2', '2', '3'] (kw_keepall ++ [NL])) 0)
      0).map
      (fun out => (out.value?, sum_dice_set out.hub.game.rollFile.latestDice)) =
      some (some (), 4) ∧
    sum_dice_set (reset_dice_set dice_111222) = 0 ∧ (reset_dice_set dice_111222).nonneg := by
  decide

/-! ## The canonical dice string -/

theorem counter_foldl_add (s : List Char) (diceSet : DiceSet) (face : Char)
    (hface : face ∈ faces) :
    (s.foldl add_die_to_dice_set diceSet).counter face =
      diceSet.counter face + (s.count face : Int) := by
  induction s generalizing diceSet with
  | nil => simp
  | cons c s ih =>
    rw [List.foldl_cons, ih, add_die_to_dice_set, counter_update_dice_set _ _ _ _ hface]
    by_cases h : c = face
    · subst h; simp; omega
    · have h2 : (c == face) = false := by simpa using h
      simp [h, List.count_cons, h2]

theorem rollString_of_dice_string (s : List Char) (diceSet : DiceSet) :
    (create_dice_set_string (s.foldl add_die_to_dice_set (reset_dice_set diceSet))).rollString =
      List.replicate (s.count '1') '1' ++ List.replicate (s.count '2') '2' ++
      List.replicate (s.count '3') '3' ++ List.replicate (s.count 'H') 'H' ++
      List.replicate (s.count 'A') 'A' ++ List.replicate (s.count 'P') 'P' := by
  obtain ⟨h1, h2, h3, h4, h5, h6⟩ :=
    counter_eq_fields (s.foldl add_die_to_dice_set (reset_dice_set diceSet))
  have hc : ∀ face ∈ faces,
      (s.foldl add_die_to_dice_set (reset_dice_set diceSet)).counter face =
        (s.count face : Int) := by
    intro face hface
    rw [counter_foldl_add _ _ _ hface, counter_reset_dice_set, zero_add]
  unfold create_dice_set_string
  dsimp only
  rw [← h1, ← h2, ← h3, ← h4, ← h5, ← h6, hc '1' (by decide), hc '2' (by decide),
    hc '3' (by decide), hc 'H' (by decide), hc 'A' (by decide), hc 'P' (by decide)]
  simp only [Int.toNat_ofNat]

theorem count_canonical (a b c h x p : Nat) (face : Char) :
    (List.replicate a '1' ++ List.replicate b '2' ++ List.replicate c '3' ++
      List.replicate h 'H' ++ List.replicate x 'A' ++ List.replicate p 'P').count face =
      (if face = '1' then a else 0) + (if face = '2' then b else 0) +
      (if face = '3' then c else 0) + (if face = 'H' then h else 0) +
      (if face = 'A' then x else 0) + (if face = 'P' then p else 0) := by
  simp only [List.count_append, List.count_replicate, beq_iff_eq]
  simp only [eq_comm]

/-- Claim C26: the canonical dice string.  Take a string `s` of exactly six characters, each
one of `1`, `2`, `3`, `H`, `A`, `P`, add its characters one by one with `add_die_to_dice_set`
to a dice set that was reset, and call `create_dice_set_string`.  The `rollString` written
consists of the `1`s of `s`, then its `2`s, its `3`s, its `H`s, its `A`s and its `P`s, with
nothing between them; it is a permutation of `s` and has six characters; and whenever `s`
itself has this order (`a` times `1`, then `b` times `2`, and so on) the `rollString` is
`s`. -/
theorem create_dice_set_string_canonical (s : List Char) (diceSet : DiceSet)
    (hlen : s.length = DICE_SET_SIZE) (hs : ∀ c ∈ s, c ∈ faces) :
    (create_dice_set_string (s.foldl add_die_to_dice_set (reset_dice_set diceSet))).rollString =
      List.replicate (s.count '1') '1' ++ List.replicate (s.count '2') '2' ++
      List.replicate (s.count '3') '3' ++ List.replicate (s.count 'H') 'H' ++
      List.replicate (s.count 'A') 'A' ++ List.replicate (s.count 'P') 'P' ∧
    List.Perm
      (create_dice_set_string (s.foldl add_die_to_dice_set (reset_dice_set diceSet))).rollString
      s ∧
    (create_dice_set_string
      (s.foldl add_die_to_dice_set (reset_dice_set diceSet))).rollString.length = 6 ∧
    (∀ a b c h x p : Nat,
      s = List.replicate a '1' ++ List.replicate b '2' ++ List.replicate c '3' ++
        List.replicate h 'H' ++ List.replicate x 'A' ++ List.replicate p 'P' →
      (create_dice_set_string
        (s.foldl add_die_to_dice_set (reset_dice_set diceSet))).rollString = s) := by
  have hperm : List.Perm
      (create_dice_set_string
        (s.foldl add_die_to_dice_set (reset_dice_set diceSet))).rollString s := by
    rw [rollString_of_dice_string, List.perm_iff_count]
    intro face
    rw [count_canonical]
    by_cases hf : face ∈ s
    · have hface := hs face hf
      rw [mem_faces_iff] at hface
      rcases hface with h | h | h | h | h | h <;> subst h <;> simp
    · rw [List.count_eq_zero_of_not_mem hf]
      have h1 : ∀ f, f ∈ faces → ¬ (face = f) ∨ s.count f = 0 := by
        intro f _
        by_cases he : face = f
        · right
          rw [← he]
          exact List.count_eq_zero_of_not_mem hf
        · left
          exact he
      rcases h1 '1' (by decide) with h | h <;> rcases h1 '2' (by decide) with h2 | h2 <;>
        rcases h1 '3' (by decide) with h3 | h3 <;> rcases h1 'H' (by decide) with h4 | h4 <;>
        rcases h1 'A' (by decide) with h5 | h5 <;> rcases h1 'P' (by decide) with h6 | h6 <;>
        simp [h, h2, h3, h4, h5, h6]
  refine ⟨rollString_of_dice_string s diceSet, hperm, ?_, ?_⟩
  · rw [hperm.length_eq, hlen]
    rfl
  · intro a b c h x p hcanon
    rw [rollString_of_dice_string]
    have hcount : ∀ face, s.count face =
        (if face = '1' then a else 0) + (if face = '2' then b else 0) +
        (if face = '3' then c else 0) + (if face = 'H' then h else 0) +
        (if face = 'A' then x else 0) + (if face = 'P' then p else 0) := by
      intro face
      rw [hcanon]
      exact count_canonical a b c h x p face
    rw [hcount '1', hcount '2', hcount '3', hcount 'H', hcount 'A', hcount 'P']
    simp only [Char.reduceEq, if_true, if_false, add_zero, zero_add]
    exact hcanon.symm

/-- Witness for `create_dice_set_string_canonical`: the string `P1A1H3` gives `113HAP`, and
the canonical string `1123AA` gives itself. -/
theorem create_dice_set_string_canonical_witness :
    (create_dice_set_string (['P', '1', 'A', '1', 'H', '3'].foldl add_die_to_dice_set
      (reset_dice_set dice_111222))).rollString = ['1', '1', '3', 'H', 'A', 'P'] ∧
    (create_dice_set_string (['1', '1', '2', '3', 'A', 'A'].foldl add_die_to_dice_set
      (reset_dice_set dice_111222))).rollString = ['1', '1', '2', '3', 'A', 'A'] :=
  ⟨(create_dice_set_string_canonical ['P', '1', 'A', '1', 'H', '3'] dice_111222 (by decide)
      (by decide)).1.trans (by decide),
   (create_dice_set_string_canonical ['1', '1', '2', '3', 'A', 'A'] dice_111222 (by decide)
      (by decide)).2.2.2 2 1 1 0 2 0 (by decide)⟩

/-! ## The message splitter `interpret_message` -/

theorem line_body_cons (c : Char) (rest : List Char) :
    line_body (c :: rest) = if c = NUL ∨ c = NL then [] else c :: line_body rest := by
  unfold line_body
  rw [List.takeWhile_cons]
  by_cases h1 : c = NUL
  · simp [h1]
  · by_cases h2 : c = NL
    · simp [h2]
    · simp [h1, h2]

theorem interpret_message_loop_body (message : List Char) :
    ∀ (done : List (List Char)) (current : List Char),
      interpret_message_loop (line_body message) done current =
        interpret_message_loop message done current ∧
      ∀ rest, interpret_message_loop (line_body message ++ NL :: rest) done current =
        interpret_message_loop message done current := by
  induction message with
  | nil =>
    intro done current
    refine ⟨rfl, ?_⟩
    intro rest
    have hb : line_body [] = [] := rfl
    rw [hb, List.nil_append, interpret_message_loop, interpret_message_loop,
      if_neg (show ¬ (NL = ' ') by decide), if_pos (Or.inr rfl)]
  | cons c message ih =>
    intro done current
    rw [line_body_cons]
    by_cases hterm : c = NUL ∨ c = NL
    · have hsp : ¬ (c = ' ') := by
        rcases hterm with h | h <;> rw [h] <;> decide
      rw [if_pos hterm]
      refine ⟨?_, ?_⟩
      · rw [interpret_message_loop, interpret_message_loop, if_neg hsp, if_pos hterm]
      · intro rest
        rw [List.nil_append, interpret_message_loop, if_neg (show ¬ (NL = ' ') by decide),
          if_pos (Or.inr rfl), interpret_message_loop, if_neg hsp, if_pos hterm]
    · rw [if_neg hterm]
      by_cases hsp : c = ' '
      · refine ⟨?_, ?_⟩
        · rw [interpret_message_loop, if_pos hsp, (ih _ _).1]
          conv_rhs => rw [interpret_message_loop, if_pos hsp]
        · intro rest
          rw [List.cons_append, interpret_message_loop, if_pos hsp, (ih _ _).2]
          conv_rhs => rw [interpret_message_loop, if_pos hsp]
      · refine ⟨?_, ?_⟩
        · rw [interpret_message_loop, if_neg hsp, if_neg hterm, (ih _ _).1]
          conv_rhs => rw [interpret_message_loop, if_neg hsp, if_neg hterm]
        · intro rest
          rw [List.cons_append, interpret_message_loop, if_neg hsp, if_neg hterm, (ih _ _).2]
          conv_rhs => rw [interpret_message_loop, if_neg hsp, if_neg hterm]

theorem interpret_message_loop_spec (message : List Char) :
    ∀ (done : List (List Char)) (current : List Char),
      ∃ fields, (interpret_message_loop message done current).2 = done ++ fields ∧
        (interpret_message_loop message done current).1 =
          (done.length : Int) + (fields.length : Int) ∧
        fields.length = 1 + (line_body message).count ' ' ∧
        List.intercalate [' '] fields = current ++ line_body message ∧
        (' ' ∉ current → ∀ field ∈ fields, ' ' ∉ field) := by
  induction message with
  | nil =>
    intro done current
    refine ⟨[current], rfl, rfl, rfl, ?_, ?_⟩
    · simp [List.intercalate, line_body]
    · intro h field hf
      rw [List.mem_singleton] at hf
      rw [hf]
      exact h
  | cons c message ih =>
    intro done current
    by_cases hsp : c = ' '
    · obtain ⟨fields, h1, h2, h3, h4, h5⟩ := ih (done ++ [current]) []
      have hterm : ¬ (c = NUL ∨ c = NL) := by
        rw [hsp]
        decide
      refine ⟨current :: fields, ?_, ?_, ?_, ?_, ?_⟩
      · rw [interpret_message_loop, if_pos hsp, h1]
        simp
      · rw [interpret_message_loop, if_pos hsp, h2]
        simp only [List.length_append, List.length_singleton, List.length_cons,
          List.length_nil]
        push_cast
        ring
      · rw [line_body_cons, if_neg hterm, hsp, List.count_cons_self, List.length_cons, h3]
        omega
      · rw [line_body_cons, if_neg hterm, hsp]
        cases fields with
        | nil =>
          rw [List.length_nil] at h3
          omega
        | cons f fs =>
          have h4b : List.intercalate [' '] (f :: fs) = line_body message := by
            rw [h4, List.nil_append]
          rw [← h4b]
          simp [List.intercalate]
      · intro hcur field hf
        rcases List.mem_cons.1 hf with h | h
        · rw [h]
          exact hcur
        · exact h5 (List.not_mem_nil _) field h
    · by_cases hterm : c = NUL ∨ c = NL
      · refine ⟨[current], ?_, ?_, ?_, ?_, ?_⟩
        · rw [interpret_message_loop, if_neg hsp, if_pos hterm]
        · rw [interpret_message_loop, if_neg hsp, if_pos hterm]
          rfl
        · rw [line_body_cons, if_pos hterm]
          rfl
        · rw [line_body_cons, if_pos hterm]
          simp [List.intercalate]
        · intro h field hf
          rw [List.mem_singleton] at hf
          rw [hf]
          exact h
      · obtain ⟨fields, h1, h2, h3, h4, h5⟩ := ih done (current ++ [c])
        refine ⟨fields, ?_, ?_, ?_, ?_, ?_⟩
        · rw [interpret_message_loop, if_neg hsp, if_neg hterm, h1]
        · rw [interpret_message_loop, if_neg hsp, if_neg hterm, h2]
        · rw [line_body_cons, if_neg hterm, List.count_cons_of_ne (Ne.symm hsp), h3]
        · rw [line_body_cons, if_neg hterm, h4]
          simp
        · intro hcur
          apply h5
          intro hmem
          rcases List.mem_append.1 hmem with h | h
          · exact hcur h
          · rw [List.mem_singleton] at h
            exact hsp h.symm

/-- Claim C28: the result of `interpret_message` on a line, in the embedding with unbounded
`commands` (which is the C function as long as the line has at most `MAX_COMMANDS` fields,
each shorter than `MAX_MESSAGE_LENGTH`).  The count returned is at least 1 and is one more
than the number of spaces before the first newline or NUL; that many fields are stored; the
fields joined by single spaces are the line up to that terminator, and no field contains a
space, so two spaces in a row enclose an empty field; and the line cut at its terminator
gives the same count and fields with and without a newline at its end. -/
theorem interpret_message_spec (message : List Char) :
    (interpret_message message).1 = 1 + ((line_body message).count ' ' : Int) ∧
    1 ≤ (interpret_message message).1 ∧
    ((interpret_message message).2.length : Int) = (interpret_message message).1 ∧
    List.intercalate [' '] (interpret_message message).2 = line_body message ∧
    (∀ field ∈ (interpret_message message).2, ' ' ∉ field) ∧
    interpret_message (line_body message) = interpret_message message ∧
    interpret_message (line_body message ++ [NL]) = interpret_message message ∧
    interpret_message ['a', ' ', ' ', 'b', NL] = (3, [['a'], [], ['b']]) := by
  obtain ⟨fields, h1, h2, h3, h4, h5⟩ := interpret_message_loop_spec message [] []
  rw [List.nil_append] at h1 h4
  simp only [List.length_nil, Nat.cast_zero, zero_add] at h2
  unfold interpret_message
  rw [h1, h2, h3]
  refine ⟨by push_cast; ring, by push_cast; omega, ?_, h4, h5 (List.not_mem_nil _),
    (interpret_message_loop_body message [] []).1,
    (interpret_message_loop_body message [] []).2 [], by decide⟩
  rfl

/-- Witness for `interpret_message_spec`: the line `reroll 12A` with its newline has one
space before the terminator and splits into the two fields `reroll` and `12A`. -/
theorem interpret_message_spec_witness :
    (interpret_message (kw_reroll ++ [' ', '1', '2', 'A', NL])).1 = 2 ∧
    List.intercalate [' '] (interpret_message (kw_reroll ++ [' ', '1', '2', 'A', NL])).2 =
      kw_reroll ++ [' ', '1', '2', 'A'] ∧
    interpret_message (kw_reroll ++ [' ', '1', '2', 'A']) =
      interpret_message (kw_reroll ++ [' ', '1', '2', 'A', NL]) :=
  ⟨(interpret_message_spec (kw_reroll ++ [' ', '1', '2', 'A', NL])).1.trans (by decide),
   (interpret_message_spec (kw_reroll ++ [' ', '1', '2', 'A', NL])).2.2.2.1.trans (by decide),
   (interpret_message_spec (kw_reroll ++ [' ', '1', '2', 'A', NL])).2.2.2.2.2.1⟩

/-- Claim C29, failing inputs: `interpret_message` has no path that returns -1.  For every
line the count it returns is at least 1 (one more than the number of spaces before the
terminator).  The line `a b c d e f` of six fields returns 6 with all six fields stored, and
a line that is one field of 40 characters returns 1 with that field stored whole; the
`commands` array of the C code has room for 5 fields of 39 characters and a NUL. -/
theorem interpret_message_never_reports_overflow :
    (∀ message, 1 ≤ (interpret_message message).1 ∧ (interpret_message message).1 ≠ -1) ∧
    interpret_message ['a', ' ', 'b', ' ', 'c', ' ', 'd', ' ', 'e', ' ', 'f', NL] =
      (6, [['a'], ['b'], ['c'], ['d'], ['e'], ['f']]) ∧
    (6 : Int) > (MAX_COMMANDS : Int) ∧
    interpret_message (List.replicate 40 'x' ++ [NL]) = (1, [List.replicate 40 'x']) ∧
    (List.replicate 40 'x').length ≥ MAX_MESSAGE_LENGTH := by
  refine ⟨?_, by decide, by decide, by decide, by decide⟩
  intro message
  obtain ⟨fields, _, h2, h3, _, _⟩ := interpret_message_loop_spec message [] []
  simp only [List.length_nil, Nat.cast_zero, zero_add] at h2
  unfold interpret_message
  rw [h2, h3]
  constructor <;> omega

/-! ## Loading the roll file -/

theorem read_roll_file_eq (content : List Char) :
    ∀ rolls, read_roll_file content rolls =
      if (∀ c ∈ content, c ≠ NL → c ∈ faces) ∧ rolls ++ without_newlines content ≠ [] then
        some (rolls ++ without_newlines content)
      else none := by
  induction content with
  | nil =>
    intro rolls
    have hw : without_newlines [] = [] := rfl
    rw [read_roll_file, hw, List.append_nil]
    by_cases h : rolls = []
    · subst h
      simp
    · have hl : ¬ (rolls.length = 0) := fun h0 => h (List.length_eq_zero.1 h0)
      rw [if_neg hl, if_pos]
      exact ⟨fun c hc => absurd hc (List.not_mem_nil _), h⟩
  | cons c content ih =>
    intro rolls
    rw [read_roll_file]
    by_cases hnl : c = NL
    · have hw : without_newlines (c :: content) = without_newlines content := by
        unfold without_newlines
        rw [List.filter_cons, if_neg (by simpa using hnl)]
      rw [if_pos hnl, ih, hw]
      have hiff : (∀ d ∈ c :: content, d ≠ NL → d ∈ faces) ↔
          (∀ d ∈ content, d ≠ NL → d ∈ faces) := by
        simp only [List.mem_cons, forall_eq_or_imp]
        constructor
        · exact fun h => h.2
        · exact fun h => ⟨fun hne => absurd hnl hne, h⟩
      simp only [hiff]
    · have hw : without_newlines (c :: content) = c :: without_newlines content := by
        unfold without_newlines
        rw [List.filter_cons, if_pos (by simpa using hnl)]
      rw [if_neg hnl, hw]
      by_cases hface : c = '1' ∨ c = '2' ∨ c = '3' ∨ c = 'H' ∨ c = 'A' ∨ c = 'P'
      · rw [if_pos hface, ih]
        have hiff : (∀ d ∈ c :: content, d ≠ NL → d ∈ faces) ↔
            (∀ d ∈ content, d ≠ NL → d ∈ faces) := by
          simp only [List.mem_cons, forall_eq_or_imp]
          constructor
          · exact fun h => h.2
          · exact fun h => ⟨fun _ => (mem_faces_iff c).2 hface, h⟩
        have happ : rolls ++ [c] ++ without_newlines content =
            rolls ++ c :: without_newlines content := by simp
        simp only [hiff, happ]
      · rw [if_neg hface, if_neg]
        intro h
        exact hface ((mem_faces_iff c).1 (h.1 c (List.mem_cons_self _ _) hnl))

theorem without_newlines_ne_nil_iff (content : List Char) :
    without_newlines content ≠ [] ↔ ∃ c ∈ content, c ≠ NL := by
  unfold without_newlines
  rw [Ne, List.filter_eq_nil_iff]
  simp

/-- Claim C30: `create_roll_file` on a file that could be opened, with content `content`.
If every character of the content other than a newline is one of `1`, `2`, `3`, `H`, `A`,
`P` and there is at least one such character, the function returns, and the roll file has
the content without its newlines as roll sequence, its length as size and the cursor 0 (a
roll file that is valid in the sense of `RollFile.valid`); the rest of the state is
unchanged.  In every other case the hub exits with `INVALID_FILE`, whose value is 4,
without writing to any participant. -/
theorem create_roll_file_spec (hub : Hub) (content : List Char) :
    (legal_roll_content content →
      create_roll_file hub (some content) = Outcome.ret () (set_rollFile hub
        { hub.game.rollFile with
          index := 0, size := (without_newlines content).length,
          diceRolls := without_newlines content }) ∧
      (create_roll_file hub (some content)).hub.game.rollFile.valid) ∧
    (¬ legal_roll_content content →
      create_roll_file hub (some content) = Outcome.exit ExitCodes.INVALID_FILE hub) ∧
    ((∃ hub1, create_roll_file hub (some content) = Outcome.ret () hub1) ↔
      legal_roll_content content) ∧
    ExitCodes.INVALID_FILE.code = 4 := by
  have hread := read_roll_file_eq content []
  rw [List.nil_append] at hread
  have hexit : (exit_program hub ExitCodes.INVALID_FILE : Outcome Unit) =
      Outcome.exit ExitCodes.INVALID_FILE hub := by
    unfold exit_program close_remaining_players
    rw [if_neg (by decide)]
  have hok : legal_roll_content content →
      create_roll_file hub (some content) = Outcome.ret () (set_rollFile hub
        { hub.game.rollFile with
          index := 0, size := (without_newlines content).length,
          diceRolls := without_newlines content }) := by
    intro hlegal
    unfold create_roll_file
    dsimp only
    rw [hread, if_pos ⟨hlegal.1, (without_newlines_ne_nil_iff content).2 hlegal.2⟩]
  have hbad : ¬ legal_roll_content content →
      create_roll_file hub (some content) = Outcome.exit ExitCodes.INVALID_FILE hub := by
    intro hlegal
    unfold create_roll_file
    dsimp only
    rw [hread, if_neg]
    · exact hexit
    · intro h
      exact hlegal ⟨h.1, (without_newlines_ne_nil_iff content).1 h.2⟩
  refine ⟨?_, hbad, ?_, rfl⟩
  · intro hlegal
    refine ⟨hok hlegal, ?_⟩
    rw [hok hlegal]
    refine ⟨rfl, ?_, ?_, ?_⟩
    · have hne := (without_newlines_ne_nil_iff content).2 hlegal.2
      exact Nat.succ_le_of_lt (List.length_pos.2 hne)
    · have hne := (without_newlines_ne_nil_iff content).2 hlegal.2
      exact List.length_pos.2 hne
    · intro c hc
      have hc2 : c ∈ without_newlines content := hc
      unfold without_newlines at hc2
      rw [List.mem_filter] at hc2
      exact hlegal.1 c hc2.1 (by simpa using hc2.2)
  · constructor
    · intro h
      by_contra hlegal
      obtain ⟨hub1, h1⟩ := h
      rw [hbad hlegal] at h1
      exact Outcome.noConfusion h1
    · intro hlegal
      exact ⟨_, hok hlegal⟩

/-- Witness for `create_roll_file_spec`: the content `1H`, newline, `P`, newline is loaded as
the sequence `1HP` of size 3 with the cursor at 0; the content `1X`, the empty content and a
content of two newlines lead to the exit `INVALID_FILE`. -/
theorem create_roll_file_spec_witness :
    legal_roll_content ['1', 'H', NL, 'P', NL] ∧
    (∃ hub1, create_roll_file (opening_hub []) (some ['1', 'H', NL, 'P', NL]) =
        Outcome.ret () hub1 ∧
      hub1.game.rollFile.diceRolls = ['1', 'H', 'P'] ∧ hub1.game.rollFile.size = 3 ∧
      hub1.game.rollFile.index = 0) ∧
    create_roll_file (opening_hub []) (some ['1', 'X']) =
      Outcome.exit ExitCodes.INVALID_FILE (opening_hub []) ∧
    create_roll_file (opening_hub []) (some []) =
      Outcome.exit ExitCodes.INVALID_FILE (opening_hub []) ∧
    create_roll_file (opening_hub []) (some [NL, NL]) =
      Outcome.exit ExitCodes.INVALID_FILE (opening_hub []) :=
  ⟨by decide,
   ⟨_, ((create_roll_file_spec (opening_hub []) ['1', 'H', NL, 'P', NL]).1 (by decide)).1,
     by decide, by decide, by decide⟩,
   (create_roll_file_spec (opening_hub []) ['1', 'X']).2.1 (by decide),
   (create_roll_file_spec (opening_hub []) []).2.1 (by decide),
   (create_roll_file_spec (opening_hub []) [NL, NL]).2.1 (by decide)⟩

/-! ## Points never go down -/

theorem number_face_points_nonneg (dice : DiceSet) : 0 ≤ number_face_points dice := by
  unfold number_face_points
  split_ifs <;> omega

theorem points_le_start_turn (i0 : Int) (hub : Hub) (activePlayer : Nat) (j : Nat) :
    (getPlayer hub.players j).points ≤
      (getPlayer (start_turn i0 hub activePlayer).players j).points := by
  unfold start_turn
  simp only [set_latestDice, set_rollFile]
  split_ifs
  · dsimp only
    rw [getPlayer_setPlayer]
    split_ifs with h
    · obtain ⟨rfl, _⟩ := h
      dsimp only
      unfold STARTING_IN_STLUCIA_POINTS
      omega
    · exact le_refl _
  · exact le_refl _

theorem points_le_claim_stlucia (hub : Hub) (activePlayer : Nat) (j : Nat) :
    (getPlayer hub.players j).points ≤
      (getPlayer (claim_stlucia hub activePlayer).players j).points := by
  rw [claim_stlucia_eq]
  dsimp only
  rw [getPlayer_setPlayer]
  split_ifs with h
  · obtain ⟨rfl, _⟩ := h
    dsimp only
    omega
  · exact le_refl _

theorem points_le_gain_points (hub : Hub) (activePlayer : Nat) (startingPoints : Int)
    (j : Nat) :
    (getPlayer hub.players j).points ≤
      (getPlayer (gain_points hub activePlayer startingPoints).players j).points := by
  have hface := number_face_points_nonneg hub.game.rollFile.latestDice
  have hconv := convert_tokens_eq ((getPlayer hub.players activePlayer).tokens +
    hub.game.rollFile.latestDice.numberOfPs) (getPlayer hub.players activePlayer).points
  have hkey : (getPlayer hub.players j).points ≤
      (getPlayer (setPlayer hub.players activePlayer (fun p =>
        { p with
          tokens := (convert_tokens
            ((getPlayer hub.players activePlayer).tokens +
              hub.game.rollFile.latestDice.numberOfPs).toNat
            ((getPlayer hub.players activePlayer).tokens +
              hub.game.rollFile.latestDice.numberOfPs)
            (getPlayer hub.players activePlayer).points).1,
          points := (convert_tokens
            ((getPlayer hub.players activePlayer).tokens +
              hub.game.rollFile.latestDice.numberOfPs).toNat
            ((getPlayer hub.players activePlayer).tokens +
              hub.game.rollFile.latestDice.numberOfPs)
            (getPlayer hub.players activePlayer).points).2 +
            number_face_points hub.game.rollFile.latestDice })) j).points := by
    rw [getPlayer_setPlayer]
    split_ifs with h
    · obtain ⟨rfl, _⟩ := h
      dsimp only
      rw [hconv]
      dsimp only
      split_ifs <;> omega
    · exact le_refl _
  rw [gain_points_eq]
  split_ifs <;> exact hkey

theorem points_update_eliminated_players (hub : Hub) (activePlayer : Nat) (j : Nat) :
    (getPlayer (update_eliminated_players hub activePlayer).players j).points =
      (getPlayer hub.players j).points := by
  unfold update_eliminated_players
  rw [(sweep_loop hub activePlayer hub.game.numberOfPlayers).2.2.1 j]
  split_ifs <;> rfl

theorem points_check_game_over (hub : Hub) (activePlayer : Nat) (j : Nat) :
    (getPlayer (check_game_over hub activePlayer).2.players j).points =
      (getPlayer hub.players j).points := by
  unfold check_game_over
  split_ifs
  · simp only [(eliminate_all_loop _ _).2.2.2 j, players_alert]
    split_ifs <;> rfl
  · rfl

theorem points_le_receive_stay_reply (hub : Hub) (activePlayer holder : Nat) (j : Nat) :
    (getPlayer hub.players j).points ≤
      (getPlayer (receive_stay_reply hub activePlayer holder).hub.players j).points := by
  unfold receive_stay_reply
  cases hread : fgets MAX_MESSAGE_LENGTH (getPlayer hub.players holder).outbox with
  | none =>
    simp only
    rw [(frame_exit_program _ _).2]
  | some p =>
    obtain ⟨line, rest⟩ := p
    have hp := getPlayer_of_map (fun p => p.points) _ _
      (frame_set_outbox (fun p => p.points) (fun _ _ => rfl) hub holder rest).2 j
    have hc := points_le_claim_stlucia (set_outbox hub holder rest) activePlayer j
    rw [hp] at hc
    simp only
    split_ifs <;>
      first
        | (rw [(frame_exit_program _ _).2, hp])
        | (simp only [Outcome.hub]
           exact hc)
        | (simp only [Outcome.hub]
           rw [hp])

theorem points_le_attack (hub : Hub) (activePlayer : Nat) (j : Nat) :
    (getPlayer hub.players j).points ≤
      (getPlayer (attack hub activePlayer).hub.players j).points := by
  unfold attack
  split_ifs
  · exact points_le_claim_stlucia hub activePlayer j
  · simp only [Outcome.hub, players_alert]
    rw [getPlayer_of_map (fun p => p.points) _ _
      (frame_outward_loop (fun p => p.points) (fun _ _ => rfl) hub activePlayer
        hub.game.numberOfPlayers).2 j]
  · dsimp only
    have hd := getPlayer_of_map (fun p => p.points) _ _
      (frame_damage_player (fun p => p.points) (fun _ _ => rfl) hub
        hub.game.playerInStLucia.toNat hub.game.rollFile.latestDice.numberOfAs).2 j
    have key : ∀ (hub3 : Hub) (holder : Nat),
        (getPlayer hub3.players j).points = (getPlayer hub.players j).points →
        (getPlayer hub.players j).points ≤
          (getPlayer (receive_stay_reply hub3 activePlayer holder).hub.players j).points := by
      intro hub3 holder h3
      rw [← h3]
      exact points_le_receive_stay_reply hub3 activePlayer holder j
    apply key
    simp only [send_to, players_alert]
    exact hd
  · exact le_refl _

theorem points_le_turn (junk : Nat → Int) (hub : Hub) (activePlayer : Nat)
    (out : Outcome Bool) (hturn : turn junk hub activePlayer = some out) (j : Nat) :
    (getPlayer hub.players j).points ≤ (getPlayer out.hub.players j).points := by
  unfold turn at hturn
  have h1 := points_le_start_turn (junk 0) hub activePlayer j
  cases hroll : get_player_roll (fun k => junk (k + 1)) (start_turn (junk 0) hub activePlayer)
      activePlayer with
  | none => rw [hroll] at hturn; simp at hturn
  | some res =>
    rw [hroll] at hturn
    have h2 := getPlayer_of_map (fun p => p.points) _ _
      (frame_get_player_roll (fun p => p.points) (fun g => g.numberOfPlayers)
        (fun _ _ => rfl) (fun _ _ => rfl) _ _ _ _ hroll).2 j
    cases res with
    | exit status hub4 =>
      simp only [Option.some.injEq] at hturn
      subst hturn
      simp only [Outcome.hub] at h2 ⊢
      rw [h2]
      exact h1
    | ret value hub4 =>
      simp only [Option.some.injEq] at hturn
      subst hturn
      simp only [Outcome.hub] at h2
      have h3 := getPlayer_of_map (fun p => p.points) _ _
        (frame_heal (fun p => p.points) (fun _ _ => rfl) hub4 activePlayer
          hub4.game.rollFile.latestDice.numberOfHs).2 j
      have h4 := points_le_attack
        (heal hub4 activePlayer hub4.game.rollFile.latestDice.numberOfHs) activePlayer j
      rw [h3, h2] at h4
      have h14 := le_trans h1 h4
      unfold finish_turn
      dsimp only
      cases hattack : attack (heal hub4 activePlayer hub4.game.rollFile.latestDice.numberOfHs)
          activePlayer with
      | exit status hub6 =>
        rw [hattack] at h14
        exact h14
      | ret value hub6 =>
        rw [hattack] at h14
        simp only [Outcome.hub] at h14 ⊢
        rw [points_check_game_over, points_update_eliminated_players]
        exact le_trans h14 (points_le_gain_points hub6 activePlayer _ j)

theorem points_le_run_game_from (fuel : Nat) :
    ∀ (junk : Nat → Nat → Int) (hub : Hub) (activePlayer : Nat) (out : Outcome Unit),
      run_game_from fuel junk hub activePlayer = some out →
      ∀ j, (getPlayer hub.players j).points ≤ (getPlayer out.hub.players j).points := by
  induction fuel with
  | zero => intro junk hub a out h; simp [run_game_from] at h
  | succ fuel ih =>
    intro junk hub a out h j
    unfold run_game_from at h
    cases hturn : turn (junk 0) hub a with
    | none => rw [hturn] at h; simp at h
    | some res =>
      rw [hturn] at h
      have hs := points_le_turn _ _ _ _ hturn j
      cases res with
      | exit status hub1 =>
        simp only [Option.some.injEq] at h
        subst h
        exact hs
      | ret value hub1 =>
        cases value with
        | true =>
          simp only [Option.some.injEq] at h
          subst h
          exact hs
        | false =>
          simp only at h
          cases hadv : advance_player hub1.game.numberOfPlayers hub1 a with
          | none => rw [hadv] at h; simp at h
          | some next =>
            rw [hadv] at h
            exact le_trans hs (ih _ _ _ _ h j)

/-! ## The size of the announced point gain -/

theorem attack_keeps_holder_of_active (hub : Hub) (activePlayer : Nat) (hub1 : Hub)
    (hholder : hub.game.playerInStLucia = (activePlayer : Int))
    (h : attack hub activePlayer = Outcome.ret () hub1) :
    hub1.game.playerInStLucia = hub.game.playerInStLucia := by
  have hne : ¬ (hub.game.playerInStLucia = EMPTY_STLUCIA) := by
    rw [hholder]
    unfold EMPTY_STLUCIA
    omega
  unfold attack at h
  rw [if_neg hne, if_pos hholder] at h
  split_ifs at h
  · simp only [Outcome.ret.injEq, true_and] at h
    subst h
    rw [game_alert, (frame_outward_loop (fun p => p.points) (fun _ _ => rfl) hub activePlayer
      hub.game.numberOfPlayers).1]
  · simp only [Outcome.ret.injEq, true_and] at h
    subst h
    rfl

theorem turn_points_gain (junk : Nat → Int) (hub : Hub) (activePlayer : Nat) (hub4 hub6 : Hub)
    (ha : activePlayer < hub.players.length)
    (hroll : get_player_roll (fun k => junk (k + 1)) (start_turn (junk 0) hub activePlayer)
      activePlayer = some (Outcome.ret () hub4))
    (hattack : attack (heal hub4 activePlayer hub4.game.rollFile.latestDice.numberOfHs)
      activePlayer = Outcome.ret () hub6) :
    (getPlayer (gain_points hub6 activePlayer
        (getPlayer hub.players activePlayer).points).players activePlayer).points -
        (getPlayer hub.players activePlayer).points =
      (if (activePlayer : Int) = hub.game.playerInStLucia then 2 else 0) +
        (if hub6.game.playerInStLucia = hub.game.playerInStLucia then 0 else 1) +
        (if 0 ≤ (getPlayer hub.players activePlayer).tokens +
            hub4.game.rollFile.latestDice.numberOfPs then
          ((getPlayer hub.players activePlayer).tokens +
            hub4.game.rollFile.latestDice.numberOfPs) / 10
        else 0) +
        number_face_points hub4.game.rollFile.latestDice ∧
    ((activePlayer : Int) = hub.game.playerInStLucia →
      hub6.game.playerInStLucia = hub.game.playerInStLucia) ∧
    (gain_points hub6 activePlayer (getPlayer hub.players activePlayer).points).sent =
      hub6.sent ++
        (if (getPlayer (gain_points hub6 activePlayer
            (getPlayer hub.players activePlayer).points).players activePlayer).points -
            (getPlayer hub.players activePlayer).points > 0 then
          (recipients hub6 activePlayer false).map (fun i =>
            (i, msg_points (get_player_label activePlayer)
              ((getPlayer (gain_points hub6 activePlayer
                (getPlayer hub.players activePlayer).points).players activePlayer).points -
                (getPlayer hub.players activePlayer).points)))
        else []) := by
  obtain ⟨sp1, _⟩ := start_turn_points (junk 0) hub activePlayer ha
  obtain ⟨f1, f2, f3, f4, f5, f6, f7, f8⟩ := turn_frame junk hub activePlayer hub4 hub6 hroll
    hattack
  have hg5 := (frame_heal (fun p => p.points) (fun _ _ => rfl) hub4 activePlayer
    hub4.game.rollFile.latestDice.numberOfHs).1
  have ha5 : activePlayer <
      (heal hub4 activePlayer hub4.game.rollFile.latestDice.numberOfHs).players.length := by
    rw [length_of_map _ _ _ (frame_heal (fun p => p.points) (fun _ _ => rfl) hub4 activePlayer
      hub4.game.rollFile.latestDice.numberOfHs).2, f2]
    exact ha
  have hp4 : (getPlayer hub4.players activePlayer).points =
      (getPlayer hub.players activePlayer).points +
        (if (activePlayer : Int) = hub.game.playerInStLucia then 2 else 0) := by
    rw [f3, sp1]
  have hp6 := attack_points _ activePlayer hub6 ha5 hattack
  rw [f4, hp4, hg5, f1] at hp6
  obtain ⟨_, g2, _, _, _, _, g7⟩ := gain_points_facts hub6 activePlayer
    (getPlayer hub.players activePlayer).points (by rw [f7]; exact ha)
  refine ⟨?_, ?_, g7⟩
  · rw [g2, hp6, (f8 activePlayer).2.2, f6]
    ring
  · intro hholder
    have h5 : (heal hub4 activePlayer
        hub4.game.rollFile.latestDice.numberOfHs).game.playerInStLucia =
        (activePlayer : Int) := by
      rw [hg5, f1]
      exact hholder.symm
    rw [attack_keeps_holder_of_active _ activePlayer hub6 h5 hattack, hg5, f1]

theorem toNat_get_player_label (k : Nat) (hk : k < 26) :
    (get_player_label k).toNat = 65 + k ∧ plain (get_player_label k) := by
  interval_cases k <;> exact ⟨rfl, by decide⟩

theorem fmt_d_digit (n : Int) (h0 : 0 ≤ n) (h9 : n ≤ 9) :
    (fmt_d n).length = 1 ∧ ∀ c ∈ fmt_d n, plain c := by
  lift n to ℕ using h0
  have h : n ≤ 9 := by omega
  interval_cases n <;> decide

theorem interpret_message_points (label : Char) (value : List Char) (hl : plain label)
    (hv : ∀ c ∈ value, plain c) :
    interpret_message (kw_points ++ ' ' :: label :: ' ' :: value ++ [NL]) =
      (3, [kw_points, [label], value]) := by
  unfold interpret_message
  have h1 : kw_points ++ ' ' :: label :: ' ' :: value ++ [NL] =
      kw_points ++ (' ' :: ([label] ++ (' ' :: (value ++ [NL])))) := by simp
  rw [h1, interpret_message_loop_word kw_points _ _ _ (by decide),
    interpret_message_loop, if_pos rfl,
    interpret_message_loop_word [label] _ _ _ (by simpa using hl),
    interpret_message_loop, if_pos rfl,
    interpret_message_loop_word value _ _ _ hv, interpret_message_loop,
    if_neg (show ¬ (NL = ' ') by decide), if_pos (Or.inr rfl)]
  simp

theorem msg_points_eq (label : Char) (n : Int) :
    msg_points label n = kw_points ++ ' ' :: label :: ' ' :: fmt_d n ++ [NL] := by
  simp [msg_points, kw_points]

theorem getLast?_append_singleton {α : Type} (l : List α) (a : α) :
    (l ++ [a]).getLast? = some a := by
  simp

theorem rollString_create_twice (diceSet : DiceSet) :
    (create_dice_set_string (create_dice_set_string diceSet)).rollString =
      (create_dice_set_string diceSet).rollString := rfl

theorem keep_dice_response_last_line (i0 : Int) (hub : Hub) (activePlayer : Nat)
    (value : Bool) (hub1 : Hub)
    (hstring : hub.game.rollFile.latestDice.rollString =
      (create_dice_set_string hub.game.rollFile.latestDice).rollString)
    (hlast : hub.sent.getLast? =
        some (activePlayer, msg_turn hub.game.rollFile.latestDice.rollString) ∨
      hub.sent.getLast? =
        some (activePlayer, msg_rerolled hub.game.rollFile.latestDice.rollString))
    (h : keep_dice_response i0 hub activePlayer = Outcome.ret value hub1) :
    hub1.game.rollFile.latestDice.rollString =
      (create_dice_set_string hub1.game.rollFile.latestDice).rollString ∧
    (hub1.sent.getLast? =
        some (activePlayer, msg_turn hub1.game.rollFile.latestDice.rollString) ∨
      hub1.sent.getLast? =
        some (activePlayer, msg_rerolled hub1.game.rollFile.latestDice.rollString)) ∧
    ∃ more, hub1.sent = hub.sent ++ more := by
  unfold keep_dice_response at h
  cases hread : fgets MAX_MESSAGE_LENGTH (getPlayer hub.players activePlayer).outbox with
  | none =>
    rw [hread] at h
    simp [exit_program] at h
  | some p =>
    obtain ⟨line, rest⟩ := p
    rw [hread] at h
    simp only at h
    split_ifs at h with h1 h2 h3
    · simp only [Outcome.ret.injEq] at h
      obtain ⟨_, rfl⟩ := h
      exact ⟨hstring, hlast, [], (List.append_nil _).symm⟩
    · simp [exit_program] at h
    · unfold reroll_dice at h
      simp only at h
      split_ifs at h
      · simp [exit_program] at h
      · simp only [Outcome.ret.injEq] at h
        obtain ⟨_, rfl⟩ := h
        refine ⟨rfl, Or.inr ?_, _, rfl⟩
        simp only [send_to]
        exact getLast?_append_singleton _ _
    · simp [exit_program] at h
    · simp [exit_program] at h
    · simp [exit_program] at h

theorem reroll_negotiation_last_line (fuel : Nat) :
    ∀ (junk : Nat → Int) (hub : Hub) (activePlayer : Nat) (hub3 : Hub),
      hub.game.rollFile.latestDice.rollString =
        (create_dice_set_string hub.game.rollFile.latestDice).rollString →
      (hub.sent.getLast? =
          some (activePlayer, msg_turn hub.game.rollFile.latestDice.rollString) ∨
        hub.sent.getLast? =
          some (activePlayer, msg_rerolled hub.game.rollFile.latestDice.rollString)) →
      reroll_negotiation fuel junk hub activePlayer = some (Outcome.ret () hub3) →
      hub3.game.rollFile.latestDice.rollString =
        (create_dice_set_string hub3.game.rollFile.latestDice).rollString ∧
      (hub3.sent.getLast? =
          some (activePlayer, msg_turn hub3.game.rollFile.latestDice.rollString) ∨
        hub3.sent.getLast? =
          some (activePlayer, msg_rerolled hub3.game.rollFile.latestDice.rollString)) ∧
      ∃ more, hub3.sent = hub.sent ++ more := by
  induction fuel with
  | zero => intro junk hub a hub3 _ _ h; simp [reroll_negotiation] at h
  | succ fuel ih =>
    intro junk hub a hub3 hstring hlast h
    unfold reroll_negotiation at h
    cases hres : keep_dice_response (junk 0) hub a with
    | exit status hub1 =>
      rw [hres] at h
      simp at h
    | ret value hub1 =>
      rw [hres] at h
      obtain ⟨k1, k2, more1, k3⟩ :=
        keep_dice_response_last_line (junk 0) hub a value hub1 hstring hlast hres
      cases value with
      | true =>
        simp only [Option.some.injEq, Outcome.ret.injEq, true_and] at h
        subst h
        exact ⟨k1, k2, more1, k3⟩
      | false =>
        simp only at h
        obtain ⟨i1, i2, more2, i3⟩ := ih _ _ _ _ k1 k2 h
        exact ⟨i1, i2, more1 ++ more2, by rw [i3, k3, List.append_assoc]⟩

theorem get_player_roll_eq (junk : Nat → Int) (hub : Hub) (activePlayer : Nat) (hub4 : Hub)
    (h : get_player_roll junk hub activePlayer = some (Outcome.ret () hub4)) :
    ∃ hub3,
      reroll_negotiation
        ((getPlayer hub.players activePlayer).outbox.length + 1) junk
        (send_to (set_latestDice hub (create_dice_set_string hub.game.rollFile.latestDice))
          activePlayer
          (msg_turn (create_dice_set_string hub.game.rollFile.latestDice).rollString))
        activePlayer = some (Outcome.ret () hub3) ∧
      hub4 = alert_remaining_players hub3 activePlayer
        (msg_rolled (get_player_label activePlayer) hub3.game.rollFile.latestDice.rollString)
        true := by
  unfold get_player_roll at h
  simp only at h
  cases hres : reroll_negotiation
      ((getPlayer hub.players activePlayer).outbox.length + 1) junk
      (send_to (set_latestDice hub (create_dice_set_string hub.game.rollFile.latestDice))
        activePlayer
        (msg_turn (create_dice_set_string hub.game.rollFile.latestDice).rollString))
      activePlayer with
  | none =>
    have h2 := h
    simp only [send_to, set_latestDice, set_rollFile] at h2 hres
    rw [hres] at h2
    simp at h2
  | some res =>
    have h2 := h
    simp only [send_to, set_latestDice, set_rollFile] at h2 hres
    rw [hres] at h2
    cases res with
    | exit status hub3 => simp at h2
    | ret value hub3 =>
      simp only [Option.some.injEq, Outcome.ret.injEq, true_and] at h2
      exact ⟨hub3, rfl, h2.symm⟩

theorem recipients_skip_of_connected (hub : Hub) (activePlayer : Nat) (hconn : connected hub) :
    recipients hub activePlayer true = other_remaining_players hub activePlayer := by
  unfold recipients other_remaining_players
  apply List.filter_congr
  intro i hi
  rw [List.mem_range] at hi
  by_cases hs : (getPlayer hub.players i).status = PlayerStatus.REMAINING
  · have hin := hconn i hi hs
    by_cases ha : activePlayer = i
    · simp [hs, hin, ha]
    · have ha2 : ¬ (i = activePlayer) := fun h => ha h.symm
      simp [hs, hin, ha, ha2]
  · simp [hs]

/-- The `rolled` announcement, in the embedding.  Let every `REMAINING` participant be
connected and let `get_player_roll` return (the negotiation has ended with `keepall`).  Then
the last lines it wrote are `rolled <label> <dice>`, one to every participant whose status is
`REMAINING` other than the active one, in index order, and to nobody else; `<label>` is the
character with code 65 + active index; `<dice>` is the `rollString` of the final latest dice,
which is their canonical string and is the string of the last line written before, a `turn`
or a `rerolled` line to the active participant; no status changes in the call. -/
theorem rolled_line_facts (junk : Nat → Int) (hub : Hub) (activePlayer : Nat) (hub4 : Hub)
    (hconn : connected hub)
    (hroll : get_player_roll junk hub activePlayer = some (Outcome.ret () hub4)) :
    ∃ earlier,
      hub4.sent = earlier ++ (other_remaining_players hub activePlayer).map (fun i =>
        (i, msg_rolled (get_player_label activePlayer)
          hub4.game.rollFile.latestDice.rollString)) ∧
      (∃ more, earlier = hub.sent ++ more) ∧
      (earlier.getLast? =
          some (activePlayer, msg_turn hub4.game.rollFile.latestDice.rollString) ∨
        earlier.getLast? =
          some (activePlayer, msg_rerolled hub4.game.rollFile.latestDice.rollString)) ∧
      hub4.game.rollFile.latestDice.rollString =
        (create_dice_set_string hub4.game.rollFile.latestDice).rollString ∧
      (∀ i, i ∈ other_remaining_players hub activePlayer ↔
        (i < hub.game.numberOfPlayers ∧
          (getPlayer hub.players i).status = PlayerStatus.REMAINING ∧ i ≠ activePlayer)) ∧
      (∀ i, (getPlayer hub4.players i).status = (getPlayer hub.players i).status) ∧
      get_player_label activePlayer = Char.ofNat ('A'.toNat + activePlayer) := by
  obtain ⟨hub3, hneg, rfl⟩ := get_player_roll_eq junk hub activePlayer hub4 hroll
  obtain ⟨n1, n2, more, n3⟩ := reroll_negotiation_last_line _ _ _ _ _ rfl
    (Or.inl (getLast?_append_singleton _ _)) hneg
  obtain ⟨fg, fp⟩ := frame_reroll_negotiation (fun p => (p.status, p.inbox))
    (fun g => g.numberOfPlayers) (fun _ _ => rfl) (fun _ _ => rfl) _ _ _ _ _ hneg
  simp only [Outcome.hub] at fg fp
  have fp2 : hub3.players.map (fun p => (p.status, p.inbox)) =
      hub.players.map (fun p => (p.status, p.inbox)) := fp
  have fg2 : hub3.game.numberOfPlayers = hub.game.numberOfPlayers := fg
  have hst : ∀ i, (getPlayer hub3.players i).status = (getPlayer hub.players i).status ∧
      (getPlayer hub3.players i).inbox = (getPlayer hub.players i).inbox := by
    intro i
    have h := getPlayer_of_map (fun p => (p.status, p.inbox)) _ _ fp2 i
    simp only [Prod.mk.injEq] at h
    exact h
  have hrec : recipients hub3 activePlayer true = other_remaining_players hub activePlayer := by
    rw [← recipients_skip_of_connected hub activePlayer hconn]
    exact recipients_congr hub3 hub activePlayer true fg2 (fun i => (hst i).1)
      (fun i => (hst i).2)
  refine ⟨hub3.sent, ?_, ?_, ?_, ?_, ?_, ?_, rfl⟩
  · rw [alert_remaining_players_eq, hrec]
  · refine ⟨[(activePlayer,
      msg_turn (create_dice_set_string hub.game.rollFile.latestDice).rollString)] ++ more, ?_⟩
    rw [n3]
    simp [send_to, set_latestDice, set_rollFile]
  · rw [game_alert]
    exact n2
  · rw [game_alert]
    exact n1
  · intro i
    unfold other_remaining_players
    simp [List.mem_filter, List.mem_range]
  · intro i
    rw [players_alert]
    exact (hst i).1

/-! ## The exit routine -/

/-- Claim C32, counterexample: participant 0 is connected and `REMAINING`, participant 1 is
not connected yet, and `exit_program` is called with `PIPING_FAILURE` (5).  No line is
written: the state in which the hub exits is the state it was in, no child is waited for and
the process exits with 5.  With `PLAYER_QUIT` (6) from the same state the line `shutdown`
goes to participant 0. -/
theorem piping_failure_sends_no_shutdown :
    (getPlayer half_connected_hub.players 0).status = PlayerStatus.REMAINING ∧
    (exit_program half_connected_hub ExitCodes.PIPING_FAILURE : Outcome Unit) =
      Outcome.exit ExitCodes.PIPING_FAILURE half_connected_hub ∧
    (exit_program half_connected_hub ExitCodes.PIPING_FAILURE : Outcome Unit).hub.sent = [] ∧
    ExitCodes.PIPING_FAILURE.code = 5 ∧
    (exit_program half_connected_hub ExitCodes.PIPING_FAILURE : Outcome Unit).ending?
      (fun _ => false) = some (ProcessEnd.exited 5) ∧
    (exit_program half_connected_hub ExitCodes.PLAYER_QUIT : Outcome Unit).hub.sent =
      [(0, msg_shutdown)] := by
  decide

/-- The broadcast of the exit routine with every `REMAINING` participant connected.  For the
statuses `PLAYER_QUIT` (6), `INVALID_MESSAGE` (7), `INVALID_REQUEST` (8) and `SIGINT_ACTION`
(9), and for `SUCCESS` (0), `exit_program` writes the line `shutdown` to exactly the
participants whose status is `REMAINING`, in index order, and changes nothing else; for
`PIPING_FAILURE` (5) and the statuses 1 to 4 it writes nothing. -/
theorem exit_program_broadcast (hub : Hub) (exitStatus : ExitCodes) (hconn : connected hub) :
    (6 ≤ exitStatus.code ∨ exitStatus.code = 0 →
      (exit_program hub exitStatus : Outcome Unit) = Outcome.exit exitStatus
        { hub with
          sent := hub.sent ++ (remaining_players hub).map (fun i => (i, msg_shutdown)) }) ∧
    (1 ≤ exitStatus.code ∧ exitStatus.code ≤ 5 →
      (exit_program hub exitStatus : Outcome Unit) = Outcome.exit exitStatus hub) ∧
    (∀ i, i ∈ remaining_players hub ↔
      (i < hub.game.numberOfPlayers ∧
        (getPlayer hub.players i).status = PlayerStatus.REMAINING)) ∧
    ExitCodes.PIPING_FAILURE.code = 5 ∧ ExitCodes.PLAYER_QUIT.code = 6 ∧
    ExitCodes.INVALID_MESSAGE.code = 7 ∧ ExitCodes.INVALID_REQUEST.code = 8 ∧
    ExitCodes.SIGINT_ACTION.code = 9 := by
  refine ⟨?_, ?_, ?_, rfl, rfl, rfl, rfl, rfl⟩
  · intro hcode
    have hcond : exitStatus.code ≥ ExitCodes.PLAYER_QUIT.code ∨
        exitStatus = ExitCodes.SUCCESS := by
      rcases hcode with h | h
      · exact Or.inl h
      · right
        cases exitStatus <;> simp [ExitCodes.code] at h ⊢
    unfold exit_program close_remaining_players
    rw [if_pos hcond, alert_remaining_players_eq, connected_recipients hub 0 hconn]
  · intro hcode
    have hcond : ¬ (exitStatus.code ≥ ExitCodes.PLAYER_QUIT.code ∨
        exitStatus = ExitCodes.SUCCESS) := by
      intro h
      rcases h with h | h
      · have h6 : ExitCodes.PLAYER_QUIT.code = 6 := rfl
        omega
      · rw [h] at hcode
        simp [ExitCodes.code] at hcode
    unfold exit_program close_remaining_players
    rw [if_neg hcond]
  · intro i
    unfold remaining_players
    simp [List.mem_filter, List.mem_range]

/-! ## The participant's reroll requests -/

theorem game_act_on_dice (process : Process) :
    (act_on_dice process).shadow.game = process.shadow.game ∧
    (act_on_dice process).written = process.written ++ [kw_keepall ++ [NL]] := by
  unfold act_on_dice
  exact ⟨(frame_heal (fun p => p.points) (fun _ _ => rfl) _ _ _).1, rfl⟩

theorem send_reroll_facts (process : Process) :
    (send_reroll process).shadow.game.rollFile.latestDice =
      process.shadow.game.rollFile.latestDice ∧
    (∀ face, (send_reroll process).shadow.game.rollFile.rerollDice.counter face =
      process.shadow.game.rollFile.rerollDice.counter face) ∧
    (send_reroll process).shadow.game.numberOfRerolls = process.shadow.game.numberOfRerolls ∧
    (send_reroll process).written = process.written ++
      [if sum_dice_set process.shadow.game.rollFile.rerollDice = 0 then kw_keepall ++ [NL]
       else kw_reroll ++ [' '] ++
        (create_dice_set_string process.shadow.game.rollFile.rerollDice).rollString ++
        [NL]] := by
  unfold send_reroll
  split_ifs with h
  · obtain ⟨g, w⟩ := game_act_on_dice process
    rw [g, w]
    exact ⟨rfl, fun _ => rfl, rfl, rfl⟩
  · exact ⟨rfl, fun _ => rfl, rfl, rfl⟩

theorem count_create_dice_set_string (diceSet : DiceSet) (hnonneg : diceSet.nonneg)
    (face : Char) :
    (((create_dice_set_string diceSet).rollString.count face : Nat) : Int) =
      diceSet.counter face := by
  obtain ⟨h1, h2, h3, h4, h5, h6⟩ := hnonneg
  unfold create_dice_set_string
  dsimp only
  rw [count_canonical]
  unfold DiceSet.counter
  split_ifs <;> simp_all

theorem length_create_dice_set_string (diceSet : DiceSet) (hnonneg : diceSet.nonneg) :
    (((create_dice_set_string diceSet).rollString.length : Nat) : Int) =
      sum_dice_set diceSet := by
  obtain ⟨h1, h2, h3, h4, h5, h6⟩ := hnonneg
  unfold create_dice_set_string sum_dice_set
  simp only [List.length_append, List.length_replicate]
  omega

theorem reroll_choice (strategy : Strategy) (process : Process)
    (hreset : reset_dice_set process.shadow.game.rollFile.rerollDice =
      process.shadow.game.rollFile.rerollDice) :
    ∃ chosen : DiceSet,
      reroll strategy process =
        send_reroll { process with shadow := set_rerollDice process.shadow chosen } ∧
      (chosen.numberOfOnes = 0 ∨
        chosen.numberOfOnes = process.shadow.game.rollFile.latestDice.numberOfOnes) ∧
      (chosen.numberOfTwos = 0 ∨
        chosen.numberOfTwos = process.shadow.game.rollFile.latestDice.numberOfTwos) ∧
      (chosen.numberOfThrees = 0 ∨
        chosen.numberOfThrees = process.shadow.game.rollFile.latestDice.numberOfThrees) ∧
      (chosen.numberOfHs = 0 ∨
        chosen.numberOfHs = process.shadow.game.rollFile.latestDice.numberOfHs) ∧
      (chosen.numberOfAs = 0 ∨
        chosen.numberOfAs = process.shadow.game.rollFile.latestDice.numberOfAs) ∧
      (chosen.numberOfPs = 0 ∨
        chosen.numberOfPs = process.shadow.game.rollFile.latestDice.numberOfPs) := by
  have h1 : process.shadow.game.rollFile.rerollDice.numberOfOnes = 0 := by
    rw [← hreset]; rfl
  have h2 : process.shadow.game.rollFile.rerollDice.numberOfTwos = 0 := by
    rw [← hreset]; rfl
  have h3 : process.shadow.game.rollFile.rerollDice.numberOfThrees = 0 := by
    rw [← hreset]; rfl
  have h4 : process.shadow.game.rollFile.rerollDice.numberOfHs = 0 := by
    rw [← hreset]; rfl
  have h5 : process.shadow.game.rollFile.rerollDice.numberOfAs = 0 := by
    rw [← hreset]; rfl
  have h6 : process.shadow.game.rollFile.rerollDice.numberOfPs = 0 := by
    rw [← hreset]; rfl
  cases strategy
  · refine ⟨_, rfl, ?_, ?_, ?_, ?_, ?_, ?_⟩ <;> dsimp only <;> (try split_ifs) <;>
      simp [h1, h2, h3, h4, h5, h6]
  · refine ⟨_, rfl, ?_, ?_, ?_, ?_, ?_, ?_⟩ <;> dsimp only <;> (try split_ifs) <;>
      simp [h1, h2, h3, h4, h5, h6]
  · refine ⟨_, rfl, ?_, ?_, ?_, ?_, ?_, ?_⟩ <;> dsimp only <;> (try split_ifs) <;>
      simp [h1, h2, h3, h4, h5, h6]
  · refine ⟨_, rfl, ?_, ?_, ?_, ?_, ?_, ?_⟩ <;> dsimp only <;> (try split_ifs) <;>
      simp [h1, h2, h3, h4, h5, h6]

/-- Claim C39: the subset a reference participant asks to reroll.  For each of the four
strategies and every state of the process in which the reroll dice are reset (as
`handle_turn` leaves them before it calls `reroll`) and no counter of the latest dice is
negative: after `reroll` the latest dice are unchanged, each counter of the reroll dice is 0
or equal to the counter of the latest dice for the same face, and exactly one line has been
written.  With `subset` the canonical string of the reroll dice: it has each face exactly as
often as the reroll dice count it, so at most as often as the latest dice have it, and at
most as many characters as the latest dice have dice (six after a roll); the line written is
`keepall` when `subset` is empty and `reroll <subset>` otherwise. -/
theorem reroll_requests_held_dice (strategy : Strategy) (process : Process)
    (hreset : reset_dice_set process.shadow.game.rollFile.rerollDice =
      process.shadow.game.rollFile.rerollDice)
    (hnonneg : process.shadow.game.rollFile.latestDice.nonneg) :
    (reroll strategy process).shadow.game.rollFile.latestDice =
      process.shadow.game.rollFile.latestDice ∧
    (∀ face ∈ faces,
      (reroll strategy process).shadow.game.rollFile.rerollDice.counter face = 0 ∨
      (reroll strategy process).shadow.game.rollFile.rerollDice.counter face =
        process.shadow.game.rollFile.latestDice.counter face) ∧
    (∀ face ∈ faces,
      (((create_dice_set_string
        (reroll strategy process).shadow.game.rollFile.rerollDice).rollString.count face :
          Nat) : Int) =
        (reroll strategy process).shadow.game.rollFile.rerollDice.counter face ∧
      (((create_dice_set_string
        (reroll strategy process).shadow.game.rollFile.rerollDice).rollString.count face :
          Nat) : Int) ≤ process.shadow.game.rollFile.latestDice.counter face) ∧
    (((create_dice_set_string
      (reroll strategy process).shadow.game.rollFile.rerollDice).rollString.length : Nat) :
        Int) ≤ sum_dice_set process.shadow.game.rollFile.latestDice ∧
    (reroll strategy process).written = process.written ++
      [if (create_dice_set_string
          (reroll strategy process).shadow.game.rollFile.rerollDice).rollString = [] then
        kw_keepall ++ [NL]
       else kw_reroll ++ [' '] ++
        (create_dice_set_string
          (reroll strategy process).shadow.game.rollFile.rerollDice).rollString ++ [NL]] := by
  obtain ⟨chosen, hre, c1, c2, c3, c4, c5, c6⟩ := reroll_choice strategy process hreset
  obtain ⟨s1, s2, _, s4⟩ := send_reroll_facts
    { process with shadow := set_rerollDice process.shadow chosen }
  have hlatest : (set_rerollDice process.shadow chosen).game.rollFile.latestDice =
      process.shadow.game.rollFile.latestDice := rfl
  have hchosen : (set_rerollDice process.shadow chosen).game.rollFile.rerollDice = chosen := rfl
  dsimp only at s1 s2 s4
  rw [hlatest] at s1
  rw [hchosen] at s2 s4
  obtain ⟨n1, n2, n3, n4, n5, n6⟩ := hnonneg
  have hcn : chosen.nonneg := by
    refine ⟨?_, ?_, ?_, ?_, ?_, ?_⟩
    · rcases c1 with h | h <;> omega
    · rcases c2 with h | h <;> omega
    · rcases c3 with h | h <;> omega
    · rcases c4 with h | h <;> omega
    · rcases c5 with h | h <;> omega
    · rcases c6 with h | h <;> omega
  have hcounter : ∀ face ∈ faces, chosen.counter face = 0 ∨
      chosen.counter face = process.shadow.game.rollFile.latestDice.counter face := by
    intro face hface
    obtain ⟨e1, e2, e3, e4, e5, e6⟩ := counter_eq_fields chosen
    obtain ⟨l1, l2, l3, l4, l5, l6⟩ :=
      counter_eq_fields process.shadow.game.rollFile.latestDice
    rw [mem_faces_iff] at hface
    rcases hface with h | h | h | h | h | h <;> subst h
    · rw [e1, l1]; exact c1
    · rw [e2, l2]; exact c2
    · rw [e3, l3]; exact c3
    · rw [e4, l4]; exact c4
    · rw [e5, l5]; exact c5
    · rw [e6, l6]; exact c6
  have hlat : ∀ face ∈ faces, 0 ≤ process.shadow.game.rollFile.latestDice.counter face :=
    (nonneg_iff_counter _).1 ⟨n1, n2, n3, n4, n5, n6⟩
  have hstring : (create_dice_set_string
      (reroll strategy process).shadow.game.rollFile.rerollDice).rollString =
      (create_dice_set_string chosen).rollString := by
    obtain ⟨e1, e2, e3, e4, e5, e6⟩ :=
      counter_eq_fields (reroll strategy process).shadow.game.rollFile.rerollDice
    obtain ⟨d1, d2, d3, d4, d5, d6⟩ := counter_eq_fields chosen
    unfold create_dice_set_string
    dsimp only
    rw [← e1, ← e2, ← e3, ← e4, ← e5, ← e6, ← d1, ← d2, ← d3, ← d4, ← d5, ← d6, hre,
      s2 '1', s2 '2', s2 '3', s2 'H', s2 'A', s2 'P']
  have hlen := length_create_dice_set_string chosen hcn
  rw [hstring]
  refine ⟨?_, ?_, ?_, ?_, ?_⟩
  · rw [hre]
    exact s1
  · intro face hface
    rw [hre, s2 face]
    exact hcounter face hface
  · intro face hface
    rw [hre, s2 face, count_create_dice_set_string chosen hcn face]
    refine ⟨rfl, ?_⟩
    rcases hcounter face hface with h | h
    · rw [h]
      exact hlat face hface
    · rw [h]
  · rw [hlen]
    unfold sum_dice_set
    obtain ⟨m1, m2, m3, m4, m5, m6⟩ := hcn
    rcases c1 with h1 | h1 <;> rcases c2 with h2 | h2 <;> rcases c3 with h3 | h3 <;>
      rcases c4 with h4 | h4 <;> rcases c5 with h5 | h5 <;> rcases c6 with h6 | h6 <;>
      omega
  · rw [hre, s4]
    by_cases hsum : sum_dice_set chosen = 0
    · rw [if_pos hsum, if_pos]
      rw [hsum] at hlen
      exact List.length_eq_zero.1 (by exact_mod_cast hlen)
    · rw [if_neg hsum, if_neg]
      intro hnil
      rw [hnil] at hlen
      exact hsum hlen.symm

/-- Witness for `reroll_requests_held_dice`: holding the dice 1123AA, a fresh `eait` process
asks for `reroll 1123AA`, a `habs` process (health 10) answers `keepall`, a `hass` process
asks for `reroll 1123AA` and a `mabs` process for `reroll 112AA`. -/
theorem reroll_requests_held_dice_witness :
    (reroll Strategy.eait (with_latest (fresh_process 2 0) dice_1123AA)).written =
      [kw_reroll ++ [' ', '1', '1', '2', '3', 'A', 'A', NL]] ∧
    (reroll Strategy.habs (with_latest (fresh_process 2 0) dice_1123AA)).written =
      [kw_keepall ++ [NL]] ∧
    (reroll Strategy.hass (with_latest (fresh_process 2 0) dice_1123AA)).written =
      [kw_reroll ++ [' ', '1', '1', '2', '3', 'A', 'A', NL]] ∧
    (reroll Strategy.mabs (with_latest (fresh_process 2 0) dice_1123AA)).written =
      [kw_reroll ++ [' ', '1', '1', '2', 'A', 'A', NL]] :=
  ⟨(reroll_requests_held_dice Strategy.eait (with_latest (fresh_process 2 0) dice_1123AA)
      (by decide) (by decide)).2.2.2.2.trans (by decide),
   (reroll_requests_held_dice Strategy.habs (with_latest (fresh_process 2 0) dice_1123AA)
      (by decide) (by decide)).2.2.2.2.trans (by decide),
   (reroll_requests_held_dice Strategy.hass (with_latest (fresh_process 2 0) dice_1123AA)
      (by decide) (by decide)).2.2.2.2.trans (by decide),
   (reroll_requests_held_dice Strategy.mabs (with_latest (fresh_process 2 0) dice_1123AA)
      (by decide) (by decide)).2.2.2.2.trans (by decide)⟩

/-! ## The participant's replies within one turn -/

theorem interpret_message_word_dice (word dice : List Char) (hw : ∀ c ∈ word, plain c)
    (hd : ∀ c ∈ dice, plain c) :
    interpret_message (word ++ ' ' :: dice ++ [NL]) = (2, [word, dice]) := by
  unfold interpret_message
  rw [List.append_assoc, interpret_message_loop_word word _ _ _ hw,
    List.cons_append, interpret_message_loop, if_pos rfl,
    interpret_message_loop_word dice _ _ _ hd, interpret_message_loop,
    if_neg (show ¬ (NL = ' ') by decide), if_pos (Or.inr rfl)]
  simp

theorem reroll_eq_send (strategy : Strategy) (process : Process) :
    ∃ chosen : DiceSet, reroll strategy process =
      send_reroll { process with shadow := set_rerollDice process.shadow chosen } := by
  cases strategy <;> exact ⟨_, rfl⟩

theorem is_reroll_request_line (subset : List Char) :
    is_reroll_request (kw_reroll ++ [' '] ++ subset ++ [NL]) = true := by
  unfold is_reroll_request
  rw [decide_eq_true_eq]
  rfl

theorem store_roll_facts (roll : List Char) (hub : Hub) :
    (store_roll roll hub).game.numberOfRerolls = hub.game.numberOfRerolls ∧
    (store_roll roll hub).game.numberOfPlayers = hub.game.numberOfPlayers ∧
    (store_roll roll hub).game.playerInStLucia = hub.game.playerInStLucia ∧
    (store_roll roll hub).game.currentPlayerNumber = hub.game.currentPlayerNumber ∧
    (store_roll roll hub).players = hub.players ∧
    reset_dice_set (store_roll roll hub).game.rollFile.rerollDice =
      (store_roll roll hub).game.rollFile.rerollDice :=
  ⟨rfl, rfl, rfl, rfl, rfl, rfl⟩

theorem handle_turn_facts (strategy : Strategy) (roll : List Char) (process : Process) :
    (handle_turn strategy roll process).shadow.game.numberOfRerolls =
      process.shadow.game.numberOfRerolls ∧
    ∃ line, (handle_turn strategy roll process).written = process.written ++ [line] ∧
      (line = kw_keepall ++ [NL] ∨ is_reroll_request line = true) ∧
      (process.shadow.game.numberOfRerolls ≥ ALLOWED_REROLLS → line = kw_keepall ++ [NL]) := by
  unfold handle_turn
  rw [(store_roll_facts roll process.shadow).1]
  by_cases h : process.shadow.game.numberOfRerolls ≥ ALLOWED_REROLLS
  · rw [if_pos h]
    obtain ⟨g, w⟩ := game_act_on_dice
      { process with shadow := store_roll roll process.shadow }
    rw [g, w]
    exact ⟨rfl, _, rfl, Or.inl rfl, fun _ => rfl⟩
  · rw [if_neg h]
    obtain ⟨chosen, hre⟩ := reroll_eq_send strategy
      { process with shadow := store_roll roll process.shadow }
    rw [hre]
    obtain ⟨_, _, s3, s4⟩ := send_reroll_facts
      { shadow := set_rerollDice (store_roll roll process.shadow) chosen,
        written := process.written }
    rw [s3, s4]
    refine ⟨rfl, _, rfl, ?_, fun h2 => absurd h2 h⟩
    split_ifs
    · exact Or.inl rfl
    · exact Or.inr (is_reroll_request_line _)

theorem handle_message_turn (strategy : Strategy) (dice : List Char) (process : Process)
    (hvalid : valid_roll dice) :
    handle_message strategy (msg_turn dice) process =
      Handled.ret (handle_turn strategy dice
        { process with shadow := set_numberOfRerolls process.shadow 0 }) := by
  obtain ⟨hlen, hfaces⟩ := hvalid
  have hmsg : msg_turn dice = kw_turn ++ ' ' :: dice ++ [NL] := by
    simp [msg_turn, kw_turn]
  have hinv : invalid_roll dice = false := (invalid_roll_eq_false_iff dice).2 hfaces
  unfold handle_message
  rw [hmsg, interpret_message_word_dice kw_turn dice (by decide)
    (fun c hc => plain_of_mem_faces c (hfaces c hc))]
  dsimp only
  rw [if_pos (by rfl)]
  unfold validate_turn
  rw [if_pos (by rfl)]
  dsimp only
  rw [if_neg]
  · rfl
  · intro h
    rcases h with h | h | h
    · exact h hlen
    · exact h rfl
    · rw [show ([kw_turn, dice].getD TURN_DICE_ROLL_INDEX []) = dice from rfl, hinv] at h
      exact Bool.noConfusion h

theorem handle_message_rerolled (strategy : Strategy) (dice : List Char) (process : Process)
    (hvalid : valid_roll dice) :
    handle_message strategy (msg_rerolled dice) process =
      Handled.ret (handle_turn strategy dice
        { process with
          shadow := set_numberOfRerolls process.shadow
            (process.shadow.game.numberOfRerolls + 1) }) := by
  obtain ⟨hlen, hfaces⟩ := hvalid
  have hmsg : msg_rerolled dice = kw_rerolled ++ ' ' :: dice ++ [NL] := by
    simp [msg_rerolled, kw_rerolled]
  have hinv : invalid_roll dice = false := (invalid_roll_eq_false_iff dice).2 hfaces
  unfold handle_message
  rw [hmsg, interpret_message_word_dice kw_rerolled dice (by decide)
    (fun c hc => plain_of_mem_faces c (hfaces c hc))]
  dsimp only
  have h0 : [kw_rerolled, dice].getD 0 [] = kw_rerolled := rfl
  rw [h0, if_neg (show ¬ (kw_rerolled = kw_turn) by decide), if_pos rfl]
  unfold validate_rerolled
  rw [if_neg]
  · rfl
  · intro h
    rcases h with h | h | h
    · exact h hlen
    · exact h rfl
    · rw [show ([kw_rerolled, dice].getD REROLLED_DICE_ROLL_INDEX []) = dice from rfl,
        hinv] at h
      exact Bool.noConfusion h

theorem handle_rerolled_lines (strategy : Strategy) (later : List (List Char)) :
    ∀ (process : Process) (count : Nat),
      process.shadow.game.numberOfRerolls = (count : Int) →
      (∀ dice ∈ later, valid_roll dice) →
      ∃ process1 replies,
        handle_messages strategy (later.map msg_rerolled) process = Handled.ret process1 ∧
        process1.shadow.game.numberOfRerolls = ((count + later.length : Nat) : Int) ∧
        process1.written = process.written ++ replies ∧
        replies.length = later.length ∧
        (∀ line ∈ replies, line = kw_keepall ++ [NL] ∨ is_reroll_request line = true) ∧
        (∀ j, 1 ≤ count + j → j < replies.length → replies[j]? = some (kw_keepall ++ [NL])) := by
  induction later with
  | nil =>
    intro process count hcount _
    refine ⟨process, [], rfl, by simpa using hcount, by simp, rfl, ?_, ?_⟩
    · intro line hl
      exact absurd hl (List.not_mem_nil _)
    · intro j _ hj
      simp at hj
  | cons dice later ih =>
    intro process count hcount hvalid
    have hd := hvalid dice (List.mem_cons_self _ _)
    obtain ⟨t1, line, t2, t3, t4⟩ := handle_turn_facts strategy dice
      { process with
        shadow := set_numberOfRerolls process.shadow
          (process.shadow.game.numberOfRerolls + 1) }
    have hnum : (set_numberOfRerolls process.shadow
        (process.shadow.game.numberOfRerolls + 1)).game.numberOfRerolls =
        ((count + 1 : Nat) : Int) := by
      simp only [set_numberOfRerolls, hcount]
      push_cast
      rfl
    dsimp only at t1 t2 t4
    rw [hnum] at t1 t4
    obtain ⟨process1, replies, i1, i2, i3, i4, i5, i6⟩ := ih _ (count + 1) t1
      (fun d hd2 => hvalid d (List.mem_cons_of_mem _ hd2))
    refine ⟨process1, line :: replies, ?_, ?_, ?_, ?_, ?_, ?_⟩
    · rw [List.map_cons, handle_messages, handle_message_rerolled strategy dice process hd]
      exact i1
    · rw [i2, List.length_cons]
      congr 1
      omega
    · rw [i3, t2]
      simp
    · rw [List.length_cons, List.length_cons, i4]
    · intro l hl
      rcases List.mem_cons.1 hl with h | h
      · rw [h]
        exact t3
      · exact i5 l h
    · intro j hj hlt
      cases j with
      | zero =>
        have h2 : ((count + 1 : Nat) : Int) ≥ ALLOWED_REROLLS := by
          unfold ALLOWED_REROLLS
          omega
        rw [t4 h2]
        simp
      | succ j =>
        rw [List.getElem?_cons_succ]
        apply i6 j (by omega)
        rw [List.length_cons] at hlt
        omega

theorem count_reroll_requests (replies : List (List Char))
    (h : ∀ j, 2 ≤ j → j < replies.length → replies[j]? = some (kw_keepall ++ [NL])) :
    (replies.filter is_reroll_request).length ≤ 2 := by
  have hsplit : replies = replies.take 2 ++ replies.drop 2 := (List.take_append_drop 2 _).symm
  have hdrop : (replies.drop 2).filter is_reroll_request = [] := by
    rw [List.filter_eq_nil_iff]
    intro line hl
    obtain ⟨k, hk, hget⟩ := List.getElem_of_mem hl
    have hk2 : k < replies.length - 2 := by simpa using hk
    have h2 := h (2 + k) (by omega) (by omega)
    have h3 : (replies.drop 2)[k]? = some line := by
      rw [List.getElem?_eq_getElem hk, hget]
    rw [List.getElem?_drop] at h3
    rw [h2] at h3
    rw [← Option.some.inj h3]
    decide
  rw [hsplit, List.filter_append, hdrop, List.append_nil]
  calc ((replies.take 2).filter is_reroll_request).length
      ≤ (replies.take 2).length := List.length_filter_le _ _
    _ ≤ 2 := by
      rw [List.length_take]
      exact Nat.min_le_left _ _

/-- Claim C38: at most two reroll requests in a turn.  For each of the four strategies, every
state of the process, and every sequence of lines `turn <d0>`, `rerolled <d1>`, ...,
`rerolled <dk>` with valid dice strings: the process handles all of them without exiting and
writes exactly one line for each, `keepall` or a `reroll` request; `turn` sets the reroll
counter to 0 and each `rerolled` adds 1 to it, so it ends at `k`; every reply from the third
on is `keepall`; and so at most two of the replies are `reroll` requests. -/
theorem reference_player_rerolls_at_most_twice (strategy : Strategy) (process : Process)
    (first : List Char) (later : List (List Char))
    (hfirst : valid_roll first) (hlater : ∀ dice ∈ later, valid_roll dice) :
    ∃ process1 replies,
      handle_messages strategy (msg_turn first :: later.map msg_rerolled) process =
        Handled.ret process1 ∧
      process1.shadow.game.numberOfRerolls = (later.length : Int) ∧
      process1.written = process.written ++ replies ∧
      replies.length = 1 + later.length ∧
      (∀ line ∈ replies, line = kw_keepall ++ [NL] ∨ is_reroll_request line = true) ∧
      (∀ j, 2 ≤ j → j < replies.length → replies[j]? = some (kw_keepall ++ [NL])) ∧
      (replies.filter is_reroll_request).length ≤ 2 := by
  obtain ⟨t1, line, t2, t3, _⟩ := handle_turn_facts strategy first
    { process with shadow := set_numberOfRerolls process.shadow 0 }
  have hzero : (set_numberOfRerolls process.shadow 0).game.numberOfRerolls =
      ((0 : Nat) : Int) := rfl
  dsimp only at t1 t2
  rw [hzero] at t1
  obtain ⟨process1, replies, i1, i2, i3, i4, i5, i6⟩ :=
    handle_rerolled_lines strategy later _ 0 t1 hlater
  have hthird : ∀ j, 2 ≤ j → j < (line :: replies).length →
      (line :: replies)[j]? = some (kw_keepall ++ [NL]) := by
    intro j hj hlt
    cases j with
    | zero => omega
    | succ j =>
      rw [List.getElem?_cons_succ]
      apply i6 j (by omega)
      rw [List.length_cons] at hlt
      omega
  refine ⟨process1, line :: replies, ?_, ?_, ?_, ?_, ?_, hthird,
    count_reroll_requests _ hthird⟩
  · rw [handle_messages, handle_message_turn strategy first process hfirst]
    exact i1
  · rw [i2]
    simp
  · rw [i3, t2]
    simp
  · rw [List.length_cons, i4]
    omega
  · intro l hl
    rcases List.mem_cons.1 hl with h | h
    · rw [h]
      exact t3
    · exact i5 l h

/-- Witness for `reference_player_rerolls_at_most_twice`: a fresh `hass` process that is sent
`turn 1123AA` and then three times `rerolled 1123AA` asks twice for a reroll and then
answers `keepall` twice. -/
theorem reference_player_rerolls_at_most_twice_witness :
    valid_roll ['1', '1', '2', '3', 'A', 'A'] ∧
    (handle_messages Strategy.hass
      (msg_turn ['1', '1', '2', '3', 'A', 'A'] ::
        [['1', '1', '2', '3', 'A', 'A'], ['1', '1', '2', '3', 'A', 'A'],
          ['1', '1', '2', '3', 'A', 'A']].map msg_rerolled)
      (fresh_process 2 0)).process.written =
      [kw_reroll ++ [' ', '1', '1', '2', '3', 'A', 'A', NL],
       kw_reroll ++ [' ', '1', '1', '2', '3', 'A', 'A', NL],
       kw_keepall ++ [NL], kw_keepall ++ [NL]] ∧
    (∃ (process1 : Process) (replies : List (List Char)),
      handle_messages Strategy.hass
        (msg_turn ['1', '1', '2', '3', 'A', 'A'] ::
          [['1', '1', '2', '3', 'A', 'A'], ['1', '1', '2', '3', 'A', 'A'],
            ['1', '1', '2', '3', 'A', 'A']].map msg_rerolled)
        (fresh_process 2 0) = Handled.ret process1 ∧
      process1.written = (fresh_process 2 0).written ++ replies ∧
      (replies.filter is_reroll_request).length ≤ 2) :=
  ⟨by decide, by decide,
   (reference_player_rerolls_at_most_twice Strategy.hass (fresh_process 2 0)
      ['1', '1', '2', '3', 'A', 'A']
      [['1', '1', '2', '3', 'A', 'A'], ['1', '1', '2', '3', 'A', 'A'],
        ['1', '1', '2', '3', 'A', 'A']] (by decide) (by decide)).imp
     (fun _ h => h.imp (fun _ h2 => ⟨h2.1, h2.2.2.1, h2.2.2.2.2.2.2⟩))⟩

/-! ## The participant's handling of a line -/

theorem handle_message_of_turn (strategy : Strategy) (message : List Char) (process : Process)
    (hw : (interpret_message message).2.getD 0 [] = kw_turn) :
    handle_message strategy message process =
      validate_turn strategy (interpret_message message).2 (interpret_message message).1 process := by
  unfold handle_message
  dsimp only
  rw [hw, if_pos rfl]

theorem handle_message_of_rerolled (strategy : Strategy) (message : List Char) (process : Process)
    (hw : (interpret_message message).2.getD 0 [] = kw_rerolled) :
    handle_message strategy message process =
      validate_rerolled strategy (interpret_message message).2 (interpret_message message).1 process := by
  unfold handle_message
  dsimp only
  rw [hw, if_neg (show ¬ (kw_rerolled = kw_turn) by decide), if_pos rfl]

theorem handle_message_of_rolled (strategy : Strategy) (message : List Char) (process : Process)
    (hw : (interpret_message message).2.getD 0 [] = kw_rolled) :
    handle_message strategy message process =
      validate_rolled (interpret_message message).2 (interpret_message message).1 process := by
  unfold handle_message
  dsimp only
  rw [hw, if_neg (show ¬ (kw_rolled = kw_turn) by decide),
    if_neg (show ¬ (kw_rolled = kw_rerolled) by decide), if_pos rfl]

theorem handle_message_of_points (strategy : Strategy) (message : List Char) (process : Process)
    (hw : (interpret_message message).2.getD 0 [] = kw_points) :
    handle_message strategy message process =
      (if validate_points process.shadow.game.numberOfPlayers (interpret_message message).2
          (interpret_message message).1 = true then Handled.ret process
        else Handled.exit PlayerExitCodes.INVALID_MESSAGE process) := by
  unfold handle_message
  dsimp only
  rw [hw, if_neg (show ¬ (kw_points = kw_turn) by decide),
    if_neg (show ¬ (kw_points = kw_rerolled) by decide),
    if_neg (show ¬ (kw_points = kw_rolled) by decide), if_pos rfl]

theorem handle_message_of_attacks (strategy : Strategy) (message : List Char) (process : Process)
    (hw : (interpret_message message).2.getD 0 [] = kw_attacks) :
    handle_message strategy message process =
      validate_attacks (interpret_message message).2 (interpret_message message).1 process := by
  unfold handle_message
  dsimp only
  rw [hw, if_neg (show ¬ (kw_attacks = kw_turn) by decide),
    if_neg (show ¬ (kw_attacks = kw_rerolled) by decide),
    if_neg (show ¬ (kw_attacks = kw_rolled) by decide),
    if_neg (show ¬ (kw_attacks = kw_points) by decide), if_pos rfl]

theorem handle_message_of_eliminated (strategy : Strategy) (message : List Char) (process : Process)
    (hw : (interpret_message message).2.getD 0 [] = kw_eliminated) :
    handle_message strategy message process =
      validate_eliminated (interpret_message message).2 (interpret_message message).1 process := by
  unfold handle_message
  dsimp only
  rw [hw, if_neg (show ¬ (kw_eliminated = kw_turn) by decide),
    if_neg (show ¬ (kw_eliminated = kw_rerolled) by decide),
    if_neg (show ¬ (kw_eliminated = kw_rolled) by decide),
    if_neg (show ¬ (kw_eliminated = kw_points) by decide),
    if_neg (show ¬ (kw_eliminated = kw_attacks) by decide), if_pos rfl]

theorem handle_message_of_claim (strategy : Strategy) (message : List Char) (process : Process)
    (hw : (interpret_message message).2.getD 0 [] = kw_claim) :
    handle_message strategy message process =
      validate_claim (interpret_message message).2 (interpret_message message).1 process := by
  unfold handle_message
  dsimp only
  rw [hw, if_neg (show ¬ (kw_claim = kw_turn) by decide),
    if_neg (show ¬ (kw_claim = kw_rerolled) by decide),
    if_neg (show ¬ (kw_claim = kw_rolled) by decide),
    if_neg (show ¬ (kw_claim = kw_points) by decide),
    if_neg (show ¬ (kw_claim = kw_attacks) by decide),
    if_neg (show ¬ (kw_claim = kw_eliminated) by decide), if_pos rfl]

theorem handle_message_of_stay_query (strategy : Strategy) (message : List Char) (process : Process)
    (hw : (interpret_message message).2.getD 0 [] = kw_stay_query) :
    handle_message strategy message process =
      validate_stay strategy (interpret_message message).1 process := by
  unfold handle_message
  dsimp only
  rw [hw, if_neg (show ¬ (kw_stay_query = kw_turn) by decide),
    if_neg (show ¬ (kw_stay_query = kw_rerolled) by decide),
    if_neg (show ¬ (kw_stay_query = kw_rolled) by decide),
    if_neg (show ¬ (kw_stay_query = kw_points) by decide),
    if_neg (show ¬ (kw_stay_query = kw_attacks) by decide),
    if_neg (show ¬ (kw_stay_query = kw_eliminated) by decide),
    if_neg (show ¬ (kw_stay_query = kw_claim) by decide), if_pos rfl]

theorem handle_message_of_winner (strategy : Strategy) (message : List Char) (process : Process)
    (hw : (interpret_message message).2.getD 0 [] = kw_winner) :
    handle_message strategy message process =
      validate_winner (interpret_message message).2 (interpret_message message).1 process := by
  unfold handle_message
  dsimp only
  rw [hw, if_neg (show ¬ (kw_winner = kw_turn) by decide),
    if_neg (show ¬ (kw_winner = kw_rerolled) by decide),
    if_neg (show ¬ (kw_winner = kw_rolled) by decide),
    if_neg (show ¬ (kw_winner = kw_points) by decide),
    if_neg (show ¬ (kw_winner = kw_attacks) by decide),
    if_neg (show ¬ (kw_winner = kw_eliminated) by decide),
    if_neg (show ¬ (kw_winner = kw_claim) by decide),
    if_neg (show ¬ (kw_winner = kw_stay_query) by decide), if_pos rfl]

theorem handle_message_of_shutdown (strategy : Strategy) (message : List Char) (process : Process)
    (hw : (interpret_message message).2.getD 0 [] = kw_shutdown) :
    handle_message strategy message process =
      validate_shutdown (interpret_message message).1 process := by
  unfold handle_message
  dsimp only
  rw [hw, if_neg (show ¬ (kw_shutdown = kw_turn) by decide),
    if_neg (show ¬ (kw_shutdown = kw_rerolled) by decide),
    if_neg (show ¬ (kw_shutdown = kw_rolled) by decide),
    if_neg (show ¬ (kw_shutdown = kw_points) by decide),
    if_neg (show ¬ (kw_shutdown = kw_attacks) by decide),
    if_neg (show ¬ (kw_shutdown = kw_eliminated) by decide),
    if_neg (show ¬ (kw_shutdown = kw_claim) by decide),
    if_neg (show ¬ (kw_shutdown = kw_stay_query) by decide),
    if_neg (show ¬ (kw_shutdown = kw_winner) by decide), if_pos rfl]

theorem handle_message_of_unknown (strategy : Strategy) (message : List Char) (process : Process)
    (hw : (interpret_message message).2.getD 0 [] ∉ message_sizes.map Prod.fst) :
    handle_message strategy message process =
      Handled.exit PlayerExitCodes.INVALID_MESSAGE process := by
  unfold handle_message
  dsimp only
  rw [if_neg (fun h => hw (by rw [h]; decide)), if_neg (fun h => hw (by rw [h]; decide)),
    if_neg (fun h => hw (by rw [h]; decide)), if_neg (fun h => hw (by rw [h]; decide)),
    if_neg (fun h => hw (by rw [h]; decide)), if_neg (fun h => hw (by rw [h]; decide)),
    if_neg (fun h => hw (by rw [h]; decide)), if_neg (fun h => hw (by rw [h]; decide)),
    if_neg (fun h => hw (by rw [h]; decide)), if_neg (fun h => hw (by rw [h]; decide))]

theorem not_valid_roll (dice : List Char) (h : ¬ valid_roll dice) :
    dice.length ≠ 6 ∨ invalid_roll dice = true := by
  by_cases hlen : dice.length = 6
  · right
    by_contra hinv
    have hfalse : invalid_roll dice = false := by
      cases hb : invalid_roll dice
      · rfl
      · exact absurd hb hinv
    exact h ⟨hlen, (invalid_roll_eq_false_iff dice).1 hfalse⟩
  · exact Or.inl hlen

theorem invalid_label_iff (label : Char) (numberOfPlayers : Nat)
    (h1 : 1 ≤ numberOfPlayers) (h26 : numberOfPlayers ≤ MAX_PLAYERS) :
    invalid_label label numberOfPlayers = true ↔
      (label.toNat < 'A'.toNat ∨ label.toNat > 'A'.toNat + (numberOfPlayers - 1)) := by
  have h26b : numberOfPlayers ≤ 26 := h26
  obtain ⟨m1, _⟩ := toNat_get_player_label (numberOfPlayers - 1) (by omega)
  have hA : 'A'.toNat = 65 := rfl
  unfold invalid_label
  rw [m1, hA]
  simp

/-- Claim C35, failing input: latest dice 111222 (total six), roll sequence `AP`, reply
`reroll 12` (two legal characters, both among the dice).  With the uninitialised loop counter
of `add_dice_to_dice_set` holding 2 on entry the two dice are removed and none is drawn: the
total is four and `keep_dice_response` takes the `INVALID_REQUEST` exit.  With the counter
holding -1 three dice are drawn, the total is seven and the same exit is taken.  With the
counter at 0 two dice are drawn, the total stays six and the function returns false. -/
theorem keep_dice_response_total_not_preserved :
    keep_dice_response 2 (negotiating_hub ['A', 'P'] (kw_reroll ++ [' ', '1', '2', NL])) 0 =
        Outcome.exit ExitCodes.INVALID_REQUEST
          (keep_dice_response 2
            (negotiating_hub ['A', 'P'] (kw_reroll ++ [' ', '1', '2', NL])) 0).hub ∧
      sum_dice_set (negotiating_hub ['A', 'P']
        (kw_reroll ++ [' ', '1', '2', NL])).game.rollFile.latestDice = 6 ∧
      sum_dice_set (keep_dice_response 2 (negotiating_hub ['A', 'P']
        (kw_reroll ++ [' ', '1', '2', NL])) 0).hub.game.rollFile.latestDice = 4 ∧
      keep_dice_response (-1)
          (negotiating_hub ['A', 'P'] (kw_reroll ++ [' ', '1', '2', NL])) 0 =
        Outcome.exit ExitCodes.INVALID_REQUEST
          (keep_dice_response (-1)
            (negotiating_hub ['A', 'P'] (kw_reroll ++ [' ', '1', '2', NL])) 0).hub ∧
      sum_dice_set (keep_dice_response (-1) (negotiating_hub ['A', 'P']
        (kw_reroll ++ [' ', '1', '2', NL])) 0).hub.game.rollFile.latestDice = 7 ∧
      (keep_dice_response 0
          (negotiating_hub ['A', 'P'] (kw_reroll ++ [' ', '1', '2', NL])) 0).value? =
        some false ∧
      sum_dice_set (keep_dice_response 0 (negotiating_hub ['A', 'P']
        (kw_reroll ++ [' ', '1', '2', NL])) 0).hub.game.rollFile.latestDice = 6 := by
  decide

/-! ## Who receives an `eliminated` line -/

theorem sweep_upto_facts (hub : Hub) (activePlayer : Nat) (k : Nat) :
    (sweep_upto hub activePlayer k).game = hub.game ∧
    (sweep_upto hub activePlayer k).players.length = hub.players.length ∧
    (∀ j, getPlayer (sweep_upto hub activePlayer k).players j =
        if j < k ∧ j < hub.players.length ∧ newly_eliminated hub j = true then
          { getPlayer hub.players j with status := PlayerStatus.ELIMINATED }
        else getPlayer hub.players j) ∧
    (sweep_upto hub activePlayer k).sent = hub.sent ++ sweep_lines hub k :=
  sweep_loop hub activePlayer k

theorem sweep_upto_succ (hub : Hub) (activePlayer : Nat) (k : Nat) :
    sweep_upto hub activePlayer (k + 1) =
      if (getPlayer (sweep_upto hub activePlayer k).players k).status =
          PlayerStatus.ELIMINATED then sweep_upto hub activePlayer k
      else if (getPlayer (sweep_upto hub activePlayer k).players k).health < 1 then
        { alert_remaining_players (sweep_upto hub activePlayer k) activePlayer
            (msg_eliminated (get_player_label k)) false with
          players := setPlayer
            (alert_remaining_players (sweep_upto hub activePlayer k) activePlayer
              (msg_eliminated (get_player_label k)) false).players k
            (fun p => { p with status := PlayerStatus.ELIMINATED }) }
      else sweep_upto hub activePlayer k := by
  unfold sweep_upto
  rw [forLoop_succ]

theorem sweep_upto_status (hub : Hub) (activePlayer : Nat) (k r : Nat)
    (hk : k ≤ hub.players.length) :
    ((getPlayer (sweep_upto hub activePlayer k).players r).status = PlayerStatus.REMAINING ↔
      ((getPlayer hub.players r).status = PlayerStatus.REMAINING ∧
        ¬ (r < k ∧ (getPlayer hub.players r).health < 1))) ∧
    (getPlayer (sweep_upto hub activePlayer k).players r).inbox =
      (getPlayer hub.players r).inbox := by
  rw [(sweep_upto_facts hub activePlayer k).2.2.1 r]
  by_cases hc : r < k ∧ r < hub.players.length ∧ newly_eliminated hub r = true
  · rw [if_pos hc]
    obtain ⟨h1, h2, h3⟩ := hc
    simp only [newly_eliminated, Bool.and_eq_true, decide_eq_true_eq] at h3
    refine ⟨?_, rfl⟩
    constructor
    · intro h
      exact PlayerStatus.noConfusion h
    · rintro ⟨_, h⟩
      exact absurd ⟨h1, h3.2⟩ h
  · rw [if_neg hc]
    refine ⟨?_, rfl⟩
    constructor
    · intro h
      refine ⟨h, ?_⟩
      rintro ⟨h1, h2⟩
      apply hc
      refine ⟨h1, by omega, ?_⟩
      simp only [newly_eliminated, Bool.and_eq_true, decide_eq_true_eq]
      exact ⟨by rw [h]; decide, h2⟩
    · rintro ⟨h, _⟩
      exact h

theorem sweep_upto_connected (hub : Hub) (activePlayer : Nat) (k : Nat)
    (hk : k ≤ hub.players.length) (hconn : connected hub) :
    connected (sweep_upto hub activePlayer k) := by
  intro r hr hs
  rw [(sweep_upto_facts hub activePlayer k).1] at hr
  obtain ⟨h1, h2⟩ := sweep_upto_status hub activePlayer k r hk
  rw [h2]
  exact hconn r hr (h1.1 hs).1

theorem invalid_label_get_player_label (i numberOfPlayers : Nat) (hi : i < numberOfPlayers)
    (h26 : numberOfPlayers ≤ MAX_PLAYERS) :
    invalid_label (get_player_label i) numberOfPlayers = false ∧
    get_player_number (get_player_label i) = (i : Int) := by
  have h26b : numberOfPlayers ≤ 26 := h26
  obtain ⟨m1, _⟩ := toNat_get_player_label (numberOfPlayers - 1) (by omega)
  obtain ⟨m2, _⟩ := toNat_get_player_label i (by omega)
  have hA : 'A'.toNat = 65 := rfl
  constructor
  · unfold invalid_label
    rw [m1, m2, hA]
    simp
    omega
  · unfold get_player_number
    rw [m2, hA]
    push_cast
    omega

theorem handle_message_eliminated (strategy : Strategy) (process : Process) (i : Nat)
    (hi : i < process.shadow.game.numberOfPlayers)
    (h26 : process.shadow.game.numberOfPlayers ≤ MAX_PLAYERS) :
    handle_message strategy (msg_eliminated (get_player_label i)) process =
      if (i : Int) = process.shadow.game.currentPlayerNumber then
        Handled.exit PlayerExitCodes.SUCCESS
          { process with
            shadow := { process.shadow with
              players := setPlayer process.shadow.players i
                (fun p => { p with status := PlayerStatus.ELIMINATED }) } }
      else
        Handled.ret
          { process with
            shadow := { process.shadow with
              players := setPlayer process.shadow.players i
                (fun p => { p with status := PlayerStatus.ELIMINATED }) } } := by
  obtain ⟨hlabel, hnumber⟩ := invalid_label_get_player_label i _ hi h26
  have h26b : process.shadow.game.numberOfPlayers ≤ 26 := h26
  have hplain := (toNat_get_player_label i (by omega)).2
  have hmsg : msg_eliminated (get_player_label i) =
      kw_eliminated ++ ' ' :: [get_player_label i] ++ [NL] := by
    simp [msg_eliminated, kw_eliminated]
  have hint := interpret_message_word_dice kw_eliminated [get_player_label i] (by decide)
    (by simpa using hplain)
  rw [← hmsg] at hint
  rw [handle_message_of_eliminated strategy _ process (by rw [hint]; rfl), hint]
  unfold validate_eliminated
  have h1 : ([kw_eliminated, [get_player_label i]].getD ELIMINATED_PLAYER_LABEL_INDEX []) =
      [get_player_label i] := rfl
  have h2 : [get_player_label i].getD 0 NUL = get_player_label i := rfl
  rw [h1, h2, hlabel, hnumber]
  rw [if_neg (by simp [LABEL_LENGTH, ELIMINATED_MESSAGE_SIZE])]
  simp only [Int.toNat_ofNat]

/-- Claim C37: who receives each `eliminated` line.  On a state whose `numberOfPlayers` is the
length of the array and in which every `REMAINING` participant is connected, let
`sweep_upto hub activePlayer i` be the state of the loop of `update_eliminated_players` when
it reaches participant `i` (the function returns the state reached at `numberOfPlayers`).
When participant `i` is marked there (it is not `ELIMINATED` and its health is below 1), the
step writes `eliminated <label of i>` to exactly the participants whose status is `REMAINING`
in that state, in index order, and then sets the status of `i` alone to `ELIMINATED`;
otherwise the step changes nothing.  The participants `REMAINING` in that state are those
`REMAINING` before the sweep that the sweep has not marked at a lower index: so `i` itself
receives its line when it is `REMAINING`, and a participant marked earlier, in this sweep or
before it, does not.  A participant process that receives `eliminated` with its own label
exits with `SUCCESS`; with another label it marks that participant and goes on. -/
theorem eliminated_line_recipients (hub : Hub) (activePlayer : Nat)
    (hn : hub.game.numberOfPlayers = hub.players.length) (hconn : connected hub) :
    update_eliminated_players hub activePlayer =
      sweep_upto hub activePlayer hub.game.numberOfPlayers ∧
    sweep_upto hub activePlayer 0 = hub ∧
    (∀ i, i < hub.game.numberOfPlayers →
      (((getPlayer (sweep_upto hub activePlayer i).players i).status ≠
            PlayerStatus.ELIMINATED ∧
          (getPlayer (sweep_upto hub activePlayer i).players i).health < 1) →
        (sweep_upto hub activePlayer (i + 1)).sent =
          (sweep_upto hub activePlayer i).sent ++
            (remaining_players (sweep_upto hub activePlayer i)).map
              (fun r => (r, msg_eliminated (get_player_label i))) ∧
        (getPlayer (sweep_upto hub activePlayer (i + 1)).players i).status =
          PlayerStatus.ELIMINATED ∧
        (∀ r, r ≠ i → getPlayer (sweep_upto hub activePlayer (i + 1)).players r =
          getPlayer (sweep_upto hub activePlayer i).players r) ∧
        ((getPlayer (sweep_upto hub activePlayer i).players i).status =
            PlayerStatus.REMAINING →
          i ∈ remaining_players (sweep_upto hub activePlayer i))) ∧
      (¬ ((getPlayer (sweep_upto hub activePlayer i).players i).status ≠
            PlayerStatus.ELIMINATED ∧
          (getPlayer (sweep_upto hub activePlayer i).players i).health < 1) →
        sweep_upto hub activePlayer (i + 1) = sweep_upto hub activePlayer i) ∧
      (∀ r, r ∈ remaining_players (sweep_upto hub activePlayer i) ↔
        (r < hub.game.numberOfPlayers ∧
          (getPlayer (sweep_upto hub activePlayer i).players r).status =
            PlayerStatus.REMAINING)) ∧
      (∀ r, (getPlayer (sweep_upto hub activePlayer i).players r).status =
          PlayerStatus.REMAINING ↔
        ((getPlayer hub.players r).status = PlayerStatus.REMAINING ∧
          ¬ (r < i ∧ (getPlayer hub.players r).health < 1))) ∧
      (∀ r, (getPlayer (sweep_upto hub activePlayer i).players r).status =
          PlayerStatus.ELIMINATED →
        r ∉ remaining_players (sweep_upto hub activePlayer i))) ∧
    (∀ (strategy : Strategy) (process : Process) (i : Nat),
      i < process.shadow.game.numberOfPlayers →
      process.shadow.game.numberOfPlayers ≤ MAX_PLAYERS →
      (handle_message strategy (msg_eliminated (get_player_label i)) process).status? =
        if (i : Int) = process.shadow.game.currentPlayerNumber then
          some PlayerExitCodes.SUCCESS
        else none) := by
  refine ⟨rfl, rfl, ?_, ?_⟩
  · intro i hi
    have hile : i ≤ hub.players.length := by omega
    have hmem : ∀ r, r ∈ remaining_players (sweep_upto hub activePlayer i) ↔
        (r < hub.game.numberOfPlayers ∧
          (getPlayer (sweep_upto hub activePlayer i).players r).status =
            PlayerStatus.REMAINING) := by
      intro r
      unfold remaining_players
      rw [List.mem_filter, List.mem_range, (sweep_upto_facts hub activePlayer i).1,
        decide_eq_true_eq]
    refine ⟨?_, ?_, hmem, ?_, ?_⟩
    · rintro ⟨hs, hh⟩
      rw [sweep_upto_succ, if_neg hs, if_pos hh]
      refine ⟨?_, ?_, ?_, ?_⟩
      · dsimp only
        rw [alert_remaining_players_eq,
          connected_recipients _ activePlayer
            (sweep_upto_connected hub activePlayer i hile hconn)]
      · dsimp only
        rw [players_alert, getPlayer_setPlayer_self]
        rw [(sweep_upto_facts hub activePlayer i).2.1]
        omega
      · intro r hr
        dsimp only
        rw [players_alert, getPlayer_setPlayer_ne _ _ _ _ (fun h => hr h.symm)]
      · intro hrem
        exact (hmem i).2 ⟨hi, hrem⟩
    · intro hnot
      rw [sweep_upto_succ]
      by_cases hs : (getPlayer (sweep_upto hub activePlayer i).players i).status =
          PlayerStatus.ELIMINATED
      · rw [if_pos hs]
      · rw [if_neg hs, if_neg (fun hh => hnot ⟨hs, hh⟩)]
    · intro r
      exact (sweep_upto_status hub activePlayer i r hile).1
    · intro r hr hin
      have h := ((hmem r).1 hin).2
      rw [hr] at h
      exact absurd h (by decide)
  · intro strategy process i hi h26
    rw [handle_message_eliminated strategy process i hi h26]
    split_ifs <;> rfl

/-- Witness for `eliminated_line_recipients`: in the sweep over three participants of which
the first has health 0 and the second is already `ELIMINATED`, `eliminated A` goes to the
first and the third; a process of participant 0 that receives `eliminated A` exits with
`SUCCESS`, and goes on when it receives `eliminated B`. -/
theorem eliminated_line_recipients_witness :
    sweep_hub.game.numberOfPlayers = sweep_hub.players.length ∧ connected sweep_hub ∧
    (sweep_upto sweep_hub 2 (0 + 1)).sent =
      [(0, msg_eliminated 'A'), (2, msg_eliminated 'A')] ∧
    (getPlayer (sweep_upto sweep_hub 2 (0 + 1)).players 0).status =
      PlayerStatus.ELIMINATED ∧
    sweep_upto sweep_hub 2 (1 + 1) = sweep_upto sweep_hub 2 1 ∧
    (handle_message Strategy.eait (msg_eliminated (get_player_label 0))
      (fresh_process 2 0)).status? = some PlayerExitCodes.SUCCESS ∧
    (handle_message Strategy.eait (msg_eliminated (get_player_label 1))
      (fresh_process 2 0)).status? = none :=
  ⟨by decide, by decide,
   ((eliminated_line_recipients sweep_hub 2 (by decide) (by decide)).2.2.1 0
      (by decide)).1 (by decide) |>.1.trans (by decide),
   ((eliminated_line_recipients sweep_hub 2 (by decide) (by decide)).2.2.1 0
      (by decide)).1 (by decide) |>.2.1,
   ((eliminated_line_recipients sweep_hub 2 (by decide) (by decide)).2.2.1 1
      (by decide)).2.1 (by decide),
   ((eliminated_line_recipients sweep_hub 2 (by decide) (by decide)).2.2.2
      Strategy.eait (fresh_process 2 0) 0 (by decide) (by decide)).trans (by decide),
   ((eliminated_line_recipients sweep_hub 2 (by decide) (by decide)).2.2.2
      Strategy.eait (fresh_process 2 0) 1 (by decide) (by decide)).trans (by decide)⟩

/-! ## The shadow copy of a participant follows the hub -/

theorem healths_ext (hub1 hub2 : Hub) (hlen : hub1.players.length = hub2.players.length)
    (h : ∀ j, j < hub1.players.length →
      (getPlayer hub1.players j).health = (getPlayer hub2.players j).health) :
    healths hub1 = healths hub2 := by
  unfold healths
  apply List.ext_getElem
  · simp [hlen]
  · intro n h1 h2
    have hn1 : n < hub1.players.length := by simpa using h1
    have hn2 : n < hub2.players.length := by simpa using h2
    have hj := h n hn1
    unfold getPlayer at hj
    rw [List.get?_eq_getElem?, List.get?_eq_getElem?, List.getElem?_eq_getElem hn1,
      List.getElem?_eq_getElem hn2] at hj
    simpa using hj

theorem healths_getPlayer (hub1 hub2 : Hub) (h : healths hub1 = healths hub2) :
    hub1.players.length = hub2.players.length ∧
    ∀ j, (getPlayer hub1.players j).health = (getPlayer hub2.players j).health :=
  ⟨length_of_map _ _ _ h, fun j => getPlayer_of_map (fun p => p.health) _ _ h j⟩

theorem shadow_outward_loop (hub : Hub) (damage : Int) (k : Nat) :
    (forLoop k (fun i acc =>
      if acc.game.playerInStLucia = (i : Int) then acc
      else damage_player acc i damage) hub).game = hub.game ∧
    (forLoop k (fun i acc =>
      if acc.game.playerInStLucia = (i : Int) then acc
      else damage_player acc i damage) hub).players.length = hub.players.length ∧
    ∀ j, getPlayer (forLoop k (fun i acc =>
      if acc.game.playerInStLucia = (i : Int) then acc
      else damage_player acc i damage) hub).players j =
      if j < k ∧ j < hub.players.length ∧ hub.game.playerInStLucia ≠ (j : Int) then
        { getPlayer hub.players j with
          health := max 0 ((getPlayer hub.players j).health - damage) }
      else getPlayer hub.players j := by
  induction k with
  | zero => simp [forLoop_zero]
  | succ k ih =>
    obtain ⟨ih1, ih3, ih4⟩ := ih
    rw [forLoop_succ]
    generalize forLoop k _ hub = acc at ih1 ih3 ih4 ⊢
    rw [ih1]
    by_cases hskip : hub.game.playerInStLucia = (k : Int)
    · rw [if_pos hskip]
      refine ⟨ih1, ih3, ?_⟩
      intro j
      rw [ih4]
      by_cases hjk : j = k
      · subst hjk
        rw [if_neg (fun h => h.2.2 hskip), if_neg (by omega)]
      · have : j < k + 1 ↔ j < k := by omega
        simp only [this]
    · rw [if_neg hskip]
      refine ⟨?_, ?_, ?_⟩
      · rw [damage_player_eq, ih1]
      · rw [damage_player_eq]
        simp [length_setPlayer, ih3]
      · intro j
        rw [getPlayer_damage_player, ih3, ih4]
        by_cases hjk : k = j
        · subst hjk
          by_cases hlt : k < hub.players.length
          · rw [if_pos ⟨rfl, hlt⟩, if_neg (by omega),
              if_pos ⟨Nat.lt_succ_self k, hlt, hskip⟩]
          · rw [if_neg (fun h => hlt h.2), if_neg (by omega), if_neg (fun h => hlt h.2.1)]
        · rw [if_neg (fun h => hjk h.1)]
          have : j < k + 1 ↔ j < k := by omega
          simp only [this]

theorem fmt_d_attack_value (n : Int) (h0 : 0 ≤ n) (h6 : n ≤ 6) :
    (fmt_d n).length = 1 ∧ (∀ c ∈ fmt_d n, plain c) ∧
    ¬ (((fmt_d n).getD 0 NUL).toNat < ATTACKS_MIN.toNat) ∧
    ¬ (((fmt_d n).getD 0 NUL).toNat > ATTACKS_MAX.toNat) ∧
    atoi (fmt_d n) = n := by
  lift n to ℕ using h0
  have h : n ≤ 6 := by omega
  interval_cases n <;> decide

theorem interpret_message_attacks (label : Char) (value direction : List Char)
    (hl : plain label) (hv : ∀ c ∈ value, plain c) (hd : ∀ c ∈ direction, plain c) :
    interpret_message
        (kw_attacks ++ ' ' :: label :: ' ' :: value ++ ' ' :: direction ++ [NL]) =
      (4, [kw_attacks, [label], value, direction]) := by
  unfold interpret_message
  have h1 : kw_attacks ++ ' ' :: label :: ' ' :: value ++ ' ' :: direction ++ [NL] =
      kw_attacks ++ (' ' :: ([label] ++ (' ' :: (value ++ (' ' :: (direction ++ [NL])))))) := by
    simp
  rw [h1, interpret_message_loop_word kw_attacks _ _ _ (by decide),
    interpret_message_loop, if_pos rfl,
    interpret_message_loop_word [label] _ _ _ (by simpa using hl),
    interpret_message_loop, if_pos rfl,
    interpret_message_loop_word value _ _ _ hv, interpret_message_loop, if_pos rfl,
    interpret_message_loop_word direction _ _ _ hd, interpret_message_loop,
    if_neg (show ¬ (NL = ' ') by decide), if_pos (Or.inr rfl)]
  simp

theorem handle_message_attacks (strategy : Strategy) (process : Process) (i : Nat) (n : Int)
    (direction : List Char) (hdir : ∀ c ∈ direction, plain c)
    (hi : i < process.shadow.game.numberOfPlayers)
    (h26 : process.shadow.game.numberOfPlayers ≤ MAX_PLAYERS)
    (h0 : 0 ≤ n) (h6 : n ≤ 6) :
    handle_message strategy
        (kw_attacks ++ ' ' :: get_player_label i :: ' ' :: fmt_d n ++ ' ' :: direction ++ [NL])
        process =
      if direction = kw_in then
        if process.shadow.game.playerInStLucia = EMPTY_STLUCIA then Handled.ret process
        else
          Handled.ret { process with
            shadow := damage_player process.shadow
              process.shadow.game.playerInStLucia.toNat n }
      else if direction = kw_out then
        Handled.ret { process with
          shadow := forLoop process.shadow.game.numberOfPlayers (fun i acc =>
            if acc.game.playerInStLucia = (i : Int) then acc
            else damage_player acc i n) process.shadow }
      else Handled.exit PlayerExitCodes.INVALID_MESSAGE process := by
  obtain ⟨hlabel, _⟩ := invalid_label_get_player_label i _ hi h26
  have h26b : process.shadow.game.numberOfPlayers ≤ 26 := h26
  have hplain := (toNat_get_player_label i (by omega)).2
  obtain ⟨v1, v2, v3, v4, v5⟩ := fmt_d_attack_value n h0 h6
  have hint := interpret_message_attacks (get_player_label i) (fmt_d n) direction hplain v2 hdir
  rw [handle_message_of_attacks strategy _ process (by rw [hint]; rfl), hint]
  unfold validate_attacks
  have e1 : ([kw_attacks, [get_player_label i], fmt_d n, direction].getD
      ATTACKS_PLAYER_LABEL_INDEX []) = [get_player_label i] := rfl
  have e2 : [get_player_label i].getD 0 NUL = get_player_label i := rfl
  have e3 : ([kw_attacks, [get_player_label i], fmt_d n, direction].getD
      ATTACKS_VALUE_INDEX []) = fmt_d n := rfl
  have e4 : ([kw_attacks, [get_player_label i], fmt_d n, direction].getD
      ATTACKS_DIRECTION_INDEX []) = direction := rfl
  rw [e1, e2, e3, e4, hlabel, v5, if_neg]
  rintro (h | h | h | h | h | h)
  · exact h rfl
  · exact Bool.noConfusion h
  · exact h v1
  · exact h rfl
  · exact v3 h
  · exact v4 h

theorem msg_attacks_out_eq (label : Char) (n : Int) :
    msg_attacks_out label n =
      kw_attacks ++ ' ' :: label :: ' ' :: fmt_d n ++ ' ' :: kw_out ++ [NL] := by
  simp [msg_attacks_out, kw_attacks, kw_out]

theorem msg_attacks_in_eq (label : Char) (n : Int) :
    msg_attacks_in label n =
      kw_attacks ++ ' ' :: label :: ' ' :: fmt_d n ++ ' ' :: kw_in ++ [NL] := by
  simp [msg_attacks_in, kw_attacks, kw_in]

theorem handle_message_claim (strategy : Strategy) (process : Process) (i : Nat)
    (hi : i < process.shadow.game.numberOfPlayers)
    (h26 : process.shadow.game.numberOfPlayers ≤ MAX_PLAYERS) :
    handle_message strategy (msg_claim (get_player_label i)) process =
      Handled.ret { process with
        shadow := { process.shadow with
          game := { process.shadow.game with playerInStLucia := (i : Int) } } } := by
  obtain ⟨hlabel, hnumber⟩ := invalid_label_get_player_label i _ hi h26
  have h26b : process.shadow.game.numberOfPlayers ≤ 26 := h26
  have hplain := (toNat_get_player_label i (by omega)).2
  have hmsg : msg_claim (get_player_label i) =
      kw_claim ++ ' ' :: [get_player_label i] ++ [NL] := by
    simp [msg_claim, kw_claim]
  have hint := interpret_message_word_dice kw_claim [get_player_label i] (by decide)
    (by simpa using hplain)
  rw [← hmsg] at hint
  rw [handle_message_of_claim strategy _ process (by rw [hint]; rfl), hint]
  unfold validate_claim
  have h1 : ([kw_claim, [get_player_label i]].getD CLAIM_PLAYER_LABEL_INDEX []) =
      [get_player_label i] := rfl
  have h2 : [get_player_label i].getD 0 NUL = get_player_label i := rfl
  rw [h1, h2, hlabel, hnumber]
  rw [if_neg (by simp [LABEL_LENGTH, CLAIM_MESSAGE_SIZE])]

theorem getPlayer_mem (players : List Player) (j : Nat) (h : j < players.length) :
    getPlayer players j ∈ players := by
  unfold getPlayer
  rw [List.get?_eq_getElem?, List.getElem?_eq_getElem h]
  exact List.getElem_mem h

theorem attack_outward_health (hub : Hub) (activePlayer : Nat)
    (hholder : hub.game.playerInStLucia = (activePlayer : Int))
    (h0 : 0 ≤ hub.game.rollFile.latestDice.numberOfAs)
    (hrange : ∀ p ∈ hub.players, 0 ≤ p.health) :
    (attack hub activePlayer).hub.game = hub.game ∧
    (attack hub activePlayer).hub.players.length = hub.players.length ∧
    ∀ j, j < hub.players.length →
      (getPlayer (attack hub activePlayer).hub.players j).health =
        if j < hub.game.numberOfPlayers ∧ j ≠ activePlayer ∧
            (getPlayer hub.players j).status ≠ PlayerStatus.ELIMINATED then
          max 0 ((getPlayer hub.players j).health - hub.game.rollFile.latestDice.numberOfAs)
        else (getPlayer hub.players j).health := by
  by_cases hA : hub.game.rollFile.latestDice.numberOfAs = 0
  · rw [attack_without_A hub activePlayer hA, hA]
    refine ⟨rfl, rfl, ?_⟩
    intro j hj
    have hnn := hrange _ (getPlayer_mem hub.players j hj)
    simp only [Outcome.hub, sub_zero]
    rw [max_eq_right hnn]
    split_ifs <;> rfl
  · obtain ⟨l1, _, l3, l4⟩ := outward_loop hub activePlayer hub.game.numberOfPlayers
    have hne : ¬ hub.game.playerInStLucia = EMPTY_STLUCIA := by
      rw [hholder, EMPTY_STLUCIA]; omega
    have hatt : attack hub activePlayer = Outcome.ret ()
        (alert_remaining_players
          (forLoop hub.game.numberOfPlayers (fun i acc =>
            if activePlayer = i ∨ (getPlayer acc.players i).status = PlayerStatus.ELIMINATED
            then acc
            else damage_player acc i acc.game.rollFile.latestDice.numberOfAs) hub)
          activePlayer
          (msg_attacks_out (get_player_label activePlayer)
            hub.game.rollFile.latestDice.numberOfAs) false) := by
      unfold attack
      rw [if_pos (by omega), if_neg hne, if_pos hholder]
    generalize forLoop hub.game.numberOfPlayers _ hub = looped at l1 l3 l4 hatt
    rw [hatt]
    simp only [Outcome.hub]
    refine ⟨by rw [game_alert, l1], by rw [players_alert, l3], ?_⟩
    intro j hj
    rw [players_alert, l4]
    by_cases hc : j < hub.game.numberOfPlayers ∧ j ≠ activePlayer ∧
        (getPlayer hub.players j).status ≠ PlayerStatus.ELIMINATED
    · rw [if_pos hc, if_pos ⟨hc.1, hj, hc.2⟩]
    · rw [if_neg hc, if_neg (fun h => hc ⟨h.1, h.2.2⟩)]

theorem attack_inward_health (hub : Hub) (activePlayer holder : Nat)
    (hA : hub.game.rollFile.latestDice.numberOfAs > 0)
    (hholder : hub.game.playerInStLucia = (holder : Int)) (hne : holder ≠ activePlayer) :
    healths (attack hub activePlayer).hub =
      healths (damage_player hub holder hub.game.rollFile.latestDice.numberOfAs) := by
  rw [attack_inward_eq hub activePlayer holder hA hholder hne]
  unfold healths
  rw [(frame_receive_stay_reply (fun p => p.health) (fun _ => ()) (fun _ _ => rfl)
    (fun _ _ => rfl) (fun _ _ => rfl) _ activePlayer holder).2]
  simp only [send_to]
  rw [players_alert]

/-- Claim C34: the shadow copy of a participant process follows the hub through attacks and
claims.  Let the process and the hub agree on the number of participants (at most 26, the
length of the hub's array), on the health of every participant (each from 0 to 10, 0 for
every `ELIMINATED` one) and on the territory holder, and let the latest dice of the hub have
`n` faces `A` with `0 ≤ n ≤ 6`; the active participant is one of the participants.  When the
active participant holds the territory, handling `attacks <label> <n> out` returns with the
health of every participant equal to the one `attack` leaves in the hub, and the holder
unchanged on both sides.  When another participant `holder` holds the territory, handling
`attacks <label> <n> in` returns with the health of every participant equal to the one
after the hub's `damage_player` on `holder`, which for `n ≥ 1` is the one `attack` ends
with.  Handling `claim <label>` returns with the holder that `claim_stlucia` sets in the
hub, the index of the active participant, and with every health unchanged on both sides. -/
theorem shadow_follows_attacks_and_claim (strategy : Strategy) (process : Process)
    (hub : Hub) (activePlayer : Nat)
    (hn : hub.game.numberOfPlayers = hub.players.length)
    (hN : process.shadow.game.numberOfPlayers = hub.game.numberOfPlayers)
    (h26 : hub.game.numberOfPlayers ≤ MAX_PLAYERS)
    (ha : activePlayer < hub.game.numberOfPlayers)
    (hhealth : healths process.shadow = healths hub)
    (hholder : process.shadow.game.playerInStLucia = hub.game.playerInStLucia)
    (hrange : ∀ p ∈ hub.players, 0 ≤ p.health ∧ p.health ≤ STARTING_HEALTH)
    (helim : ∀ p ∈ hub.players, p.status = PlayerStatus.ELIMINATED → p.health = 0)
    (h0 : 0 ≤ hub.game.rollFile.latestDice.numberOfAs)
    (h6 : hub.game.rollFile.latestDice.numberOfAs ≤ 6) :
    (hub.game.playerInStLucia = (activePlayer : Int) →
      (handle_message strategy
        (msg_attacks_out (get_player_label activePlayer)
          hub.game.rollFile.latestDice.numberOfAs) process).status? = none ∧
      healths (handle_message strategy
        (msg_attacks_out (get_player_label activePlayer)
          hub.game.rollFile.latestDice.numberOfAs) process).process.shadow =
        healths (attack hub activePlayer).hub ∧
      (handle_message strategy
        (msg_attacks_out (get_player_label activePlayer)
          hub.game.rollFile.latestDice.numberOfAs)
            process).process.shadow.game.playerInStLucia =
        (attack hub activePlayer).hub.game.playerInStLucia) ∧
    (∀ holder : Nat, hub.game.playerInStLucia = (holder : Int) → holder ≠ activePlayer →
      (handle_message strategy
        (msg_attacks_in (get_player_label activePlayer)
          hub.game.rollFile.latestDice.numberOfAs) process).status? = none ∧
      healths (handle_message strategy
        (msg_attacks_in (get_player_label activePlayer)
          hub.game.rollFile.latestDice.numberOfAs) process).process.shadow =
        healths (damage_player hub holder hub.game.rollFile.latestDice.numberOfAs) ∧
      (1 ≤ hub.game.rollFile.latestDice.numberOfAs →
        healths (handle_message strategy
          (msg_attacks_in (get_player_label activePlayer)
            hub.game.rollFile.latestDice.numberOfAs) process).process.shadow =
          healths (attack hub activePlayer).hub)) ∧
    ((handle_message strategy (msg_claim (get_player_label activePlayer))
        process).status? = none ∧
      (handle_message strategy (msg_claim (get_player_label activePlayer))
        process).process.shadow.game.playerInStLucia =
        (claim_stlucia hub activePlayer).game.playerInStLucia ∧
      (claim_stlucia hub activePlayer).game.playerInStLucia = (activePlayer : Int) ∧
      healths (handle_message strategy (msg_claim (get_player_label activePlayer))
        process).process.shadow = healths (claim_stlucia hub activePlayer)) := by
  have ha2 : activePlayer < process.shadow.game.numberOfPlayers := by rw [hN]; exact ha
  have h26b : process.shadow.game.numberOfPlayers ≤ MAX_PLAYERS := by rw [hN]; exact h26
  obtain ⟨hlen, hget⟩ := healths_getPlayer _ _ hhealth
  refine ⟨?_, ?_, ?_⟩
  · intro hhold
    rw [msg_attacks_out_eq,
      handle_message_attacks strategy process activePlayer _ kw_out (by decide) ha2 h26b h0 h6,
      if_neg (show ¬ (kw_out = kw_in) by decide), if_pos rfl]
    simp only [Handled.status?, Handled.process]
    obtain ⟨s1, s2, s3⟩ := shadow_outward_loop process.shadow
      hub.game.rollFile.latestDice.numberOfAs process.shadow.game.numberOfPlayers
    obtain ⟨a1, a2, a3⟩ := attack_outward_health hub activePlayer hhold h0
      (fun p hp => (hrange p hp).1)
    refine ⟨trivial, ?_, ?_⟩
    · apply healths_ext
      · rw [s2, a2, hlen]
      · intro j hj
        rw [s2] at hj
        have hj2 : j < hub.players.length := by omega
        have hjn : j < hub.game.numberOfPlayers := by omega
        rw [s3, a3 j hj2, hN, hholder, hhold]
        by_cases hja : j = activePlayer
        · rw [if_neg (fun h => h.2.2 (by rw [hja])), if_neg (fun h => h.2.1 hja)]
          exact hget j
        · have hja2 : ¬ ((activePlayer : Int) = (j : Int)) := by omega
          rw [if_pos ⟨hjn, hj, hja2⟩]
          dsimp only
          by_cases hs : (getPlayer hub.players j).status = PlayerStatus.ELIMINATED
          · rw [if_neg (fun h => h.2.2 hs), hget j,
              helim _ (getPlayer_mem hub.players j hj2) hs]
            omega
          · rw [if_pos ⟨hjn, hja, hs⟩, hget j]
    · rw [s1, a1, hholder]
  · intro holder hhold hne
    have hnotempty : ¬ (process.shadow.game.playerInStLucia = EMPTY_STLUCIA) := by
      rw [hholder, hhold, EMPTY_STLUCIA]; omega
    rw [msg_attacks_in_eq,
      handle_message_attacks strategy process activePlayer _ kw_in (by decide) ha2 h26b h0 h6,
      if_pos rfl, if_neg hnotempty, hholder, hhold, Int.toNat_ofNat]
    simp only [Handled.status?, Handled.process]
    have hdam : healths (damage_player process.shadow holder
        hub.game.rollFile.latestDice.numberOfAs) =
        healths (damage_player hub holder hub.game.rollFile.latestDice.numberOfAs) := by
      apply healths_ext
      · rw [damage_player_eq, damage_player_eq]
        simp [length_setPlayer, hlen]
      · intro j _
        rw [getPlayer_damage_player, getPlayer_damage_player, hlen]
        split_ifs
        · dsimp only
          rw [hget j]
        · exact hget j
    refine ⟨trivial, hdam, ?_⟩
    intro h1
    rw [hdam, attack_inward_health hub activePlayer holder (by omega) hhold hne]
  · rw [handle_message_claim strategy process activePlayer ha2 h26b]
    simp only [Handled.status?, Handled.process]
    have hc := claim_stlucia_eq hub activePlayer
    refine ⟨trivial, ?_, ?_, ?_⟩
    · rw [hc]
    · rw [hc]
    · unfold healths
      rw [(frame_claim_stlucia (fun p => p.health) (fun _ => ()) (fun _ _ => rfl)
        (fun _ _ => rfl) hub activePlayer).2]
      exact hhealth

/-- Witness for `shadow_follows_attacks_and_claim`: the holder, participant 0, rolled three
`A` against participant 1 (health 2) and the `ELIMINATED` participant 2: hub and process both
end with the health 10, 0, 0.  With participant 1 (health 5) in the territory and three `A`
of participant 0, both end with the health 10, 2. -/
theorem shadow_follows_attacks_and_claim_witness :
    healths (process_with_shadow outward_attack_hub).shadow = healths outward_attack_hub ∧
    healths (handle_message Strategy.eait
      (msg_attacks_out (get_player_label 0)
        outward_attack_hub.game.rollFile.latestDice.numberOfAs)
      (process_with_shadow outward_attack_hub)).process.shadow =
        healths (attack outward_attack_hub 0).hub ∧
    healths (attack outward_attack_hub 0).hub = [10, 0, 0] ∧
    healths (handle_message Strategy.eait
      (msg_attacks_in (get_player_label 0)
        (inward_attack_hub 5 (kw_stay ++ [NL])).game.rollFile.latestDice.numberOfAs)
      (process_with_shadow (inward_attack_hub 5 (kw_stay ++ [NL])))).process.shadow =
        healths (attack (inward_attack_hub 5 (kw_stay ++ [NL])) 0).hub ∧
    healths (attack (inward_attack_hub 5 (kw_stay ++ [NL])) 0).hub = [10, 2] ∧
    (handle_message Strategy.eait (msg_claim (get_player_label 0))
      (process_with_shadow (opening_hub ['A']))).process.shadow.game.playerInStLucia =
        (claim_stlucia (opening_hub ['A']) 0).game.playerInStLucia :=
  ⟨by decide,
   ((shadow_follows_attacks_and_claim Strategy.eait (process_with_shadow outward_attack_hub)
      outward_attack_hub 0 (by decide) (by decide) (by decide) (by decide) (by decide)
      (by decide) (by decide) (by decide) (by decide) (by decide)).1 (by decide)).2.1,
   by decide,
   ((shadow_follows_attacks_and_claim Strategy.eait
      (process_with_shadow (inward_attack_hub 5 (kw_stay ++ [NL])))
      (inward_attack_hub 5 (kw_stay ++ [NL])) 0 (by decide) (by decide) (by decide)
      (by decide) (by decide) (by decide) (by decide) (by decide) (by decide)
      (by decide)).2.1 1 (by decide) (by decide)).2.2 (by decide),
   by decide,
   (shadow_follows_attacks_and_claim Strategy.eait
      (process_with_shadow (opening_hub ['A'])) (opening_hub ['A']) 0 (by decide)
      (by decide) (by decide) (by decide) (by decide) (by decide) (by decide) (by decide)
      (by decide) (by decide)).2.2.2.1⟩

/-! ## The state at the start of every turn -/

theorem counter_le_add_dice_iterations (count : Nat) (face : Char) (hface : face ∈ faces) :
    ∀ (rollFile : RollFile) (diceSet : DiceSet),
      diceSet.counter face ≤ (add_dice_iterations count rollFile diceSet).2.counter face := by
  induction count with
  | zero =>
    intro rollFile diceSet
    exact le_refl _
  | succ count ih =>
    intro rollFile diceSet
    rw [add_dice_iterations]
    refine le_trans ?_ (ih _ _)
    unfold add_die_to_dice_set
    rw [counter_update_dice_set _ _ _ _ hface]
    split_ifs <;> omega

theorem nonneg_start_turn (i0 : Int) (hub : Hub) (activePlayer : Nat) :
    (start_turn i0 hub activePlayer).game.rollFile.latestDice.nonneg := by
  rw [nonneg_iff_counter]
  intro face hface
  have hdice : (start_turn i0 hub activePlayer).game.rollFile.latestDice =
      (add_dice_to_dice_set i0
        { hub.game.rollFile with latestDice := reset_dice_set hub.game.rollFile.latestDice }
        (DICE_SET_SIZE : Int) (reset_dice_set hub.game.rollFile.latestDice)).2 := by
    unfold start_turn
    simp only [set_latestDice, set_rollFile]
    split_ifs <;> rfl
  rw [hdice]
  unfold add_dice_to_dice_set
  refine le_trans ?_ (counter_le_add_dice_iterations _ face hface _ _)
  rw [counter_reset_dice_set]

theorem held_iff (diceSet : DiceSet) (subset : List Char) :
    held diceSet subset = true ↔
      ∀ face ∈ faces, (subset.count face : Int) ≤ diceSet.counter face := by
  unfold held
  rw [List.all_eq_true]
  simp only [decide_eq_true_eq]

theorem nonneg_reroll_dice (i0 : Int) (hub : Hub) (activePlayer : Nat) (subset : List Char)
    (value : Bool) (hub1 : Hub)
    (hheld : held hub.game.rollFile.latestDice subset = true)
    (h : reroll_dice i0 hub activePlayer subset = Outcome.ret value hub1) :
    hub1.game.rollFile.latestDice.nonneg := by
  rw [held_iff] at hheld
  unfold reroll_dice at h
  dsimp only at h
  split_ifs at h
  · simp [exit_program] at h
  · simp only [Outcome.ret.injEq] at h
    rw [← h.2, nonneg_iff_counter]
    intro face hface
    simp only [send_to, set_latestDice, set_rollFile]
    rw [counter_create_dice_set_string]
    unfold add_dice_to_dice_set
    refine le_trans ?_ (counter_le_add_dice_iterations _ face hface _ _)
    rw [counter_foldl_remove _ _ _ hface]
    have := hheld face hface
    omega

theorem nonneg_keep_dice_response (i0 : Int) (hub : Hub) (activePlayer : Nat) (value : Bool)
    (hub1 : Hub) (hnonneg : hub.game.rollFile.latestDice.nonneg)
    (hheld : reply_held hub activePlayer = true)
    (h : keep_dice_response i0 hub activePlayer = Outcome.ret value hub1) :
    hub1.game.rollFile.latestDice.nonneg := by
  cases hread : fgets MAX_MESSAGE_LENGTH (getPlayer hub.players activePlayer).outbox with
  | none =>
    unfold keep_dice_response at h
    rw [hread] at h
    simp [exit_program] at h
  | some p =>
    obtain ⟨line, rest⟩ := p
    rw [keep_dice_response_of_read i0 hub activePlayer line rest hread] at h
    unfold reply_held at hheld
    rw [hread] at hheld
    dsimp only at hheld
    split_ifs at h with h1 h2 h3
    · simp only [Outcome.ret.injEq] at h
      rw [← h.2]
      exact hnonneg
    · simp [exit_program] at h
    · rw [if_pos h2] at hheld
      exact nonneg_reroll_dice i0 (set_outbox hub activePlayer rest) activePlayer _ value hub1
        hheld h
    all_goals simp [exit_program] at h

theorem nonneg_reroll_negotiation (fuel : Nat) :
    ∀ (junk : Nat → Int) (hub : Hub) (activePlayer : Nat) (hub3 : Hub),
      hub.game.rollFile.latestDice.nonneg →
      negotiation_held fuel junk hub activePlayer = true →
      reroll_negotiation fuel junk hub activePlayer = some (Outcome.ret () hub3) →
      hub3.game.rollFile.latestDice.nonneg := by
  induction fuel with
  | zero =>
    intro junk hub activePlayer hub3 _ _ h
    simp [reroll_negotiation] at h
  | succ fuel ih =>
    intro junk hub activePlayer hub3 hnonneg hheld h
    rw [reroll_negotiation] at h
    rw [negotiation_held, Bool.and_eq_true] at hheld
    obtain ⟨hreply, hlater⟩ := hheld
    cases hk : keep_dice_response (junk 0) hub activePlayer with
    | exit status hub1 =>
      rw [hk] at h
      simp at h
    | ret value hub1 =>
      have hn1 := nonneg_keep_dice_response (junk 0) hub activePlayer value hub1 hnonneg
        hreply hk
      rw [hk] at h hlater
      cases value with
      | true =>
        simp only [Option.some.injEq, Outcome.ret.injEq, true_and] at h
        rw [← h]
        exact hn1
      | false =>
        exact ih _ hub1 activePlayer hub3 hn1 hlater h

theorem nonneg_get_player_roll (junk : Nat → Int) (hub : Hub) (activePlayer : Nat) (hub4 : Hub)
    (hnonneg : hub.game.rollFile.latestDice.nonneg)
    (hheld : roll_held junk hub activePlayer = true)
    (h : get_player_roll junk hub activePlayer = some (Outcome.ret () hub4)) :
    hub4.game.rollFile.latestDice.nonneg := by
  obtain ⟨hub3, hneg, hlast⟩ := get_player_roll_eq junk hub activePlayer hub4 h
  rw [hlast, game_alert]
  refine nonneg_reroll_negotiation _ junk _ activePlayer hub3 ?_ hheld hneg
  rw [nonneg_iff_counter] at hnonneg ⊢
  intro face hface
  exact hnonneg face hface

theorem receive_stay_reply_ret_alive (hub : Hub) (activePlayer holder : Nat) (hub1 : Hub)
    (h : receive_stay_reply hub activePlayer holder = Outcome.ret () hub1) :
    ∃ rest, (hub1 = set_outbox hub holder rest ∧
        ¬ (getPlayer (set_outbox hub holder rest).players
          (set_outbox hub holder rest).game.playerInStLucia.toNat).health ≤ 0) ∨
      hub1 = claim_stlucia (set_outbox hub holder rest) activePlayer := by
  unfold receive_stay_reply at h
  cases hread : fgets MAX_MESSAGE_LENGTH (getPlayer hub.players holder).outbox with
  | none =>
    rw [hread] at h
    simp [exit_program] at h
  | some p =>
    obtain ⟨line, rest⟩ := p
    rw [hread] at h
    simp only at h
    refine ⟨rest, ?_⟩
    split_ifs at h with c1 <;>
      first
        | (simp [exit_program] at h; done)
        | (simp only [Outcome.ret.injEq, true_and] at h
           first
             | exact Or.inl ⟨h.symm, c1⟩
             | exact Or.inr h.symm)

theorem attack_keeps_alive (hub : Hub) (activePlayer : Nat) (hub6 : Hub)
    (hn : hub.game.numberOfPlayers = hub.players.length)
    (hall : ∀ i, i < hub.game.numberOfPlayers →
      (getPlayer hub.players i).status ≠ PlayerStatus.ELIMINATED →
      1 ≤ (getPlayer hub.players i).health)
    (hholder : hub.game.playerInStLucia = EMPTY_STLUCIA ∨
      ∃ holder, holder < hub.game.numberOfPlayers ∧
        hub.game.playerInStLucia = (holder : Int) ∧
        (getPlayer hub.players holder).status ≠ PlayerStatus.ELIMINATED)
    (ha : activePlayer < hub.game.numberOfPlayers)
    (has : (getPlayer hub.players activePlayer).status ≠ PlayerStatus.ELIMINATED)
    (h : attack hub activePlayer = Outcome.ret () hub6) :
    hub6.game.numberOfPlayers = hub.game.numberOfPlayers ∧
    hub6.players.length = hub.players.length ∧
    (∀ j, (getPlayer hub6.players j).status = (getPlayer hub.players j).status) ∧
    (hub6.game.playerInStLucia = EMPTY_STLUCIA ∨
      ∃ holder, holder < hub.game.numberOfPlayers ∧
        hub6.game.playerInStLucia = (holder : Int) ∧
        (getPlayer hub.players holder).status ≠ PlayerStatus.ELIMINATED ∧
        1 ≤ (getPlayer hub6.players holder).health) := by
  obtain ⟨fg, fp⟩ := frame_attack (fun p => p.status) (fun g => g.numberOfPlayers)
    (fun _ _ => rfl) (fun _ _ => rfl) (fun _ _ => rfl) (fun _ _ => rfl) hub activePlayer
  rw [h] at fg fp
  simp only [Outcome.hub] at fg fp
  refine ⟨fg, length_of_map _ _ _ fp, fun j => getPlayer_of_map _ _ _ fp j, ?_⟩
  by_cases hA : hub.game.rollFile.latestDice.numberOfAs > 0
  · rcases hholder with hE | ⟨hd, hlt, heq, hst⟩
    · unfold attack at h
      rw [if_pos hA, if_pos hE] at h
      simp only [Outcome.ret.injEq, true_and] at h
      subst h
      refine Or.inr ⟨activePlayer, ha, by rw [claim_stlucia_eq], has, ?_⟩
      rw [health_claim_stlucia]
      exact hall activePlayer ha has
    · have hne : ¬ hub.game.playerInStLucia = EMPTY_STLUCIA := by
        rw [heq, EMPTY_STLUCIA]; omega
      by_cases hda : hd = activePlayer
      · subst hda
        obtain ⟨l1, _, _, l4⟩ := outward_loop hub hd hub.game.numberOfPlayers
        have hatt : attack hub hd = Outcome.ret ()
            (alert_remaining_players
              (forLoop hub.game.numberOfPlayers (fun i acc =>
                if hd = i ∨ (getPlayer acc.players i).status = PlayerStatus.ELIMINATED
                then acc
                else damage_player acc i acc.game.rollFile.latestDice.numberOfAs) hub)
              hd
              (msg_attacks_out (get_player_label hd)
                hub.game.rollFile.latestDice.numberOfAs) false) := by
          unfold attack
          rw [if_pos hA, if_neg hne, if_pos heq]
        generalize forLoop hub.game.numberOfPlayers _ hub = looped at l1 l4 hatt
        rw [hatt] at h
        simp only [Outcome.ret.injEq, true_and] at h
        subst h
        refine Or.inr ⟨hd, hlt, by rw [game_alert, l1]; exact heq, hst, ?_⟩
        rw [players_alert, l4, if_neg (fun hc => hc.2.2.1 rfl)]
        exact hall hd hlt hst
      · rw [attack_inward_eq hub activePlayer hd hA heq hda] at h
        obtain ⟨rest, hcase⟩ := receive_stay_reply_ret_alive _ _ _ _ h
        have hcase2 : (hub6 = stay_query_state hub activePlayer hd rest ∧
            ¬ (getPlayer (stay_query_state hub activePlayer hd rest).players
              (stay_query_state hub activePlayer hd rest).game.playerInStLucia.toNat).health
                ≤ 0) ∨
            hub6 = claim_stlucia (stay_query_state hub activePlayer hd rest) activePlayer :=
          hcase
        obtain ⟨q1, _, _, _, q5, _⟩ := stay_query_state_facts hub activePlayer hd rest
          (by omega)
        rcases hcase2 with ⟨h6, hpos⟩ | h6
        · rw [q1, heq, Int.toNat_ofNat] at hpos
          subst h6
          refine Or.inr ⟨hd, hlt, by rw [q1]; exact heq, hst, ?_⟩
          omega
        · subst h6
          refine Or.inr ⟨activePlayer, ha, by rw [claim_stlucia_eq], has, ?_⟩
          rw [health_claim_stlucia, q5 activePlayer (fun hc => hda hc.symm)]
          exact hall activePlayer ha has
  · unfold attack at h
    rw [if_neg hA] at h
    simp only [Outcome.ret.injEq, true_and] at h
    subst h
    rcases hholder with hE | ⟨hd, hlt, heq, hst⟩
    · exact Or.inl hE
    · exact Or.inr ⟨hd, hlt, heq, hst, hall hd hlt hst⟩

theorem frame_gain_points {β : Type} (proj : Player → β)
    (hp : ∀ p tokens points, proj { p with tokens := tokens, points := points } = proj p)
    (hub : Hub) (activePlayer : Nat) (startingPoints : Int) :
    (gain_points hub activePlayer startingPoints).game = hub.game ∧
    (gain_points hub activePlayer startingPoints).players.map proj = hub.players.map proj := by
  rw [gain_points_eq]
  split_ifs
  · refine ⟨rfl, ?_⟩
    dsimp only
    refine map_setPlayer proj _ _ _ ?_
    intro p
    exact hp p _ _
  · refine ⟨rfl, ?_⟩
    dsimp only
    refine map_setPlayer proj _ _ _ ?_
    intro p
    exact hp p _ _

theorem update_eliminated_players_alive (hub : Hub) (activePlayer : Nat)
    (hn : hub.game.numberOfPlayers = hub.players.length) :
    (update_eliminated_players hub activePlayer).game = hub.game ∧
    (update_eliminated_players hub activePlayer).players.length = hub.players.length ∧
    (∀ j, (getPlayer (update_eliminated_players hub activePlayer).players j).health =
      (getPlayer hub.players j).health) ∧
    (∀ j, j < hub.game.numberOfPlayers →
      ((getPlayer (update_eliminated_players hub activePlayer).players j).status ≠
          PlayerStatus.ELIMINATED ↔
        ((getPlayer hub.players j).status ≠ PlayerStatus.ELIMINATED ∧
          1 ≤ (getPlayer hub.players j).health))) := by
  have hu : update_eliminated_players hub activePlayer =
      sweep_upto hub activePlayer hub.game.numberOfPlayers := rfl
  obtain ⟨s1, s2, s3, _⟩ := sweep_upto_facts hub activePlayer hub.game.numberOfPlayers
  rw [hu]
  refine ⟨s1, s2, ?_, ?_⟩
  · intro j
    rw [s3]
    split_ifs <;> rfl
  · intro j hj
    rw [s3]
    by_cases hc : j < hub.game.numberOfPlayers ∧ j < hub.players.length ∧
        newly_eliminated hub j = true
    · rw [if_pos hc]
      obtain ⟨_, _, h3⟩ := hc
      simp only [newly_eliminated, Bool.and_eq_true, decide_eq_true_eq] at h3
      constructor
      · intro h
        exact absurd rfl h
      · rintro ⟨_, h⟩
        omega
    · rw [if_neg hc]
      constructor
      · intro h
        refine ⟨h, ?_⟩
        by_contra hlt
        apply hc
        refine ⟨hj, by omega, ?_⟩
        simp only [newly_eliminated, Bool.and_eq_true, decide_eq_true_eq]
        exact ⟨h, by omega⟩
      · rintro ⟨h, _⟩
        exact h

theorem check_game_over_false (hub : Hub) (activePlayer : Nat)
    (h : (check_game_over hub activePlayer).1 = false) :
    (check_game_over hub activePlayer).2 = hub := by
  unfold check_game_over at h ⊢
  split_ifs at h ⊢
  rfl

theorem advance_player_some (fuel : Nat) :
    ∀ (hub : Hub) (start next : Nat), 0 < hub.game.numberOfPlayers →
      advance_player fuel hub start = some next →
      next < hub.game.numberOfPlayers ∧
        (getPlayer hub.players next).status ≠ PlayerStatus.ELIMINATED := by
  induction fuel with
  | zero =>
    intro hub start next _ h
    simp [advance_player] at h
  | succ fuel ih =>
    intro hub start next hN h
    unfold advance_player at h
    split_ifs at h with hc
    · simp only [Option.some.injEq] at h
      subst h
      exact ⟨Nat.mod_lt _ hN, hc⟩
    · exact ih hub _ next hN h

theorem heal_keeps_alive (hub : Hub) (player : Nat) (healAmount : Int) (h0 : 0 ≤ healAmount)
    (j : Nat) (hj : 1 ≤ (getPlayer hub.players j).health) :
    1 ≤ (getPlayer (heal hub player healAmount).players j).health := by
  rw [getPlayer_heal]
  split_ifs
  · dsimp only
    rw [STARTING_HEALTH]
    exact le_min (by omega) (by omega)
  · exact hj

theorem turn_invariant_step (junk : Nat → Int) (hub : Hub) (activePlayer : Nat) (hub1 : Hub)
    (next : Nat) (hinv : turn_invariant hub activePlayer)
    (hheld : turn_held junk hub activePlayer = true)
    (hturn : turn junk hub activePlayer = some (Outcome.ret false hub1))
    (hadv : advance_player hub1.game.numberOfPlayers hub1 activePlayer = some next) :
    turn_invariant hub1 next := by
  obtain ⟨hn, hall, hholder, ha, has⟩ := hinv
  unfold turn at hturn
  cases hroll : get_player_roll (fun k => junk (k + 1)) (start_turn (junk 0) hub activePlayer)
      activePlayer with
  | none => rw [hroll] at hturn; simp at hturn
  | some res =>
    rw [hroll] at hturn
    cases res with
    | exit status hub4 => simp at hturn
    | ret value hub4 =>
      cases value
      simp only [Option.some.injEq] at hturn
      -- the state when the roll is final
      obtain ⟨sg, sp⟩ := frame_start_turn (fun p => (p.health, p.status))
        (fun g => (g.numberOfPlayers, g.playerInStLucia)) (fun _ _ => rfl) (fun _ _ => rfl)
        (junk 0) hub activePlayer
      obtain ⟨rg, rp⟩ := frame_get_player_roll (fun p => (p.health, p.status))
        (fun g => (g.numberOfPlayers, g.playerInStLucia)) (fun _ _ => rfl) (fun _ _ => rfl)
        _ _ _ _ hroll
      simp only [Outcome.hub] at rg rp
      simp only [Prod.mk.injEq] at sg rg
      have h4map := rp.trans sp
      have h4len : hub4.players.length = hub.players.length := length_of_map _ _ _ h4map
      have h4get : ∀ j, (getPlayer hub4.players j).health = (getPlayer hub.players j).health ∧
          (getPlayer hub4.players j).status = (getPlayer hub.players j).status := by
        intro j
        have := getPlayer_of_map _ _ _ h4map j
        simpa using this
      have h4n : hub4.game.numberOfPlayers = hub.game.numberOfPlayers := rg.1.trans sg.1
      have h4h : hub4.game.playerInStLucia = hub.game.playerInStLucia := rg.2.trans sg.2
      have hnn := nonneg_get_player_roll _ _ _ hub4 (nonneg_start_turn (junk 0) hub activePlayer)
        hheld hroll
      have hH : 0 ≤ hub4.game.rollFile.latestDice.numberOfHs := hnn.2.2.2.1
      -- after `heal`
      obtain ⟨g5, _⟩ := frame_heal (fun p => p.status) (fun _ _ => rfl) hub4 activePlayer
        hub4.game.rollFile.latestDice.numberOfHs
      have h5len : (heal hub4 activePlayer hub4.game.rollFile.latestDice.numberOfHs).players.length
          = hub.players.length := by
        obtain ⟨_, m5⟩ := frame_heal (fun p => p.status) (fun _ _ => rfl) hub4 activePlayer
          hub4.game.rollFile.latestDice.numberOfHs
        rw [length_of_map _ _ _ m5, h4len]
      have h5s : ∀ j, (getPlayer (heal hub4 activePlayer
          hub4.game.rollFile.latestDice.numberOfHs).players j).status =
          (getPlayer hub.players j).status := by
        intro j
        rw [status_heal, (h4get j).2]
      have h5all : ∀ i, i < hub.game.numberOfPlayers →
          (getPlayer hub.players i).status ≠ PlayerStatus.ELIMINATED →
          1 ≤ (getPlayer (heal hub4 activePlayer
            hub4.game.rollFile.latestDice.numberOfHs).players i).health := by
        intro i hi hs
        apply heal_keeps_alive _ _ _ hH
        rw [(h4get i).1]
        exact hall i hi hs
      -- after `attack`
      unfold finish_turn at hturn
      dsimp only at hturn
      cases hatt : attack (heal hub4 activePlayer hub4.game.rollFile.latestDice.numberOfHs)
          activePlayer with
      | exit status hub6 => rw [hatt] at hturn; simp at hturn
      | ret value6 hub6 =>
        cases value6
        rw [hatt] at hturn
        simp only [Outcome.ret.injEq] at hturn
        obtain ⟨hwin, hstate⟩ := hturn
        have hover := check_game_over_false _ _ hwin
        rw [hover] at hstate
        obtain ⟨a1, a2, a3, a4⟩ := attack_keeps_alive
          (heal hub4 activePlayer hub4.game.rollFile.latestDice.numberOfHs) activePlayer hub6
          (by rw [g5, h4n, h5len]; exact hn)
          (by
            intro i hi hs
            rw [g5, h4n] at hi
            rw [h5s] at hs
            exact h5all i hi hs)
          (by
            rw [g5, h4h, h4n]
            rcases hholder with hE | ⟨hd, hlt, heq, hst⟩
            · exact Or.inl hE
            · exact Or.inr ⟨hd, hlt, heq, by rw [h5s]; exact hst⟩)
          (by rw [g5, h4n]; exact ha)
          (by rw [h5s]; exact has)
          hatt
        rw [g5, h4n] at a1 a4
        rw [h5len] at a2
        -- after `gain_points`
        obtain ⟨g7, m7⟩ := frame_gain_points (fun p => (p.health, p.status))
          (fun _ _ _ => rfl) hub6 activePlayer (getPlayer hub.players activePlayer).points
        have h7get : ∀ j,
            (getPlayer (gain_points hub6 activePlayer
              (getPlayer hub.players activePlayer).points).players j).health =
              (getPlayer hub6.players j).health ∧
            (getPlayer (gain_points hub6 activePlayer
              (getPlayer hub.players activePlayer).points).players j).status =
              (getPlayer hub6.players j).status := by
          intro j
          have := getPlayer_of_map _ _ _ m7 j
          simpa using this
        have h7len := length_of_map _ _ _ m7
        -- after the sweep
        obtain ⟨u1, u2, u3, u4⟩ := update_eliminated_players_alive
          (gain_points hub6 activePlayer (getPlayer hub.players activePlayer).points)
          activePlayer (by rw [g7, a1, h7len, a2]; exact hn)
        rw [g7] at u1
        rw [g7, a1] at u4
        rw [← hstate] at hadv ⊢
        rw [u1, a1] at hadv
        obtain ⟨n1, n2⟩ := advance_player_some _ _ _ _
          (by rw [u1, a1]; omega) hadv
        rw [u1, a1] at n1
        refine ⟨?_, ?_, ?_, ?_, n2⟩
        · rw [u1, a1, u2, h7len, a2]
          exact hn
        · intro i hi hs
          rw [u1, a1] at hi
          rw [u3]
          exact ((u4 i hi).1 hs).2
        · rw [u1]
          rcases a4 with hE | ⟨hd, hlt, heq, hst, hhealth⟩
          · exact Or.inl hE
          · refine Or.inr ⟨hd, by rw [a1]; exact hlt, heq, ?_⟩
            apply (u4 hd hlt).2
            rw [(h7get hd).1, (h7get hd).2, a3]
            exact ⟨hst, hhealth⟩
        · rw [u1, a1]
          exact n1

theorem run_game_from_turn_start (t : Nat) :
    ∀ (junk : Nat → Nat → Int) (hub : Hub) (activePlayer : Nat) (hubt : Hub) (active : Nat),
      turn_start t junk hub activePlayer = some (hubt, active) →
      ∀ fuel, run_game_from (t + fuel) junk hub activePlayer =
        run_game_from fuel (fun s => junk (s + t)) hubt active := by
  induction t with
  | zero =>
    intro junk hub activePlayer hubt active h fuel
    simp only [turn_start, Option.some.injEq, Prod.mk.injEq] at h
    rw [Nat.zero_add, h.1, h.2]
    rfl
  | succ t ih =>
    intro junk hub activePlayer hubt active h fuel
    have hfuel : t + 1 + fuel = (t + fuel) + 1 := by omega
    rw [hfuel, run_game_from]
    rw [turn_start] at h
    cases hturn : turn (junk 0) hub activePlayer with
    | none => rw [hturn] at h; simp at h
    | some res =>
      rw [hturn] at h
      cases res with
      | exit status hub1 => simp at h
      | ret value hub1 =>
        cases value with
        | true => simp at h
        | false =>
          simp only at h ⊢
          cases hadv : advance_player hub1.game.numberOfPlayers hub1 activePlayer with
          | none => rw [hadv] at h; simp at h
          | some next =>
            rw [hadv] at h
            simp only at h ⊢
            rw [ih _ hub1 next hubt active h fuel]
            rfl

theorem turn_start_invariant (t : Nat) :
    ∀ (junk : Nat → Nat → Int) (hub : Hub) (activePlayer : Nat) (hubt : Hub) (active : Nat),
      turn_invariant hub activePlayer →
      (∀ s, s < t → ∀ hubs actives, turn_start s junk hub activePlayer = some (hubs, actives) →
        turn_held (junk s) hubs actives = true) →
      turn_start t junk hub activePlayer = some (hubt, active) →
      turn_invariant hubt active := by
  induction t with
  | zero =>
    intro junk hub activePlayer hubt active hinv _ h
    simp only [turn_start, Option.some.injEq, Prod.mk.injEq] at h
    rw [← h.1, ← h.2]
    exact hinv
  | succ t ih =>
    intro junk hub activePlayer hubt active hinv hheld h
    have hheld0 := hheld 0 (by omega) hub activePlayer rfl
    rw [turn_start] at h
    cases hturn : turn (junk 0) hub activePlayer with
    | none => rw [hturn] at h; simp at h
    | some res =>
      rw [hturn] at h
      cases res with
      | exit status hub1 => simp at h
      | ret value hub1 =>
        cases value with
        | true => simp at h
        | false =>
          simp only at h
          cases hadv : advance_player hub1.game.numberOfPlayers hub1 activePlayer with
          | none => rw [hadv] at h; simp at h
          | some next =>
            rw [hadv] at h
            simp only at h
            have hinv1 := turn_invariant_step (junk 0) hub activePlayer hub1 next hinv hheld0
              hturn hadv
            refine ih _ hub1 next hubt active hinv1 ?_ h
            intro s hs hubs actives hstart
            refine hheld (s + 1) (by omega) hubs actives ?_
            rw [turn_start, hturn]
            simp only
            rw [hadv]
            exact hstart

theorem turn_invariant_initial (hub : Hub) (h : initial_state hub) : turn_invariant hub 0 := by
  obtain ⟨h1, hn, hE, hp⟩ := h
  refine ⟨hn, ?_, Or.inl hE, by omega, ?_⟩
  · intro i hi _
    rw [(hp _ (getPlayer_mem hub.players i (by omega))).1, STARTING_HEALTH]
    omega
  · exact (hp _ (getPlayer_mem hub.players 0 (by omega))).2

theorem wait_for_children_iff (hub : Hub) (reaped : Nat → Bool) :
    wait_for_children hub reaped = true ↔
      ∀ i, i < hub.game.numberOfPlayers → reaped i = true := by
  unfold wait_for_children
  generalize hub.game.numberOfPlayers = n
  induction n with
  | zero => simp [forLoop_zero]
  | succ n ih =>
    rw [forLoop_succ, Bool.and_eq_true, ih]
    constructor
    · rintro ⟨h1, h2⟩ i hi
      by_cases hin : i = n
      · rw [hin]; exact h2
      · exact h1 i (by omega)
    · intro h
      exact ⟨fun i hi => h i (by omega), h n (by omega)⟩

theorem wait_for_children_congr (hub1 hub2 : Hub) (reaped : Nat → Bool)
    (h : hub1.game.numberOfPlayers = hub2.game.numberOfPlayers) :
    wait_for_children hub1 reaped = wait_for_children hub2 reaped := by
  unfold wait_for_children
  rw [h]

theorem ending_of_exit {α : Type} (out : Outcome α) (status : ExitCodes) (hub1 hub : Hub)
    (reaped : Nat → Bool) (h : out = Outcome.exit status hub1)
    (hfatal : status.code ≥ ExitCodes.PLAYER_QUIT.code ∨ status = ExitCodes.SUCCESS)
    (hn : hub1.game.numberOfPlayers = hub.game.numberOfPlayers) :
    out.ending? reaped =
      some (if wait_for_children hub reaped = true then ProcessEnd.exited status.code
        else ProcessEnd.killed SIGALRM) := by
  rw [h]
  unfold Outcome.ending? process_ending
  dsimp only
  rw [if_pos hfatal, wait_for_children_congr hub1 hub reaped hn]

theorem exit_code_reroll_dice (i0 : Int) (hub : Hub) (activePlayer : Nat) (subset : List Char)
    (status : ExitCodes) (hub1 : Hub)
    (h : reroll_dice i0 hub activePlayer subset = Outcome.exit status hub1) :
    status.code ≥ ExitCodes.PLAYER_QUIT.code := by
  unfold reroll_dice at h
  dsimp only at h
  split_ifs at h
  all_goals
    simp only [exit_program, Outcome.exit.injEq] at h
    rw [← h.1]
    decide

theorem exit_code_keep_dice_response (i0 : Int) (hub : Hub) (activePlayer : Nat)
    (status : ExitCodes) (hub1 : Hub)
    (h : keep_dice_response i0 hub activePlayer = Outcome.exit status hub1) :
    status.code ≥ ExitCodes.PLAYER_QUIT.code := by
  cases hread : fgets MAX_MESSAGE_LENGTH (getPlayer hub.players activePlayer).outbox with
  | none =>
    unfold keep_dice_response at h
    rw [hread] at h
    simp only [exit_program, Outcome.exit.injEq] at h
    rw [← h.1]
  | some p =>
    obtain ⟨line, rest⟩ := p
    rw [keep_dice_response_of_read i0 hub activePlayer line rest hread] at h
    split_ifs at h
    all_goals
      first
      | exact exit_code_reroll_dice _ _ _ _ _ _ h
      | (simp only [exit_program, Outcome.exit.injEq] at h
         rw [← h.1]
         decide)

/-- The end of the process when `keep_dice_response` calls `exit_program`: the status is
`PLAYER_QUIT` or above, so the children are waited for; the hub exits with the status of the
call when every wait returns before its alarm, and is killed by `SIGALRM` otherwise. -/
theorem ending_keep_dice_response (i0 : Int) (hub : Hub) (activePlayer : Nat)
    (status : ExitCodes) (hub1 : Hub) (reaped : Nat → Bool)
    (h : keep_dice_response i0 hub activePlayer = Outcome.exit status hub1) :
    (keep_dice_response i0 hub activePlayer).ending? reaped =
      some (if wait_for_children hub reaped = true then ProcessEnd.exited status.code
        else ProcessEnd.killed SIGALRM) ∧
    (wait_for_children hub reaped = true ↔
      ∀ i, i < hub.game.numberOfPlayers → reaped i = true) := by
  refine ⟨?_, wait_for_children_iff hub reaped⟩
  have hn := (frame_keep_dice_response (fun p => p.status) (fun g => g.numberOfPlayers)
    (fun _ _ => rfl) (fun _ _ => rfl) i0 hub activePlayer).1
  rw [h] at hn
  exact ending_of_exit _ status hub1 hub reaped h
    (Or.inl (exit_code_keep_dice_response i0 hub activePlayer status hub1 h)) hn

/-- Claim C3, failing input: latest dice 111222, participant 0 replies `go`, and participant
1 does not end within two seconds of the line `shutdown`.  `keep_dice_response` calls
`exit_program` with `INVALID_REQUEST` (8) and `shutdown` is written to both participants; the
wait for participant 0 returns, the wait for participant 1 is still blocked when the alarm
goes off, and the hub, which has no handler for `SIGALRM`, is killed by signal 14 and does not
exit with 8.  When every wait returns in time the hub exits with 8. -/
theorem keep_dice_response_exit_killed_by_alarm :
    keep_dice_response 0 (negotiating_hub ['A'] (kw_go ++ [NL])) 0 =
      Outcome.exit ExitCodes.INVALID_REQUEST
        (keep_dice_response 0 (negotiating_hub ['A'] (kw_go ++ [NL])) 0).hub ∧
    (keep_dice_response 0 (negotiating_hub ['A'] (kw_go ++ [NL])) 0).hub.sent =
      [(0, msg_shutdown), (1, msg_shutdown)] ∧
    (keep_dice_response 0 (negotiating_hub ['A'] (kw_go ++ [NL])) 0).ending?
      (fun i => decide (i ≠ 1)) = some (ProcessEnd.killed SIGALRM) ∧
    SIGALRM = 14 ∧ ExitCodes.INVALID_REQUEST.code = 8 ∧
    (keep_dice_response 0 (negotiating_hub ['A'] (kw_go ++ [NL])) 0).ending?
      (fun _ => true) = some (ProcessEnd.exited 8) := by
  decide

/-- Claim C10, amended: in an inward attack whose damage `n ≥ 1` is at least the holder's
health the stay query is not skipped.  After the broadcast of `attacks <label> <n> in` the hub
writes `stay?` to the holder and reads from the holder's stream.  At end of stream it calls
`exit_program` with `PLAYER_QUIT` (6), the territory still with the old holder; after the
broadcast of `shutdown` the hub waits for its children, exits with 6 when every wait returns
before its alarm and is killed by `SIGALRM` otherwise.  When the stream yields a line that
fits the array `commands` (at most five fields), the line is consumed and, whatever it says,
the territory goes to the attacker and `claim <label>` is broadcast after the query. -/
theorem attack_inward_queries_dead_holder (hub : Hub) (activePlayer holder : Nat)
    (hA : hub.game.rollFile.latestDice.numberOfAs ≥ 1)
    (hholder : hub.game.playerInStLucia = (holder : Int)) (hne : holder ≠ activePlayer)
    (hlt : holder < hub.players.length) (hact : activePlayer < hub.players.length)
    (hle : (getPlayer hub.players holder).health ≤ hub.game.rollFile.latestDice.numberOfAs) :
    ((getPlayer hub.players holder).outbox = [] →
      (∃ hub1, attack hub activePlayer = Outcome.exit ExitCodes.PLAYER_QUIT hub1 ∧
        hub1.game.playerInStLucia = (holder : Int) ∧
        hub1.sent = hub.sent ++
          (recipients hub activePlayer false).map (fun i =>
            (i, msg_attacks_in (get_player_label activePlayer)
              hub.game.rollFile.latestDice.numberOfAs)) ++
          [(holder, msg_stay_query)] ++
          (recipients hub 0 false).map (fun i => (i, msg_shutdown))) ∧
      ∀ reaped, (attack hub activePlayer).ending? reaped =
        some (if wait_for_children hub reaped = true then ProcessEnd.exited 6
          else ProcessEnd.killed SIGALRM)) ∧
    (∀ line rest,
      fgets MAX_MESSAGE_LENGTH (getPlayer hub.players holder).outbox = some (line, rest) →
      fits_commands line →
      ∃ hub1, attack hub activePlayer = Outcome.ret () hub1 ∧
        hub1.game.playerInStLucia = (activePlayer : Int) ∧
        (getPlayer hub1.players holder).outbox = rest ∧
        hub1.sent = hub.sent ++
          (recipients hub activePlayer false).map (fun i =>
            (i, msg_attacks_in (get_player_label activePlayer)
              hub.game.rollFile.latestDice.numberOfAs)) ++
          [(holder, msg_stay_query)] ++
          (recipients hub activePlayer false).map (fun i =>
            (i, msg_claim (get_player_label activePlayer)))) ∧
    (∀ reaped, wait_for_children hub reaped = true ↔
      ∀ i, i < hub.game.numberOfPlayers → reaped i = true) := by
  obtain ⟨part1, part2⟩ := attack_inward_dead_holder_outcomes hub activePlayer holder hA
    hholder hne hlt hact hle
  refine ⟨?_, ?_, fun reaped => wait_for_children_iff hub reaped⟩
  · intro hempty
    obtain ⟨hub1, h1, h2, h3⟩ := part1 hempty
    refine ⟨⟨hub1, h1, h2, h3⟩, ?_⟩
    intro reaped
    have hn := (frame_attack (fun p => p.status) (fun g => g.numberOfPlayers)
      (fun _ _ => rfl) (fun _ _ => rfl) (fun _ _ => rfl) (fun _ _ => rfl) hub activePlayer).1
    rw [h1] at hn
    exact ending_of_exit _ ExitCodes.PLAYER_QUIT hub1 hub reaped h1 (Or.inl (le_refl _)) hn
  · intro line rest hread _
    exact part2 line rest hread

/-- Witness for `attack_inward_queries_dead_holder`: the holder has health 2 and is attacked
with three `A`.  When it answers `go` the territory goes to the attacker after the query; when
its stream has ended and participant 1 is not reaped in time, the hub is killed by
`SIGALRM`. -/
theorem attack_inward_queries_dead_holder_witness :
    (inward_attack_hub 2 (kw_go ++ [NL])).game.rollFile.latestDice.numberOfAs ≥ 1 ∧
    (getPlayer (inward_attack_hub 2 (kw_go ++ [NL])).players 1).health ≤
      (inward_attack_hub 2 (kw_go ++ [NL])).game.rollFile.latestDice.numberOfAs ∧
    fits_commands (kw_go ++ [NL]) ∧
    (∃ hub1, attack (inward_attack_hub 2 (kw_go ++ [NL])) 0 = Outcome.ret () hub1 ∧
      hub1.game.playerInStLucia = 0 ∧
      (getPlayer hub1.players 1).outbox = [] ∧
      hub1.sent = [(0, msg_attacks_in 'A' 3), (1, msg_attacks_in 'A' 3), (1, msg_stay_query),
        (0, msg_claim 'A'), (1, msg_claim 'A')]) ∧
    (attack (inward_attack_hub 2 []) 0).ending? (fun i => decide (i ≠ 1)) =
      some (ProcessEnd.killed SIGALRM) :=
  ⟨by decide, by decide, by decide,
   ((attack_inward_queries_dead_holder (inward_attack_hub 2 (kw_go ++ [NL])) 0 1
      (by decide) (by decide) (by decide) (by decide) (by decide) (by decide)).2.1
      (kw_go ++ [NL]) [] (by decide) (by decide)).imp
     (fun _ h => ⟨h.1, h.2.1, h.2.2.1, h.2.2.2.trans (by decide)⟩),
   (((attack_inward_queries_dead_holder (inward_attack_hub 2 []) 0 1
      (by decide) (by decide) (by decide) (by decide) (by decide) (by decide)).1
      (by decide)).2 (fun i => decide (i ≠ 1))).trans (by decide)⟩

/-- Claim C32, amended: the exit routine with every `REMAINING` participant connected.  For
the statuses `PLAYER_QUIT` (6), `INVALID_MESSAGE` (7), `INVALID_REQUEST` (8) and
`SIGINT_ACTION` (9), and for `SUCCESS` (0), `exit_program` writes the line `shutdown` to
exactly the participants whose status is `REMAINING`, in index order, and changes nothing
else; it then waits for every child with an alarm of two seconds, and the process exits with
that status when every wait returns before its alarm and is killed by `SIGALRM` (14)
otherwise.  For `PIPING_FAILURE` (5) and the statuses 1 to 4 it writes nothing, waits for
nobody and the process exits with that status. -/
theorem exit_program_shutdown (hub : Hub) (exitStatus : ExitCodes) (hconn : connected hub) :
    (6 ≤ exitStatus.code ∨ exitStatus.code = 0 →
      (exit_program hub exitStatus : Outcome Unit) = Outcome.exit exitStatus
        { hub with
          sent := hub.sent ++ (remaining_players hub).map (fun i => (i, msg_shutdown)) } ∧
      ∀ reaped, (exit_program hub exitStatus : Outcome Unit).ending? reaped =
        some (if wait_for_children hub reaped = true then ProcessEnd.exited exitStatus.code
          else ProcessEnd.killed SIGALRM)) ∧
    (1 ≤ exitStatus.code ∧ exitStatus.code ≤ 5 →
      (exit_program hub exitStatus : Outcome Unit) = Outcome.exit exitStatus hub ∧
      ∀ reaped, (exit_program hub exitStatus : Outcome Unit).ending? reaped =
        some (ProcessEnd.exited exitStatus.code)) ∧
    (∀ i, i ∈ remaining_players hub ↔
      (i < hub.game.numberOfPlayers ∧
        (getPlayer hub.players i).status = PlayerStatus.REMAINING)) ∧
    (∀ reaped, wait_for_children hub reaped = true ↔
      ∀ i, i < hub.game.numberOfPlayers → reaped i = true) ∧
    ExitCodes.PIPING_FAILURE.code = 5 ∧ ExitCodes.PLAYER_QUIT.code = 6 ∧
    ExitCodes.INVALID_MESSAGE.code = 7 ∧ ExitCodes.INVALID_REQUEST.code = 8 ∧
    ExitCodes.SIGINT_ACTION.code = 9 ∧ SIGALRM = 14 := by
  obtain ⟨b1, b2, b3, _⟩ := exit_program_broadcast hub exitStatus hconn
  refine ⟨?_, ?_, b3, fun reaped => wait_for_children_iff hub reaped, rfl, rfl, rfl, rfl, rfl,
    rfl⟩
  · intro hcode
    refine ⟨b1 hcode, ?_⟩
    intro reaped
    have hfatal : exitStatus.code ≥ ExitCodes.PLAYER_QUIT.code ∨
        exitStatus = ExitCodes.SUCCESS := by
      rcases hcode with h | h
      · exact Or.inl h
      · right
        cases exitStatus <;> simp [ExitCodes.code] at h ⊢
    exact ending_of_exit _ exitStatus _ hub reaped (b1 hcode) hfatal rfl
  · intro hcode
    refine ⟨b2 hcode, ?_⟩
    intro reaped
    rw [b2 hcode]
    unfold Outcome.ending? process_ending
    dsimp only
    rw [if_neg]
    intro h
    rcases h with h | h
    · have h6 : ExitCodes.PLAYER_QUIT.code = 6 := rfl
      omega
    · rw [h] at hcode
      simp [ExitCodes.code] at hcode

/-- Witness for `exit_program_shutdown`: from a state with two connected `REMAINING`
participants the call with `INVALID_REQUEST` writes `shutdown` to both; the process exits with
8 when both children are reaped in time and is killed by `SIGALRM` when the second is not.
The call with `PIPING_FAILURE` writes nothing and the process exits with 5. -/
theorem exit_program_shutdown_witness :
    connected (opening_hub ['A']) ∧
    (exit_program (opening_hub ['A']) ExitCodes.INVALID_REQUEST : Outcome Unit).hub.sent =
      [(0, msg_shutdown), (1, msg_shutdown)] ∧
    (exit_program (opening_hub ['A']) ExitCodes.INVALID_REQUEST : Outcome Unit).ending?
      (fun _ => true) = some (ProcessEnd.exited 8) ∧
    (exit_program (opening_hub ['A']) ExitCodes.INVALID_REQUEST : Outcome Unit).ending?
      (fun i => decide (i ≠ 1)) = some (ProcessEnd.killed SIGALRM) ∧
    (exit_program (opening_hub ['A']) ExitCodes.PIPING_FAILURE : Outcome Unit) =
      Outcome.exit ExitCodes.PIPING_FAILURE (opening_hub ['A']) ∧
    (exit_program (opening_hub ['A']) ExitCodes.PIPING_FAILURE : Outcome Unit).ending?
      (fun _ => false) = some (ProcessEnd.exited 5) :=
  ⟨by decide,
   (congrArg (fun out => out.hub.sent)
      ((exit_program_shutdown (opening_hub ['A']) ExitCodes.INVALID_REQUEST (by decide)).1
        (by decide)).1).trans (by decide),
   (((exit_program_shutdown (opening_hub ['A']) ExitCodes.INVALID_REQUEST (by decide)).1
      (by decide)).2 (fun _ => true)).trans (by decide),
   (((exit_program_shutdown (opening_hub ['A']) ExitCodes.INVALID_REQUEST (by decide)).1
      (by decide)).2 (fun i => decide (i ≠ 1))).trans (by decide),
   ((exit_program_shutdown (opening_hub ['A']) ExitCodes.PIPING_FAILURE (by decide)).2.1
     (by decide)).1,
   (((exit_program_shutdown (opening_hub ['A']) ExitCodes.PIPING_FAILURE (by decide)).2.1
     (by decide)).2 (fun _ => false)).trans (by decide)⟩

/-! ## The dice strings within the bounds of their buffers

`create_dice_set_string` of `shared.c` writes into `rollString`, which has room for
`DICE_SET_SIZE` characters and the terminator, and `get_player_roll` formats the `rolled` line
into an array of `MAX_MESSAGE_LENGTH` bytes.  When the dice set entering `get_player_roll` has
counters that are at least 0 and sum to at most 6, and every reroll request names dice that
are among the latest dice, the counters stay at least 0 and their sum stays at most 6, so
every dice string has at most 6 characters. -/

theorem sum_le_start_turn (i0 : Int) (hub : Hub) (activePlayer : Nat)
    (hvalid : hub.game.rollFile.valid) (h0 : 0 ≤ i0) :
    sum_dice_set (start_turn i0 hub activePlayer).game.rollFile.latestDice ≤ 6 := by
  have hdice : (start_turn i0 hub activePlayer).game.rollFile.latestDice =
      (add_dice_to_dice_set i0
        { hub.game.rollFile with latestDice := reset_dice_set hub.game.rollFile.latestDice }
        (DICE_SET_SIZE : Int) (reset_dice_set hub.game.rollFile.latestDice)).2 := by
    unfold start_turn
    simp only [set_latestDice, set_rollFile]
    split_ifs <;> rfl
  have hvalid2 : ({ hub.game.rollFile with
      latestDice := reset_dice_set hub.game.rollFile.latestDice } : RollFile).valid := hvalid
  rw [hdice]
  unfold add_dice_to_dice_set
  rw [add_dice_iterations_sum _ _ _ hvalid2]
  have hreset : sum_dice_set (reset_dice_set hub.game.rollFile.latestDice) = 0 := by
    simp [sum_dice_set, reset_dice_set]
  have h6 : ((DICE_SET_SIZE : Nat) : Int) = 6 := rfl
  rw [hreset, h6]
  omega

theorem sum_reroll_dice (i0 : Int) (hub : Hub) (activePlayer : Nat) (subset : List Char)
    (value : Bool) (hub1 : Hub)
    (h : reroll_dice i0 hub activePlayer subset = Outcome.ret value hub1) :
    sum_dice_set hub1.game.rollFile.latestDice = 6 := by
  unfold reroll_dice at h
  dsimp only at h
  split_ifs at h with hs
  · simp [exit_program] at h
  · simp only [Outcome.ret.injEq] at h
    rw [← h.2]
    simp only [send_to, set_latestDice, set_rollFile]
    rw [sum_create_dice_set_string]
    exact not_not.mp hs

theorem sum_le_keep_dice_response (i0 : Int) (hub : Hub) (activePlayer : Nat) (value : Bool)
    (hub1 : Hub) (hsum : sum_dice_set hub.game.rollFile.latestDice ≤ 6)
    (h : keep_dice_response i0 hub activePlayer = Outcome.ret value hub1) :
    sum_dice_set hub1.game.rollFile.latestDice ≤ 6 := by
  cases hread : fgets MAX_MESSAGE_LENGTH (getPlayer hub.players activePlayer).outbox with
  | none =>
    unfold keep_dice_response at h
    rw [hread] at h
    simp [exit_program] at h
  | some p =>
    obtain ⟨line, rest⟩ := p
    rw [keep_dice_response_of_read i0 hub activePlayer line rest hread] at h
    split_ifs at h with h1 h2 h3
    · simp only [Outcome.ret.injEq] at h
      rw [← h.2]
      exact hsum
    · simp [exit_program] at h
    · exact le_of_eq (sum_reroll_dice i0 (set_outbox hub activePlayer rest) activePlayer _
        value hub1 h)
    all_goals simp [exit_program] at h

theorem sum_le_reroll_negotiation (fuel : Nat) :
    ∀ (junk : Nat → Int) (hub : Hub) (activePlayer : Nat) (hub3 : Hub),
      sum_dice_set hub.game.rollFile.latestDice ≤ 6 →
      reroll_negotiation fuel junk hub activePlayer = some (Outcome.ret () hub3) →
      sum_dice_set hub3.game.rollFile.latestDice ≤ 6 := by
  induction fuel with
  | zero =>
    intro junk hub activePlayer hub3 _ h
    simp [reroll_negotiation] at h
  | succ fuel ih =>
    intro junk hub activePlayer hub3 hsum h
    rw [reroll_negotiation] at h
    cases hk : keep_dice_response (junk 0) hub activePlayer with
    | exit status hub1 =>
      rw [hk] at h
      simp at h
    | ret value hub1 =>
      have hs1 := sum_le_keep_dice_response (junk 0) hub activePlayer value hub1 hsum hk
      rw [hk] at h
      cases value with
      | true =>
        simp only [Option.some.injEq, Outcome.ret.injEq, true_and] at h
        rw [← h]
        exact hs1
      | false =>
        exact ih _ hub1 activePlayer hub3 hs1 h

/-- The dice with which `get_player_roll` returns, when the dice it is entered with have
counters at least 0 that sum to at most 6 and every reroll request names dice that are held:
the counters are at least 0, their sum is at most 6, and `rollString` has at most
`DICE_SET_SIZE` characters. -/
theorem in_bounds_get_player_roll (junk : Nat → Int) (hub : Hub) (activePlayer : Nat)
    (hub4 : Hub) (hnonneg : hub.game.rollFile.latestDice.nonneg)
    (hsum : sum_dice_set hub.game.rollFile.latestDice ≤ 6)
    (hheld : roll_held junk hub activePlayer = true)
    (h : get_player_roll junk hub activePlayer = some (Outcome.ret () hub4)) :
    hub4.game.rollFile.latestDice.nonneg ∧
    sum_dice_set hub4.game.rollFile.latestDice ≤ 6 ∧
    hub4.game.rollFile.latestDice.rollString.length ≤ DICE_SET_SIZE := by
  have hn4 := nonneg_get_player_roll junk hub activePlayer hub4 hnonneg hheld h
  obtain ⟨hub3, hneg, hlast⟩ := get_player_roll_eq junk hub activePlayer hub4 h
  obtain ⟨n1, _, _, _⟩ := reroll_negotiation_last_line _ _ _ _ _ rfl
    (Or.inl (getLast?_append_singleton _ _)) hneg
  have hs3 : sum_dice_set hub3.game.rollFile.latestDice ≤ 6 :=
    sum_le_reroll_negotiation _ junk _ activePlayer hub3
      (show sum_dice_set (send_to (set_latestDice hub
        (create_dice_set_string hub.game.rollFile.latestDice)) activePlayer
        (msg_turn (create_dice_set_string hub.game.rollFile.latestDice).rollString)
        ).game.rollFile.latestDice ≤ 6 from hsum) hneg
  have hg : hub4.game = hub3.game := by rw [hlast, game_alert]
  rw [hg] at hn4 ⊢
  refine ⟨hn4, hs3, ?_⟩
  rw [n1]
  have hlen := length_create_dice_set_string hub3.game.rollFile.latestDice hn4
  unfold DICE_SET_SIZE
  omega

/-- Claim C31: the `rolled` announcement.  Let every `REMAINING` participant be connected,
let the roll file be as `create_roll_file` leaves it, let the latest dice with which
`get_player_roll` is entered have counters that are at least 0 and sum to at most 6 (as the
six-dice draw leaves them), let every reroll request read in the call name dice that are among
the latest dice at that moment, and let `get_player_roll` return (the negotiation has ended
with `keepall`).  Then the last lines it wrote are `rolled <label> <dice>`, one to every
participant whose status is `REMAINING` other than the active one, in index order, and to
nobody else; `<label>` is the character with code 65 + active index; `<dice>` is the
`rollString` of the final latest dice, which is their canonical string and is the string of
the last line written before, a `turn` or a `rerolled` line to the active participant; no
status changes in the call.  The final dice have counters at least 0, their string has at most
`DICE_SET_SIZE` characters and the `rolled` line is shorter than `MAX_MESSAGE_LENGTH`, so the
buffers `rollString` and `rolledAlert` of the source hold them. -/
theorem rolled_announcement (junk : Nat → Int) (hub : Hub) (activePlayer : Nat) (hub4 : Hub)
    (hconn : connected hub) (_hvalid : hub.game.rollFile.valid)
    (hnonneg : hub.game.rollFile.latestDice.nonneg)
    (hsum : sum_dice_set hub.game.rollFile.latestDice ≤ 6)
    (hheld : roll_held junk hub activePlayer = true)
    (hroll : get_player_roll junk hub activePlayer = some (Outcome.ret () hub4)) :
    (∃ earlier,
      hub4.sent = earlier ++ (other_remaining_players hub activePlayer).map (fun i =>
        (i, msg_rolled (get_player_label activePlayer)
          hub4.game.rollFile.latestDice.rollString)) ∧
      (∃ more, earlier = hub.sent ++ more) ∧
      (earlier.getLast? =
          some (activePlayer, msg_turn hub4.game.rollFile.latestDice.rollString) ∨
        earlier.getLast? =
          some (activePlayer, msg_rerolled hub4.game.rollFile.latestDice.rollString)) ∧
      hub4.game.rollFile.latestDice.rollString =
        (create_dice_set_string hub4.game.rollFile.latestDice).rollString ∧
      (∀ i, i ∈ other_remaining_players hub activePlayer ↔
        (i < hub.game.numberOfPlayers ∧
          (getPlayer hub.players i).status = PlayerStatus.REMAINING ∧ i ≠ activePlayer)) ∧
      (∀ i, (getPlayer hub4.players i).status = (getPlayer hub.players i).status) ∧
      get_player_label activePlayer = Char.ofNat ('A'.toNat + activePlayer)) ∧
    hub4.game.rollFile.latestDice.nonneg ∧
    sum_dice_set hub4.game.rollFile.latestDice ≤ 6 ∧
    hub4.game.rollFile.latestDice.rollString.length ≤ DICE_SET_SIZE ∧
    (msg_rolled (get_player_label activePlayer)
      hub4.game.rollFile.latestDice.rollString).length < MAX_MESSAGE_LENGTH := by
  obtain ⟨b1, b2, b3⟩ := in_bounds_get_player_roll junk hub activePlayer hub4 hnonneg hsum
    hheld hroll
  refine ⟨rolled_line_facts junk hub activePlayer hub4 hconn hroll, b1, b2, b3, ?_⟩
  unfold DICE_SET_SIZE at b3
  simp only [msg_rolled, MAX_MESSAGE_LENGTH, List.length_append, List.length_cons,
    List.length_nil]
  omega

/-- Witness for `rolled_announcement`: in the opening turn with the roll `AA1123` and the
reply `keepall`, the line `turn 1123AA` goes to participant 0 and then `rolled A 1123AA` to
participant 1 only. -/
theorem rolled_announcement_witness :
    connected (start_turn 0 (opening_hub ['A', 'A', '1', '1', '2', '3']) 0) ∧
    (start_turn 0 (opening_hub ['A', 'A', '1', '1', '2', '3']) 0).game.rollFile.valid ∧
    (start_turn 0 (opening_hub ['A', 'A', '1', '1', '2', '3'])
      0).game.rollFile.latestDice.nonneg ∧
    sum_dice_set (start_turn 0 (opening_hub ['A', 'A', '1', '1', '2', '3'])
      0).game.rollFile.latestDice ≤ 6 ∧
    roll_held (fun _ => 0) (start_turn 0 (opening_hub ['A', 'A', '1', '1', '2', '3']) 0) 0 =
      true ∧
    (∃ earlier, (state_after_roll (fun _ => 0)
        (opening_hub ['A', 'A', '1', '1', '2', '3']) 0).sent =
        earlier ++ [(1, msg_rolled 'A' ['1', '1', '2', '3', 'A', 'A'])] ∧
      (earlier.getLast? = some (0, msg_turn ['1', '1', '2', '3', 'A', 'A']) ∨
        earlier.getLast? = some (0, msg_rerolled ['1', '1', '2', '3', 'A', 'A']))) ∧
    (state_after_roll (fun _ => 0) (opening_hub ['A', 'A', '1', '1', '2', '3'])
      0).game.rollFile.latestDice.rollString.length ≤ DICE_SET_SIZE :=
  ⟨by decide, by decide, by decide, by decide, by decide,
   (rolled_announcement (fun _ => 0) (start_turn 0 (opening_hub ['A', 'A', '1', '1', '2', '3']) 0)
      0 (state_after_roll (fun _ => 0) (opening_hub ['A', 'A', '1', '1', '2', '3']) 0)
      (by decide) (by decide) (by decide) (by decide) (by decide) (by decide)).1.imp
     (fun earlier h => ⟨h.1.trans (congrArg (fun l => earlier ++ l)
        (show (other_remaining_players
            (start_turn 0 (opening_hub ['A', 'A', '1', '1', '2', '3']) 0) 0).map (fun i =>
            (i, msg_rolled (get_player_label 0)
              (state_after_roll (fun _ => 0) (opening_hub ['A', 'A', '1', '1', '2', '3'])
                0).game.rollFile.latestDice.rollString)) =
          [(1, msg_rolled 'A' ['1', '1', '2', '3', 'A', 'A'])] by decide)), h.2.2.1⟩),
   (rolled_announcement (fun _ => 0) (start_turn 0 (opening_hub ['A', 'A', '1', '1', '2', '3']) 0)
      0 (state_after_roll (fun _ => 0) (opening_hub ['A', 'A', '1', '1', '2', '3']) 0)
      (by decide) (by decide) (by decide) (by decide) (by decide) (by decide)).2.2.2.1⟩

theorem wrap_int_of_fits (x : Int) (h : fits_int x) : wrap_int x = x := by
  unfold fits_int INT_MIN INT_MAX at h
  unfold wrap_int INT_MIN
  omega

/-- Claim C22, counterexample: participant 0 has `INT_MAX` = 2147483647 points and the latest
dice are 111223, which score one point.  The sum that `gain_points` forms is 2147483648, which
is outside the range of `int`; the `int` field `points` holds that sum wrapped to 32 bits,
-2147483648, which is less than the points before.  The one point that `claim_stlucia` adds
wraps in the same way. -/
theorem points_wrap_at_int_max :
    (getPlayer max_points_hub.players 0).points = 2147483647 ∧
    fits_int (getPlayer max_points_hub.players 0).points ∧
    (getPlayer (gain_points max_points_hub 0 INT_MAX).players 0).points = 2147483648 ∧
    ¬ fits_int (getPlayer (gain_points max_points_hub 0 INT_MAX).players 0).points ∧
    wrap_int (getPlayer (gain_points max_points_hub 0 INT_MAX).players 0).points =
      -2147483648 ∧
    wrap_int (getPlayer (gain_points max_points_hub 0 INT_MAX).players 0).points <
      (getPlayer max_points_hub.players 0).points ∧
    wrap_int (getPlayer (claim_stlucia max_points_hub 0).players 0).points <
      (getPlayer max_points_hub.players 0).points := by
  decide

/-- Claim C22, amended: points do not go down as long as they stay within the range of
`int`.  For every state and every participant `j` whose points are within the range of `int`,
and each of the three operations of the hub that assign `points` (the territory bonus at the
start of a turn in `run_game`, `claim_stlucia`, and `gain_points` with any `startingPoints`,
the tokens of the active participant plus the `P` count being within the range of `int`):
when the points of `j` after the operation do not exceed `INT_MAX`, they are at least its
points before, and the `int` field holds them unchanged. -/
theorem points_never_decrease :
    (∀ (i0 : Int) (hub : Hub) (activePlayer j : Nat),
      fits_int (getPlayer hub.players j).points →
      (getPlayer (start_turn i0 hub activePlayer).players j).points ≤ INT_MAX →
      (getPlayer hub.players j).points ≤
        (getPlayer (start_turn i0 hub activePlayer).players j).points ∧
      wrap_int (getPlayer (start_turn i0 hub activePlayer).players j).points =
        (getPlayer (start_turn i0 hub activePlayer).players j).points) ∧
    (∀ (hub : Hub) (activePlayer j : Nat),
      fits_int (getPlayer hub.players j).points →
      (getPlayer (claim_stlucia hub activePlayer).players j).points ≤ INT_MAX →
      (getPlayer hub.players j).points ≤
        (getPlayer (claim_stlucia hub activePlayer).players j).points ∧
      wrap_int (getPlayer (claim_stlucia hub activePlayer).players j).points =
        (getPlayer (claim_stlucia hub activePlayer).players j).points) ∧
    (∀ (hub : Hub) (activePlayer : Nat) (startingPoints : Int) (j : Nat),
      fits_int (getPlayer hub.players j).points →
      fits_int ((getPlayer hub.players activePlayer).tokens +
        hub.game.rollFile.latestDice.numberOfPs) →
      (getPlayer (gain_points hub activePlayer startingPoints).players j).points ≤ INT_MAX →
      (getPlayer hub.players j).points ≤
        (getPlayer (gain_points hub activePlayer startingPoints).players j).points ∧
      wrap_int (getPlayer (gain_points hub activePlayer startingPoints).players j).points =
        (getPlayer (gain_points hub activePlayer startingPoints).players j).points) := by
  refine ⟨?_, ?_, ?_⟩
  · intro i0 hub activePlayer j hfit hmax
    have hle := points_le_start_turn i0 hub activePlayer j
    exact ⟨hle, wrap_int_of_fits _ ⟨le_trans hfit.1 hle, hmax⟩⟩
  · intro hub activePlayer j hfit hmax
    have hle := points_le_claim_stlucia hub activePlayer j
    exact ⟨hle, wrap_int_of_fits _ ⟨le_trans hfit.1 hle, hmax⟩⟩
  · intro hub activePlayer startingPoints j hfit _ hmax
    have hle := points_le_gain_points hub activePlayer startingPoints j
    exact ⟨hle, wrap_int_of_fits _ ⟨le_trans hfit.1 hle, hmax⟩⟩

/-- Witness for `points_never_decrease`: participant 0 holds the territory with 1 point and
rolls 111223; the bonus takes its points from 1 to 3 and `gain_points` from 3 to 4, all within
the range of `int`. -/
theorem points_never_decrease_witness :
    fits_int (getPlayer (holding_hub ['1', '1', '1', '2', '2', '3']).players 0).points ∧
    (getPlayer (start_turn 0 (holding_hub ['1', '1', '1', '2', '2', '3']) 0).players 0).points ≤
      INT_MAX ∧
    ((getPlayer (holding_hub ['1', '1', '1', '2', '2', '3']).players 0).points ≤
        (getPlayer (start_turn 0 (holding_hub ['1', '1', '1', '2', '2', '3']) 0).players
          0).points ∧
      wrap_int (getPlayer (start_turn 0 (holding_hub ['1', '1', '1', '2', '2', '3'])
          0).players 0).points =
        (getPlayer (start_turn 0 (holding_hub ['1', '1', '1', '2', '2', '3']) 0).players
          0).points) ∧
    (getPlayer (state_after_attack (fun _ => 0)
      (holding_hub ['1', '1', '1', '2', '2', '3']) 0).players 0).points ≤
      (getPlayer (gain_points (state_after_attack (fun _ => 0)
        (holding_hub ['1', '1', '1', '2', '2', '3']) 0) 0 1).players 0).points :=
  ⟨by decide, by decide,
   points_never_decrease.1 0 (holding_hub ['1', '1', '1', '2', '2', '3']) 0 0 (by decide)
     (by decide),
   (points_never_decrease.2.2 (state_after_attack (fun _ => 0)
     (holding_hub ['1', '1', '1', '2', '2', '3']) 0) 0 1 0 (by decide) (by decide)
     (by decide)).1⟩

end StLucia
